import Mathlib

/-!
# MeshAccessProtocol: Base91 codec, WSP request builder, WSP response parser, WMLC decompiler

Shallow embedding of `lib/base91/base91.{h,cpp}`, of `lib/wap/wap_request.cpp`
(uintvar, request headers, Get PDU, Reply PDU), of `lib/wap/wap_response.cpp`
(header parsing and Reply decoding) and of `lib/wap/wmlc_decompiler.{h,cpp}`.

Conventions of the embedding.
* A byte (`uint8_t`, `char`) is a `Nat`; byte buffers and strings are `List Nat`.
* An output buffer is passed in as a list (the memory the pointer refers to) and
  the updated memory is returned next to the C return value.  `buf.set i x`
  is the store `buf[i] = x`.
* A C string argument is the list of bytes at the pointer; reading stops at the
  first `0` byte (or at the end of the list, where the terminator sits).
* `uint32_t` arithmetic is reduced modulo `2^32` where the source can overflow.
  `size_t` sizes are natural numbers where they are lengths of objects in
  memory; a sum of a position and a length read from the input is reduced
  modulo `2 ^ ulongBits`, the width of `unsigned long` and `size_t`.
* A loop function returns what the C function returns from there on: an early
  `return 0` inside the loop is the result `(0, output)`.
-/

namespace Base91

/-- The 91 output symbols, `Base91::ALPHABET`, as character codes. -/
def ALPHABET : List Nat := [
  65, 66, 67, 68, 69, 70, 71, 72, 73, 74, 75, 76, 77,
  78, 79, 80, 81, 82, 83, 84, 85, 86, 87, 88, 89, 90,
  97, 98, 99, 100, 101, 102, 103, 104, 105, 106, 107, 108, 109,
  110, 111, 112, 113, 114, 115, 116, 117, 118, 119, 120, 121, 122,
  48, 49, 50, 51, 52, 53, 54, 55, 56, 57, 33, 35, 36,
  37, 38, 40, 41, 42, 43, 44, 46, 47, 58, 59, 60, 61,
  62, 63, 64, 91, 93, 94, 95, 96, 123, 124, 125, 126, 45]

/-- The table `Base91::DECODE_TABLE` (`-1` marks a byte outside the alphabet). -/
def DECODE_TABLE : List Int := [
  -1, -1, -1, -1, -1, -1, -1, -1, -1, -1, -1, -1, -1, -1, -1, -1,
  -1, -1, -1, -1, -1, -1, -1, -1, -1, -1, -1, -1, -1, -1, -1, -1,
  -1, 62, -1, 63, 64, 65, 66, -1, 67, 68, 69, 70, 71, 90, 72, 73,
  52, 53, 54, 55, 56, 57, 58, 59, 60, 61, 74, 75, 76, 77, 78, 79,
  80, 0, 1, 2, 3, 4, 5, 6, 7, 8, 9, 10, 11, 12, 13, 14,
  15, 16, 17, 18, 19, 20, 21, 22, 23, 24, 25, 81, -1, 82, 83, 84,
  85, 26, 27, 28, 29, 30, 31, 32, 33, 34, 35, 36, 37, 38, 39, 40,
  41, 42, 43, 44, 45, 46, 47, 48, 49, 50, 51, 86, 87, 88, 89, -1,
  -1, -1, -1, -1, -1, -1, -1, -1, -1, -1, -1, -1, -1, -1, -1, -1,
  -1, -1, -1, -1, -1, -1, -1, -1, -1, -1, -1, -1, -1, -1, -1, -1,
  -1, -1, -1, -1, -1, -1, -1, -1, -1, -1, -1, -1, -1, -1, -1, -1,
  -1, -1, -1, -1, -1, -1, -1, -1, -1, -1, -1, -1, -1, -1, -1, -1,
  -1, -1, -1, -1, -1, -1, -1, -1, -1, -1, -1, -1, -1, -1, -1, -1,
  -1, -1, -1, -1, -1, -1, -1, -1, -1, -1, -1, -1, -1, -1, -1, -1,
  -1, -1, -1, -1, -1, -1, -1, -1, -1, -1, -1, -1, -1, -1, -1, -1,
  -1, -1, -1, -1, -1, -1, -1, -1, -1, -1, -1, -1, -1, -1, -1, -1]

/-- The read `ALPHABET[i]`.  An index outside the array reads as `0`, a byte
that is not in the alphabet. -/
def alphabetAt (i : Nat) : Nat := ALPHABET.getD i 0

/-- The read `DECODE_TABLE[(uint8_t)c]`. -/
def decodeTableAt (c : Nat) : Int := DECODE_TABLE.getD (c % 256) (-1)

/-- `Base91::encodedSize`. -/
def encodedSize (inputLen : Nat) : Nat := ((inputLen * 16 + 12) / 13) + 1

/-- `Base91::decodedSize`. -/
def decodedSize (encodedLen : Nat) : Nat := ((encodedLen * 13 + 15) / 16) + 1

/-- Local variables of `Base91::encode` together with the output memory. -/
structure EncState where
  outPos : Nat
  queue : Nat
  numBits : Nat
  output : List Nat
deriving Repr, DecidableEq

/-- The code of `Base91::encode` after the loop: flush of the remaining bits and
the terminator. -/
def encodeFlush (outputMaxLen : Nat) (s : EncState) : Nat × List Nat :=
  if s.numBits > 0 then
    if s.outPos + 1 > outputMaxLen - 1 then (0, s.output)
    else
      let out1 := s.output.set s.outPos (alphabetAt (s.queue % 91))
      let pos1 := s.outPos + 1
      if s.numBits > 7 ∨ s.queue > 90 then
        if pos1 + 1 > outputMaxLen - 1 then (0, out1)
        else
          let out2 := out1.set pos1 (alphabetAt (s.queue / 91))
          (pos1 + 1, out2.set (pos1 + 1) 0)
      else (pos1, out1.set pos1 0)
  else (s.outPos, s.output.set s.outPos 0)

/-- The `for` loop of `Base91::encode` over the remaining input bytes, followed
by the code after the loop.  The result is the returned length and the output
memory. -/
def encodeLoop (outputMaxLen : Nat) : List Nat → EncState → Nat × List Nat
  | [], s => encodeFlush outputMaxLen s
  | b :: rest, s =>
    let queue := (s.queue ||| ((b <<< s.numBits) % 2 ^ 32)) % 2 ^ 32
    let numBits := s.numBits + 8
    if numBits > 13 then
      let val := queue &&& 8191
      if val > 88 then
        if s.outPos + 2 > outputMaxLen - 1 then (0, s.output)
        else
          encodeLoop outputMaxLen rest
            { outPos := s.outPos + 2, queue := queue >>> 13, numBits := numBits - 13,
              output := (s.output.set s.outPos (alphabetAt (val % 91))).set (s.outPos + 1)
                (alphabetAt (val / 91)) }
      else
        let val14 := queue &&& 16383
        if s.outPos + 2 > outputMaxLen - 1 then (0, s.output)
        else
          encodeLoop outputMaxLen rest
            { outPos := s.outPos + 2, queue := queue >>> 14, numBits := numBits - 14,
              output := (s.output.set s.outPos (alphabetAt (val14 % 91))).set (s.outPos + 1)
                (alphabetAt (val14 / 91)) }
    else
      encodeLoop outputMaxLen rest { s with queue := queue, numBits := numBits }

/-- `Base91::encode(input, inputLen, output, outputMaxLen)` with
`inputLen = input.length`: the returned length and the output memory. -/
def encode (input : List Nat) (output : List Nat) (outputMaxLen : Nat) : Nat × List Nat :=
  if outputMaxLen = 0 then (0, output)
  else
    encodeLoop outputMaxLen input { outPos := 0, queue := 0, numBits := 0, output := output }

/-- Local variables of `Base91::decode` together with the output memory. -/
structure DecState where
  outPos : Nat
  queue : Nat
  numBits : Nat
  val : Int
  output : List Nat
deriving Repr, DecidableEq

/-- The inner loop `while (numBits >= 8)` of `Base91::decode`.  Every round
takes 8 off `numBits`, so `fuel = numBits` rounds are never used up. -/
def decodeDrain (outputMaxLen : Nat) : Nat → DecState → Except (List Nat) DecState
  | 0, s => .ok s
  | fuel + 1, s =>
    if s.numBits ≥ 8 then
      if s.outPos ≥ outputMaxLen then .error s.output
      else
        decodeDrain outputMaxLen fuel
          { s with outPos := s.outPos + 1, queue := s.queue >>> 8, numBits := s.numBits - 8,
                   output := s.output.set s.outPos (s.queue &&& 255) }
    else .ok s

/-- The code of `Base91::decode` after the loop: the byte of a last single digit. -/
def decodeFlush (outputMaxLen : Nat) (s : DecState) : Nat × List Nat :=
  if s.val ≠ -1 then
    if s.outPos ≥ outputMaxLen then (0, s.output)
    else
      (s.outPos + 1,
        s.output.set s.outPos
          ((s.queue ||| ((s.val.toNat % 2 ^ 32) <<< s.numBits) % 2 ^ 32) &&& 255))
  else (s.outPos, s.output)

/-- The `for` loop of `Base91::decode` over the bytes of the input string,
followed by the code after the loop. -/
def decodeLoop (outputMaxLen : Nat) : List Nat → DecState → Nat × List Nat
  | [], s => decodeFlush outputMaxLen s
  | c :: rest, s =>
    if c = 0 then decodeFlush outputMaxLen s
    else
      let d := decodeTableAt c
      if d = -1 then decodeLoop outputMaxLen rest s
      else if s.val = -1 then decodeLoop outputMaxLen rest { s with val := d }
      else
        let val := s.val + d * 91
        let queue := (s.queue ||| ((val.toNat % 2 ^ 32) <<< s.numBits) % 2 ^ 32) % 2 ^ 32
        let numBits := s.numBits + (if (val.toNat &&& 8191) > 88 then 13 else 14)
        match decodeDrain outputMaxLen numBits
            { s with queue := queue, numBits := numBits, val := val } with
        | .error out => (0, out)
        | .ok s1 => decodeLoop outputMaxLen rest { s1 with val := -1 }

/-- `Base91::decode(input, output, outputMaxLen)`: the returned length and the
output memory. -/
def decode (input : List Nat) (output : List Nat) (outputMaxLen : Nat) : Nat × List Nat :=
  if outputMaxLen = 0 then (0, output)
  else
    decodeLoop outputMaxLen input
      { outPos := 0, queue := 0, numBits := 0, val := -1, output := output }

/-! ### The complete results, without a capacity limit -/

/-- Characters written by the flush after the loop of `Base91::encode`. -/
def flushChars (queue numBits : Nat) : List Nat :=
  if numBits > 0 then
    if numBits > 7 ∨ queue > 90 then [alphabetAt (queue % 91), alphabetAt (queue / 91)]
    else [alphabetAt (queue % 91)]
  else []

/-- Characters `Base91::encode` produces from the remaining input, starting
with the given bit queue, when no capacity check fails. -/
def encodeCharsFrom : List Nat → Nat → Nat → List Nat
  | [], queue, numBits => flushChars queue numBits
  | b :: rest, queue0, numBits0 =>
    let queue := (queue0 ||| ((b <<< numBits0) % 2 ^ 32)) % 2 ^ 32
    let numBits := numBits0 + 8
    if numBits > 13 then
      if queue % 8192 > 88 then
        alphabetAt (queue % 8192 % 91) :: alphabetAt (queue % 8192 / 91) ::
          encodeCharsFrom rest (queue / 8192) (numBits - 13)
      else
        alphabetAt (queue % 16384 % 91) :: alphabetAt (queue % 16384 / 91) ::
          encodeCharsFrom rest (queue / 16384) (numBits - 14)
    else encodeCharsFrom rest queue numBits

/-- The complete Base91 text of a byte buffer. -/
def encodeChars (input : List Nat) : List Nat := encodeCharsFrom input 0 0

/-- The `k` low bytes of `q`, least significant first. -/
def toBytes : Nat → Nat → List Nat
  | 0, _ => []
  | k + 1, q => q % 256 :: toBytes k (q / 256)

/-- The number whose base-256 digits, least significant first, are the bytes. -/
def ofBytes : List Nat → Nat
  | [] => 0
  | b :: rest => b + 256 * ofBytes rest

/-- Byte written by the flush after the loop of `Base91::decode`. -/
def flushBytes (queue numBits : Nat) (val : Int) : List Nat :=
  if val ≠ -1 then [(queue ||| ((val.toNat % 2 ^ 32) <<< numBits) % 2 ^ 32) % 256] else []

/-- Bytes `Base91::decode` produces from the remaining text, starting with the
given bit queue and pending digit, when no capacity check fails. -/
def decodeBytesFrom : List Nat → Nat → Nat → Int → List Nat
  | [], queue, numBits, val => flushBytes queue numBits val
  | c :: rest, queue0, numBits0, val0 =>
    if c = 0 then flushBytes queue0 numBits0 val0
    else
      let d := decodeTableAt c
      if d = -1 then decodeBytesFrom rest queue0 numBits0 val0
      else if val0 = -1 then decodeBytesFrom rest queue0 numBits0 d
      else
        let val := val0 + d * 91
        let queue := (queue0 ||| ((val.toNat % 2 ^ 32) <<< numBits0) % 2 ^ 32) % 2 ^ 32
        let numBits := numBits0 + (if val.toNat % 8192 > 88 then 13 else 14)
        toBytes (numBits / 8) queue ++
          decodeBytesFrom rest (queue / 256 ^ (numBits / 8)) (numBits % 8) (-1)

/-- The complete byte sequence a Base91 text decodes to. -/
def decodeBytes (input : List Nat) : List Nat := decodeBytesFrom input 0 0 (-1)

/-- Length of the C string stored in a buffer: the bytes before the first `0`. -/
def cstrlen (buf : List Nat) : Nat := (buf.takeWhile (fun c => c ≠ 0)).length

end Base91

namespace WAPRequest

/-! `unsigned long` has `ulongBits` bits: 32 on the ESP32 and nRF52 targets, 64
on the hosts that run the tests.  A value passed as `unsigned long` is reduced
modulo `2 ^ ulongBits`, and so is the result of a left shift. -/

/-- The `while` loop of `WAPRequest::encodeUintvar`; `temp[tempLen++] = x`
appends `x` to `temp`, whose length is `tempLen`.  Every round makes `temp`
longer, so the bound `tempLen < 5` stops the loop within 5 rounds. -/
def encodeUintvarLoop : Nat → Nat → List Nat → List Nat
  | 0, _, temp => temp
  | fuel + 1, value, temp =>
    if value > 0 ∧ temp.length < 5 then
      encodeUintvarLoop fuel (value >>> 7) (temp ++ [(value &&& 0x7F) ||| 0x80])
    else temp

/-- The array `temp` of `WAPRequest::encodeUintvar` when the `while` loop is
left: the bytes of the encoding, last byte first. -/
def encodeUintvarTemp (ulongBits value : Nat) : List Nat :=
  let value := value % 2 ^ ulongBits
  encodeUintvarLoop 5 (value >>> 7) [value &&& 0x7F]

/-- The loop `for (i = 0; i < tempLen; i++) outBuffer[i] = temp[tempLen - 1 - i]`
from index `i` on, with `todo = tempLen - i` rounds left. -/
def encodeUintvarWrite (temp : List Nat) : Nat → Nat → List Nat → List Nat
  | 0, _, outBuffer => outBuffer
  | todo + 1, i, outBuffer =>
    encodeUintvarWrite temp todo (i + 1) (outBuffer.set i (temp.getD (temp.length - 1 - i) 0))

/-- `WAPRequest::encodeUintvar(value, outBuffer, outBufferSize)`: the returned
length and the output memory. -/
def encodeUintvar (ulongBits value : Nat) (outBuffer : List Nat) (outBufferSize : Nat) :
    Nat × List Nat :=
  let temp := encodeUintvarTemp ulongBits value
  if temp.length > outBufferSize then (0, outBuffer)
  else (temp.length, encodeUintvarWrite temp temp.length 0 outBuffer)

/-- The `while (i < len && i < 5)` loop of `WAPRequest::decodeUintvar`: the
returned count and the content of `*outValue`.  Every round increments `i`, so
the bound `i < 5` stops the loop within 5 rounds. -/
def decodeUintvarLoop (ulongBits : Nat) (data : List Nat) (len : Nat) (outValue : Nat) :
    Nat → Nat → Nat → Nat × Nat
  | 0, _, _ => (0, outValue)
  | fuel + 1, i, value =>
    if i < len ∧ i < 5 then
      let value1 := ((value <<< 7) % 2 ^ ulongBits) ||| (data.getD i 0 &&& 0x7F)
      if data.getD i 0 &&& 0x80 = 0 then (i + 1, value1)
      else decodeUintvarLoop ulongBits data len outValue fuel (i + 1) value1
    else (0, outValue)

/-- `WAPRequest::decodeUintvar(data, len, outValue)` with a non-null `outValue`:
the returned count and the content of `*outValue` after the call (`outValue` is
its content before the call). -/
def decodeUintvar (ulongBits : Nat) (data : List Nat) (len : Nat) (outValue : Nat) : Nat × Nat :=
  if len = 0 then (0, outValue)
  else decodeUintvarLoop ulongBits data len outValue 5 0 0

/-- `strlen`: the number of bytes before the first `0`. -/
def strlen (s : List Nat) : Nat := (s.takeWhile (fun c => c ≠ 0)).length

/-- `memcpy(&dst[pos], src, n)`: the memory `dst` after the copy. -/
def memcpy (dst : List Nat) (pos : Nat) (src : List Nat) : Nat → List Nat
  | 0 => dst
  | n + 1 => (memcpy dst pos src n).set (pos + n) (src.getD n 0)

/-- The constant `WAPRequest::GET_PDU_TYPE`. -/
def GET_PDU_TYPE : Nat := 0x40

/-- The enumerator `WSP_GET` of `wap_types.h`. -/
def WSP_GET : Nat := 0x00

/-- `WAPRequest::createGetRequestWithHeaders(uri, transactionId, headers,
headersLen, outBuffer, outBufferSize)` with a non-null `outBuffer`: the returned
length and the output memory.  A null `uri` or `headers` is `none`. -/
def createGetRequestWithHeaders (ulongBits : Nat) (uri : Option (List Nat))
    (transactionId : Nat) (headers : Option (List Nat)) (headersLen : Nat)
    (outBuffer : List Nat) (outBufferSize : Nat) : Nat × List Nat :=
  match uri with
  | none => (0, outBuffer)
  | some uri =>
    let uriLen := strlen uri
    if uriLen = 0 then (0, outBuffer)
    else
      let maxNeeded := 1 + 1 + 5 + uriLen + headersLen
      if maxNeeded > outBufferSize then (0, outBuffer)
      else
        let pos := 0
        let out1 := outBuffer.set pos (transactionId % 256)
        let pos := pos + 1
        let out2 := out1.set pos (GET_PDU_TYPE ||| WSP_GET)
        let pos := pos + 1
        let r := encodeUintvar ulongBits uriLen (out2.drop pos) (outBufferSize - pos)
        let uintvarLen := r.1
        let out3 := out2.take pos ++ r.2
        if uintvarLen = 0 then (0, out3)
        else
          let pos := pos + uintvarLen
          if pos + uriLen > outBufferSize then (0, out3)
          else
            let out4 := memcpy out3 pos uri uriLen
            let pos := pos + uriLen
            match headers with
            | some hdr =>
              if headersLen > 0 then
                if pos + headersLen > outBufferSize then (0, out4)
                else (pos + headersLen, memcpy out4 pos hdr headersLen)
              else (pos, out4)
            | none => (pos, out4)

/-- The bytes `encodeUintvar` stores for `value`, first byte first. -/
def uintvarOf (ulongBits value : Nat) : List Nat := (encodeUintvarTemp ulongBits value).reverse

/-! ### The uintvar format in the words of the specification -/

/-- The least number of 7-bit groups, between 1 and 5, that hold `v`. -/
def uintvarLen (v : Nat) : Nat :=
  if v < 2 ^ 7 then 1 else if v < 2 ^ 14 then 2 else if v < 2 ^ 21 then 3
  else if v < 2 ^ 28 then 4 else 5

/-- The `k` low 7-bit groups of `v`, most significant first, each with bit
`0x80` set. -/
def uintvarGroups (v : Nat) : Nat → List Nat
  | 0 => []
  | k + 1 => (v / 128 ^ k % 128 + 128) :: uintvarGroups v k

/-- The uintvar of `v`: its `uintvarLen v` groups, most significant first, bit
`0x80` set on every byte except the last. -/
def uintvarBytes (v : Nat) : List Nat :=
  uintvarGroups (v / 128) (uintvarLen v - 1) ++ [v % 128]

/-- Big-endian concatenation of the low 7 bits of the bytes. -/
def concat7 (bytes : List Nat) : Nat :=
  bytes.foldl (fun acc b => acc * 128 + b % 128) 0

end WAPRequest

/-- The bytes of a string literal of the source (ASCII), without terminator. -/
def asciiBytes (s : String) : List Nat := s.toList.map Char.toNat

namespace WAPRequest

/-! ### Request headers and the default Get request

`size_t` has the width of `unsigned long` (`ulongBits`; ILP32 targets, LP64
hosts); a sum of a position and a length read from a PDU is reduced modulo
`2 ^ ulongBits`.  A pointer `&buf[pos]` handed to a callee is the memory
`buf.drop pos`; what the callee stores comes back behind `buf.take pos`. -/

/-- The enumerators of `WSPHeaderCode` used by the request builder and the
response parser. -/
def WSP_HEADER_ACCEPT : Nat := 0x00

/-- See `WSP_HEADER_ACCEPT`. -/
def WSP_HEADER_ACCEPT_CHARSET : Nat := 0x01

/-- See `WSP_HEADER_ACCEPT`. -/
def WSP_HEADER_CONTENT_LENGTH : Nat := 0x0D

/-- See `WSP_HEADER_ACCEPT`. -/
def WSP_HEADER_HOST : Nat := 0x16

/-- See `WSP_HEADER_ACCEPT`. -/
def WSP_HEADER_LOCATION : Nat := 0x1C

/-- See `WSP_HEADER_ACCEPT`. -/
def WSP_HEADER_SERVER : Nat := 0x26

/-- See `WSP_HEADER_ACCEPT`. -/
def WSP_HEADER_USER_AGENT : Nat := 0x29

/-- The enumerators of `WSPContentTypeCode` used by `createAcceptAllHeaders`. -/
def WSP_CT_TEXT_PLAIN : Nat := 0x03

/-- See `WSP_CT_TEXT_PLAIN`. -/
def WSP_CT_APP_VND_WAP_WMLC : Nat := 0x14

/-- See `WSP_CT_TEXT_PLAIN`. -/
def WSP_CT_APP_VND_WAP_WMLSCRIPTC : Nat := 0x15

/-- See `WSP_CT_TEXT_PLAIN`. -/
def WSP_CT_IMAGE_VND_WAP_WBMP : Nat := 0x21

/-- The constant `WAPRequest::REPLY_PDU_TYPE`. -/
def REPLY_PDU_TYPE : Nat := 0x04

/-- The scan `while (*hostEnd && *hostEnd != ':' && *hostEnd != '/' && *hostEnd != '?')`
of `extractHostFromUrl`: the bytes it steps over. -/
def hostScan (hostStart : List Nat) : List Nat :=
  hostStart.takeWhile (fun c => c ≠ 0 ∧ c ≠ 58 ∧ c ≠ 47 ∧ c ≠ 63)

/-- `WAPRequest::extractHostFromUrl(url, hostBuffer, hostBufferSize)` with
non-null pointers: the returned flag and the memory of `hostBuffer`.
`strncmp(url, lit, n) == 0` for a literal of `n` characters holds when the first
`n` bytes of `url` are the literal. -/
def extractHostFromUrl (url hostBuffer : List Nat) (hostBufferSize : Nat) : Bool × List Nat :=
  if hostBufferSize = 0 then (false, hostBuffer)
  else
    let hostStart :=
      if url.take 7 = asciiBytes "http://" then url.drop 7
      else if url.take 8 = asciiBytes "https://" then url.drop 8
      else url
    let hostLen := (hostScan hostStart).length
    if hostLen = 0 ∨ hostLen ≥ hostBufferSize then (false, hostBuffer)
    else (true, (memcpy hostBuffer 0 hostStart hostLen).set hostLen 0)

/-- `WAPRequest::createHostHeader(host, outBuffer, outBufferSize)` with non-null
pointers. -/
def createHostHeader (host outBuffer : List Nat) (outBufferSize : Nat) : Nat × List Nat :=
  let hostLen := strlen host
  let needed := 1 + hostLen + 1
  if needed > outBufferSize then (0, outBuffer)
  else
    let out1 := outBuffer.set 0 (WSP_HEADER_HOST ||| 0x80)
    let out2 := memcpy out1 1 host hostLen
    let pos := 1 + hostLen
    (pos + 1, out2.set pos 0x00)

/-- `WAPRequest::createUserAgentHeader(userAgent, outBuffer, outBufferSize)`
with non-null pointers. -/
def createUserAgentHeader (userAgent outBuffer : List Nat) (outBufferSize : Nat) :
    Nat × List Nat :=
  let uaLen := strlen userAgent
  let needed := 1 + uaLen + 1
  if needed > outBufferSize then (0, outBuffer)
  else
    let out1 := outBuffer.set 0 (WSP_HEADER_USER_AGENT ||| 0x80)
    let out2 := memcpy out1 1 userAgent uaLen
    let pos := 1 + uaLen
    (pos + 1, out2.set pos 0x00)

/-- `WAPRequest::createAcceptHeader(contentTypeCode, outBuffer, outBufferSize)`. -/
def createAcceptHeader (contentTypeCode : Nat) (outBuffer : List Nat) (outBufferSize : Nat) :
    Nat × List Nat :=
  if outBufferSize < 2 then (0, outBuffer)
  else
    (2, (outBuffer.set 0 (WSP_HEADER_ACCEPT ||| 0x80)).set 1 ((contentTypeCode ||| 0x80) % 256))

/-- `WAPRequest::createAcceptCharsetHeader(charsetCode, outBuffer, outBufferSize)`. -/
def createAcceptCharsetHeader (charsetCode : Nat) (outBuffer : List Nat) (outBufferSize : Nat) :
    Nat × List Nat :=
  let pos := 0
  if pos ≥ outBufferSize then (0, outBuffer)
  else
    let out1 := outBuffer.set pos (WSP_HEADER_ACCEPT_CHARSET ||| 0x80)
    let pos := pos + 1
    if charsetCode ≤ 127 then
      if pos ≥ outBufferSize then (0, out1)
      else (pos + 1, out1.set pos ((charsetCode ||| 0x80) % 256))
    else
      if pos + 2 > outBufferSize then (0, out1)
      else (pos + 2, (out1.set pos 0x01).set (pos + 1) ((charsetCode &&& 0xFF) % 256))

/-- One step `if (pos + 2 <= outBufferSize) pos += f(&outBuffer[pos], outBufferSize - pos)`
of `createAcceptAllHeaders`. -/
def acceptStep (f : List Nat → Nat → Nat × List Nat) (outBufferSize : Nat)
    (s : Nat × List Nat) : Nat × List Nat :=
  if s.1 + 2 ≤ outBufferSize then
    let r := f (s.2.drop s.1) (outBufferSize - s.1)
    (s.1 + r.1, s.2.take s.1 ++ r.2)
  else s

/-- `WAPRequest::createAcceptAllHeaders(outBuffer, outBufferSize)` with a
non-null pointer. -/
def createAcceptAllHeaders (outBuffer : List Nat) (outBufferSize : Nat) : Nat × List Nat :=
  let s0 : Nat × List Nat := (0, outBuffer)
  let s1 := acceptStep (createAcceptHeader WSP_CT_APP_VND_WAP_WMLC) outBufferSize s0
  let s2 := acceptStep (createAcceptHeader WSP_CT_APP_VND_WAP_WMLSCRIPTC) outBufferSize s1
  let s3 := acceptStep (createAcceptHeader WSP_CT_IMAGE_VND_WAP_WBMP) outBufferSize s2
  let s4 := acceptStep (createAcceptHeader WSP_CT_TEXT_PLAIN) outBufferSize s3
  let s5 := acceptStep (createAcceptCharsetHeader 106) outBufferSize s4
  let s6 := acceptStep (createAcceptCharsetHeader 4) outBufferSize s5
  s6

/-- `WAPRequest::createGetRequest(uri, transactionId, outBuffer, outBufferSize,
addHostHeader)` with a non-null `uri`.  `headers0` (128 bytes) and `host0`
(64 bytes) are what the local arrays `headers` and `host` hold on entry. -/
def createGetRequest (ulongBits : Nat) (uri : List Nat) (transactionId : Nat)
    (outBuffer : List Nat) (outBufferSize : Nat) (addHostHeader : Bool)
    (headers0 host0 : List Nat) : Nat × List Nat :=
  let h1 : Nat × List Nat :=
    if addHostHeader then
      let e := extractHostFromUrl uri host0 64
      if e.1 then createHostHeader e.2 headers0 128
      else (0, headers0)
    else (0, headers0)
  let headersLen := h1.1
  let ua := createUserAgentHeader (asciiBytes "MAP/1.0") (h1.2.drop headersLen) (128 - headersLen)
  let h2 := h1.2.take headersLen ++ ua.2
  let headersLen := headersLen + ua.1
  let acc := createAcceptAllHeaders (h2.drop headersLen) (128 - headersLen)
  let h3 := h2.take headersLen ++ acc.2
  let headersLen := headersLen + acc.1
  createGetRequestWithHeaders ulongBits (some uri) transactionId (some h3) headersLen
    outBuffer outBufferSize

/-- `WAPRequest::wspStatusToHttp(wspStatus)`. -/
def wspStatusToHttp (wspStatus : Nat) : Int :=
  match wspStatus with
  | 0x10 => 100
  | 0x11 => 101
  | 0x20 => 200
  | 0x21 => 201
  | 0x22 => 202
  | 0x23 => 203
  | 0x24 => 204
  | 0x25 => 205
  | 0x26 => 206
  | 0x30 => 300
  | 0x31 => 301
  | 0x32 => 302
  | 0x33 => 303
  | 0x34 => 304
  | 0x35 => 305
  | 0x37 => 307
  | 0x40 => 400
  | 0x41 => 401
  | 0x42 => 402
  | 0x43 => 403
  | 0x44 => 404
  | 0x45 => 405
  | 0x46 => 406
  | 0x47 => 407
  | 0x48 => 408
  | 0x49 => 409
  | 0x4A => 410
  | 0x4B => 411
  | 0x4C => 412
  | 0x4D => 413
  | 0x4E => 414
  | 0x4F => 415
  | 0x50 => 416
  | 0x51 => 417
  | 0x60 => 500
  | 0x61 => 501
  | 0x62 => 502
  | 0x63 => 503
  | 0x64 => 504
  | 0x65 => 505
  | _ => 500

/-- The status bytes with a `case` of their own in `wspStatusToHttp`. -/
def wspStatusCases : List Nat :=
  [0x10, 0x11, 0x20, 0x21, 0x22, 0x23, 0x24, 0x25, 0x26, 0x30, 0x31, 0x32, 0x33, 0x34, 0x35,
   0x37, 0x40, 0x41, 0x42, 0x43, 0x44, 0x45, 0x46, 0x47, 0x48, 0x49, 0x4A, 0x4B, 0x4C, 0x4D,
   0x4E, 0x4F, 0x50, 0x51, 0x60, 0x61, 0x62, 0x63, 0x64, 0x65]

/-- The three outputs of `WAPRequest::parseReplyPDU`.  A pointer into the PDU
is the memory from there on; `none` is the null pointer. -/
structure ReplyOut where
  outStatus : Int
  outBody : Option (List Nat)
  outBodyLen : Nat
deriving Repr, DecidableEq

/-- `WAPRequest::parseReplyPDU(data, len, outStatus, outBody, outBodyLen)` with
non-null pointers: the returned flag and the outputs (`out0` is their content
before the call). -/
def parseReplyPDU (ulongBits : Nat) (data : List Nat) (len : Nat) (out0 : ReplyOut) :
    Bool × ReplyOut :=
  if len < 3 then (false, out0)
  else
    let pos := 0
    if data.getD pos 0 ≠ REPLY_PDU_TYPE then (false, out0)
    else
      let pos := pos + 1
      let wspStatus := data.getD pos 0
      let pos := pos + 1
      let out1 := { out0 with outStatus := wspStatusToHttp wspStatus }
      let r := decodeUintvar ulongBits (data.drop pos) (len - pos) 0
      let uintvarBytes := r.1
      let headersLen := r.2
      if uintvarBytes = 0 then (false, out1)
      else
        let pos := pos + uintvarBytes
        if (pos + headersLen) % 2 ^ ulongBits > len then (false, out1)
        else
          let pos := (pos + headersLen) % 2 ^ ulongBits
          (true,
            { out1 with
              outBody := if pos < len then some (data.drop pos) else none
              outBodyLen := if pos < len then len - pos else 0 })

/-! ### The host of a URL in the words of the specification -/

/-- The URL without one leading `http://` or `https://`. -/
def stripScheme (url : List Nat) : List Nat :=
  if url.take 7 = asciiBytes "http://" then url.drop 7
  else if url.take 8 = asciiBytes "https://" then url.drop 8
  else url

/-- True for the bytes that end a host: `:`, `/`, `?` and the terminator. -/
def endsHost (c : Nat) : Bool := c = 0 ∨ c = 58 ∨ c = 47 ∨ c = 63

/-- The longest leading part of the URL without scheme that holds none of `:`,
`/`, `?` (and not the terminator). -/
def hostPart (url : List Nat) : List Nat :=
  (stripScheme url).takeWhile (fun c => !endsHost c)

/-- The header block of the default Get request for a host `h`: Host,
User-Agent `MAP/1.0`, four Accept entries and two Accept-Charset entries. -/
def defaultHeaders (h : List Nat) : List Nat :=
  [0x96] ++ h ++ [0x00] ++ ([0xA9] ++ asciiBytes "MAP/1.0" ++ [0x00]) ++
    [0x80, 0x94, 0x80, 0x95, 0x80, 0xA1, 0x80, 0x83] ++ [0x81, 0xEA, 0x81, 0x84]

/-- The header block of the default Get request without a Host header. -/
def defaultHeadersNoHost : List Nat :=
  ([0xA9] ++ asciiBytes "MAP/1.0" ++ [0x00]) ++
    [0x80, 0x94, 0x80, 0x95, 0x80, 0xA1, 0x80, 0x83] ++ [0x81, 0xEA, 0x81, 0x84]

end WAPRequest

namespace WAPResponse

/-! ### The Reply parser of `wap_response.cpp`

The read position of `parseHeaders` is kept as the memory from the position on
together with the number of header bytes left (`Cursor`). -/

/-- The table `contentTypeTable` of `wap_response.cpp`: index = WSP code without
the `0x80` offset. -/
def contentTypeTable : List String := [
  "*/*", "text/*",
  "text/html", "text/plain",
  "text/x-hdml", "text/x-ttml",
  "text/x-vCalendar", "text/x-vCard",
  "text/vnd.wap.wml", "text/vnd.wap.wmlscript",
  "application/vnd.wap.catc", "multipart/*",
  "multipart/mixed", "multipart/form-data",
  "multipart/byteranges", "multipart/alternative",
  "application/*", "application/java-vm",
  "application/x-www-form-urlencoded", "application/x-hdmlc",
  "application/vnd.wap.wmlc", "application/vnd.wap.wmlscriptc",
  "application/vnd.wap.wsic", "application/vnd.wap.uaprof",
  "application/vnd.wap.wtls-ca-certificate", "application/vnd.wap.wtls-user-certificate",
  "application/x-x509-ca-cert", "application/x-x509-user-cert",
  "image/*", "image/gif",
  "image/jpeg", "image/tiff",
  "image/png", "image/vnd.wap.wbmp",
  "application/vnd.wap.multipart.*", "application/vnd.wap.multipart.mixed",
  "application/vnd.wap.multipart.form-data", "application/vnd.wap.multipart.byteranges",
  "application/vnd.wap.multipart.alternative", "application/xml",
  "text/xml", "application/vnd.wap.wbxml",
  "application/x-x968-cross-cert", "application/x-x968-ca-cert",
  "application/x-x968-user-cert", "text/vnd.wap.si",
  "application/vnd.wap.sic", "text/vnd.wap.sl",
  "application/vnd.wap.slc", "text/vnd.wap.co",
  "application/vnd.wap.coc", "application/vnd.wap.multipart.related",
  "application/vnd.wap.sia", "text/vnd.wap.connectivity-xml",
  "application/vnd.wap.connectivity-wbxml", "application/pkcs7-mime",
  "application/vnd.wap.hashed-certificate", "application/vnd.wap.signed-certificate",
  "application/vnd.wap.cert-response", "application/xhtml+xml",
  "application/wml+xml", "text/css",
  "application/vnd.wap.mms-message", "application/vnd.wap.rollover-certificate"]

/-- The constant `contentTypeTableSize`. -/
def contentTypeTableSize : Nat := contentTypeTable.length

/-- The constant `headerNameTableSize`: `headerNameTable` has the 47 entries
`0x00 .. 0x2E`. -/
def headerNameTableSize : Nat := 47

/-- `WAPResponse::contentTypeToString(code)`: the characters of the returned
string. -/
def contentTypeToString (code : Nat) : List Nat :=
  if code < contentTypeTableSize then asciiBytes (contentTypeTable.getD code "")
  else asciiBytes "application/octet-stream"

/-- `WAPResponse::httpStatusToText(code)`: the characters of the returned
string. -/
def httpStatusToText (code : Int) : List Nat :=
  match code with
  | 100 => asciiBytes "Continue"
  | 101 => asciiBytes "Switching Protocols"
  | 200 => asciiBytes "OK"
  | 201 => asciiBytes "Created"
  | 202 => asciiBytes "Accepted"
  | 203 => asciiBytes "Non-Authoritative Information"
  | 204 => asciiBytes "No Content"
  | 205 => asciiBytes "Reset Content"
  | 206 => asciiBytes "Partial Content"
  | 300 => asciiBytes "Multiple Choices"
  | 301 => asciiBytes "Moved Permanently"
  | 302 => asciiBytes "Found"
  | 303 => asciiBytes "See Other"
  | 304 => asciiBytes "Not Modified"
  | 305 => asciiBytes "Use Proxy"
  | 307 => asciiBytes "Temporary Redirect"
  | 400 => asciiBytes "Bad Request"
  | 401 => asciiBytes "Unauthorized"
  | 402 => asciiBytes "Payment Required"
  | 403 => asciiBytes "Forbidden"
  | 404 => asciiBytes "Not Found"
  | 405 => asciiBytes "Method Not Allowed"
  | 406 => asciiBytes "Not Acceptable"
  | 407 => asciiBytes "Proxy Authentication Required"
  | 408 => asciiBytes "Request Timeout"
  | 409 => asciiBytes "Conflict"
  | 410 => asciiBytes "Gone"
  | 411 => asciiBytes "Length Required"
  | 412 => asciiBytes "Precondition Failed"
  | 413 => asciiBytes "Request Entity Too Large"
  | 414 => asciiBytes "Request-URI Too Long"
  | 415 => asciiBytes "Unsupported Media Type"
  | 416 => asciiBytes "Requested Range Not Satisfiable"
  | 417 => asciiBytes "Expectation Failed"
  | 500 => asciiBytes "Internal Server Error"
  | 501 => asciiBytes "Not Implemented"
  | 502 => asciiBytes "Bad Gateway"
  | 503 => asciiBytes "Service Unavailable"
  | 504 => asciiBytes "Gateway Timeout"
  | 505 => asciiBytes "HTTP Version Not Supported"
  | _ => asciiBytes "Unknown"

/-- The struct `HTTPResponse` of `wap_types.h`.  The `char` arrays are byte
lists of their declared size (32, 64, 64, 64, 256); a pointer into the PDU is
the memory from there on, `none` is the null pointer. -/
structure HTTPResponse where
  statusCode : Int
  statusText : List Nat
  contentType : List Nat
  contentLength : Nat
  server : List Nat
  date : List Nat
  location : List Nat
  body : Option (List Nat)
  bodyLen : Nat
  wspStatus : Nat
  rawHeaders : Option (List Nat)
  rawHeadersLen : Nat
deriving Repr, DecidableEq

/-- The response after `memset(response, 0, sizeof(HTTPResponse))`. -/
def HTTPResponse.zero : HTTPResponse :=
  { statusCode := 0, statusText := List.replicate 32 0, contentType := List.replicate 64 0,
    contentLength := 0, server := List.replicate 64 0, date := List.replicate 64 0,
    location := List.replicate 256 0, body := none, bodyLen := 0, wspStatus := 0,
    rawHeaders := none, rawHeadersLen := 0 }

/-- The C string stored in a `char` array: its bytes before the first `0`. -/
def cstr (buf : List Nat) : List Nat := buf.takeWhile (fun c => c ≠ 0)

/-- `strnlen(s, maxlen)`: the number of bytes before the first `0` among the
first `maxlen` bytes. -/
def strnlen (s : List Nat) (maxlen : Nat) : Nat :=
  ((s.take maxlen).takeWhile (fun c => c ≠ 0)).length

/-- `strncpy(dest, src, n)`: the memory `dest` afterwards.  The characters of
`src` before its terminator, at most `n`, are copied and the rest of the first
`n` bytes is filled with `0`. -/
def strncpy (dest src : List Nat) (n : Nat) : List Nat :=
  let s := (src.take n).takeWhile (fun c => c ≠ 0)
  s ++ List.replicate (n - s.length) 0 ++ dest.drop n

/-- The read position of `parseHeaders`: `mem` is the memory at `&headers[pos]`
and `left` is `headersLen - pos` (0 once `pos` has reached `headersLen`). -/
structure Cursor where
  mem : List Nat
  left : Nat
deriving Repr, DecidableEq

/-- The test `pos < headersLen`. -/
def Cursor.more (c : Cursor) : Bool := decide (0 < c.left)

/-- The read `headers[pos]`. -/
def Cursor.peek (c : Cursor) : Nat := c.mem.getD 0 0

/-- The step `pos += k`. -/
def Cursor.advance (c : Cursor) (k : Nat) : Cursor :=
  { mem := c.mem.drop k, left := c.left - k }

/-- The scan `while (pos < headersLen && headers[pos] != 0) pos++`. -/
def Cursor.skipToNul (c : Cursor) : Cursor := c.advance (strnlen c.mem c.left)

/-- The first part of `WAPResponse::parseHeaders`: the Content-Type entry at the
head of the header block. -/
def parseContentType (c : Cursor) (response : HTTPResponse) : Cursor × HTTPResponse :=
  if c.more then
    let firstByte := c.peek
    if firstByte ≥ 0x80 then
      let ctCode := firstByte &&& 0x7F
      let ct := contentTypeToString ctCode
      (c.advance 1,
        { response with contentType := (strncpy response.contentType ct (64 - 1)).set (64 - 1) 0 })
    else if firstByte < 0x20 then
      let valueLen := firstByte
      let c1 := c.advance 1
      let response1 :=
        if c1.more ∧ c1.peek ≥ 0x80 then
          let ctCode := c1.peek &&& 0x7F
          let ct := contentTypeToString ctCode
          { response with
            contentType := (strncpy response.contentType ct (64 - 1)).set (64 - 1) 0 }
        else response
      (c1.advance valueLen, response1)
    else
      let ctLen := strnlen c.mem c.left
      let response1 :=
        if ctLen < 64 then
          { response with contentType := (strncpy response.contentType c.mem ctLen).set ctLen 0 }
        else response
      (c.advance (ctLen + 1), response1)
  else (c, response)

/-- The loop `for (i = 0; i < len && pos < headersLen; i++) value = (value << 8) | headers[pos++]`
of the Content-Length field, with `len` rounds left. -/
def readMultiOctet (ulongBits : Nat) : Nat → Cursor → Nat → Cursor × Nat
  | 0, c, value => (c, value)
  | len + 1, c, value =>
    if c.more then
      readMultiOctet ulongBits len (c.advance 1) (((value <<< 8) % 2 ^ ulongBits) ||| c.peek)
    else (c, value)

/-- One round of the loop `while (pos < headersLen)` of `parseHeaders`, entered
with `pos < headersLen`: `none` when the round leaves the loop by `break`,
otherwise the position and the response after the round. -/
def fieldStep (ulongBits : Nat) (c : Cursor) (response : HTTPResponse) :
    Option (Cursor × HTTPResponse) :=
  let fieldByte := c.peek
  if fieldByte ≥ 0x80 then
    let fieldCode := fieldByte &&& 0x7F
    let c := c.advance 1
    if ¬ c.more then none
    else
      let valueByte := c.peek
      if fieldCode = WAPRequest.WSP_HEADER_SERVER ∧ fieldCode < headerNameTableSize then
        if valueByte < 0x80 then
          let serverLen := strnlen c.mem c.left
          let response1 :=
            if serverLen < 64 then
              { response with server := (strncpy response.server c.mem serverLen).set serverLen 0 }
            else response
          some (c.advance (serverLen + 1), response1)
        else some (c.advance 1, response)
      else if fieldCode = WAPRequest.WSP_HEADER_LOCATION then
        if valueByte < 0x80 then
          let locLen := strnlen c.mem c.left
          let response1 :=
            if locLen < 256 then
              { response with location := (strncpy response.location c.mem locLen).set locLen 0 }
            else response
          some (c.advance (locLen + 1), response1)
        else some (c.advance 1, response)
      else if fieldCode = WAPRequest.WSP_HEADER_CONTENT_LENGTH then
        if valueByte ≥ 0x80 then
          some (c.advance 1, { response with contentLength := valueByte &&& 0x7F })
        else if valueByte < 31 then
          let r := readMultiOctet ulongBits valueByte (c.advance 1) 0
          some (r.1, { response with contentLength := r.2 })
        else some (c.advance 1, response)
      else
        if valueByte ≥ 0x80 then some (c.advance 1, response)
        else if valueByte < 31 then some (c.advance (1 + valueByte), response)
        else some (c.skipToNul.advance 1, response)
  else if fieldByte < 0x20 then some (c.advance 1, response)
  else
    let c := c.skipToNul.advance 1
    if c.more then
      let valueByte := c.peek
      if valueByte ≥ 0x80 then some (c.advance 1, response)
      else some (c.skipToNul.advance 1, response)
    else some (c, response)

/-- The loop `while (pos < headersLen)` of `parseHeaders`.  Every round moves
`pos` forward, so `headersLen` rounds are never used up. -/
def parseFields (ulongBits : Nat) : Nat → Cursor → HTTPResponse → HTTPResponse
  | 0, _, response => response
  | fuel + 1, c, response =>
    if c.more then
      match fieldStep ulongBits c response with
      | none => response
      | some (c1, response1) => parseFields ulongBits fuel c1 response1
    else response

/-- `WAPResponse::parseHeaders(headers, headersLen, response)` with non-null
pointers: the returned flag and the response. -/
def parseHeaders (ulongBits : Nat) (headers : List Nat) (headersLen : Nat)
    (response : HTTPResponse) : Bool × HTTPResponse :=
  if headersLen = 0 then (true, response)
  else
    let r := parseContentType { mem := headers, left := headersLen } response
    (true, parseFields ulongBits headersLen r.1 r.2)

/-- `WAPResponse::decodeWithoutTID(data, len, response)` with non-null
pointers: the returned flag and the response. -/
def decodeWithoutTID (ulongBits : Nat) (data : List Nat) (len : Nat) (response : HTTPResponse) :
    Bool × HTTPResponse :=
  if len < 3 then (false, response)
  else
    let response := if response.statusCode = 0 then HTTPResponse.zero else response
    let pos := 0
    if data.getD pos 0 ≠ 0x04 then (false, response)
    else
      let pos := pos + 1
      let wspStatus := data.getD pos 0
      let pos := pos + 1
      let statusCode := WAPRequest.wspStatusToHttp wspStatus
      let response :=
        { response with
          wspStatus := wspStatus
          statusCode := statusCode
          statusText := strncpy response.statusText (httpStatusToText statusCode) (32 - 1) }
      let r := WAPRequest.decodeUintvar ulongBits (data.drop pos) (len - pos) 0
      let uintvarBytes := r.1
      let headersLen := r.2
      if uintvarBytes = 0 then (false, response)
      else
        let pos := pos + uintvarBytes
        let response :=
          { response with rawHeaders := some (data.drop pos), rawHeadersLen := headersLen }
        let parsed : Nat × HTTPResponse :=
          if headersLen > 0 ∧ (pos + headersLen) % 2 ^ ulongBits ≤ len then
            ((pos + headersLen) % 2 ^ ulongBits,
              (parseHeaders ulongBits (data.drop pos) headersLen response).2)
          else (pos, response)
        let pos := parsed.1
        let response := parsed.2
        let response :=
          { response with
            body := if pos < len then some (data.drop pos) else none
            bodyLen := if pos < len then len - pos else 0 }
        let response :=
          if response.contentLength = 0 then { response with contentLength := response.bodyLen }
          else response
        (true, response)

/-- `WAPResponse::decode(pdu, pduLen, response)` with non-null pointers. -/
def decode (ulongBits : Nat) (pdu : List Nat) (pduLen : Nat) (response : HTTPResponse) :
    Bool × HTTPResponse :=
  if pduLen < 4 then (false, response)
  else decodeWithoutTID ulongBits (pdu.drop 1) (pduLen - 1) HTTPResponse.zero

/-! ### Header entries in the words of the specification -/

/-- NUL-terminated text: the last byte is `0` and no byte before it is. -/
def isText (T : List Nat) : Bool :=
  decide (T.getLast? = some 0) && T.dropLast.all (fun c => decide (c ≠ 0))

/-- A Content-Type entry: a well-known short integer (one byte `≥ 0x80`), a
length-prefixed form (a length byte `1 ≤ n < 0x20` followed by the `n` bytes of
the content type with its parameters), or NUL-terminated text that starts with
a byte in `0x20 .. 0x7F`. -/
def isContentTypeEntry (C : List Nat) : Bool :=
  match C with
  | [] => false
  | c :: V =>
    if 0x80 ≤ c then V.isEmpty
    else if c < 0x20 then decide (1 ≤ c ∧ V.length = c)
    else isText (c :: V)

/-- A well-known field `[f | 0x80] ++ V` other than Server (`0x26`), Location
(`0x1C`) and Content-Length (`0x0D`), whose value `V` is a short integer (one
byte `≥ 0x80`), a length byte `n < 31` followed by `n` bytes, or NUL-terminated
text whose first byte is in `0x20 .. 0x7F`. -/
def isSkippedField (E : List Nat) : Bool :=
  match E with
  | fb :: v :: W =>
    decide (0x80 ≤ fb ∧ fb < 256 ∧ fb &&& 0x7F ≠ 0x26 ∧ fb &&& 0x7F ≠ 0x1C
      ∧ fb &&& 0x7F ≠ 0x0D) &&
    (if 0x80 ≤ v then W.isEmpty
     else if v < 31 then decide (W.length = v)
     else if 0x20 ≤ v then isText (v :: W)
     else false)
  | _ => false

end WAPResponse

namespace WMLCDecompiler

/-! ### The WMLC decompiler

`size_t` and `unsigned long` have `ulongBits` bits.  The input position of
`decompileBody` is reduced modulo `2 ^ ulongBits` where a length read from the
input is added to it; the token loop takes fuel, and a run that uses it up has
no result (`none`).  A `const char*` is the memory from the pointer on, the
string it names ends before the first `0` (or with the memory). -/

/-- The WBXML global tokens of `wmlc_decompiler.h`. -/
def WBXML_SWITCH_PAGE : Nat := 0x00

/-- See `WBXML_SWITCH_PAGE`. -/
def WBXML_END : Nat := 0x01

/-- See `WBXML_SWITCH_PAGE`. -/
def WBXML_ENTITY : Nat := 0x02

/-- See `WBXML_SWITCH_PAGE`. -/
def WBXML_STR_I : Nat := 0x03

/-- See `WBXML_SWITCH_PAGE`. -/
def WBXML_LITERAL : Nat := 0x04

/-- See `WBXML_SWITCH_PAGE`. -/
def WBXML_EXT_I_0 : Nat := 0x40

/-- See `WBXML_SWITCH_PAGE`. -/
def WBXML_EXT_I_1 : Nat := 0x41

/-- See `WBXML_SWITCH_PAGE`. -/
def WBXML_EXT_I_2 : Nat := 0x42

/-- See `WBXML_SWITCH_PAGE`. -/
def WBXML_PI : Nat := 0x43

/-- See `WBXML_SWITCH_PAGE`. -/
def WBXML_LITERAL_C : Nat := 0x44

/-- See `WBXML_SWITCH_PAGE`. -/
def WBXML_EXT_T_0 : Nat := 0x80

/-- See `WBXML_SWITCH_PAGE`. -/
def WBXML_EXT_T_1 : Nat := 0x81

/-- See `WBXML_SWITCH_PAGE`. -/
def WBXML_EXT_T_2 : Nat := 0x82

/-- See `WBXML_SWITCH_PAGE`. -/
def WBXML_STR_T : Nat := 0x83

/-- See `WBXML_SWITCH_PAGE`. -/
def WBXML_LITERAL_A : Nat := 0x84

/-- See `WBXML_SWITCH_PAGE`. -/
def WBXML_OPAQUE : Nat := 0xC3

/-- See `WBXML_SWITCH_PAGE`. -/
def WBXML_LITERAL_AC : Nat := 0xC4

/-- The tag bits of `wmlc_decompiler.h`. -/
def TAG_HAS_CONTENT : Nat := 0x40

/-- See `TAG_HAS_CONTENT`. -/
def TAG_HAS_ATTRS : Nat := 0x80

/-- The table `wml_elements` without its end marker. -/
def wml_elements : List (Nat × String) := [
  (0x1C, "a"), (0x1D, "td"), (0x1E, "tr"), (0x1F, "table"), (0x20, "p"), (0x21, "postfield"),
  (0x22, "anchor"), (0x23, "access"), (0x24, "b"), (0x25, "big"), (0x26, "br"), (0x27, "card"),
  (0x28, "do"), (0x29, "em"), (0x2A, "fieldset"), (0x2B, "go"), (0x2C, "head"), (0x2D, "i"),
  (0x2E, "img"), (0x2F, "input"), (0x30, "meta"), (0x31, "noop"), (0x32, "prev"),
  (0x33, "onevent"), (0x34, "optgroup"), (0x35, "option"), (0x36, "refresh"), (0x37, "select"),
  (0x38, "small"), (0x39, "strong"), (0x3B, "template"), (0x3C, "timer"), (0x3D, "u"),
  (0x3E, "setvar"), (0x3F, "wml")]

/-- The table `wml_attributes` without its end marker: token, name and value
prefix (`none` for `nullptr`). -/
def wml_attributes : List (Nat × String × Option String) := [
  (0x05, "accept-charset", none), (0x06, "align", some "bottom"),
  (0x07, "align", some "center"), (0x08, "align", some "left"), (0x09, "align", some "middle"),
  (0x0A, "align", some "right"), (0x0B, "align", some "top"), (0x0C, "alt", none),
  (0x0D, "content", none), (0x0F, "domain", none), (0x10, "emptyok", some "false"),
  (0x11, "emptyok", some "true"), (0x12, "format", none), (0x13, "height", none),
  (0x14, "hspace", none), (0x15, "ivalue", none), (0x16, "iname", none), (0x18, "label", none),
  (0x19, "localsrc", none), (0x1A, "maxlength", none), (0x1B, "method", some "get"),
  (0x1C, "method", some "post"), (0x1D, "mode", some "nowrap"), (0x1E, "mode", some "wrap"),
  (0x1F, "multiple", some "false"), (0x20, "multiple", some "true"), (0x21, "name", none),
  (0x22, "newcontext", some "false"), (0x23, "newcontext", some "true"),
  (0x24, "onpick", none), (0x25, "onenterbackward", none), (0x26, "onenterforward", none),
  (0x27, "ontimer", none), (0x28, "optional", some "false"), (0x29, "optional", some "true"),
  (0x2A, "path", none), (0x2E, "scheme", none), (0x2F, "sendreferer", some "false"),
  (0x30, "sendreferer", some "true"), (0x31, "size", none), (0x32, "src", none),
  (0x33, "ordered", some "true"), (0x34, "ordered", some "false"), (0x35, "tabindex", none),
  (0x36, "title", none), (0x37, "type", none), (0x38, "type", some "accept"),
  (0x39, "type", some "delete"), (0x3A, "type", some "help"), (0x3B, "type", some "password"),
  (0x3C, "type", some "onpick"), (0x3D, "type", some "onenterbackward"),
  (0x3E, "type", some "onenterforward"), (0x3F, "type", some "ontimer"),
  (0x45, "type", some "options"), (0x46, "type", some "prev"), (0x47, "type", some "reset"),
  (0x48, "type", some "text"), (0x49, "type", some "vnd."), (0x4A, "href", none),
  (0x4B, "href", some "http://"), (0x4C, "href", some "https://"), (0x4D, "value", none),
  (0x4E, "vspace", none), (0x4F, "width", none), (0x50, "xml:lang", none),
  (0x52, "align", none), (0x53, "columns", none), (0x54, "class", none), (0x55, "id", none),
  (0x56, "forua", some "false"), (0x57, "forua", some "true"), (0x58, "src", some "http://"),
  (0x59, "src", some "https://"), (0x5A, "http-equiv", none),
  (0x5B, "http-equiv", some "Content-Type"),
  (0x5C, "content", some "application/vnd.wap.wmlc;charset="),
  (0x5D, "http-equiv", some "Expires"), (0x5E, "accesskey", none), (0x5F, "enctype", none),
  (0x60, "enctype", some "application/x-www-form-urlencoded"),
  (0x61, "enctype", some "multipart/form-data"), (0x62, "xml:space", some "preserve"),
  (0x63, "xml:space", some "default"), (0x64, "cache-control", some "no-cache")]

/-- The table `wml_attr_values` without its end marker. -/
def wml_attr_values : List (Nat × String) := [
  (0x85, ".com/"), (0x86, ".edu/"), (0x87, ".net/"), (0x88, ".org/"), (0x89, "accept"),
  (0x8A, "bottom"), (0x8B, "clear"), (0x8C, "delete"), (0x8D, "help"), (0x8E, "http://"),
  (0x8F, "http://www."), (0x90, "https://"), (0x91, "https://www."), (0x93, "middle"),
  (0x94, "nowrap"), (0x95, "onpick"), (0x96, "onenterbackward"), (0x97, "onenterforward"),
  (0x98, "ontimer"), (0x99, "options"), (0x9A, "password"), (0x9B, "reset"), (0x9D, "text"),
  (0x9E, "top"), (0x9F, "unknown"), (0xA0, "wrap"), (0xA1, "www.")]

/-- `WMLCDecompiler::getElementName(token)`: the name, `none` for `nullptr`. -/
def getElementName (token : Nat) : Option (List Nat) :=
  let baseToken := token &&& 0x3F
  (wml_elements.find? (fun e => e.1 = baseToken)).map (fun e => asciiBytes e.2)

/-- `WMLCDecompiler::getAttributeName(token, &value)`: the returned name with the
content of `*value`, `none` when the returned name is `nullptr`. -/
def getAttributeName (token : Nat) : Option (List Nat × Option (List Nat)) :=
  (wml_attributes.find? (fun e => e.1 = token)).map
    (fun e => (asciiBytes e.2.1, e.2.2.map asciiBytes))

/-- `WMLCDecompiler::getAttributeValue(token)`: the value, `none` for `nullptr`. -/
def getAttributeValue (token : Nat) : Option (List Nat) :=
  (wml_attr_values.find? (fun e => e.1 = token)).map (fun e => asciiBytes e.2)

/-- The `do ... while (data[i++] & 0x80)` loop of `decodeMbUint`: the returned
count and the content of `*value`.  Every round increments `i` and the loop
returns when `i` reaches `len`, so `len + 1` rounds are never used up. -/
def decodeMbUintLoop (ulongBits : Nat) (data : List Nat) (len : Nat) : Nat → Nat → Nat → Nat × Nat
  | 0, _, value => (0, value)
  | fuel + 1, i, value =>
    if i ≥ len then (0, value)
    else
      let value1 := ((value <<< 7) % 2 ^ ulongBits) ||| (data.getD i 0 &&& 0x7F)
      if data.getD i 0 &&& 0x80 ≠ 0 then decodeMbUintLoop ulongBits data len fuel (i + 1) value1
      else (i + 1, value1)

/-- `WMLCDecompiler::decodeMbUint(data, len, value)` with non-null pointers: the
returned count and the content of `*value` after the call (`value` is its
content before the call). -/
def decodeMbUint (ulongBits : Nat) (data : List Nat) (len : Nat) (value : Nat) : Nat × Nat :=
  if len = 0 then (0, value)
  else decodeMbUintLoop ulongBits data len (len + 1) 0 0

/-- `WMLCDecompiler::getVersion(wmlc, wmlcLen)` with a non-null pointer. -/
def getVersion (wmlc : List Nat) (wmlcLen : Nat) : Int :=
  if wmlcLen < 1 then 0 else (wmlc.getD 0 0 : Int) + 1

/-- `WMLCDecompiler::getPublicId(wmlc, wmlcLen)` with a non-null pointer;
`publicId0` is the content of the uninitialised local `publicId`. -/
def getPublicId (ulongBits : Nat) (wmlc : List Nat) (wmlcLen : Nat) (publicId0 : Nat) : Nat :=
  if wmlcLen < 2 then 0
  else (decodeMbUint ulongBits (wmlc.drop 1) (wmlcLen - 1) publicId0).2

/-- The output position and the output memory of `decompileBody` and
`decompile`. -/
structure Out where
  outPos : Nat
  output : List Nat
deriving Repr, DecidableEq

/-- The lambda `appendStr` of `decompileBody` (and `append` of `decompile`). -/
def appendStr (outputSize : Nat) (str : List Nat) (o : Out) : Out :=
  let slen := WAPRequest.strlen str
  if o.outPos + slen < outputSize then
    { outPos := o.outPos + slen, output := WAPRequest.memcpy o.output o.outPos str slen }
  else o

/-- The lambda `appendChar` of `decompileBody`. -/
def appendChar (outputSize : Nat) (c : Nat) (o : Out) : Out :=
  if o.outPos + 1 < outputSize then
    { outPos := o.outPos + 1, output := o.output.set o.outPos c }
  else o

/-- The bytes `data[pos], ..., data[len - 1]`. -/
def slice (data : List Nat) (pos len : Nat) : List Nat :=
  (List.range (len - pos)).map (fun i => data.getD (pos + i) 0)

/-- The bytes the loop `while (pos < len && data[pos] != 0) appendChar(data[pos++])`
steps over. -/
def inlineChars (data : List Nat) (len pos : Nat) : List Nat :=
  (slice data pos len).takeWhile (fun c => c ≠ 0)

/-- The statements `while (pos < len && data[pos] != 0) appendChar((char)data[pos++]);
if (pos < len) pos++;`: the position and the output afterwards. -/
def inlineString (outputSize : Nat) (data : List Nat) (len pos : Nat) (o : Out) : Nat × Out :=
  let cs := inlineChars data len pos
  let pos1 := pos + cs.length
  (if pos1 < len then pos1 + 1 else pos1, cs.foldl (fun o c => appendChar outputSize c o) o)

/-- The string `(stringTable && offset < stringTableLen) ? &stringTable[offset] : nullptr`. -/
def stringRef (stringTable : Option (List Nat)) (stringTableLen offset : Nat) :
    Option (List Nat) :=
  match stringTable with
  | some t => if offset < stringTableLen then some (t.drop offset) else none
  | none => none

/-- The statement `if (stringTable && offset < stringTableLen) appendStr(&stringTable[offset])`. -/
def appendRef (outputSize : Nat) (stringTable : Option (List Nat)) (stringTableLen offset : Nat)
    (o : Out) : Out :=
  match stringRef stringTable stringTableLen offset with
  | some s => appendStr outputSize s o
  | none => o

/-- The statements `if (token == e1) appendStr(":e"); else if (token == e2)
appendStr(":u"); appendChar(')')` that end a variable reference. -/
def appendVarEnd (outputSize token e1 e2 : Nat) (o : Out) : Out :=
  let o1 :=
    if token = e1 then appendStr outputSize (asciiBytes ":e") o
    else if token = e2 then appendStr outputSize (asciiBytes ":u") o
    else o
  appendChar outputSize 41 o1

/-- The array `entityBuf` after `snprintf(entityBuf, sizeof(entityBuf), "&#%lu;", entity)`:
at most 15 characters. -/
def entityText (entity : Nat) : List Nat :=
  (asciiBytes "&#" ++ (Nat.toDigits 10 entity).map Char.toNat ++ asciiBytes ";").take 15

/-- The loop `while (pos < len)` that reads the continuation of an attribute
value, from position `pos`: the position and the output when it is left.  Every
round that does not leave the loop moves `pos` forward, so `len` rounds are
never used up. -/
def attrValueLoop (ulongBits outputSize : Nat) (data : List Nat) (len : Nat)
    (stringTable : Option (List Nat)) (stringTableLen : Nat) : Nat → Nat → Out → Nat × Out
  | 0, pos, o => (pos, o)
  | fuel + 1, pos, o =>
    if pos < len then
      let valToken := data.getD pos 0
      if valToken = WBXML_END ∨ (valToken < 0x80 ∧ valToken ≥ 0x05) then (pos, o)
      else if valToken = WBXML_STR_I then
        let r := inlineString outputSize data len (pos + 1) o
        attrValueLoop ulongBits outputSize data len stringTable stringTableLen fuel r.1 r.2
      else if valToken = WBXML_STR_T then
        let pos := pos + 1
        let d := decodeMbUint ulongBits (data.drop pos) (len - pos) 0
        if d.1 > 0 then
          attrValueLoop ulongBits outputSize data len stringTable stringTableLen fuel (pos + d.1)
            (appendRef outputSize stringTable stringTableLen d.2 o)
        else attrValueLoop ulongBits outputSize data len stringTable stringTableLen fuel pos o
      else if valToken ≥ WBXML_EXT_I_0 ∧ valToken ≤ WBXML_EXT_I_2 then
        let r := inlineString outputSize data len (pos + 1)
          (appendStr outputSize (asciiBytes "$(") o)
        attrValueLoop ulongBits outputSize data len stringTable stringTableLen fuel r.1
          (appendVarEnd outputSize valToken WBXML_EXT_I_1 WBXML_EXT_I_2 r.2)
      else if valToken ≥ WBXML_EXT_T_0 ∧ valToken ≤ WBXML_EXT_T_2 then
        let pos := pos + 1
        let d := decodeMbUint ulongBits (data.drop pos) (len - pos) 0
        if d.1 > 0 then
          attrValueLoop ulongBits outputSize data len stringTable stringTableLen fuel (pos + d.1)
            (appendVarEnd outputSize valToken WBXML_EXT_T_1 WBXML_EXT_T_2
              (appendRef outputSize stringTable stringTableLen d.2
                (appendStr outputSize (asciiBytes "$(") o)))
        else attrValueLoop ulongBits outputSize data len stringTable stringTableLen fuel pos o
      else if valToken ≥ 0x80 then
        let o1 :=
          match getAttributeValue valToken with
          | some attrVal => appendStr outputSize attrVal o
          | none => o
        attrValueLoop ulongBits outputSize data len stringTable stringTableLen fuel (pos + 1) o1
      else attrValueLoop ulongBits outputSize data len stringTable stringTableLen fuel (pos + 1) o
    else (pos, o)

/-- The loop `while (pos < len)` that parses the attributes of an element, from
position `pos`: the position and the output when it is left.  Every round moves
`pos` forward, so `len` rounds are never used up. -/
def attrLoop (ulongBits outputSize : Nat) (data : List Nat) (len : Nat)
    (stringTable : Option (List Nat)) (stringTableLen : Nat) : Nat → Nat → Out → Nat × Out
  | 0, pos, o => (pos, o)
  | fuel + 1, pos, o =>
    if pos < len then
      let attrToken := data.getD pos 0
      if attrToken = WBXML_END then (pos + 1, o)
      else if attrToken = WBXML_STR_I then
        let r := inlineString outputSize data len (pos + 1) o
        attrLoop ulongBits outputSize data len stringTable stringTableLen fuel r.1 r.2
      else if attrToken = WBXML_STR_T then
        let pos := pos + 1
        let d := decodeMbUint ulongBits (data.drop pos) (len - pos) 0
        if d.1 > 0 then
          attrLoop ulongBits outputSize data len stringTable stringTableLen fuel (pos + d.1)
            (appendRef outputSize stringTable stringTableLen d.2 o)
        else attrLoop ulongBits outputSize data len stringTable stringTableLen fuel pos o
      else if attrToken ≥ 0x80 then
        let o1 :=
          match getAttributeValue attrToken with
          | some attrVal => appendStr outputSize attrVal o
          | none => o
        attrLoop ulongBits outputSize data len stringTable stringTableLen fuel (pos + 1) o1
      else
        match getAttributeName attrToken with
        | some (attrName, attrValuePrefix) =>
          let o1 := appendChar outputSize 32 o
          let o2 := appendStr outputSize attrName o1
          let o3 := appendStr outputSize (asciiBytes "=\"") o2
          let o4 :=
            match attrValuePrefix with
            | some p => appendStr outputSize p o3
            | none => o3
          let r := attrValueLoop ulongBits outputSize data len stringTable stringTableLen len
            (pos + 1) o4
          attrLoop ulongBits outputSize data len stringTable stringTableLen fuel r.1
            (appendChar outputSize 34 r.2)
        | none =>
          attrLoop ulongBits outputSize data len stringTable stringTableLen fuel (pos + 1) o
    else (pos, o)

/-- The state of the token loop of `decompileBody`: input position, output, and
the entries `elementStack[0 .. stackDepth - 1]`, last pushed first. -/
structure Body where
  pos : Nat
  out : Out
  elementStack : List (List Nat)
deriving Repr, DecidableEq

/-- The statement `if (stackDepth < 32) elementStack[stackDepth++] = elemName`. -/
def push (elemName : List Nat) (elementStack : List (List Nat)) : List (List Nat) :=
  if elementStack.length < 32 then elemName :: elementStack else elementStack

/-- The end of an element start: `>` and a push for an element with content,
`/>` otherwise. -/
def openElement (outputSize : Nat) (hasContent : Bool) (elemName : List Nat) (pos : Nat)
    (o : Out) (elementStack : List (List Nat)) : Body :=
  if hasContent then
    { pos := pos, out := appendChar outputSize 62 o, elementStack := push elemName elementStack }
  else
    { pos := pos, out := appendStr outputSize (asciiBytes "/>") o, elementStack := elementStack }

/-- The bytes the loop `while (pos < len && data[pos] != WBXML_END) pos++` of a
literal element steps over. -/
def literalAttrs (data : List Nat) (len pos : Nat) : List Nat :=
  (slice data pos len).takeWhile (fun c => c ≠ WBXML_END)

/-- One round of the loop `while (pos < len)` of `decompileBody`, entered with
`pos < len`. -/
def tokenStep (ulongBits outputSize : Nat) (data : List Nat) (len : Nat)
    (stringTable : Option (List Nat)) (stringTableLen : Nat) (s : Body) : Body :=
  let token := data.getD s.pos 0
  let pos := s.pos + 1
  if token = WBXML_SWITCH_PAGE then
    { s with pos := if pos < len then pos + 1 else pos }
  else if token = WBXML_END then
    match s.elementStack with
    | elemName :: rest =>
      { pos := pos
        out := appendChar outputSize 62
          (appendStr outputSize elemName (appendStr outputSize (asciiBytes "</") s.out))
        elementStack := rest }
    | [] => { s with pos := pos }
  else if token = WBXML_ENTITY then
    if pos < len then
      let d := decodeMbUint ulongBits (data.drop pos) (len - pos) 0
      if d.1 > 0 then
        { s with pos := pos + d.1, out := appendStr outputSize (entityText d.2) s.out }
      else { s with pos := pos }
    else { s with pos := pos }
  else if token = WBXML_STR_I then
    let r := inlineString outputSize data len pos s.out
    { s with pos := r.1, out := r.2 }
  else if token = WBXML_STR_T then
    if pos < len then
      let d := decodeMbUint ulongBits (data.drop pos) (len - pos) 0
      if d.1 > 0 then
        { s with pos := pos + d.1, out := appendRef outputSize stringTable stringTableLen d.2 s.out }
      else { s with pos := pos }
    else { s with pos := pos }
  else if token = WBXML_EXT_I_0 ∨ token = WBXML_EXT_I_1 ∨ token = WBXML_EXT_I_2 then
    let r := inlineString outputSize data len pos (appendStr outputSize (asciiBytes "$(") s.out)
    { s with pos := r.1, out := appendVarEnd outputSize token WBXML_EXT_I_1 WBXML_EXT_I_2 r.2 }
  else if token = WBXML_EXT_T_0 ∨ token = WBXML_EXT_T_1 ∨ token = WBXML_EXT_T_2 then
    if pos < len then
      let d := decodeMbUint ulongBits (data.drop pos) (len - pos) 0
      if d.1 > 0 then
        { s with
          pos := pos + d.1
          out := appendVarEnd outputSize token WBXML_EXT_T_1 WBXML_EXT_T_2
            (appendRef outputSize stringTable stringTableLen d.2
              (appendStr outputSize (asciiBytes "$(") s.out)) }
      else { s with pos := pos }
    else { s with pos := pos }
  else if token = WBXML_OPAQUE then
    if pos < len then
      let d := decodeMbUint ulongBits (data.drop pos) (len - pos) 0
      if d.1 > 0 then { s with pos := (pos + d.1 + d.2) % 2 ^ ulongBits }
      else { s with pos := pos }
    else { s with pos := pos }
  else if token = WBXML_PI then { s with pos := pos }
  else if token = WBXML_LITERAL ∨ token = WBXML_LITERAL_A ∨ token = WBXML_LITERAL_C
      ∨ token = WBXML_LITERAL_AC then
    if pos < len then
      let d := decodeMbUint ulongBits (data.drop pos) (len - pos) 0
      if d.1 > 0 then
        let pos := pos + d.1
        let elemName := (stringRef stringTable stringTableLen d.2).getD (asciiBytes "unknown")
        let hasAttrs : Bool := token = WBXML_LITERAL_A ∨ token = WBXML_LITERAL_AC
        let hasContent : Bool := token = WBXML_LITERAL_C ∨ token = WBXML_LITERAL_AC
        let o := appendStr outputSize elemName (appendChar outputSize 60 s.out)
        let pos :=
          if hasAttrs then
            let pos1 := pos + (literalAttrs data len pos).length
            if pos1 < len then pos1 + 1 else pos1
          else pos
        openElement outputSize hasContent elemName pos o s.elementStack
      else { s with pos := pos }
    else { s with pos := pos }
  else if token ≥ 0x05 then
    let hasAttrs : Bool := token &&& TAG_HAS_ATTRS ≠ 0
    let hasContent : Bool := token &&& TAG_HAS_CONTENT ≠ 0
    let baseToken := token &&& 0x3F
    match getElementName baseToken with
    | none => { s with pos := pos }
    | some elemName =>
      let o := appendStr outputSize elemName (appendChar outputSize 60 s.out)
      let r :=
        if hasAttrs then attrLoop ulongBits outputSize data len stringTable stringTableLen len pos o
        else (pos, o)
      openElement outputSize hasContent elemName r.1 r.2 s.elementStack
  else { s with pos := pos }

/-- The loop `while (pos < len)` of `decompileBody`: `none` when the fuel is
used up before the loop is left. -/
def tokenLoop (ulongBits outputSize : Nat) (data : List Nat) (len : Nat)
    (stringTable : Option (List Nat)) (stringTableLen : Nat) : Nat → Body → Option Body
  | 0, s => if s.pos < len then none else some s
  | fuel + 1, s =>
    if s.pos < len then
      tokenLoop ulongBits outputSize data len stringTable stringTableLen fuel
        (tokenStep ulongBits outputSize data len stringTable stringTableLen s)
    else some s

/-- The loop `while (stackDepth > 0)` that closes the elements still open. -/
def closeAll (outputSize : Nat) : List (List Nat) → Out → Out
  | [], o => o
  | elemName :: rest, o =>
    closeAll outputSize rest
      (appendChar outputSize 62
        (appendStr outputSize elemName (appendStr outputSize (asciiBytes "</") o)))

/-- The statements `if (outPos < outputSize) output[outPos] = 0; else if
(outputSize > 0) output[outputSize - 1] = 0`. -/
def terminate (outputSize : Nat) (o : Out) : List Nat :=
  if o.outPos < outputSize then o.output.set o.outPos 0
  else if outputSize > 0 then o.output.set (outputSize - 1) 0
  else o.output

/-- `WMLCDecompiler::decompileBody(data, len, stringTable, stringTableLen, output,
outputSize, indent)` with non-null `data` and `output`: the returned length and
the output memory, `none` when the token loop uses up the fuel.  The parameter
`indent` is not used by the body. -/
def decompileBody (ulongBits : Nat) (data : List Nat) (len : Nat)
    (stringTable : Option (List Nat)) (stringTableLen : Nat) (output : List Nat)
    (outputSize : Nat) (fuel : Nat) : Option (Nat × List Nat) :=
  if len = 0 then some (0, output)
  else
    match tokenLoop ulongBits outputSize data len stringTable stringTableLen fuel
        { pos := 0, out := { outPos := 0, output := output }, elementStack := [] } with
    | none => none
    | some s =>
      let o := closeAll outputSize s.elementStack s.out
      some (o.outPos, terminate outputSize o)

/-- The XML declaration `decompile` writes. -/
def xmlDeclaration : List Nat := asciiBytes "<?xml version=\"1.0\"?>\n"

/-- The DOCTYPE line `decompile` writes for the public identifier, `none` when
it writes no DOCTYPE. -/
def doctype (publicId : Nat) : Option (List Nat) :=
  if publicId = 0x04 then
    some (asciiBytes
      "<!DOCTYPE wml PUBLIC \"-//WAPFORUM//DTD WML 1.1//EN\" \"http://www.wapforum.org/DTD/wml_1.1.xml\">\n")
  else if publicId = 0x09 then
    some (asciiBytes
      "<!DOCTYPE wml PUBLIC \"-//WAPFORUM//DTD WML 1.2//EN\" \"http://www.wapforum.org/DTD/wml12.dtd\">\n")
  else if publicId = 0x0A then
    some (asciiBytes
      "<!DOCTYPE wml PUBLIC \"-//WAPFORUM//DTD WML 1.3//EN\" \"http://www.wapforum.org/DTD/wml13.dtd\">\n")
  else none

/-- `WMLCDecompiler::decompile(wmlc, wmlcLen, output, outputSize)` with non-null
pointers: the returned length and the output memory, `none` when the token loop
of the body uses up the fuel.  `publicId0` is the content of the uninitialised
local `publicId`. -/
def decompile (ulongBits : Nat) (wmlc : List Nat) (wmlcLen : Nat) (output : List Nat)
    (outputSize : Nat) (fuel : Nat) (publicId0 : Nat) : Option (Nat × List Nat) :=
  if wmlcLen < 4 ∨ outputSize < 100 then
    some (0, if outputSize > 0 then output.set 0 0 else output)
  else
    let pos := 0
    let pos := pos + 1
    let d := decodeMbUint ulongBits (wmlc.drop pos) (wmlcLen - pos) publicId0
    if d.1 = 0 then some (0, output.set 0 0)
    else
      let pos := pos + d.1
      let publicId := d.2
      let d2 : Nat × Nat :=
        if publicId = 0 ∧ pos < wmlcLen then
          decodeMbUint ulongBits (wmlc.drop pos) (wmlcLen - pos) publicId
        else (0, publicId)
      let pos := if d2.1 > 0 then pos + d2.1 else pos
      let publicId := d2.2
      let d := decodeMbUint ulongBits (wmlc.drop pos) (wmlcLen - pos) 0
      if d.1 = 0 then some (0, output.set 0 0)
      else
        let pos := pos + d.1
        let d := decodeMbUint ulongBits (wmlc.drop pos) (wmlcLen - pos) 0
        if d.1 = 0 then some (0, output.set 0 0)
        else
          let pos := pos + d.1
          let stringTableLen := d.2
          if stringTableLen > 0 ∧ (pos + stringTableLen) % 2 ^ ulongBits > wmlcLen then
            some (0, output.set 0 0)
          else
            let stringTable : Option (List Nat) :=
              if stringTableLen > 0 then some (wmlc.drop pos) else none
            let pos := if stringTableLen > 0 then (pos + stringTableLen) % 2 ^ ulongBits else pos
            let o := appendStr outputSize xmlDeclaration { outPos := 0, output := output }
            let o :=
              match doctype publicId with
              | some line => appendStr outputSize line o
              | none => o
            let body : Option Out :=
              if pos < wmlcLen then
                match decompileBody ulongBits (wmlc.drop pos) (wmlcLen - pos) stringTable
                    stringTableLen (o.output.drop o.outPos) (outputSize - o.outPos) fuel with
                | none => none
                | some r =>
                  some { outPos := o.outPos + r.1, output := o.output.take o.outPos ++ r.2 }
              else some o
            match body with
            | none => none
            | some o => some (o.outPos, terminate outputSize o)

/-- The 12-byte document of the decompiler example: version, public identifier
`0x04`, charset, an empty string table and the body
`67 60 03 'h' 'i' 00 01 01`. -/
def exampleDocument : List Nat :=
  [0x01, 0x04, 0x00, 0x00, 0x67, 0x60, 0x03, 104, 105, 0x00, 0x01, 0x01]

/-- The body of `exampleDocument`. -/
def exampleBody : List Nat := exampleDocument.drop 4

/-- The header part of `decompile`, from the version byte to the string table:
the public identifier used for the DOCTYPE, the position of the body, the
string table and its length; `none` where `decompile` returns 0 for the
header. -/
def readHeader (ulongBits : Nat) (wmlc : List Nat) (wmlcLen : Nat) (publicId0 : Nat) :
    Option (Nat × Nat × Option (List Nat) × Nat) :=
  let pos := 0
  let pos := pos + 1
  let d := decodeMbUint ulongBits (wmlc.drop pos) (wmlcLen - pos) publicId0
  if d.1 = 0 then none
  else
    let pos := pos + d.1
    let publicId := d.2
    let d2 : Nat × Nat :=
      if publicId = 0 ∧ pos < wmlcLen then
        decodeMbUint ulongBits (wmlc.drop pos) (wmlcLen - pos) publicId
      else (0, publicId)
    let pos := if d2.1 > 0 then pos + d2.1 else pos
    let publicId := d2.2
    let d := decodeMbUint ulongBits (wmlc.drop pos) (wmlcLen - pos) 0
    if d.1 = 0 then none
    else
      let pos := pos + d.1
      let d := decodeMbUint ulongBits (wmlc.drop pos) (wmlcLen - pos) 0
      if d.1 = 0 then none
      else
        let pos := pos + d.1
        let stringTableLen := d.2
        if stringTableLen > 0 ∧ (pos + stringTableLen) % 2 ^ ulongBits > wmlcLen then none
        else
          some (publicId,
            if stringTableLen > 0 then (pos + stringTableLen) % 2 ^ ulongBits else pos,
            if stringTableLen > 0 then some (wmlc.drop pos) else none,
            stringTableLen)

/-! ### What the appends keep

Properties of the output that the proofs carry through every append. -/

/-- The output `o` in a buffer of `L` bytes with capacity `outputSize`: the
position is below the capacity, the memory has its length, the bytes from
`outputSize` on are those of `orig`, and the text `t0` stands at the start,
before the position. -/
def Kept (outputSize L : Nat) (orig t0 : List Nat) (o : Out) : Prop :=
  o.outPos < outputSize ∧ o.output.length = L ∧ o.output.drop outputSize = orig.drop outputSize
    ∧ t0.length ≤ o.outPos ∧ o.output.take t0.length = t0

/-- The output `a` of a run in the whole buffer and the output `b` of the same
run in the part of the buffer behind `pre`, with the capacity reduced by the
length of `pre`. -/
def Shift (pre : List Nat) (outputSize L : Nat) (b a : Out) : Prop :=
  a.outPos = pre.length + b.outPos ∧ a.output = pre ++ b.output ∧ a.outPos < outputSize
    ∧ a.output.length = L

/-- The outputs of two runs with the capacities `N ≤ M`: the texts are the same,
or the text of the second has reached the length `N`. -/
def Trunc (N M L1 L2 : Nat) (o1 o2 : Out) : Prop :=
  o1.outPos < N ∧ o1.output.length = L1 ∧ o2.outPos < M ∧ o2.output.length = L2
    ∧ ((o1.outPos = o2.outPos ∧ o1.output.take o1.outPos = o2.output.take o2.outPos)
        ∨ N ≤ o2.outPos)

/-- The output of `decompile` behind the XML declaration and the DOCTYPE line,
where the body starts. -/
def prolog (outputSize publicId : Nat) (output : List Nat) : Out :=
  match doctype publicId with
  | some line =>
    appendStr outputSize line (appendStr outputSize xmlDeclaration { outPos := 0, output := output })
  | none => appendStr outputSize xmlDeclaration { outPos := 0, output := output }

end WMLCDecompiler

namespace WDPGateway

/-! ### The WDP gateway of `mode_proxy.h`

The datagrams that go over the mesh carry a User Data Header in front of the
payload.  `size_t` and `int` have 32 bits (the file is compiled for the ESP32
only), `uint8_t` and `uint16_t` fields hold their values modulo 256 and 65536.
A call of the mesh callback is an entry of the returned list, the call of
`forwardToWAPBox` is the returned `Forward`; the display and the serial log are
left out. -/

/-- The constant `MESHCORE_MAX_BINARY_PAYLOAD`. -/
def MESHCORE_MAX_BINARY_PAYLOAD : Nat := 120

/-- The constant `maxPayloadSimple` of `sendWDPViaMesh`. -/
def maxPayloadSimple : Nat := MESHCORE_MAX_BINARY_PAYLOAD - 7

/-- The constant `maxPayloadConcat` of `sendWDPViaMesh`. -/
def maxPayloadConcat : Nat := MESHCORE_MAX_BINARY_PAYLOAD - 12

/-- The constant `MAX_CONCAT_MESSAGES`. -/
def MAX_CONCAT_MESSAGES : Nat := 4

/-- The `n` bytes at `&mem[pos]`. -/
def bytesAt (mem : List Nat) (pos n : Nat) : List Nat :=
  (List.range n).map (fun i => mem.getD (pos + i) 0)

/-- The structure `UDH` (and `AP_UDH` of `mode_ap.h`). -/
structure UDH where
  headerLen : Nat
  ei : Nat
  eiLength : Nat
  source : Nat
  dest : Nat
deriving Repr, DecidableEq

/-- The structure `ConcatMessage` (and `AP_ConcatMessage` of `mode_ap.h`, whose
`data` has 4096 bytes instead of 2048). -/
structure ConcatMessage where
  active : Bool
  refNum : Nat
  totalParts : Nat
  receivedParts : Nat
  partReceived : List Nat
  data : List Nat
  partSizes : List Nat
  sourcePort : Nat
  destPort : Nat
  senderMeshId : String
  lastUpdate : Nat
deriving Repr, DecidableEq, Inhabited

/-- `clearConcatMessage(msg)` (and `ap_clearConcatMessage`) for a slot whose
`data` has `dataSize` bytes. -/
def clearConcatMessage (dataSize : Nat) (_msg : ConcatMessage) : ConcatMessage :=
  { active := false, refNum := 0, totalParts := 0, receivedParts := 0,
    partReceived := List.replicate 16 0, data := List.replicate dataSize 0,
    partSizes := List.replicate 16 0, sourcePort := 0, destPort := 0, senderMeshId := "",
    lastUpdate := 0 }

/-- `WDPGateway::parseUDH(data, len, udh)` (and `ap_parseUDH`): the header, `none`
for `false`. -/
def parseUDH (data : List Nat) (len : Nat) : Option UDH :=
  if len < 7 then none
  else
    some
      { headerLen := data.getD 0 0
        ei := data.getD 1 0
        eiLength := data.getD 2 0
        dest := ((data.getD 3 0 <<< 8) ||| data.getD 4 0) % 65536
        source := ((data.getD 5 0 <<< 8) ||| data.getD 6 0) % 65536 }

/-- `WDPGateway::parseConcatUDH(data, len, refNum, totalParts, currentPart, udh)`
(and `ap_parseConcatUDH`): the reference number, the number of parts, the part
number and the header, `none` for `false`. -/
def parseConcatUDH (data : List Nat) (len : Nat) : Option (Nat × Nat × Nat × UDH) :=
  if len < 12 ∨ data.getD 0 0 ≠ 0x0B then none
  else if data.getD 1 0 ≠ 0x00 ∨ data.getD 2 0 ≠ 0x03 then none
  else
    some (data.getD 3 0, data.getD 4 0, data.getD 5 0,
      { headerLen := data.getD 0 0
        ei := data.getD 6 0
        eiLength := data.getD 7 0
        dest := ((data.getD 8 0 <<< 8) ||| data.getD 9 0) % 65536
        source := ((data.getD 10 0 <<< 8) ||| data.getD 11 0) % 65536 })

/-- The message `msg[0 .. 7 + len - 1]` of the simple case of `sendWDPViaMesh`. -/
def simpleDatagram (srcPort dstPort : Nat) (data : List Nat) (len : Nat) : List Nat :=
  [0x06, 0x05, 0x04, (dstPort >>> 8) &&& 0xFF, dstPort &&& 0xFF, (srcPort >>> 8) &&& 0xFF,
    srcPort &&& 0xFF] ++ bytesAt data 0 len

/-- The message `msg[0 .. 12 + partLen - 1]` of one round of the loop of
`sendWDPViaMesh`; the casts `(uint8_t)totalParts` and `(uint8_t)part` keep the
low byte. -/
def concatDatagram (refNum totalParts part srcPort dstPort : Nat) (data : List Nat) (len : Nat) :
    List Nat :=
  let offset := (part - 1) * maxPayloadConcat
  let partLen := if len - offset < maxPayloadConcat then len - offset else maxPayloadConcat
  [0x0B, 0x00, 0x03, refNum, totalParts % 256, part % 256, 0x05, 0x04, (dstPort >>> 8) &&& 0xFF,
    dstPort &&& 0xFF, (srcPort >>> 8) &&& 0xFF, srcPort &&& 0xFF] ++ bytesAt data offset partLen

/-- `WDPGateway::sendWDPViaMesh(to, srcPort, dstPort, data, len)`: the calls
`sendMeshCallback(to, msg, n)` in order, each with the `n` bytes of its message.
`hasCallback` tells whether `sendMeshCallback` is set, `now` is the value of
`millis()` and `recipient` is the parameter `to`. -/
def sendWDPViaMesh (hasCallback : Bool) (now : Nat) (recipient : String) (srcPort dstPort : Nat)
    (data : List Nat) (len : Nat) : List (String × List Nat) :=
  if len ≤ maxPayloadSimple then
    if hasCallback then [(recipient, simpleDatagram srcPort dstPort data len)] else []
  else
    let totalParts := (len + maxPayloadConcat - 1) % 2 ^ 32 / maxPayloadConcat
    let refNum := now &&& 0xFF
    (List.range totalParts).flatMap (fun i =>
      if hasCallback then
        [(recipient, concatDatagram refNum totalParts (i + 1) srcPort dstPort data len)]
      else [])

/-- The call `forwardToWAPBox(from, srcPort, dstPort, data, len)`, with the `len`
bytes at `data`. -/
structure Forward where
  sender : String
  srcPort : Nat
  dstPort : Nat
  data : List Nat
deriving Repr, DecidableEq

/-- The loop that looks for the active slot with the reference number and the
sender: its index. -/
def findConcat (concatMessages : List ConcatMessage) (refNum : Nat) (sender : String) :
    Option Nat :=
  concatMessages.findIdx? (fun m => m.active && decide (m.refNum = refNum)
    && decide (m.senderMeshId = sender))

/-- The loop that looks for the first slot that is not active: its index. -/
def findFree (concatMessages : List ConcatMessage) : Option Nat :=
  concatMessages.findIdx? (fun m => !m.active)

/-- The block `// Store this part` up to `concat->lastUpdate = millis()`, for a
slot whose `data` has `dataSize` bytes: the slot afterwards and whether the part
has been stored. -/
def storePart (dataSize : Nat) (concat : ConcatMessage) (currentPart : Nat) (data : List Nat)
    (len now : Nat) : ConcatMessage × Bool :=
  if currentPart > 0 ∧ currentPart ≤ 16 ∧ concat.partReceived.getD (currentPart - 1) 0 = 0 then
    let partPayloadLen := len - 12
    let offset := (currentPart - 1) * (MESHCORE_MAX_BINARY_PAYLOAD - 12)
    if (offset + partPayloadLen) % 2 ^ 32 < dataSize then
      ({ concat with
          data := WAPRequest.memcpy concat.data offset (data.drop 12) partPayloadLen
          partSizes := concat.partSizes.set (currentPart - 1) (partPayloadLen % 65536)
          partReceived := concat.partReceived.set (currentPart - 1) 1
          receivedParts := (concat.receivedParts + 1) % 256
          lastUpdate := now }, true)
    else (concat, false)
  else (concat, false)

/-- The loop `for (int i = 0; i < concat->totalParts; i++) totalSize +=
concat->partSizes[i]`; an entry behind the 16 of the array is read as 0. -/
def totalSize (concat : ConcatMessage) : Nat :=
  ((List.range concat.totalParts).map (fun i => concat.partSizes.getD i 0)).sum

/-- The block `// Find or create concat message entry` of `handleIncomingMesh`:
the index of the slot `concat` points to and the slots afterwards, `none` when
`concat` stays null. -/
def findOrCreate (concatMessages : List ConcatMessage) (refNum totalParts : Nat) (udh : UDH)
    (sender : String) : Option (Nat × List ConcatMessage) :=
  match findConcat concatMessages refNum sender with
  | some i => some (i, concatMessages)
  | none =>
    match findFree concatMessages with
    | some i =>
      some (i, concatMessages.set i
        { concatMessages.getD i default with
          active := true
          refNum := refNum
          totalParts := totalParts
          receivedParts := 0
          sourcePort := udh.source
          destPort := udh.dest
          senderMeshId := sender
          partReceived := List.replicate 16 0
          data := List.replicate 2048 0 })
    | none => none

/-- `WDPGateway::handleIncomingMesh(from, data, len)`: the slots afterwards and
the call of `forwardToWAPBox`, if there is one.  `now` is the value of
`millis()`. -/
def handleIncomingMesh (now : Nat) (concatMessages : List ConcatMessage) (sender : String)
    (data : List Nat) (len : Nat) : List ConcatMessage × Option Forward :=
  if len < 7 then (concatMessages, none)
  else
    match parseConcatUDH data len with
    | some (refNum, totalParts, currentPart, udh) =>
      match findOrCreate concatMessages refNum totalParts udh sender with
      | none => (concatMessages, none)
      | some (i, msgs) =>
        let concat := (storePart 2048 (msgs.getD i default) currentPart data len now).1
        if concat.receivedParts = concat.totalParts then
          (msgs.set i (clearConcatMessage 2048 concat),
            some
              { sender := concat.senderMeshId
                srcPort := concat.sourcePort
                dstPort := concat.destPort
                data := bytesAt concat.data 0 (totalSize concat) })
        else (msgs.set i concat, none)
    | none =>
      match parseUDH data len with
      | none => (concatMessages, none)
      | some udh =>
        (concatMessages,
          some
            { sender := sender
              srcPort := udh.source
              dstPort := udh.dest
              data := bytesAt data 7 (len - 7) })

/-- The slots and the calls of `forwardToWAPBox` after `handleIncomingMesh` has
been called for each datagram of the list, the `k`-th at the time `now + k`. -/
def handleAll (now : Nat) (concatMessages : List ConcatMessage) (sender : String) :
    List (List Nat) → List ConcatMessage × List (Option Forward)
  | [] => (concatMessages, [])
  | d :: rest =>
    let r := handleIncomingMesh now concatMessages sender d d.length
    let r2 := handleAll (now + 1) r.1 sender rest
    (r2.1, r.2 :: r2.2)

end WDPGateway

namespace ModeAP

/-! ### The receiver of `mode_ap.h`

The file-scope variables the handler reads and writes are the fields of
`APState`; what the handler writes to the waiting HTTP client is appended to the
field `written`.  The display and the serial log are left out. -/

/-- One call that writes to the waiting client in `ap_trySendEarlyHeaders` and
`ap_handleIncomingMesh`: the `printf` of the status line with its two arguments,
the `printf` of `Content-Type`, of `Content-Length` and of `Server` with their
argument, the two `println`, and `write(data, n)` with the `n` bytes. -/
inductive ClientWrite where
  | statusLine (statusCode : Int) (statusText : List Nat)
  | contentType (value : List Nat)
  | contentLength (value : Nat)
  | connectionClose
  | server (value : List Nat)
  | endOfHeaders
  | body (data : List Nat)
deriving Repr, DecidableEq

/-- The variables of `mode_ap.h` that `ap_handleIncomingMesh` uses.
`waitingClient` tells whether `ap_waitingClient` is not null and `connected` is
the value of `ap_waitingClient->connected()`. -/
structure APState where
  concatMessages : List WDPGateway.ConcatMessage
  meshResponseBuffer : List Nat
  meshResponseLen : Nat
  meshResponseReady : Bool
  currentRequestPort : Nat
  waitingClient : Bool
  connected : Bool
  headersSent : Bool
  earlyResponse : WAPResponse.HTTPResponse
  isWMLC : Bool
  bodyBytesReceived : Nat
  wdpTotalParts : Nat
  wdpReceivedParts : Nat
  lastPartReceivedTime : Nat
  written : List ClientWrite
deriving Repr, DecidableEq

/-- `ap_sendWDPViaMesh(to, srcPort, dstPort, data, len)`: the calls of
`ap_sendMeshCallback` in order, as for `WDPGateway.sendWDPViaMesh`; without a
callback the function returns at once.  The counters of the display that the
function resets are left out. -/
def ap_sendWDPViaMesh (hasCallback : Bool) (now : Nat) (recipient : String)
    (srcPort dstPort : Nat) (data : List Nat) (len : Nat) : List (String × List Nat) :=
  if !hasCallback then []
  else if len ≤ WDPGateway.maxPayloadSimple then
    [(recipient, WDPGateway.simpleDatagram srcPort dstPort data len)]
  else
    let totalParts := (len + WDPGateway.maxPayloadConcat - 1) % 2 ^ 32 / WDPGateway.maxPayloadConcat
    let refNum := now &&& 0xFF
    (List.range totalParts).map (fun i =>
      (recipient, WDPGateway.concatDatagram refNum totalParts (i + 1) srcPort dstPort data len))

/-- `ap_trySendEarlyHeaders(wspData, wspLen)`: the returned flag and the state
afterwards. -/
def ap_trySendEarlyHeaders (s : APState) (wspData : List Nat) (wspLen : Nat) : Bool × APState :=
  if !s.waitingClient || s.headersSent then (false, s)
  else
    let r := WAPResponse.decode 32 wspData wspLen s.earlyResponse
    if !r.1 then (false, { s with earlyResponse := r.2 })
    else
      let earlyResponse := r.2
      let isWMLC : Bool := decide (asciiBytes "wmlc" <:+: WAPResponse.cstr earlyResponse.contentType)
      let responseContentType :=
        if isWMLC then asciiBytes "text/vnd.wap.wml; charset=utf-8"
        else WAPResponse.cstr earlyResponse.contentType
      let w1 :=
        [ClientWrite.statusLine earlyResponse.statusCode (WAPResponse.cstr earlyResponse.statusText),
          ClientWrite.contentType responseContentType]
      let w2 :=
        if !isWMLC ∧ earlyResponse.contentLength > 0 then
          [ClientWrite.contentLength earlyResponse.contentLength]
        else []
      let w3 := [ClientWrite.connectionClose]
      let w4 :=
        if WAPRequest.strlen earlyResponse.server > 0 then
          [ClientWrite.server (WAPResponse.cstr earlyResponse.server)]
        else []
      let w5 := [ClientWrite.endOfHeaders]
      let sendBody : Bool := !isWMLC && earlyResponse.body.isSome && decide (earlyResponse.bodyLen > 0)
      let w6 :=
        if sendBody then
          [ClientWrite.body (WDPGateway.bytesAt (earlyResponse.body.getD []) 0 earlyResponse.bodyLen)]
        else []
      (true,
        { s with
          earlyResponse := earlyResponse
          isWMLC := isWMLC
          written := s.written ++ w1 ++ w2 ++ w3 ++ w4 ++ w5 ++ w6
          bodyBytesReceived := if sendBody then earlyResponse.bodyLen else s.bodyBytesReceived
          headersSent := true })

/-- The block `// Find or create concat message entry` of
`ap_handleIncomingMesh`: the index of the slot `concat` points to and the state
afterwards, `none` when `concat` stays null. -/
def ap_findOrCreate (now : Nat) (s : APState) (refNum totalParts : Nat) (udh : WDPGateway.UDH)
    (sender : String) : Option (Nat × APState) :=
  match WDPGateway.findConcat s.concatMessages refNum sender with
  | some i => some (i, s)
  | none =>
    match WDPGateway.findFree s.concatMessages with
    | some i =>
      some (i,
        { s with
          concatMessages := s.concatMessages.set i
            { s.concatMessages.getD i default with
              active := true
              refNum := refNum
              totalParts := totalParts
              receivedParts := 0
              sourcePort := udh.source
              destPort := udh.dest
              senderMeshId := sender
              lastUpdate := now
              partReceived := List.replicate 16 0
              data := List.replicate 4096 0
              partSizes := List.replicate 16 0 }
          wdpTotalParts := totalParts
          wdpReceivedParts := 0 })
    | none => none

/-- The block `// On first part, try to decode and send headers early` of
`ap_handleIncomingMesh`, which runs after a part has been stored in the slot
`concat`: the early headers for the part 1, the body bytes of a later part for
the waiting client. -/
def ap_onStored (s2 : APState) (concat : WDPGateway.ConcatMessage) (currentPart : Nat)
    (data : List Nat) (partPayloadLen : Nat) : APState :=
  if currentPart = 1 ∧ !s2.headersSent ∧ s2.waitingClient then
    if s2.currentRequestPort = 0 ∨ concat.destPort = s2.currentRequestPort then
      (ap_trySendEarlyHeaders s2 (data.drop 12) partPayloadLen).2
    else s2
  else if !s2.isWMLC ∧ s2.headersSent ∧ s2.waitingClient ∧ s2.connected then
    if currentPart > 1 then
      { s2 with
        written := s2.written ++ [ClientWrite.body (WDPGateway.bytesAt data 12 partPayloadLen)]
        bodyBytesReceived := (s2.bodyBytesReceived + partPayloadLen) % 2 ^ 32 }
    else s2
  else s2

/-- `ap_handleIncomingMesh(from, data, len)`: the state afterwards.  `now` is the
value of `millis()`. -/
def ap_handleIncomingMesh (now : Nat) (s : APState) (sender : String) (data : List Nat)
    (len : Nat) : APState :=
  if len < 7 then s
  else
    match WDPGateway.parseConcatUDH data len with
    | some (refNum, totalParts, currentPart, udh) =>
      match ap_findOrCreate now s refNum totalParts udh sender with
      | none => s
      | some (i, s1) =>
        let stored := WDPGateway.storePart 4096 (s1.concatMessages.getD i default) currentPart data
          len now
        let concat := stored.1
        let s2 : APState :=
          if stored.2 then
            ap_onStored
              { s1 with
                concatMessages := s1.concatMessages.set i concat
                lastPartReceivedTime := now
                wdpReceivedParts := concat.receivedParts }
              concat currentPart data (len - 12)
          else s1
        if concat.receivedParts = concat.totalParts then
          if s2.currentRequestPort ≠ 0 ∧ concat.destPort ≠ s2.currentRequestPort then
            { s2 with
              concatMessages := s2.concatMessages.set i (WDPGateway.clearConcatMessage 4096 concat) }
          else
            let totalSize := WDPGateway.totalSize concat
            let s3 :=
              if totalSize < 4096 then
                { s2 with
                  meshResponseBuffer :=
                    WAPRequest.memcpy s2.meshResponseBuffer 0 concat.data totalSize
                  meshResponseLen := totalSize
                  meshResponseReady := true
                  currentRequestPort := 0 }
              else s2
            { s3 with
              concatMessages := s3.concatMessages.set i (WDPGateway.clearConcatMessage 4096 concat) }
        else s2
    | none =>
      match WDPGateway.parseUDH data len with
      | none => s
      | some udh =>
        if s.currentRequestPort ≠ 0 ∧ udh.dest ≠ s.currentRequestPort then s
        else
          let payloadLen := len - 7
          let s1 :=
            if !s.headersSent ∧ s.waitingClient then
              (ap_trySendEarlyHeaders s (data.drop 7) payloadLen).2
            else s
          if payloadLen < 4096 then
            { s1 with
              meshResponseBuffer := WAPRequest.memcpy s1.meshResponseBuffer 0 (data.drop 7) payloadLen
              meshResponseLen := payloadLen
              meshResponseReady := true
              currentRequestPort := 0
              wdpTotalParts := 1
              wdpReceivedParts := 1 }
          else s1

/-- The state after `ap_handleIncomingMesh` has been called for each datagram of
the list, the `k`-th at the time `now + k`. -/
def ap_handleAll (now : Nat) (s : APState) (sender : String) : List (List Nat) → APState
  | [] => s
  | d :: rest => ap_handleAll (now + 1) (ap_handleIncomingMesh now s sender d d.length) sender rest

end ModeAP

namespace WDPGateway

/-! ### The state of a slot while the parts of one message arrive -/

/-- The number of payload bytes of the part with the index `i`, counted from 0,
of a payload of `len` bytes: the value of `partLen` in `sendWDPViaMesh`. -/
def partLen (len i : Nat) : Nat :=
  if len - i * maxPayloadConcat < maxPayloadConcat then len - i * maxPayloadConcat
  else maxPayloadConcat

/-- The slot `c`, with `dataSize` bytes of `data`, holds the parts with the
indices `K`, counted from 0, of the message `payload` of `n` parts with the
reference number `ref`, the ports `src` and `dst` and the sender `sender`. -/
def SlotInv (dataSize ref n src dst : Nat) (sender : String) (payload : List Nat)
    (K : List Nat) (c : ConcatMessage) : Prop :=
  c.active = true ∧ c.refNum = ref ∧ c.totalParts = n ∧ c.senderMeshId = sender
    ∧ c.sourcePort = src ∧ c.destPort = dst
    ∧ c.receivedParts = K.length
    ∧ c.partReceived.length = 16
    ∧ (∀ i, i < 16 → c.partReceived.getD i 0 = if i ∈ K then 1 else 0)
    ∧ c.partSizes.length = 16
    ∧ (∀ i, i ∈ K → c.partSizes.getD i 0 = partLen payload.length i)
    ∧ c.data.length = dataSize
    ∧ (∀ i, i ∈ K → ∀ j, j < partLen payload.length i →
        c.data.getD (i * 108 + j) 0 = payload.getD (i * 108 + j) 0)

/-- The slots `pool` after the parts with the indices `K` have been handled,
starting from the slots `msgs` whose first free slot is `i0`. -/
def PoolInv (dataSize ref n src dst : Nat) (sender : String) (payload : List Nat)
    (msgs : List ConcatMessage) (i0 : Nat) (K : List Nat) (pool : List ConcatMessage) : Prop :=
  (K = [] ∧ pool = msgs)
    ∨ (K ≠ [] ∧ ∃ c, pool = msgs.set i0 c ∧ SlotInv dataSize ref n src dst sender payload K c)

end WDPGateway

namespace ModeAP

/-- The state `a` has the response buffer, its length and its flag, the expected
port and the waiting client of the state `b`, and, when no client is waiting in
`b`, nothing has been written to a client between `b` and `a`. -/
def SameResponse (a b : APState) : Prop :=
  a.meshResponseBuffer = b.meshResponseBuffer ∧ a.meshResponseLen = b.meshResponseLen
    ∧ a.meshResponseReady = b.meshResponseReady ∧ a.currentRequestPort = b.currentRequestPort
    ∧ a.waitingClient = b.waitingClient ∧ (b.waitingClient = false → a.written = b.written)

/-- The variables of `mode_ap.h` while a request is outstanding: the state after
the lines of the request function that clear the previous response and the
early header state, set `ap_waitingClient = keepAliveClient` and set
`ap_currentRequestPort` to the source port `port` of the request, when nothing
has been received before.  `waitingClient` tells whether `keepAliveClient` is
not null; such a client is connected. -/
def requestState (waitingClient : Bool) (port : Nat) : APState :=
  { concatMessages := List.replicate 4 (WDPGateway.clearConcatMessage 4096 default)
    meshResponseBuffer := List.replicate 4096 0
    meshResponseLen := 0
    meshResponseReady := false
    currentRequestPort := port
    waitingClient := waitingClient
    connected := waitingClient
    headersSent := false
    earlyResponse := WAPResponse.HTTPResponse.zero
    isWMLC := false
    bodyBytesReceived := 0
    wdpTotalParts := 0
    wdpReceivedParts := 0
    lastPartReceivedTime := 0
    written := [] }

end ModeAP

namespace WDPGateway

/-- No active slot of the pool holds all its parts: the state in which every call
of `handleIncomingMesh` leaves the pool, since a slot that has received its last
part is cleared in the same call. -/
def Incomplete (msgs : List ConcatMessage) : Prop :=
  ∀ m ∈ msgs, m.active = true → m.receivedParts ≠ m.totalParts

end WDPGateway

namespace MyMesh

/-- `MyMesh::isValidWDPMessage(data, len)` of `main.cpp`, which both modes call on
a received message before `handleIncomingMesh` or `ap_handleIncomingMesh`. -/
def isValidWDPMessage (data : List Nat) (len : Nat) : Bool :=
  if len < 7 then false
  else
    let headerLen := data.getD 0 0
    if headerLen ≠ 0x06 ∧ headerLen ≠ 0x0B then false
    else if len < headerLen + 1 then false
    else
      let simpleOk : Bool :=
        if headerLen = 0x06 then
          let ei := data.getD 1 0
          let eiLen := data.getD 2 0
          if ei ≠ 0x05 then false
          else if eiLen ≠ 0x04 then false
          else
            let destPort := ((data.getD 3 0 <<< 8) ||| data.getD 4 0) % 65536
            let srcPort := ((data.getD 5 0 <<< 8) ||| data.getD 6 0) % 65536
            if destPort = 0 ∨ srcPort = 0 then false else true
        else true
      if !simpleOk then false
      else if headerLen = 0x0B then
        if data.getD 1 0 ≠ 0x00 ∨ data.getD 2 0 ≠ 0x03 then false
        else
          let totalParts := data.getD 4 0
          let currentPart := data.getD 5 0
          if totalParts = 0 ∨ currentPart = 0 ∨ currentPart > totalParts then false
          else if data.getD 6 0 ≠ 0x05 ∨ data.getD 7 0 ≠ 0x04 then false
          else
            let destPort := ((data.getD 8 0 <<< 8) ||| data.getD 9 0) % 65536
            let srcPort := ((data.getD 10 0 <<< 8) ||| data.getD 11 0) % 65536
            if destPort = 0 ∨ srcPort = 0 then false else true
      else true

end MyMesh

namespace WDPGateway

/-- A slot that holds the part 1 (the byte `65`) of a message of 2 parts with the
reference number 7 from the sender `node`, with `dataSize` bytes of `data`. -/
def exampleSlot (dataSize : Nat) : ConcatMessage :=
  { active := true, refNum := 7, totalParts := 2, receivedParts := 1,
    partReceived := 1 :: List.replicate 15 0, data := 65 :: List.replicate (dataSize - 1) 0,
    partSizes := 1 :: List.replicate 15 0, sourcePort := 9200, destPort := 49152,
    senderMeshId := "node", lastUpdate := 0 }

/-- The pool with `exampleSlot` in front of three free slots. -/
def examplePool (dataSize : Nat) : List ConcatMessage :=
  exampleSlot dataSize :: List.replicate 3 (clearConcatMessage dataSize default)

/-- A datagram of a concatenated message as it lies on the wire: the 12 bytes of
the header `0B 00 03 ref total current 05 04 dstHi dstLo srcHi srcLo` and the
payload of the part behind them. -/
def partDatagram (refNum totalParts part srcPort dstPort : Nat) (payload : List Nat) :
    List Nat :=
  [0x0B, 0x00, 0x03, refNum, totalParts, part, 0x05, 0x04, (dstPort >>> 8) &&& 0xFF,
    dstPort &&& 0xFF, (srcPort >>> 8) &&& 0xFF, srcPort &&& 0xFF] ++ payload

/-- The datagrams of a message whose parts have the payloads `parts`, in the
order of the parts. -/
def partDatagrams (refNum srcPort dstPort : Nat) (parts : List (List Nat)) : List (List Nat) :=
  (List.range parts.length).map (fun i =>
    partDatagram refNum parts.length (i + 1) srcPort dstPort (parts.getD i []))

end WDPGateway

namespace WAPResponse

/-! ### Read positions that see the same header bytes -/

/-- Two read positions with the same number of header bytes left and the same
bytes there; the memory behind the header block may differ. -/
def Cursor.Agree (c c' : Cursor) : Prop :=
  c.left = c'.left ∧ c.mem.take c.left = c'.mem.take c'.left

/-- Two results of a round of the field loop that are the same up to the memory
behind the header block. -/
def StepAgree : Option (Cursor × HTTPResponse) → Option (Cursor × HTTPResponse) → Prop
  | none, none => True
  | some p, some p' => p.1.Agree p'.1 ∧ p.2 = p'.2
  | _, _ => False

end WAPResponse

namespace WMLCDecompiler

/-- A document of 7 bytes whose string table, the one byte `a`, has no
terminator: version, public identifier `0x01`, charset `0x6A`, the table length
1, the table, and the body `83 00` (`STR_T` with the offset 0). -/
def unterminatedDocument : List Nat := [0x01, 0x01, 0x6A, 0x01, 0x61, 0x83, 0x00]

/-! ### The tags of the elements with content

The start tag of an element with content ends in `>` and is followed by the push
of the element; its end tag is written by the token `END` or, for the elements
still open at the end of the input, by the loop behind the token loop. -/

/-- A tag of an element with content, with the name the decompiler holds for the
element (a `const char*`: the memory from the pointer on). -/
inductive Tag where
  | opened (name : List Nat)
  | closed (name : List Nat)
deriving Repr, DecidableEq

/-- The test for an end tag. -/
def Tag.isClosed : Tag → Bool
  | Tag.opened _ => false
  | Tag.closed _ => true

/-- The test for a start tag. -/
def Tag.isOpened : Tag → Bool
  | Tag.opened _ => true
  | Tag.closed _ => false

/-- The element with content that the round of the token loop entered at `pos`
starts: the name with which the round gets to `appendChar('>')` and to the push
(a literal element with content whose index is read, or a known element whose
token has the content bit), `none` for a round that does not get there. -/
def contentElement (ulongBits : Nat) (data : List Nat) (len : Nat)
    (stringTable : Option (List Nat)) (stringTableLen pos : Nat) : Option (List Nat) :=
  let token := data.getD pos 0
  if token = WBXML_LITERAL_C ∨ token = WBXML_LITERAL_AC then
    if pos + 1 < len then
      let d := decodeMbUint ulongBits (data.drop (pos + 1)) (len - (pos + 1)) 0
      if d.1 > 0 then some ((stringRef stringTable stringTableLen d.2).getD (asciiBytes "unknown"))
      else none
    else none
  else if token ∈ [WBXML_SWITCH_PAGE, WBXML_END, WBXML_ENTITY, WBXML_STR_I, WBXML_STR_T,
      WBXML_EXT_I_0, WBXML_EXT_I_1, WBXML_EXT_I_2, WBXML_EXT_T_0, WBXML_EXT_T_1, WBXML_EXT_T_2,
      WBXML_OPAQUE, WBXML_PI, WBXML_LITERAL, WBXML_LITERAL_A] then none
  else if token ≥ 0x05 ∧ token &&& TAG_HAS_CONTENT ≠ 0 then getElementName (token &&& 0x3F)
  else none

/-- The tags of elements with content that the round entered in state `s`
writes: the end tag of the element on top of the stack for the token `END`, the
start tag of the element with content the round starts. -/
def roundTags (ulongBits : Nat) (data : List Nat) (len : Nat)
    (stringTable : Option (List Nat)) (stringTableLen : Nat) (s : Body) : List Tag :=
  if data.getD s.pos 0 = WBXML_END then
    match s.elementStack with
    | elemName :: _ => [Tag.closed elemName]
    | [] => []
  else
    match contentElement ulongBits data len stringTable stringTableLen s.pos with
    | some elemName => [Tag.opened elemName]
    | none => []

/-- The tags of elements with content written from state `s` on: those of the
rounds of the token loop, then the end tags of the loop `while (stackDepth > 0)`;
`none` when the token loop uses up the fuel. -/
def tagsLoop (ulongBits outputSize : Nat) (data : List Nat) (len : Nat)
    (stringTable : Option (List Nat)) (stringTableLen : Nat) : Nat → Body → Option (List Tag)
  | 0, s => if s.pos < len then none else some (s.elementStack.map Tag.closed)
  | fuel + 1, s =>
    if s.pos < len then
      (tagsLoop ulongBits outputSize data len stringTable stringTableLen fuel
        (tokenStep ulongBits outputSize data len stringTable stringTableLen s)).map
        (fun tags => roundTags ulongBits data len stringTable stringTableLen s ++ tags)
    else some (s.elementStack.map Tag.closed)

/-- The tags of elements with content that `decompileBody` writes. -/
def bodyTags (ulongBits : Nat) (data : List Nat) (len : Nat)
    (stringTable : Option (List Nat)) (stringTableLen : Nat) (output : List Nat)
    (outputSize : Nat) (fuel : Nat) : Option (List Tag) :=
  if len = 0 then some []
  else
    tagsLoop ulongBits outputSize data len stringTable stringTableLen fuel
      { pos := 0, out := { outPos := 0, output := output }, elementStack := [] }

/-- The body nests elements with content no deeper than 32: in the rounds of the
token loop from state `s` on, an element with content is started only while
fewer than 32 elements are open. -/
def nestingWithin (ulongBits outputSize : Nat) (data : List Nat) (len : Nat)
    (stringTable : Option (List Nat)) (stringTableLen : Nat) : Nat → Body → Bool
  | 0, _ => true
  | fuel + 1, s =>
    if s.pos < len then
      ((contentElement ulongBits data len stringTable stringTableLen s.pos).isNone
          || decide (s.elementStack.length < 32))
        && nestingWithin ulongBits outputSize data len stringTable stringTableLen fuel
          (tokenStep ulongBits outputSize data len stringTable stringTableLen s)
    else true

/-- The text of the end tag of the element `elemName`. -/
def endTag (elemName : List Nat) : List Nat :=
  asciiBytes "</" ++ elemName.take (WAPRequest.strlen elemName) ++ [62]

/-- The three appends that write an end tag. -/
def closeElement (outputSize : Nat) (elemName : List Nat) (o : Out) : Out :=
  appendChar outputSize 62
    (appendStr outputSize elemName (appendStr outputSize (asciiBytes "</") o))

/-! ### Well-nested tags in the words of the specification -/

/-- A sequence of tags read with the list `open` of the elements that are open,
the most recently opened first: every end tag names the most recently opened
element that is still open, and no element is left open at the end. -/
def wellNested : List Tag → List (List Nat) → Bool
  | [], stillOpen => stillOpen.isEmpty
  | Tag.opened name :: tags, stillOpen => wellNested tags (name :: stillOpen)
  | Tag.closed name :: tags, stillOpen =>
    match stillOpen with
    | top :: rest => decide (name = top) && wellNested tags rest
    | [] => false

end WMLCDecompiler

/-! ## Auxiliary facts -/

namespace Base91

theorem and_255 (x : Nat) : x &&& 255 = x % 256 := Nat.and_pow_two_sub_one_eq_mod x 8

theorem and_8191 (x : Nat) : x &&& 8191 = x % 8192 := Nat.and_pow_two_sub_one_eq_mod x 13

theorem and_16383 (x : Nat) : x &&& 16383 = x % 16384 := Nat.and_pow_two_sub_one_eq_mod x 14

theorem shr_8 (x : Nat) : x >>> 8 = x / 256 := Nat.shiftRight_eq_div_pow x 8

theorem shr_13 (x : Nat) : x >>> 13 = x / 8192 := Nat.shiftRight_eq_div_pow x 13

theorem shr_14 (x : Nat) : x >>> 14 = x / 16384 := Nat.shiftRight_eq_div_pow x 14

/-- Or-ing a value shifted above the bits of `q` adds it. -/
theorem or_shl (q v n : Nat) (hq : q < 2 ^ n) : q ||| (v <<< n) = q + v * 2 ^ n := by
  rw [Nat.shiftLeft_eq, Nat.or_comm, Nat.mul_comm v, ← Nat.mul_add_lt_is_or hq v, Nat.add_comm]

theorem alphabetAt_mem : ∀ i, i < 91 → alphabetAt i ∈ ALPHABET := by decide

theorem alphabetAt_ne_zero : ∀ i, i < 91 → alphabetAt i ≠ 0 := by decide

theorem decodeTableAt_alphabetAt : ∀ i, i < 91 → decodeTableAt (alphabetAt i) = (i : Int) := by
  decide

theorem decodeTableAt_of_mem : ∀ c ∈ ALPHABET, decodeTableAt c ≠ -1 := by decide

set_option maxRecDepth 100000 in
theorem mem_of_decodeTableAt : ∀ c, c < 256 → decodeTableAt c ≠ -1 → c ∈ ALPHABET := by decide

theorem set_len0 (pre post : List Nat) (x y : Nat) :
    (pre ++ x :: post).set pre.length y = pre ++ y :: post := by
  induction pre with
  | nil => rfl
  | cons a pre ih => simp [ih]

theorem set_len1 (pre post : List Nat) (a x y : Nat) :
    (pre ++ a :: x :: post).set (pre.length + 1) y = pre ++ a :: y :: post := by
  induction pre with
  | nil => rfl
  | cons a pre ih => simp [ih]

theorem set_len2 (pre post : List Nat) (a b x y : Nat) :
    (pre ++ a :: b :: x :: post).set (pre.length + 2) y = pre ++ a :: b :: y :: post := by
  induction pre with
  | nil => rfl
  | cons a pre ih => simp [ih]

/-- With room for the whole text and its terminator, `encode` stores exactly the
complete text followed by `0` and returns its length. -/
theorem encodeLoop_fits (cap : Nat) : ∀ (input : List Nat) (s : EncState) (pre post : List Nat),
    s.outPos = pre.length → s.output = pre ++ post →
    pre.length + (encodeCharsFrom input s.queue s.numBits).length + 1 ≤ cap →
    cap ≤ pre.length + post.length →
    encodeLoop cap input s
      = (pre.length + (encodeCharsFrom input s.queue s.numBits).length,
          pre ++ encodeCharsFrom input s.queue s.numBits ++
            0 :: post.drop ((encodeCharsFrom input s.queue s.numBits).length + 1)) := by
  intro input
  induction input with
  | nil =>
    intro s pre post hp ho h1 h2
    obtain ⟨pos, q, n, out⟩ := s
    simp only at hp ho h1 ⊢
    subst hp ho
    simp only [encodeCharsFrom, flushChars] at h1 ⊢
    simp only [encodeLoop, encodeFlush]
    by_cases hn : n > 0
    · by_cases h7 : n > 7 ∨ q > 90
      · simp only [hn, h7, if_true, List.length_cons, List.length_nil] at h1 ⊢
        match post, h2 with
        | [], h2 => simp at h2; omega
        | [_], h2 => simp at h2; omega
        | [_, _], h2 => simp at h2; omega
        | p0 :: p1 :: p2 :: post, _ =>
          have e1 : ¬ (pre.length + 1 > cap - 1) := by omega
          have e2 : ¬ (pre.length + 1 + 1 > cap - 1) := by omega
          simp only [e1, e2, if_false]
          rw [set_len0, set_len1, set_len2]
          simp
      · simp only [hn, h7, if_true, if_false, List.length_cons, List.length_nil] at h1 ⊢
        match post, h2 with
        | [], h2 => simp at h2; omega
        | [_], h2 => simp at h2; omega
        | p0 :: p1 :: post, _ =>
          have e1 : ¬ (pre.length + 1 > cap - 1) := by omega
          simp only [e1, if_false]
          rw [set_len0, set_len1]
          simp
    · simp only [hn, if_false, List.length_nil] at h1 ⊢
      match post, h2 with
      | [], h2 => simp at h2; omega
      | p0 :: post, _ =>
        rw [set_len0]
        simp
  | cons b rest ih =>
    intro s pre post hp ho h1 h2
    obtain ⟨pos, q, n, out⟩ := s
    simp only at hp ho h1 ⊢
    subst hp ho
    simp only [encodeCharsFrom] at h1 ⊢
    simp only [encodeLoop, and_8191, and_16383, shr_13, shr_14]
    generalize (q ||| b <<< n % 2 ^ 32) % 2 ^ 32 = Q at h1 ⊢
    by_cases h13 : n + 8 > 13
    · by_cases h88 : Q % 8192 > 88
      · simp only [h13, h88, if_true, List.length_cons] at h1 ⊢
        match post, h2 with
        | [], h2 => simp at h2; omega
        | [_], h2 => simp at h2; omega
        | p0 :: p1 :: post, h2 =>
          have e1 : ¬ (pre.length + 2 > cap - 1) := by omega
          simp only [e1, if_false]
          rw [set_len0, set_len1]
          rw [ih _ (pre ++ [alphabetAt (Q % 8192 % 91), alphabetAt (Q % 8192 / 91)]) post
            (by simp) (by simp)
            (by simp only [List.length_append, List.length_cons, List.length_nil]; omega)
            (by simp only [List.length_append, List.length_cons, List.length_nil] at h2 ⊢; omega)]
          simp [Nat.add_assoc, Nat.add_comm 2]
      · simp only [h13, h88, if_true, if_false, List.length_cons] at h1 ⊢
        match post, h2 with
        | [], h2 => simp at h2; omega
        | [_], h2 => simp at h2; omega
        | p0 :: p1 :: post, h2 =>
          have e1 : ¬ (pre.length + 2 > cap - 1) := by omega
          simp only [e1, if_false]
          rw [set_len0, set_len1]
          rw [ih _ (pre ++ [alphabetAt (Q % 16384 % 91), alphabetAt (Q % 16384 / 91)]) post
            (by simp) (by simp)
            (by simp only [List.length_append, List.length_cons, List.length_nil]; omega)
            (by simp only [List.length_append, List.length_cons, List.length_nil] at h2 ⊢; omega)]
          simp [Nat.add_assoc, Nat.add_comm 2]
    · simp only [h13, if_false] at h1 ⊢
      exact ih _ pre post rfl rfl h1 h2

theorem toBytes_length : ∀ (k q : Nat), (toBytes k q).length = k := by
  intro k
  induction k with
  | zero => intro q; rfl
  | succ k ih => intro q; simp [toBytes, ih]

/-- With room for every byte it drains, the inner loop of `decode` stores the
`numBits / 8` low bytes of the queue. -/
theorem decodeDrain_fits (cap : Nat) : ∀ (fuel : Nat) (s : DecState) (pre post : List Nat),
    s.outPos = pre.length → s.output = pre ++ post →
    s.numBits / 8 ≤ fuel →
    pre.length + s.numBits / 8 ≤ cap →
    cap ≤ pre.length + post.length →
    decodeDrain cap fuel s = .ok
      { outPos := pre.length + s.numBits / 8, queue := s.queue / 256 ^ (s.numBits / 8),
        numBits := s.numBits % 8, val := s.val,
        output := pre ++ toBytes (s.numBits / 8) s.queue ++ post.drop (s.numBits / 8) } := by
  intro fuel
  induction fuel with
  | zero =>
    intro s pre post hp ho hf h1 h2
    obtain ⟨pos, q, n, v, out⟩ := s
    simp only at hp ho hf h1 h2 ⊢
    subst hp ho
    have hk : n / 8 = 0 := by omega
    have hn : n % 8 = n := by omega
    simp [decodeDrain, hk, hn, toBytes]
  | succ fuel ih =>
    intro s pre post hp ho hf h1 h2
    obtain ⟨pos, q, n, v, out⟩ := s
    simp only at hp ho hf h1 h2 ⊢
    subst hp ho
    simp only [decodeDrain, and_255, shr_8]
    by_cases h8 : n ≥ 8
    · obtain ⟨k, hk⟩ : ∃ k, n / 8 = k + 1 := ⟨n / 8 - 1, by omega⟩
      have hk2 : (n - 8) / 8 = k := by omega
      have hm : (n - 8) % 8 = n % 8 := by omega
      rw [hk] at h1 hf ⊢
      match post, h2 with
      | [], h2 => simp at h2; omega
      | p0 :: post, h2 =>
        have e1 : ¬ (pre.length ≥ cap) := by omega
        simp only [h8, e1, if_true, if_false]
        rw [set_len0]
        rw [ih _ (pre ++ [q % 256]) post (by simp) (by simp)
          (by simp only [hk2]; omega)
          (by simp only [hk2, List.length_append, List.length_cons, List.length_nil]; omega)
          (by simp only [List.length_append, List.length_cons, List.length_nil] at h2 ⊢; omega)]
        simp only [hk2, hm, toBytes, List.length_append, List.length_cons, List.length_nil,
          List.append_assoc, List.cons_append, List.nil_append, List.drop_succ_cons,
          Nat.div_div_eq_div_mul, pow_succ, Nat.mul_comm (256 ^ k) 256, Nat.add_assoc,
          Nat.add_comm 1 k]
    · have hk : n / 8 = 0 := by omega
      have hn : n % 8 = n := by omega
      simp [h8, hk, hn, toBytes]

/-- With room for the whole result, `decode` stores exactly the complete byte
sequence and returns its length. -/
theorem decodeLoop_fits (cap : Nat) : ∀ (input : List Nat) (s : DecState) (pre post : List Nat),
    s.outPos = pre.length → s.output = pre ++ post →
    pre.length + (decodeBytesFrom input s.queue s.numBits s.val).length ≤ cap →
    cap ≤ pre.length + post.length →
    decodeLoop cap input s
      = (pre.length + (decodeBytesFrom input s.queue s.numBits s.val).length,
          pre ++ decodeBytesFrom input s.queue s.numBits s.val ++
            post.drop (decodeBytesFrom input s.queue s.numBits s.val).length) := by
  have flush : ∀ (s : DecState) (pre post : List Nat),
      s.outPos = pre.length → s.output = pre ++ post →
      pre.length + (flushBytes s.queue s.numBits s.val).length ≤ cap →
      cap ≤ pre.length + post.length →
      decodeFlush cap s
        = (pre.length + (flushBytes s.queue s.numBits s.val).length,
            pre ++ flushBytes s.queue s.numBits s.val ++
              post.drop (flushBytes s.queue s.numBits s.val).length) := by
    intro s pre post hp ho h1 h2
    obtain ⟨pos, q, n, v, out⟩ := s
    simp only at hp ho h1 h2 ⊢
    subst hp ho
    simp only [decodeFlush, flushBytes, and_255] at h1 ⊢
    by_cases hv : v ≠ -1
    · simp only [if_pos hv, List.length_cons, List.length_nil] at h1 ⊢
      match post, h2 with
      | [], h2 => simp at h2; omega
      | p0 :: post, h2 =>
        have e1 : ¬ (pre.length ≥ cap) := by omega
        simp only [e1, if_false]
        rw [set_len0]
        simp
    · simp only [if_neg hv]
      simp
  intro input
  induction input with
  | nil =>
    intro s pre post hp ho h1 h2
    simp only [decodeBytesFrom] at h1 ⊢
    simp only [decodeLoop]
    exact flush s pre post hp ho h1 h2
  | cons c rest ih =>
    intro s pre post hp ho h1 h2
    simp only [decodeBytesFrom] at h1 ⊢
    simp only [decodeLoop, and_8191]
    by_cases hc : c = 0
    · simp only [hc, if_true] at h1 ⊢
      exact flush s pre post hp ho h1 h2
    · by_cases hd : decodeTableAt c = -1
      · simp only [hc, hd, if_true, if_false] at h1 ⊢
        exact ih s pre post hp ho h1 h2
      · by_cases hv : s.val = -1
        · simp only [hc, hd, hv, if_true, if_false] at h1 ⊢
          exact ih _ pre post hp ho h1 h2
        · simp only [hc, hd, hv, if_false] at h1 ⊢
          obtain ⟨pos, q, n, v, out⟩ := s
          simp only at hp ho h1 h2 hv ⊢
          subst hp ho
          generalize (q ||| ((v + decodeTableAt c * 91).toNat % 2 ^ 32) <<< n % 2 ^ 32) % 2 ^ 32
            = Q at h1 ⊢
          generalize n + (if (v + decodeTableAt c * 91).toNat % 8192 > 88 then 13 else 14)
            = N at h1 ⊢
          simp only [List.length_append, toBytes_length] at h1
          rw [decodeDrain_fits cap N _ pre post rfl rfl (Nat.div_le_self _ _) (by simp only; omega) h2]
          simp only
          rw [ih _ (pre ++ toBytes (N / 8) Q) (post.drop (N / 8)) (by simp [toBytes_length])
            (by simp)
            (by simp only [List.length_append, toBytes_length]; omega)
            (by simp only [List.length_append, toBytes_length, List.length_drop]; omega)]
          simp [toBytes_length, Nat.add_assoc, Nat.add_comm (N / 8)]

theorem toBytes_add : ∀ (k m T : Nat),
    toBytes (k + m) T = toBytes k T ++ toBytes m (T / 256 ^ k) := by
  intro k
  induction k with
  | zero => intro m T; simp [toBytes]
  | succ k ih =>
    intro m T
    have : k + 1 + m = (k + m) + 1 := by omega
    rw [this]
    simp only [toBytes, ih, List.cons_append, Nat.div_div_eq_div_mul, pow_succ,
      Nat.mul_comm (256 ^ k) 256]

theorem toBytes_mod : ∀ (k X Y : Nat), toBytes k (X + 256 ^ k * Y) = toBytes k X := by
  intro k
  induction k with
  | zero => intro X Y; rfl
  | succ k ih =>
    intro X Y
    have e : X + 256 ^ (k + 1) * Y = X + 256 * (256 ^ k * Y) := by ring
    simp only [toBytes, e, Nat.add_mul_mod_self_left, Nat.add_mul_div_left _ _ (show 0 < 256 by norm_num)]
    rw [ih]

theorem toBytes_ofBytes : ∀ (bs : List Nat), (∀ x ∈ bs, x < 256) →
    toBytes bs.length (ofBytes bs) = bs := by
  intro bs
  induction bs with
  | nil => intro _; rfl
  | cons b rest ih =>
    intro h
    have hb : b < 256 := h b (by simp)
    have hr := ih (fun x hx => h x (by simp [hx]))
    simp only [List.length_cons, toBytes, ofBytes]
    have e1 : (b + 256 * ofBytes rest) % 256 = b := by omega
    have e2 : (b + 256 * ofBytes rest) / 256 = ofBytes rest := by omega
    rw [e1, e2, hr]

theorem two_pow_le_8192 (n : Nat) (h : n ≤ 13) : 2 ^ n ≤ 8192 := by
  calc 2 ^ n ≤ 2 ^ 13 := Nat.pow_le_pow_right (by norm_num) h
    _ = 8192 := by norm_num

theorem two_pow_le_128 (n : Nat) (h : n ≤ 7) : 2 ^ n ≤ 128 := by
  calc 2 ^ n ≤ 2 ^ 7 := Nat.pow_le_pow_right (by norm_num) h
    _ = 128 := by norm_num

/-- The queue update of `encode` adds the byte above the queued bits. -/
theorem enc_queue (qe ne b : Nat) (hq : qe < 2 ^ ne) (hn : ne ≤ 13) (hb : b < 256) :
    (qe ||| ((b <<< ne) % 2 ^ 32)) % 2 ^ 32 = qe + b * 2 ^ ne := by
  have hP := two_pow_le_8192 ne hn
  have h1 : b * 2 ^ ne ≤ 255 * 8192 := Nat.mul_le_mul (by omega) hP
  have e1 : b <<< ne % 2 ^ 32 = b <<< ne := by
    rw [Nat.shiftLeft_eq]; exact Nat.mod_eq_of_lt (by omega)
  rw [e1, or_shl qe b ne hq]
  exact Nat.mod_eq_of_lt (by omega)

/-- The queue update of `decode` adds the value above the queued bits. -/
theorem dec_queue (qd nd v : Nat) (hq : qd < 2 ^ nd) (hn : nd ≤ 7) (hv : v < 8281) :
    (qd ||| ((v % 2 ^ 32) <<< nd) % 2 ^ 32) % 2 ^ 32 = qd + v * 2 ^ nd := by
  have hP := two_pow_le_128 nd hn
  have h1 : v * 2 ^ nd ≤ 8280 * 128 := Nat.mul_le_mul (by omega) hP
  have e0 : v % 2 ^ 32 = v := Nat.mod_eq_of_lt (by omega)
  have e1 : v <<< nd % 2 ^ 32 = v <<< nd := by
    rw [Nat.shiftLeft_eq]; exact Nat.mod_eq_of_lt (by omega)
  rw [e0, e1, or_shl qd v nd hq]
  exact Nat.mod_eq_of_lt (by omega)

/-- What `decode` makes of the two digits of a value `v`. -/
theorem decode_pair (v qd nd : Nat) (cs : List Nat) (hv : v < 8281) (hq : qd < 2 ^ nd)
    (hn : nd ≤ 7) :
    decodeBytesFrom (alphabetAt (v % 91) :: alphabetAt (v / 91) :: cs) qd nd (-1)
      = toBytes ((nd + (if v % 8192 > 88 then 13 else 14)) / 8) (qd + v * 2 ^ nd) ++
          decodeBytesFrom cs
            ((qd + v * 2 ^ nd) / 256 ^ ((nd + (if v % 8192 > 88 then 13 else 14)) / 8))
            ((nd + (if v % 8192 > 88 then 13 else 14)) % 8) (-1) := by
  have h0 : v % 91 < 91 := Nat.mod_lt _ (by norm_num)
  have h1 : v / 91 < 91 := by omega
  have t0 := decodeTableAt_alphabetAt _ h0
  have t1 := decodeTableAt_alphabetAt _ h1
  have c0 := alphabetAt_ne_zero _ h0
  have c1 := alphabetAt_ne_zero _ h1
  have n0 : ((v % 91 : Nat) : Int) ≠ -1 := by omega
  have n1 : ((v / 91 : Nat) : Int) ≠ -1 := by omega
  have ev : ((v % 91 : Nat) : Int) + ((v / 91 : Nat) : Int) * 91 = ((v : Nat) : Int) := by omega
  rw [decodeBytesFrom]
  simp only [if_neg c0, t0, if_neg n0, if_true]
  rw [decodeBytesFrom]
  simp only [if_neg c1, t1, if_neg n1, if_neg n0, ev, Int.toNat_natCast]
  rw [dec_queue qd nd v hq hn hv]

theorem div_two_pow_lt (a m j : Nat) (h : a < 2 ^ m) (hj : j ≤ m) : a / 2 ^ j < 2 ^ (m - j) := by
  apply Nat.div_lt_of_lt_mul
  rw [← pow_add]
  have : j + (m - j) = m := by omega
  rw [this]; exact h

/-- Splitting the bit stream at a digit pair of `W` bits. -/
theorem chunk_split (W qd nd q1 ne R : Nat) (hW : W ≤ ne + 8) :
    qd + 2 ^ nd * (q1 + 2 ^ (ne + 8) * R)
      = (qd + (q1 % 2 ^ W) * 2 ^ nd) +
          256 ^ ((nd + W) / 8) * (2 ^ ((nd + W) % 8) * (q1 / 2 ^ W + 2 ^ (ne + 8 - W) * R)) := by
  have e1 := Nat.mod_add_div q1 (2 ^ W)
  have e2 : 256 ^ ((nd + W) / 8) * 2 ^ ((nd + W) % 8) = 2 ^ nd * 2 ^ W := by
    rw [show (256 : Nat) = 2 ^ 8 by norm_num, ← pow_mul, ← pow_add, ← pow_add]
    congr 1
    omega
  have e3 : 2 ^ (ne + 8) = 2 ^ W * 2 ^ (ne + 8 - W) := by
    rw [← pow_add]
    congr 1
    omega
  rw [← Nat.mul_assoc (256 ^ ((nd + W) / 8)), e2, e3]
  generalize 2 ^ (ne + 8 - W) = E
  generalize 2 ^ nd = D
  generalize 2 ^ W = P at e1 ⊢
  generalize q1 % P = m at e1 ⊢
  generalize q1 / P = d at e1 ⊢
  subst e1
  ring

theorem stream_cons (qe ne b R : Nat) :
    qe + 2 ^ ne * (b + 256 * R) = (qe + b * 2 ^ ne) + 2 ^ (ne + 8) * R := by
  rw [pow_add]; ring

/-- One digit pair of the round trip: the bytes drained from the pair, followed
by the bytes of the rest of the stream, are the bytes of the whole stream. -/
theorem pair_bytes (W qd nd q1 ne R K m : Nat) (hW : W ≤ ne + 8)
    (hK : K = (nd + W) / 8 + m) :
    toBytes ((nd + W) / 8) (qd + (q1 % 2 ^ W) * 2 ^ nd) ++
        toBytes m ((qd + (q1 % 2 ^ W) * 2 ^ nd) / 256 ^ ((nd + W) / 8) +
          2 ^ ((nd + W) % 8) * (q1 / 2 ^ W + 2 ^ (ne + 8 - W) * R))
      = toBytes K (qd + 2 ^ nd * (q1 + 2 ^ (ne + 8) * R)) := by
  rw [hK, toBytes_add, chunk_split W qd nd q1 ne R hW, toBytes_mod,
    Nat.add_mul_div_left _ _ (pow_pos (by norm_num) _)]

/-- Round trip from any pair of codec states: decoding the text of the rest of
the input gives the bytes of the bits still queued in the decoder, then those
queued in the encoder, then the rest of the input. -/
theorem roundtrip_from : ∀ (bs : List Nat) (qe ne qd nd : Nat),
    (∀ x ∈ bs, x < 256) → qe < 2 ^ ne → ne ≤ 13 → qd < 2 ^ nd → nd ≤ 7 →
    (nd + ne) % 8 = 0 →
    decodeBytesFrom (encodeCharsFrom bs qe ne) qd nd (-1)
      = toBytes ((nd + ne) / 8 + bs.length) (qd + 2 ^ nd * (qe + 2 ^ ne * ofBytes bs)) := by
  intro bs
  induction bs with
  | nil =>
    intro qe ne qd nd _ hqe hne hqd hnd hmod
    have hP := two_pow_le_8192 ne hne
    simp only [encodeCharsFrom, flushChars, ofBytes, List.length_nil, Nat.mul_zero, Nat.add_zero]
    by_cases hn : ne > 0
    · by_cases h7 : ne > 7 ∨ qe > 90
      · simp only [hn, h7, if_true]
        rw [decode_pair qe qd nd [] (by omega) hqd hnd]
        have e8 : qe % 8192 = qe := Nat.mod_eq_of_lt (by omega)
        have hk : (nd + (if qe % 8192 > 88 then 13 else 14)) / 8 = (nd + ne) / 8 := by
          rw [e8]
          rcases h7 with h7 | h7
          · split <;> omega
          · have : ne = 7 ∨ 8 ≤ ne := by
              by_contra hcon
              have h6 : ne ≤ 6 := by omega
              have : 2 ^ ne ≤ 2 ^ 6 := Nat.pow_le_pow_right (by norm_num) h6
              norm_num at this
              omega
            have e88 : qe > 88 := by omega
            simp only [e88, if_true]
            omega
        rw [hk]
        simp [decodeBytesFrom, flushBytes, Nat.mul_comm]
      · simp only [hn, h7, if_true, if_false]
        have h90 : qe < 91 := by omega
        have hsum : nd + ne = 8 := by omega
        rw [decodeBytesFrom]
        simp only [if_neg (alphabetAt_ne_zero _ (Nat.mod_lt qe (by norm_num))),
          decodeTableAt_alphabetAt _ (Nat.mod_lt qe (by norm_num : 0 < 91)),
          if_neg (show ((qe % 91 : Nat) : Int) ≠ -1 by omega), if_true]
        simp only [decodeBytesFrom, flushBytes,
          if_pos (show ((qe % 91 : Nat) : Int) ≠ -1 by omega), Int.toNat_natCast]
        have e91 : qe % 91 = qe := Nat.mod_eq_of_lt h90
        have hq := dec_queue qd nd qe hqd hnd (by omega)
        have hlt : qd ||| ((qe % 2 ^ 32) <<< nd) % 2 ^ 32 < 2 ^ 32 := by
          have := two_pow_le_128 nd hnd
          have e0 : qe % 2 ^ 32 = qe := Nat.mod_eq_of_lt (by omega)
          have h1 : qe * 2 ^ nd ≤ 90 * 128 := Nat.mul_le_mul (by omega) this
          have e1 : qe <<< nd % 2 ^ 32 = qe <<< nd := by
            rw [Nat.shiftLeft_eq]; exact Nat.mod_eq_of_lt (by omega)
          rw [e0, e1, or_shl qd qe nd hqd]
          omega
        rw [Nat.mod_eq_of_lt hlt] at hq
        rw [e91, hq, hsum]
        simp [toBytes, Nat.mul_comm]
    · have hne0 : ne = 0 := by omega
      have hnd0 : nd = 0 := by omega
      subst hne0 hnd0
      simp [decodeBytesFrom, flushBytes, toBytes]
  | cons b rest ih =>
    intro qe ne qd nd hbs hqe hne hqd hnd hmod
    have hb : b < 256 := hbs b (by simp)
    have hrest : ∀ x ∈ rest, x < 256 := fun x hx => hbs x (by simp [hx])
    have hP := two_pow_le_8192 ne hne
    have hq1 : qe + b * 2 ^ ne < 2 ^ (ne + 8) := by
      rw [pow_add]
      have : b * 2 ^ ne ≤ 255 * 2 ^ ne := Nat.mul_le_mul (by omega) (le_refl _)
      omega
    have hD := two_pow_le_128 nd hnd
    simp only [encodeCharsFrom, ofBytes, List.length_cons]
    rw [enc_queue qe ne b hqe hne hb, stream_cons]
    generalize qe + b * 2 ^ ne = q1 at hq1 ⊢
    by_cases h13 : ne + 8 > 13
    · by_cases h88 : q1 % 8192 > 88
      · simp only [h13, h88, if_true]
        have hv : q1 % 8192 < 8192 := Nat.mod_lt _ (by norm_num)
        rw [decode_pair (q1 % 8192) qd nd _ (by omega) hqd hnd]
        simp only [Nat.mod_mod, h88, if_true]
        have hX : qd + q1 % 8192 * 2 ^ nd < 2 ^ (nd + 13) := by
          rw [pow_add]
          have : q1 % 8192 * 2 ^ nd ≤ 8191 * 2 ^ nd := Nat.mul_le_mul (by omega) (le_refl _)
          norm_num
          omega
        have h256 : (256 : Nat) ^ ((nd + 13) / 8) = 2 ^ (8 * ((nd + 13) / 8)) := by
          rw [show (256 : Nat) = 2 ^ 8 by norm_num, ← pow_mul]
        rw [ih (q1 / 8192) (ne + 8 - 13) _ ((nd + 13) % 8) hrest
          (by
            have := div_two_pow_lt q1 (ne + 8) 13 hq1 (by omega)
            simpa using this)
          (by omega)
          (by
            rw [h256]
            have := div_two_pow_lt _ (nd + 13) (8 * ((nd + 13) / 8)) hX (by omega)
            have e : nd + 13 - 8 * ((nd + 13) / 8) = (nd + 13) % 8 := by omega
            rw [e] at this
            exact this)
          (by omega) (by omega)]
        have := pair_bytes 13 qd nd q1 ne (ofBytes rest) ((nd + ne) / 8 + (rest.length + 1))
          ((((nd + 13) % 8) + (ne + 8 - 13)) / 8 + rest.length) (by omega) (by omega)
        simp only [show (2 : Nat) ^ 13 = 8192 by norm_num] at this
        exact this
      · simp only [h13, h88, if_true, if_false]
        have hv : q1 % 16384 < 8281 := by omega
        have hv2 : q1 % 16384 % 8192 = q1 % 8192 := by omega
        rw [decode_pair (q1 % 16384) qd nd _ hv hqd hnd]
        simp only [hv2, h88, if_false]
        have hX : qd + q1 % 16384 * 2 ^ nd < 2 ^ (nd + 14) := by
          rw [pow_add]
          have : q1 % 16384 * 2 ^ nd ≤ 16383 * 2 ^ nd := Nat.mul_le_mul (by omega) (le_refl _)
          norm_num
          omega
        have h256 : (256 : Nat) ^ ((nd + 14) / 8) = 2 ^ (8 * ((nd + 14) / 8)) := by
          rw [show (256 : Nat) = 2 ^ 8 by norm_num, ← pow_mul]
        rw [ih (q1 / 16384) (ne + 8 - 14) _ ((nd + 14) % 8) hrest
          (by
            have := div_two_pow_lt q1 (ne + 8) 14 hq1 (by omega)
            simpa using this)
          (by omega)
          (by
            rw [h256]
            have := div_two_pow_lt _ (nd + 14) (8 * ((nd + 14) / 8)) hX (by omega)
            have e : nd + 14 - 8 * ((nd + 14) / 8) = (nd + 14) % 8 := by omega
            rw [e] at this
            exact this)
          (by omega) (by omega)]
        have := pair_bytes 14 qd nd q1 ne (ofBytes rest) ((nd + ne) / 8 + (rest.length + 1))
          ((((nd + 14) % 8) + (ne + 8 - 14)) / 8 + rest.length) (by omega) (by omega)
        simp only [show (2 : Nat) ^ 14 = 16384 by norm_num] at this
        exact this
    · simp only [h13, if_false]
      rw [ih q1 (ne + 8) qd nd hrest hq1 (by omega) hqd hnd (by omega)]
      congr 1
      omega

/-- Decoding the complete text of a byte buffer gives the buffer back. -/
theorem decodeBytes_encodeChars (bs : List Nat) (h : ∀ x ∈ bs, x < 256) :
    decodeBytes (encodeChars bs) = bs := by
  have := roundtrip_from bs 0 0 0 0 h (by norm_num) (by norm_num) (by norm_num) (by norm_num)
    (by norm_num)
  simp only [Nat.add_zero, Nat.zero_div, Nat.zero_add, pow_zero, Nat.one_mul] at this
  rw [decodeBytes, encodeChars, this]
  exact toBytes_ofBytes bs h

/-- Without room for the whole text and its terminator, `encode` returns 0 and
leaves in the buffer the characters it stored before the check that failed. -/
theorem encodeLoop_short (cap : Nat) : ∀ (input : List Nat) (s : EncState) (pre post : List Nat),
    s.outPos = pre.length → s.output = pre ++ post →
    pre.length < cap → cap ≤ pre.length + post.length →
    cap < pre.length + (encodeCharsFrom input s.queue s.numBits).length + 1 →
    ∃ k, k < (encodeCharsFrom input s.queue s.numBits).length ∧ pre.length + k < cap ∧
      encodeLoop cap input s
        = (0, pre ++ (encodeCharsFrom input s.queue s.numBits).take k ++ post.drop k) := by
  intro input
  induction input with
  | nil =>
    intro s pre post hp ho h0 h2 h1
    obtain ⟨pos, q, n, out⟩ := s
    simp only at hp ho h1 ⊢
    subst hp ho
    simp only [encodeCharsFrom, flushChars] at h1 ⊢
    simp only [encodeLoop, encodeFlush]
    by_cases hn : n > 0
    · by_cases h7 : n > 7 ∨ q > 90
      · simp only [hn, h7, if_true, List.length_cons, List.length_nil] at h1 ⊢
        by_cases e1 : pre.length + 1 > cap - 1
        · exact ⟨0, by omega, by omega, by simp [e1]⟩
        · have e2 : pre.length + 1 + 1 > cap - 1 := by omega
          simp only [e1, e2, if_true, if_false]
          match post, h2 with
          | [], h2 => simp at h2; omega
          | p0 :: post, _ =>
            exact ⟨1, by omega, by omega, by rw [set_len0]; simp⟩
      · simp only [hn, h7, if_true, if_false, List.length_cons, List.length_nil] at h1 ⊢
        have e1 : pre.length + 1 > cap - 1 := by omega
        exact ⟨0, by omega, by omega, by simp [e1]⟩
    · simp only [hn, if_false, List.length_nil] at h1
      omega
  | cons b rest ih =>
    intro s pre post hp ho h0 h2 h1
    obtain ⟨pos, q, n, out⟩ := s
    simp only at hp ho h1 ⊢
    subst hp ho
    simp only [encodeCharsFrom] at h1 ⊢
    simp only [encodeLoop, and_8191, and_16383, shr_13, shr_14]
    generalize (q ||| b <<< n % 2 ^ 32) % 2 ^ 32 = Q at h1 ⊢
    by_cases h13 : n + 8 > 13
    · by_cases h88 : Q % 8192 > 88
      · simp only [h13, h88, if_true, List.length_cons] at h1 ⊢
        by_cases e1 : pre.length + 2 > cap - 1
        · exact ⟨0, by omega, by omega, by simp [e1]⟩
        · simp only [e1, if_false]
          match post, h2 with
          | [], h2 => simp at h2; omega
          | [_], h2 => simp at h2; omega
          | p0 :: p1 :: post, h2 =>
            rw [set_len0, set_len1]
            obtain ⟨k, hk1, hk2, hk3⟩ := ih
              { outPos := pre.length + 2, queue := Q / 8192, numBits := n + 8 - 13,
                output := pre ++ alphabetAt (Q % 8192 % 91) :: alphabetAt (Q % 8192 / 91) :: post }
              (pre ++ [alphabetAt (Q % 8192 % 91), alphabetAt (Q % 8192 / 91)]) post
              (by simp) (by simp)
              (by simp only [List.length_append, List.length_cons, List.length_nil]; omega)
              (by simp only [List.length_append, List.length_cons, List.length_nil] at h2 ⊢; omega)
              (by simp only [List.length_append, List.length_cons, List.length_nil]; omega)
            simp only [List.length_append, List.length_cons, List.length_nil] at hk2
            refine ⟨k + 2, by omega, by omega, ?_⟩
            rw [hk3]
            simp
      · simp only [h13, h88, if_true, if_false, List.length_cons] at h1 ⊢
        by_cases e1 : pre.length + 2 > cap - 1
        · exact ⟨0, by omega, by omega, by simp [e1]⟩
        · simp only [e1, if_false]
          match post, h2 with
          | [], h2 => simp at h2; omega
          | [_], h2 => simp at h2; omega
          | p0 :: p1 :: post, h2 =>
            rw [set_len0, set_len1]
            obtain ⟨k, hk1, hk2, hk3⟩ := ih
              { outPos := pre.length + 2, queue := Q / 16384, numBits := n + 8 - 14,
                output := pre ++ alphabetAt (Q % 16384 % 91) :: alphabetAt (Q % 16384 / 91) :: post }
              (pre ++ [alphabetAt (Q % 16384 % 91), alphabetAt (Q % 16384 / 91)]) post
              (by simp) (by simp)
              (by simp only [List.length_append, List.length_cons, List.length_nil]; omega)
              (by simp only [List.length_append, List.length_cons, List.length_nil] at h2 ⊢; omega)
              (by simp only [List.length_append, List.length_cons, List.length_nil]; omega)
            simp only [List.length_append, List.length_cons, List.length_nil] at hk2
            refine ⟨k + 2, by omega, by omega, ?_⟩
            rw [hk3]
            simp
    · simp only [h13, if_false] at h1 ⊢
      exact ih { outPos := pre.length, queue := Q, numBits := n + 8, output := pre ++ post }
        pre post rfl rfl h0 h2 h1

/-- Without room for every byte it drains, the inner loop of `decode` stops at
the first byte that does not fit. -/
theorem decodeDrain_short (cap : Nat) : ∀ (fuel : Nat) (s : DecState) (pre post : List Nat),
    s.outPos = pre.length → s.output = pre ++ post →
    s.numBits / 8 ≤ fuel →
    pre.length ≤ cap → cap ≤ pre.length + post.length →
    cap < pre.length + s.numBits / 8 →
    ∃ k, k < s.numBits / 8 ∧ pre.length + k ≤ cap ∧
      decodeDrain cap fuel s
        = .error (pre ++ (toBytes (s.numBits / 8) s.queue).take k ++ post.drop k) := by
  intro fuel
  induction fuel with
  | zero =>
    intro s pre post hp ho hf h0 h2 h1
    omega
  | succ fuel ih =>
    intro s pre post hp ho hf h0 h2 h1
    obtain ⟨pos, q, n, v, out⟩ := s
    simp only at hp ho hf h1 h2 ⊢
    subst hp ho
    simp only [decodeDrain, and_255, shr_8]
    have h8 : n ≥ 8 := by omega
    obtain ⟨k, hk⟩ : ∃ k, n / 8 = k + 1 := ⟨n / 8 - 1, by omega⟩
    have hk2 : (n - 8) / 8 = k := by omega
    rw [hk] at h1 hf ⊢
    by_cases e1 : pre.length ≥ cap
    · exact ⟨0, by omega, by omega, by simp [h8, e1]⟩
    · simp only [h8, e1, if_true, if_false]
      match post, h2 with
      | [], h2 => simp at h2; omega
      | p0 :: post, h2 =>
        rw [set_len0]
        obtain ⟨j, hj1, hj2, hj3⟩ := ih
          { outPos := pre.length + 1, queue := q / 256, numBits := n - 8, val := v,
            output := pre ++ q % 256 :: post }
          (pre ++ [q % 256]) post (by simp) (by simp)
          (by simp only [hk2]; omega)
          (by simp only [List.length_append, List.length_cons, List.length_nil]; omega)
          (by simp only [List.length_append, List.length_cons, List.length_nil] at h2 ⊢; omega)
          (by simp only [hk2, List.length_append, List.length_cons, List.length_nil]; omega)
        simp only [hk2, List.length_append, List.length_cons, List.length_nil] at hj1 hj2 hj3
        refine ⟨j + 1, by omega, by omega, ?_⟩
        rw [hj3]
        simp [toBytes]

/-- Without room for the whole result, `decode` returns 0 and leaves in the
buffer the bytes it stored before the check that failed. -/
theorem decodeLoop_short (cap : Nat) : ∀ (input : List Nat) (s : DecState) (pre post : List Nat),
    s.outPos = pre.length → s.output = pre ++ post →
    pre.length ≤ cap → cap ≤ pre.length + post.length →
    cap < pre.length + (decodeBytesFrom input s.queue s.numBits s.val).length →
    ∃ k, k < (decodeBytesFrom input s.queue s.numBits s.val).length ∧ pre.length + k ≤ cap ∧
      decodeLoop cap input s
        = (0, pre ++ (decodeBytesFrom input s.queue s.numBits s.val).take k ++ post.drop k) := by
  have flush : ∀ (s : DecState) (pre post : List Nat),
      s.outPos = pre.length → s.output = pre ++ post →
      pre.length ≤ cap → cap ≤ pre.length + post.length →
      cap < pre.length + (flushBytes s.queue s.numBits s.val).length →
      ∃ k, k < (flushBytes s.queue s.numBits s.val).length ∧ pre.length + k ≤ cap ∧
        decodeFlush cap s
          = (0, pre ++ (flushBytes s.queue s.numBits s.val).take k ++ post.drop k) := by
    intro s pre post hp ho h0 h2 h1
    obtain ⟨pos, q, n, v, out⟩ := s
    simp only at hp ho h1 h2 ⊢
    subst hp ho
    simp only [decodeFlush, flushBytes, and_255] at h1 ⊢
    by_cases hv : v ≠ -1
    · simp only [if_pos hv, List.length_cons, List.length_nil] at h1 ⊢
      have e1 : pre.length ≥ cap := by omega
      exact ⟨0, by omega, by omega, by simp [e1]⟩
    · simp only [if_neg hv, List.length_nil] at h1
      omega
  intro input
  induction input with
  | nil =>
    intro s pre post hp ho h0 h2 h1
    simp only [decodeBytesFrom] at h1 ⊢
    simp only [decodeLoop]
    exact flush s pre post hp ho h0 h2 h1
  | cons c rest ih =>
    intro s pre post hp ho h0 h2 h1
    simp only [decodeBytesFrom] at h1 ⊢
    simp only [decodeLoop, and_8191]
    by_cases hc : c = 0
    · simp only [hc, if_true] at h1 ⊢
      exact flush s pre post hp ho h0 h2 h1
    · by_cases hd : decodeTableAt c = -1
      · simp only [hc, hd, if_true, if_false] at h1 ⊢
        exact ih s pre post hp ho h0 h2 h1
      · by_cases hv : s.val = -1
        · simp only [hc, hd, hv, if_true, if_false] at h1 ⊢
          exact ih { s with val := decodeTableAt c } pre post hp ho h0 h2 h1
        · simp only [hc, hd, hv, if_false] at h1 ⊢
          obtain ⟨pos, q, n, v, out⟩ := s
          simp only at hp ho h1 h2 hv ⊢
          subst hp ho
          generalize (q ||| ((v + decodeTableAt c * 91).toNat % 2 ^ 32) <<< n % 2 ^ 32) % 2 ^ 32
            = Q at h1 ⊢
          generalize n + (if (v + decodeTableAt c * 91).toNat % 8192 > 88 then 13 else 14)
            = N at h1 ⊢
          simp only [List.length_append, toBytes_length] at h1 ⊢
          by_cases hfit : pre.length + N / 8 ≤ cap
          · rw [decodeDrain_fits cap N _ pre post rfl rfl (Nat.div_le_self _ _)
              (by simp only; omega) h2]
            simp only
            obtain ⟨j, hj1, hj2, hj3⟩ := ih
              { outPos := pre.length + N / 8, queue := Q / 256 ^ (N / 8), numBits := N % 8,
                val := -1, output := pre ++ toBytes (N / 8) Q ++ post.drop (N / 8) }
              (pre ++ toBytes (N / 8) Q) (post.drop (N / 8)) (by simp [toBytes_length])
              (by simp)
              (by simp only [List.length_append, toBytes_length]; omega)
              (by simp only [List.length_append, toBytes_length, List.length_drop]; omega)
              (by simp only [List.length_append, toBytes_length]; omega)
            simp only [List.length_append, toBytes_length] at hj2
            refine ⟨N / 8 + j, by omega, by omega, ?_⟩
            rw [hj3]
            have ht := @List.take_append _ (toBytes (N / 8) Q)
              (decodeBytesFrom rest (Q / 256 ^ (N / 8)) (N % 8) (-1)) j
            rw [toBytes_length] at ht
            simp only [ht, List.append_assoc, List.drop_drop, Nat.add_comm j]
          · obtain ⟨j, hj1, hj2, hj3⟩ := decodeDrain_short cap N
              { outPos := pre.length, queue := Q, numBits := N, val := v + decodeTableAt c * 91,
                output := pre ++ post }
              pre post rfl rfl (Nat.div_le_self _ _) h0 h2 (by simp only; omega)
            simp only at hj1 hj3
            refine ⟨j, by omega, hj2, ?_⟩
            rw [hj3]
            simp only
            rw [List.take_append_of_le_length (by rw [toBytes_length]; omega)]

/-- Every character of the text is `ALPHABET[i]` for a digit `i < 91`. -/
theorem encodeCharsFrom_digits : ∀ (bs : List Nat) (q n : Nat),
    (∀ x ∈ bs, x < 256) → q < 2 ^ n → n ≤ 13 →
    ∀ c ∈ encodeCharsFrom bs q n, ∃ i, i < 91 ∧ c = alphabetAt i := by
  intro bs
  induction bs with
  | nil =>
    intro q n _ hq hn c hc
    have hP := two_pow_le_8192 n hn
    simp only [encodeCharsFrom, flushChars] at hc
    split at hc
    · split at hc
      · simp only [List.mem_cons, List.mem_nil_iff, or_false] at hc
        rcases hc with rfl | rfl
        · exact ⟨q % 91, Nat.mod_lt _ (by norm_num), rfl⟩
        · exact ⟨q / 91, by omega, rfl⟩
      · simp only [List.mem_cons, List.mem_nil_iff, or_false] at hc
        exact ⟨q % 91, Nat.mod_lt _ (by norm_num), hc⟩
    · simp at hc
  | cons b rest ih =>
    intro q n hbs hq hn c hc
    have hb : b < 256 := hbs b (by simp)
    have hrest : ∀ x ∈ rest, x < 256 := fun x hx => hbs x (by simp [hx])
    have hq1 : q + b * 2 ^ n < 2 ^ (n + 8) := by
      rw [pow_add]
      have : b * 2 ^ n ≤ 255 * 2 ^ n := Nat.mul_le_mul (by omega) (le_refl _)
      omega
    simp only [encodeCharsFrom] at hc
    rw [enc_queue q n b hq hn hb] at hc
    generalize q + b * 2 ^ n = q1 at hq1 hc
    split at hc
    · split at hc
      · simp only [List.mem_cons] at hc
        rcases hc with rfl | rfl | hc
        · exact ⟨_, Nat.mod_lt _ (by norm_num), rfl⟩
        · exact ⟨q1 % 8192 / 91, by omega, rfl⟩
        · exact ih _ _ hrest (by simpa using div_two_pow_lt q1 (n + 8) 13 hq1 (by omega))
            (by omega) c hc
      · simp only [List.mem_cons] at hc
        rcases hc with rfl | rfl | hc
        · exact ⟨_, Nat.mod_lt _ (by norm_num), rfl⟩
        · exact ⟨q1 % 16384 / 91, by omega, rfl⟩
        · exact ih _ _ hrest (by simpa using div_two_pow_lt q1 (n + 8) 14 hq1 (by omega))
            (by omega) c hc
    · exact ih _ _ hrest hq1 (by omega) c hc

/-- Length of the text: 13 characters stand for at least 16 bits of input,
and pending input always gives a character. -/
theorem encodeCharsFrom_length : ∀ (bs : List Nat) (q n : Nat),
    (∀ x ∈ bs, x < 256) → q < 2 ^ n → n ≤ 13 →
    13 * (encodeCharsFrom bs q n).length ≤ 16 * bs.length + 2 * n + 12 ∧
    (bs ≠ [] ∨ 0 < n → 1 ≤ (encodeCharsFrom bs q n).length) := by
  intro bs
  induction bs with
  | nil =>
    intro q n _ hq hn
    simp only [encodeCharsFrom, flushChars]
    by_cases h0 : n > 0
    · by_cases h7 : n > 7 ∨ q > 90
      · simp only [h0, h7, if_true, List.length_cons, List.length_nil]
        have : 7 ≤ n := by
          by_contra hcon
          have h6 : n ≤ 6 := by omega
          have : 2 ^ n ≤ 2 ^ 6 := Nat.pow_le_pow_right (by norm_num) h6
          norm_num at this
          omega
        omega
      · simp only [h0, h7, if_true, if_false, List.length_cons, List.length_nil]
        omega
    · simp only [h0, if_false, List.length_nil]
      simp
  | cons b rest ih =>
    intro q n hbs hq hn
    have hb : b < 256 := hbs b (by simp)
    have hrest : ∀ x ∈ rest, x < 256 := fun x hx => hbs x (by simp [hx])
    have hq1 : q + b * 2 ^ n < 2 ^ (n + 8) := by
      rw [pow_add]
      have : b * 2 ^ n ≤ 255 * 2 ^ n := Nat.mul_le_mul (by omega) (le_refl _)
      omega
    simp only [encodeCharsFrom]
    rw [enc_queue q n b hq hn hb]
    generalize q + b * 2 ^ n = q1 at hq1
    by_cases h13 : n + 8 > 13
    · by_cases h88 : q1 % 8192 > 88
      · simp only [h13, h88, if_true, List.length_cons]
        have := (ih (q1 / 8192) (n + 8 - 13) hrest
          (by simpa using div_two_pow_lt q1 (n + 8) 13 hq1 (by omega)) (by omega)).1
        omega
      · simp only [h13, h88, if_true, if_false, List.length_cons]
        have := (ih (q1 / 16384) (n + 8 - 14) hrest
          (by simpa using div_two_pow_lt q1 (n + 8) 14 hq1 (by omega)) (by omega)).1
        omega
    · simp only [h13, if_false, List.length_cons]
      have := ih q1 (n + 8) hrest hq1 (by omega)
      have h2 := this.2 (Or.inr (by omega))
      omega

theorem encodeChars_digits (input : List Nat) (h : ∀ x ∈ input, x < 256) :
    ∀ c ∈ encodeChars input, ∃ i, i < 91 ∧ c = alphabetAt i :=
  encodeCharsFrom_digits input 0 0 h (by norm_num) (by norm_num)

theorem encodeChars_mem (input : List Nat) (h : ∀ x ∈ input, x < 256) :
    ∀ c ∈ encodeChars input, c ∈ ALPHABET := by
  intro c hc
  obtain ⟨i, hi, rfl⟩ := encodeChars_digits input h c hc
  exact alphabetAt_mem i hi

theorem encodeChars_ne_zero (input : List Nat) (h : ∀ x ∈ input, x < 256) :
    ∀ c ∈ encodeChars input, c ≠ 0 := by
  intro c hc
  obtain ⟨i, hi, rfl⟩ := encodeChars_digits input h c hc
  exact alphabetAt_ne_zero i hi

theorem encodeChars_length_le (input : List Nat) (h : ∀ x ∈ input, x < 256) :
    (encodeChars input).length + 1 ≤ encodedSize input.length := by
  have := (encodeCharsFrom_length input 0 0 h (by norm_num) (by norm_num)).1
  simp only [encodeChars, encodedSize]
  omega

theorem encodeChars_length_pos (input : List Nat) (h : ∀ x ∈ input, x < 256)
    (hne : input ≠ []) : 1 ≤ (encodeChars input).length :=
  (encodeCharsFrom_length input 0 0 h (by norm_num) (by norm_num)).2 (Or.inl hne)

/-- The call `encode` when the text and its terminator fit. -/
theorem encode_fits (input out : List Nat) (cap : Nat)
    (h1 : (encodeChars input).length + 1 ≤ cap) (h2 : cap ≤ out.length) :
    encode input out cap
      = ((encodeChars input).length,
          encodeChars input ++ 0 :: out.drop ((encodeChars input).length + 1)) := by
  have hc : ¬ cap = 0 := by omega
  simp only [encode, hc, if_false]
  have := encodeLoop_fits cap input { outPos := 0, queue := 0, numBits := 0, output := out }
    [] out rfl rfl (by simpa [encodeChars] using h1) (by simpa using h2)
  simpa [encodeChars] using this

/-- The call `encode` when the text and its terminator do not fit. -/
theorem encode_short (input out : List Nat) (cap : Nat)
    (h1 : cap < (encodeChars input).length + 1) (h2 : cap ≤ out.length) :
    ∃ k, k ≤ (encodeChars input).length ∧ k ≤ cap ∧
      encode input out cap = (0, (encodeChars input).take k ++ out.drop k) := by
  by_cases hc : cap = 0
  · exact ⟨0, by omega, by omega, by simp [encode, hc]⟩
  · simp only [encode, hc, if_false]
    obtain ⟨k, hk1, hk2, hk3⟩ := encodeLoop_short cap input
      { outPos := 0, queue := 0, numBits := 0, output := out }
      [] out rfl rfl (by simp; omega) (by simpa using h2) (by simpa [encodeChars] using h1)
    simp only [List.length_nil, Nat.zero_add, List.nil_append] at hk1 hk2 hk3
    exact ⟨k, by simp only [encodeChars]; omega, by omega, by simpa [encodeChars] using hk3⟩

/-- The call `decode` when the bytes fit. -/
theorem decode_fits (input out : List Nat) (cap : Nat)
    (h1 : (decodeBytes input).length ≤ cap) (h2 : cap ≤ out.length) :
    decode input out cap
      = ((decodeBytes input).length, decodeBytes input ++ out.drop (decodeBytes input).length) := by
  by_cases hc : cap = 0
  · have h0 : (decodeBytes input).length = 0 := by omega
    have hnil : decodeBytes input = [] := List.length_eq_zero.mp h0
    simp [decode, hc, hnil]
  · simp only [decode, hc, if_false]
    have := decodeLoop_fits cap input
      { outPos := 0, queue := 0, numBits := 0, val := -1, output := out }
      [] out rfl rfl (by simpa [decodeBytes] using h1) (by simpa using h2)
    simpa [decodeBytes] using this

/-- The call `decode` when the bytes do not fit. -/
theorem decode_short (input out : List Nat) (cap : Nat)
    (h1 : cap < (decodeBytes input).length) (h2 : cap ≤ out.length) :
    ∃ k, k ≤ (decodeBytes input).length ∧ k ≤ cap ∧
      decode input out cap = (0, (decodeBytes input).take k ++ out.drop k) := by
  by_cases hc : cap = 0
  · exact ⟨0, by omega, by omega, by simp [decode, hc]⟩
  · simp only [decode, hc, if_false]
    obtain ⟨k, hk1, hk2, hk3⟩ := decodeLoop_short cap input
      { outPos := 0, queue := 0, numBits := 0, val := -1, output := out }
      [] out rfl rfl (by simp) (by simpa using h2) (by simpa [decodeBytes] using h1)
    simp only [List.length_nil, Nat.zero_add, List.nil_append] at hk1 hk2 hk3
    exact ⟨k, by simp only [decodeBytes]; omega, by omega, by simpa [decodeBytes] using hk3⟩

/-- The decoder reads a buffer up to its first `0` byte. -/
theorem decodeBytesFrom_terminated : ∀ (cs rest : List Nat) (q n : Nat) (v : Int),
    (∀ c ∈ cs, c ≠ 0) →
    decodeBytesFrom (cs ++ 0 :: rest) q n v = decodeBytesFrom cs q n v := by
  intro cs
  induction cs with
  | nil => intro rest q n v _; simp [decodeBytesFrom]
  | cons c cs ih =>
    intro rest q n v h
    have hc : c ≠ 0 := h c (by simp)
    have hcs : ∀ x ∈ cs, x ≠ 0 := fun x hx => h x (by simp [hx])
    rw [List.cons_append, decodeBytesFrom, decodeBytesFrom]
    simp only [if_neg hc]
    split
    · exact ih rest q n v hcs
    · split
      · exact ih rest q n _ hcs
      · rw [ih rest _ _ _ hcs]

/-- Reading a buffer that holds `a` and, after it, the old content. -/
theorem getD_patch (a out : List Nat) (i : Nat) :
    (a ++ out.drop a.length).getD i 0 = if i < a.length then a.getD i 0 else out.getD i 0 := by
  by_cases hi : i < a.length
  · simp only [hi, if_true]
    exact List.getD_append _ _ _ _ hi
  · simp only [hi, if_false]
    rw [List.getD_append_right _ _ _ _ (by omega), List.getD_eq_getElem?_getD,
      List.getD_eq_getElem?_getD, List.getElem?_drop]
    congr 2
    omega

/-- Bytes outside the alphabet do not change what the loop of `decode` does. -/
theorem decodeLoop_filter (cap : Nat) : ∀ (s : List Nat) (st : DecState),
    (∀ c ∈ s, c < 256 ∧ c ≠ 0) →
    decodeLoop cap s st = decodeLoop cap (s.filter (fun c => decide (c ∈ ALPHABET))) st := by
  intro s
  induction s with
  | nil => intro st _; rfl
  | cons c rest ih =>
    intro st h
    have hc : c < 256 ∧ c ≠ 0 := h c (by simp)
    have hrest : ∀ x ∈ rest, x < 256 ∧ x ≠ 0 := fun x hx => h x (by simp [hx])
    by_cases hd : decodeTableAt c = -1
    · have hmem : c ∉ ALPHABET := fun hm => decodeTableAt_of_mem c hm hd
      rw [List.filter_cons]
      simp only [hmem, decide_False, Bool.false_eq_true, if_false]
      rw [decodeLoop]
      simp only [if_neg hc.2, hd, if_true]
      exact ih st hrest
    · have hmem : c ∈ ALPHABET := mem_of_decodeTableAt c hc.1 hd
      rw [List.filter_cons]
      simp only [hmem, decide_True, if_true]
      rw [decodeLoop, decodeLoop]
      simp only [if_neg hc.2, if_neg hd]
      split
      · exact ih _ hrest
      · split
        · rfl
        · exact ih _ hrest

end Base91

namespace WAPRequest

theorem and_7F (x : Nat) : x &&& 0x7F = x % 128 := Nat.and_pow_two_sub_one_eq_mod x 7

theorem shr_7 (x : Nat) : x >>> 7 = x / 128 := Nat.shiftRight_eq_div_pow x 7

theorem shl_7 (x : Nat) : x <<< 7 = x * 128 := Nat.shiftLeft_eq x 7

theorem or_80 (r : Nat) (h : r < 128) : r ||| 0x80 = r + 128 := by
  have := Nat.mul_add_lt_is_or (show r < 2 ^ 7 by simpa using h) 1
  simp only [Nat.reducePow, Nat.mul_one] at this
  rw [Nat.or_comm, ← this]; omega

set_option maxRecDepth 100000 in
theorem and_80_eq_zero : ∀ d, d < 256 → (d &&& 0x80 = 0 ↔ d < 128) := by decide

theorem take_succ_getD (l : List Nat) (i : Nat) (h : i < l.length) :
    l.take (i + 1) = l.take i ++ [l.getD i 0] := by
  rw [List.take_succ, List.getElem?_eq_getElem h, List.getD_eq_getElem _ _ h]
  rfl

/-- The copy loop of `encodeUintvar` stores `temp` back to front. -/
theorem encodeUintvarWrite_eq (temp : List Nat) : ∀ (todo : Nat) (pre post : List Nat),
    pre.length + todo = temp.length → todo ≤ post.length →
    encodeUintvarWrite temp todo pre.length (pre ++ post)
      = pre ++ (temp.take todo).reverse ++ post.drop todo := by
  intro todo
  induction todo with
  | zero => intro pre post _ _; simp [encodeUintvarWrite]
  | succ todo ih =>
    intro pre post h1 h2
    match post, h2 with
    | [], h2 => simp at h2
    | p0 :: post, h2 =>
      have hidx : temp.length - 1 - pre.length = todo := by omega
      rw [encodeUintvarWrite, Base91.set_len0, hidx]
      have := ih (pre ++ [temp.getD todo 0]) post
        (by simp only [List.length_append, List.length_cons, List.length_nil]; omega)
        (by simp only [List.length_cons] at h2; omega)
      simp only [List.length_append, List.length_cons, List.length_nil, List.append_assoc,
        List.cons_append, List.nil_append] at this
      rw [this, take_succ_getD temp todo (by omega)]
      simp

/-- `memcpy` of `n` bytes that lie inside both arrays. -/
theorem memcpy_eq (src : List Nat) : ∀ (n : Nat) (pre post : List Nat),
    n ≤ src.length → n ≤ post.length →
    memcpy (pre ++ post) pre.length src n = pre ++ src.take n ++ post.drop n := by
  intro n
  induction n with
  | zero => intro pre post _ _; simp [memcpy]
  | succ n ih =>
    intro pre post h1 h2
    rw [memcpy, ih pre post (by omega) (by omega), take_succ_getD src n (by omega)]
    have hd : post.drop n = post.getD n 0 :: post.drop (n + 1) := by
      rw [List.getD_eq_getElem _ _ (by omega : n < post.length)]
      exact List.drop_eq_getElem_cons (by omega)
    rw [hd]
    have hl : pre.length + n = (pre ++ src.take n).length := by
      rw [List.length_append, List.length_take]; omega
    rw [hl, Base91.set_len0]
    simp

theorem memcpy_at (dst src pre post : List Nat) (pos n : Nat)
    (hd : dst = pre ++ post) (hp : pos = pre.length) (hn : n = src.length)
    (hpost : n ≤ post.length) :
    memcpy dst pos src n = pre ++ src ++ post.drop n := by
  subst hd hp hn
  rw [memcpy_eq src src.length pre post (le_refl _) hpost, List.take_length]

theorem encodeUintvarLoop_step (fuel value : Nat) (temp : List Nat) (hv : value > 0)
    (ht : temp.length < 5) :
    encodeUintvarLoop (fuel + 1) value temp
      = encodeUintvarLoop fuel (value / 128) (temp ++ [value % 128 + 128]) := by
  rw [encodeUintvarLoop, if_pos ⟨hv, ht⟩, and_7F, shr_7, or_80 _ (Nat.mod_lt _ (by norm_num))]

theorem encodeUintvarLoop_stop (fuel : Nat) (temp : List Nat) :
    encodeUintvarLoop (fuel + 1) 0 temp = temp := by
  rw [encodeUintvarLoop, if_neg (by simp)]

theorem mod_ulong (w x : Nat) (hw : 32 ≤ w) (hx : x < 2 ^ 32) : x % 2 ^ w = x := by
  apply Nat.mod_eq_of_lt
  calc x < 2 ^ 32 := hx
    _ ≤ 2 ^ w := Nat.pow_le_pow_right (by norm_num) hw

/-- For a value below `2^32` the array `temp` holds the uintvar of the
specification, last byte first. -/
theorem encodeUintvarTemp_eq (w v : Nat) (hw : 32 ≤ w) (hv : v < 2 ^ 32) :
    encodeUintvarTemp w v = (uintvarBytes v).reverse := by
  simp only [encodeUintvarTemp, mod_ulong w v hw hv, and_7F, shr_7, uintvarBytes, uintvarLen]
  norm_num at hv
  by_cases h1 : v < 2 ^ 7
  · have e : v / 128 = 0 := by omega
    simp only [h1, if_true, e, encodeUintvarLoop_stop, uintvarGroups]
    simp
  · by_cases h2 : v < 2 ^ 14
    · rw [encodeUintvarLoop_step _ _ _ (by omega) (by simp)]
      have e : v / 128 / 128 = 0 := by omega
      simp only [h1, h2, if_true, if_false, e, encodeUintvarLoop_stop, uintvarGroups]
      simp
    · by_cases h3 : v < 2 ^ 21
      · rw [encodeUintvarLoop_step _ _ _ (by omega) (by simp),
          encodeUintvarLoop_step _ _ _ (by omega) (by simp)]
        have e : v / 128 / 128 / 128 = 0 := by omega
        simp only [h1, h2, h3, if_true, if_false, e, encodeUintvarLoop_stop, uintvarGroups]
        simp
      · by_cases h4 : v < 2 ^ 28
        · rw [encodeUintvarLoop_step _ _ _ (by omega) (by simp),
            encodeUintvarLoop_step _ _ _ (by omega) (by simp),
            encodeUintvarLoop_step _ _ _ (by omega) (by simp)]
          have e : v / 128 / 128 / 128 / 128 = 0 := by omega
          simp only [h1, h2, h3, h4, if_true, if_false, e, encodeUintvarLoop_stop, uintvarGroups]
          simp
          omega
        · rw [encodeUintvarLoop_step _ _ _ (by omega) (by simp),
            encodeUintvarLoop_step _ _ _ (by omega) (by simp),
            encodeUintvarLoop_step _ _ _ (by omega) (by simp),
            encodeUintvarLoop_step _ _ _ (by omega) (by simp)]
          have e : v / 128 / 128 / 128 / 128 / 128 = 0 := by omega
          simp only [h1, h2, h3, h4, if_false, e, encodeUintvarLoop_stop, uintvarGroups]
          simp
          omega

theorem encodeUintvarLoop_length : ∀ (fuel value : Nat) (temp : List Nat),
    temp.length ≤ 5 →
    temp.length ≤ (encodeUintvarLoop fuel value temp).length ∧
    (encodeUintvarLoop fuel value temp).length ≤ 5 := by
  intro fuel
  induction fuel with
  | zero => intro value temp h; exact ⟨le_refl _, h⟩
  | succ fuel ih =>
    intro value temp h
    rw [encodeUintvarLoop]
    split
    · rename_i hc
      have := ih (value >>> 7) (temp ++ [(value &&& 0x7F) ||| 0x80])
        (by simp only [List.length_append, List.length_cons, List.length_nil]; omega)
      simp only [List.length_append, List.length_cons, List.length_nil] at this
      exact ⟨by omega, this.2⟩
    · exact ⟨le_refl _, h⟩

theorem encodeUintvarTemp_length (w v : Nat) :
    1 ≤ (encodeUintvarTemp w v).length ∧ (encodeUintvarTemp w v).length ≤ 5 := by
  have := encodeUintvarLoop_length 5 ((v % 2 ^ w) >>> 7) [(v % 2 ^ w) &&& 0x7F] (by simp)
  simpa [encodeUintvarTemp] using this

/-- The call `encodeUintvar`: with room for the bytes it stores `temp` back to
front, otherwise it returns 0 and stores nothing. -/
theorem encodeUintvar_eq (w v : Nat) (buf : List Nat) (size : Nat) (h : size ≤ buf.length) :
    encodeUintvar w v buf size
      = if (encodeUintvarTemp w v).length ≤ size then
          ((encodeUintvarTemp w v).length,
            (encodeUintvarTemp w v).reverse ++ buf.drop (encodeUintvarTemp w v).length)
        else (0, buf) := by
  simp only [encodeUintvar]
  by_cases hfit : (encodeUintvarTemp w v).length ≤ size
  · have hn : ¬ (encodeUintvarTemp w v).length > size := by omega
    simp only [hn, hfit, if_true, if_false]
    have := encodeUintvarWrite_eq (encodeUintvarTemp w v) (encodeUintvarTemp w v).length [] buf
      (by simp) (by omega)
    simp only [List.length_nil, List.nil_append, List.take_length] at this
    rw [this]
  · have hn : (encodeUintvarTemp w v).length > size := by omega
    simp only [hn, hfit, if_true, if_false]

theorem concat7_foldl : ∀ (l : List Nat) (acc : Nat),
    l.foldl (fun a b => a * 128 + b % 128) acc = acc * 128 ^ l.length + concat7 l := by
  intro l
  induction l with
  | nil => intro acc; simp [concat7]
  | cons b l ih =>
    intro acc
    simp only [concat7, List.foldl_cons, List.length_cons]
    rw [ih, ih (0 * 128 + b % 128)]
    ring

theorem concat7_append_singleton (l : List Nat) (b : Nat) :
    concat7 (l ++ [b]) = concat7 l * 128 + b % 128 := by
  simp only [concat7, List.foldl_append, List.foldl_cons, List.foldl_nil]

theorem concat7_lt : ∀ (l : List Nat), concat7 l < 128 ^ l.length := by
  intro l
  induction l using List.reverseRecOn with
  | nil => simp [concat7]
  | append_singleton l b ih =>
    rw [concat7_append_singleton, List.length_append, List.length_singleton, pow_succ]
    have := Nat.mod_lt b (show 0 < 128 by norm_num)
    omega

/-- One round of the accumulation in `decodeUintvar`. -/
theorem decode_accumulate (w c d : Nat) (hw : 7 ≤ w) :
    (((c % 2 ^ w) <<< 7) % 2 ^ w) ||| (d &&& 0x7F) = (c * 128 + d % 128) % 2 ^ w := by
  obtain ⟨m, rfl⟩ : ∃ m, w = 7 + m := ⟨w - 7, by omega⟩
  have hM : (2 : Nat) ^ (7 + m) = 128 * 2 ^ m := by rw [pow_add]; norm_num
  have hr := Nat.mod_lt d (show 0 < 128 by norm_num)
  have hpos : 0 < 2 ^ m := pow_pos (by norm_num) m
  rw [shl_7, and_7F, hM, Nat.mul_comm _ 128, Nat.mul_mod_mul_left,
    Nat.mod_mul_left_mod,
    ← Nat.mul_add_lt_is_or (show d % 128 < 2 ^ 7 by simpa using hr) (c % 2 ^ m)]
  have hsplit : c * 128 + d % 128 = (128 * (c % 2 ^ m) + d % 128) + (128 * 2 ^ m) * (c / 2 ^ m) := by
    have := Nat.mod_add_div c (2 ^ m)
    calc c * 128 + d % 128 = (c % 2 ^ m + 2 ^ m * (c / 2 ^ m)) * 128 + d % 128 := by rw [this]
      _ = _ := by ring
  have hlt : 128 * (c % 2 ^ m) + d % 128 < 128 * 2 ^ m := by
    have := Nat.mod_lt c hpos
    omega
  rw [hsplit, Nat.add_mul_mod_self_left, Nat.mod_eq_of_lt hlt]

/-- What the loop of `decodeUintvar` returns from round `i` on. -/
theorem decodeUintvarLoop_spec (w : Nat) (data : List Nat) (len o : Nat) (hw : 7 ≤ w)
    (hlen : len ≤ data.length) : ∀ (fuel i value : Nat),
    i + fuel = 5 →
    (∀ j, j < i → data.getD j 0 &&& 0x80 ≠ 0) →
    value = concat7 (data.take i) % 2 ^ w →
    (decodeUintvarLoop w data len o fuel i value = (0, o) ∧
      ∀ j, j < min len 5 → data.getD j 0 &&& 0x80 ≠ 0) ∨
    (i < (decodeUintvarLoop w data len o fuel i value).1 ∧
      (decodeUintvarLoop w data len o fuel i value).1 ≤ min len 5 ∧
      data.getD ((decodeUintvarLoop w data len o fuel i value).1 - 1) 0 &&& 0x80 = 0 ∧
      (∀ j, j < (decodeUintvarLoop w data len o fuel i value).1 - 1 →
        data.getD j 0 &&& 0x80 ≠ 0) ∧
      (decodeUintvarLoop w data len o fuel i value).2
        = concat7 (data.take (decodeUintvarLoop w data len o fuel i value).1) % 2 ^ w) := by
  intro fuel
  induction fuel with
  | zero =>
    intro i value hi hset _
    left
    refine ⟨rfl, ?_⟩
    intro j hj
    exact hset j (by omega)
  | succ fuel ih =>
    intro i value hi hset hval
    rw [decodeUintvarLoop]
    by_cases hc : i < len ∧ i < 5
    · rw [if_pos hc]
      dsimp only
      have hv1 : ((value <<< 7) % 2 ^ w) ||| (data.getD i 0 &&& 0x7F)
          = concat7 (data.take (i + 1)) % 2 ^ w := by
        rw [hval, decode_accumulate w _ _ hw, take_succ_getD data i (by omega),
          concat7_append_singleton]
      by_cases hbit : data.getD i 0 &&& 0x80 = 0
      · right
        rw [if_pos hbit]
        dsimp only
        rw [Nat.add_sub_cancel]
        exact ⟨by omega, by omega, hbit, hset, hv1⟩
      · rw [if_neg hbit]
        have := ih (i + 1) _ (by omega)
          (by
            intro j hj
            by_cases hji : j = i
            · rw [hji]; exact hbit
            · exact hset j (by omega))
          hv1
        rcases this with h | h
        · exact Or.inl h
        · exact Or.inr ⟨by omega, h.2⟩
    · rw [if_neg hc]
      left
      refine ⟨rfl, ?_⟩
      intro j hj
      exact hset j (by omega)

theorem uintvarGroups_length (x : Nat) : ∀ m, (uintvarGroups x m).length = m := by
  intro m
  induction m with
  | zero => rfl
  | succ m ih => simp [uintvarGroups, ih]

theorem uintvarGroups_range (x : Nat) : ∀ m, ∀ g ∈ uintvarGroups x m, 128 ≤ g ∧ g < 256 := by
  intro m
  induction m with
  | zero => intro g hg; simp [uintvarGroups] at hg
  | succ m ih =>
    intro g hg
    simp only [uintvarGroups, List.mem_cons] at hg
    rcases hg with rfl | hg
    · have := Nat.mod_lt (x / 128 ^ m) (show 0 < 128 by norm_num)
      omega
    · exact ih g hg

theorem concat7_uintvarGroups (x : Nat) : ∀ m, concat7 (uintvarGroups x m) = x % 128 ^ m := by
  intro m
  induction m with
  | zero => simp [uintvarGroups, concat7, Nat.mod_one]
  | succ m ih =>
    simp only [uintvarGroups, concat7, List.foldl_cons]
    rw [concat7_foldl, ih, uintvarGroups_length, Nat.mod_pow_succ]
    have e : (x / 128 ^ m % 128 + 128) % 128 = x / 128 ^ m % 128 := by omega
    rw [Nat.zero_mul, Nat.zero_add, e]
    ring

theorem uintvarLen_range (v : Nat) : 1 ≤ uintvarLen v ∧ uintvarLen v ≤ 5 := by
  simp only [uintvarLen]
  split_ifs <;> omega

theorem uintvarBytes_length (v : Nat) : (uintvarBytes v).length = uintvarLen v := by
  have := uintvarLen_range v
  simp only [uintvarBytes, List.length_append, uintvarGroups_length, List.length_singleton]
  omega

theorem uintvarLen_holds (v : Nat) (hv : v < 2 ^ 35) :
    v < 128 ^ uintvarLen v ∧ (uintvarLen v = 1 ∨ 128 ^ (uintvarLen v - 1) ≤ v) := by
  simp only [uintvarLen]
  norm_num at hv ⊢
  split_ifs <;> norm_num <;> omega

/-- The groups of the uintvar of `v`, read back, give `v`. -/
theorem concat7_uintvarBytes (v : Nat) (hv : v < 2 ^ 35) : concat7 (uintvarBytes v) = v := by
  have hk := (uintvarLen_holds v hv).1
  have hr := uintvarLen_range v
  rw [uintvarBytes, concat7_append_singleton, concat7_uintvarGroups]
  obtain ⟨m, hm⟩ : ∃ m, uintvarLen v = m + 1 := ⟨uintvarLen v - 1, by omega⟩
  rw [hm, pow_succ] at hk
  rw [hm, Nat.add_sub_cancel]
  have hlt : v / 128 < 128 ^ m := by
    apply Nat.div_lt_of_lt_mul
    rw [Nat.mul_comm]; exact hk
  rw [Nat.mod_eq_of_lt hlt, Nat.mod_mod]
  omega

/-- Bit `0x80` in the bytes of a uintvar: set before the last byte, clear in it. -/
theorem uintvarBytes_bits (v : Nat) (rest : List Nat) :
    (∀ j, j < uintvarLen v - 1 → (uintvarBytes v ++ rest).getD j 0 &&& 0x80 ≠ 0) ∧
    (uintvarBytes v ++ rest).getD (uintvarLen v - 1) 0 &&& 0x80 = 0 := by
  have hr := uintvarLen_range v
  have hl := uintvarGroups_length (v / 128) (uintvarLen v - 1)
  constructor
  · intro j hj
    rw [uintvarBytes, List.append_assoc, List.getD_append _ _ _ _ (by omega),
      List.getD_eq_getElem _ _ (by omega)]
    have := uintvarGroups_range (v / 128) (uintvarLen v - 1) _
      (List.getElem_mem (by omega : j < (uintvarGroups (v / 128) (uintvarLen v - 1)).length))
    intro h0
    have := (and_80_eq_zero _ this.2).mp h0
    omega
  · rw [uintvarBytes, List.append_assoc, List.getD_append_right _ _ _ _ (by omega), hl,
      Nat.sub_self]
    simp only [List.singleton_append, List.getD_cons_zero]
    exact (and_80_eq_zero _ (by omega)).mpr (Nat.mod_lt _ (by norm_num))

/-! ### The default Get request -/

theorem strlen_of_no_nul (s : List Nat) (h : ∀ c ∈ s, c ≠ 0) : strlen s = s.length := by
  rw [strlen, List.takeWhile_eq_self_iff.mpr]
  intro c hc
  simpa using h c hc

theorem strlen_append_nul (s rest : List Nat) (h : ∀ c ∈ s, c ≠ 0) :
    strlen (s ++ 0 :: rest) = s.length := by
  induction s with
  | nil => simp [strlen]
  | cons a s ih =>
    have ha : a ≠ 0 := h a (List.mem_cons_self _ _)
    have := ih (fun c hc => h c (List.mem_cons_of_mem _ hc))
    simp only [strlen] at this ⊢
    rw [List.cons_append, List.takeWhile_cons_of_pos (by simpa using ha), List.length_cons, this,
      List.length_cons]

theorem take_length_takeWhile (p : Nat → Bool) (l : List Nat) :
    l.take (l.takeWhile p).length = l.takeWhile p := by
  induction l with
  | nil => rfl
  | cons a l ih =>
    by_cases h : p a = true
    · simp [List.takeWhile_cons, h, ih]
    · simp [List.takeWhile_cons, h]

theorem takeWhile_length_le (p : Nat → Bool) (l : List Nat) :
    (l.takeWhile p).length ≤ l.length := by
  induction l with
  | nil => simp
  | cons a l ih =>
    by_cases h : p a = true
    · simp [List.takeWhile_cons, h, ih]
    · simp [List.takeWhile_cons, h]

theorem hostScan_stripScheme (url : List Nat) : hostScan (stripScheme url) = hostPart url := by
  rw [hostScan, hostPart]
  congr 1
  funext c
  simp only [endsHost]
  by_cases h0 : c = 0 <;> by_cases h1 : c = 58 <;> by_cases h2 : c = 47 <;>
    by_cases h3 : c = 63 <;> simp [h0, h1, h2, h3]

theorem hostPart_not_endsHost (url : List Nat) : ∀ c ∈ hostPart url, endsHost c = false := by
  intro c hc
  have := List.mem_takeWhile_imp hc
  simpa using this

theorem hostPart_no_nul (url : List Nat) : ∀ c ∈ hostPart url, c ≠ 0 := by
  intro c hc h0
  have := hostPart_not_endsHost url c hc
  rw [h0] at this
  exact absurd this (by decide)

/-- The flag and the buffer of `extractHostFromUrl` in terms of `hostPart`. -/
theorem extractHostFromUrl_eq (url buf : List Nat) (size : Nat) (hsize : size ≤ buf.length) :
    extractHostFromUrl url buf size
      = if (hostPart url).length = 0 ∨ (hostPart url).length ≥ size then (false, buf)
        else (true, hostPart url ++ 0 :: buf.drop ((hostPart url).length + 1)) := by
  have hdef : extractHostFromUrl url buf size
      = if size = 0 then (false, buf)
        else if (hostScan (stripScheme url)).length = 0
            ∨ (hostScan (stripScheme url)).length ≥ size then (false, buf)
        else (true, (memcpy buf 0 (stripScheme url) (hostScan (stripScheme url)).length).set
          (hostScan (stripScheme url)).length 0) := rfl
  rw [hdef, hostScan_stripScheme]
  by_cases h0 : size = 0
  · rw [if_pos h0, if_pos (Or.inr (by omega))]
  · rw [if_neg h0]
    by_cases hc : (hostPart url).length = 0 ∨ (hostPart url).length ≥ size
    · rw [if_pos hc, if_pos hc]
    · rw [if_neg hc, if_neg hc]
      have hlt : (hostPart url).length < buf.length := by omega
      have hle : (hostPart url).length ≤ (stripScheme url).length :=
        takeWhile_length_le (fun c => !endsHost c) (stripScheme url)
      have htake : (stripScheme url).take (hostPart url).length = hostPart url :=
        take_length_takeWhile (fun c => !endsHost c) (stripScheme url)
      have hcopy := memcpy_eq (stripScheme url) (hostPart url).length [] buf hle (by omega)
      simp only [List.nil_append, List.length_nil] at hcopy
      rw [hcopy, htake]
      have hd : buf.drop (hostPart url).length
          = buf.getD (hostPart url).length 0 :: buf.drop ((hostPart url).length + 1) := by
        rw [List.getD_eq_getElem _ _ hlt]
        exact List.drop_eq_getElem_cons hlt
      rw [hd, Base91.set_len0]

theorem drop_cons_getD (l : List Nat) (n : Nat) (h : n < l.length) :
    l.drop n = l.getD n 0 :: l.drop (n + 1) := by
  rw [List.getD_eq_getElem _ _ h]
  exact List.drop_eq_getElem_cons h

/-- A text header: field byte, the string at `s`, terminator. -/
theorem textHeader_eq (code : Nat) (s mem out : List Nat) (size : Nat)
    (hs : ∀ c ∈ s, c ≠ 0) (hmem : mem = s ∨ ∃ rest, mem = s ++ 0 :: rest)
    (hsize : s.length + 2 ≤ size) (hout : size ≤ out.length) :
    (let hostLen := strlen mem
     let needed := 1 + hostLen + 1
     if needed > size then (0, out)
     else
       let out1 := out.set 0 code
       let out2 := memcpy out1 1 mem hostLen
       let pos := 1 + hostLen
       (pos + 1, out2.set pos 0x00))
      = (s.length + 2, [code] ++ s ++ [0] ++ out.drop (s.length + 2)) := by
  have hlen : strlen mem = s.length := by
    rcases hmem with h | ⟨rest, h⟩
    · rw [h]; exact strlen_of_no_nul s hs
    · rw [h]; exact strlen_append_nul s rest hs
  have htake : mem.take s.length = s := by
    rcases hmem with h | ⟨rest, h⟩
    · rw [h, List.take_length]
    · rw [h, List.take_left]
  have hml : s.length ≤ mem.length := by
    rcases hmem with h | ⟨rest, h⟩
    · rw [h]
    · rw [h, List.length_append]; omega
  dsimp only
  rw [hlen, if_neg (by omega)]
  match out, hout with
  | [], hout => simp at hout; omega
  | o0 :: out, hout =>
    simp only [List.length_cons] at hout
    rw [List.set_cons_zero]
    have hcopy := memcpy_eq mem s.length [code] out hml (by omega)
    simp only [List.length_cons, List.length_nil, Nat.zero_add] at hcopy
    rw [show code :: out = [code] ++ out from rfl, hcopy, htake,
      drop_cons_getD out s.length (by omega)]
    have hl : 1 + s.length = ([code] ++ s).length := by
      simp only [List.length_append, List.length_cons, List.length_nil, Nat.zero_add]
    rw [hl, Base91.set_len0]
    refine Prod.ext (by simp only [List.length_append, List.length_cons, List.length_nil]; omega) ?_
    simp only [List.append_assoc, List.cons_append, List.nil_append, List.singleton_append]
    rw [show s.length + 2 = (s.length + 1) + 1 from rfl, List.drop_succ_cons]

theorem createHostHeader_eq (s mem out : List Nat) (size : Nat)
    (hs : ∀ c ∈ s, c ≠ 0) (hmem : mem = s ∨ ∃ rest, mem = s ++ 0 :: rest)
    (hsize : s.length + 2 ≤ size) (hout : size ≤ out.length) :
    createHostHeader mem out size
      = (s.length + 2, [0x96] ++ s ++ [0] ++ out.drop (s.length + 2)) :=
  textHeader_eq (WSP_HEADER_HOST ||| 0x80) s mem out size hs hmem hsize hout

theorem createUserAgentHeader_eq (s mem out : List Nat) (size : Nat)
    (hs : ∀ c ∈ s, c ≠ 0) (hmem : mem = s ∨ ∃ rest, mem = s ++ 0 :: rest)
    (hsize : s.length + 2 ≤ size) (hout : size ≤ out.length) :
    createUserAgentHeader mem out size
      = (s.length + 2, [0xA9] ++ s ++ [0] ++ out.drop (s.length + 2)) :=
  textHeader_eq (WSP_HEADER_USER_AGENT ||| 0x80) s mem out size hs hmem hsize hout

/-- With room for 12 bytes `createAcceptAllHeaders` stores its six entries. -/
theorem createAcceptAllHeaders_eq (out : List Nat) (size : Nat)
    (hsize : 12 ≤ size) (hout : size ≤ out.length) :
    createAcceptAllHeaders out size
      = (12, [0x80, 0x94, 0x80, 0x95, 0x80, 0xA1, 0x80, 0x83, 0x81, 0xEA, 0x81, 0x84]
          ++ out.drop 12) := by
  match out, hout with
  | a0 :: a1 :: a2 :: a3 :: a4 :: a5 :: a6 :: a7 :: a8 :: a9 :: a10 :: a11 :: rest, _ =>
    have c1 : (WSP_HEADER_ACCEPT ||| 0x80) = 0x80 := by decide
    have c2 : (WSP_CT_APP_VND_WAP_WMLC ||| 0x80) % 256 = 0x94 := by decide
    have c3 : (WSP_CT_APP_VND_WAP_WMLSCRIPTC ||| 0x80) % 256 = 0x95 := by decide
    have c4 : (WSP_CT_IMAGE_VND_WAP_WBMP ||| 0x80) % 256 = 0xA1 := by decide
    have c5 : (WSP_CT_TEXT_PLAIN ||| 0x80) % 256 = 0x83 := by decide
    have c6 : (WSP_HEADER_ACCEPT_CHARSET ||| 0x80) = 0x81 := by decide
    have c7 : (106 ||| 0x80) % 256 = 0xEA := by decide
    have c8 : (4 ||| 0x80) % 256 = 0x84 := by decide
    have s1 : ∀ (f : List Nat → Nat → Nat × List Nat) (p : Nat) (b : List Nat), p + 2 ≤ size →
        acceptStep f size (p, b) = (p + (f (b.drop p) (size - p)).1,
          b.take p ++ (f (b.drop p) (size - p)).2) := by
      intro f p b hp
      simp only [acceptStep, if_pos hp]
    have a : ∀ (code : Nat) (x y : Nat) (r : List Nat) (n : Nat), 2 ≤ n →
        createAcceptHeader code (x :: y :: r) n
          = (2, (WSP_HEADER_ACCEPT ||| 0x80) :: ((code ||| 0x80) % 256) :: r) := by
      intro code x y r n hn
      simp only [createAcceptHeader, if_neg (by omega : ¬ n < 2), List.set_cons_zero,
        List.set_cons_succ]
    have b : ∀ (code : Nat) (x y : Nat) (r : List Nat) (n : Nat), 2 ≤ n → code ≤ 127 →
        createAcceptCharsetHeader code (x :: y :: r) n
          = (2, (WSP_HEADER_ACCEPT_CHARSET ||| 0x80) :: ((code ||| 0x80) % 256) :: r) := by
      intro code x y r n hn hc
      simp only [createAcceptCharsetHeader, if_neg (by omega : ¬ 0 ≥ n), if_pos hc,
        if_neg (by omega : ¬ 0 + 1 ≥ n), List.set_cons_zero, List.set_cons_succ, Nat.zero_add]
    rw [createAcceptAllHeaders]
    rw [s1 _ 0 _ (by omega)]
    simp only [List.drop_zero, List.take_zero, List.nil_append, a _ _ _ _ _ (by omega : 2 ≤ size - 0),
      Nat.zero_add]
    rw [s1 _ 2 _ (by omega)]
    simp only [List.drop_succ_cons, List.drop_zero, List.take_succ_cons, List.take_zero,
      a _ _ _ _ _ (by omega : 2 ≤ size - 2), List.cons_append, List.nil_append]
    rw [s1 _ (2 + 2) _ (by omega)]
    simp only [List.drop_succ_cons, List.drop_zero, List.take_succ_cons, List.take_zero,
      a _ _ _ _ _ (by omega : 2 ≤ size - (2 + 2)), List.cons_append, List.nil_append]
    rw [s1 _ (2 + 2 + 2) _ (by omega)]
    simp only [List.drop_succ_cons, List.drop_zero, List.take_succ_cons, List.take_zero,
      a _ _ _ _ _ (by omega : 2 ≤ size - (2 + 2 + 2)), List.cons_append, List.nil_append]
    rw [s1 _ (2 + 2 + 2 + 2) _ (by omega)]
    simp only [List.drop_succ_cons, List.drop_zero, List.take_succ_cons, List.take_zero,
      b _ _ _ _ _ (by omega : 2 ≤ size - (2 + 2 + 2 + 2)) (by omega : 106 ≤ 127),
      List.cons_append, List.nil_append]
    rw [s1 _ (2 + 2 + 2 + 2 + 2) _ (by omega)]
    simp only [List.drop_succ_cons, List.drop_zero, List.take_succ_cons, List.take_zero,
      b _ _ _ _ _ (by omega : 2 ≤ size - (2 + 2 + 2 + 2 + 2)) (by omega : 4 ≤ 127),
      List.cons_append, List.nil_append, c1, c2, c3, c4, c5, c6, c7, c8]
  | [], h => simp at h; omega
  | [_], h => simp at h; omega
  | [_, _], h => simp at h; omega
  | [_, _, _], h => simp at h; omega
  | [_, _, _, _], h => simp at h; omega
  | [_, _, _, _, _], h => simp at h; omega
  | [_, _, _, _, _, _], h => simp at h; omega
  | [_, _, _, _, _, _, _], h => simp at h; omega
  | [_, _, _, _, _, _, _, _], h => simp at h; omega
  | [_, _, _, _, _, _, _, _, _], h => simp at h; omega
  | [_, _, _, _, _, _, _, _, _, _], h => simp at h; omega
  | [_, _, _, _, _, _, _, _, _, _, _], h => simp at h; omega

/-- The Get PDU for a header array of which the first `n` bytes are used. -/
theorem createGetRequestWithHeaders_prefix (w : Nat) (u : List Nat) (t : Nat) (hdr : List Nat)
    (n : Nat) (buf : List Nat) (size : Nat)
    (hu0 : u ≠ []) (hu : ∀ c ∈ u, c ≠ 0) (ht : t < 256) (hn : n ≤ hdr.length)
    (hsize : 7 + u.length + n ≤ size) (hbuf : size ≤ buf.length) :
    createGetRequestWithHeaders w (some u) t (some hdr) n buf size
      = (2 + (uintvarOf w u.length).length + u.length + n,
          [t, 0x40] ++ uintvarOf w u.length ++ u ++ hdr.take n ++
            buf.drop (2 + (uintvarOf w u.length).length + u.length + n)) := by
  have hstr : strlen u = u.length := strlen_of_no_nul u hu
  have hpos : u.length ≠ 0 := by
    intro h; exact hu0 (List.length_eq_zero.mp h)
  have htl := encodeUintvarTemp_length w u.length
  have hget : GET_PDU_TYPE ||| WSP_GET = 0x40 := by decide
  match buf, hbuf with
  | [], hbuf => simp at hbuf; omega
  | [_], hbuf => simp at hbuf; omega
  | b0 :: b1 :: rest, hbuf =>
    simp only [List.length_cons] at hbuf
    have hmax : ¬ (1 + 1 + 5 + u.length + n > size) := by omega
    have henc := encodeUintvar_eq w u.length rest (size - 2) (by omega)
    rw [if_pos (by omega)] at henc
    simp only [createGetRequestWithHeaders, hstr, if_neg hpos, if_neg hmax,
      Nat.mod_eq_of_lt ht, List.set_cons_zero, List.set_cons_succ, Nat.zero_add,
      List.drop_succ_cons, List.drop_zero, List.take_succ_cons, List.take_zero, hget]
    rw [show size - (1 + 1) = size - 2 from rfl, henc]
    dsimp only
    rw [uintvarOf]
    generalize encodeUintvarTemp w u.length = T at htl ⊢
    have hk0 : ¬ (T.length = 0) := by omega
    have hfit : ¬ (1 + 1 + T.length + u.length > size) := by omega
    rw [if_neg hk0, if_neg hfit]
    have hcopy : memcpy ([t, 64] ++ (T.reverse ++ List.drop T.length rest)) (1 + 1 + T.length)
        u u.length = ([t, 64] ++ T.reverse) ++ u ++ (rest.drop T.length).drop u.length :=
      memcpy_at _ u ([t, 64] ++ T.reverse) (rest.drop T.length) _ _ (by simp)
        (by simp only [List.length_append, List.length_cons, List.length_nil,
          List.length_reverse, Nat.zero_add])
        rfl (by rw [List.length_drop]; omega)
    have hdrop : ∀ k, List.drop (2 + k) (b0 :: b1 :: rest) = List.drop k rest := by
      intro k
      rw [Nat.add_comm 2 k]
      rfl
    rw [hcopy, List.length_reverse]
    by_cases hH : n > 0
    · have hfit2 : ¬ (1 + 1 + T.length + u.length + n > size) := by omega
      rw [if_pos hH, if_neg hfit2]
      have hl : 1 + 1 + T.length + u.length = ([t, 64] ++ T.reverse ++ u).length := by
        simp only [List.length_append, List.length_cons, List.length_nil,
          List.length_reverse, Nat.zero_add]
      rw [hl, memcpy_eq hdr n ([t, 64] ++ T.reverse ++ u) ((rest.drop T.length).drop u.length)
        hn (by rw [List.length_drop, List.length_drop]; omega)]
      simp only [List.drop_drop]
      refine Prod.ext (by simp only [← hl]) ?_
      simp only
      rw [← hl, show 1 + 1 + T.length + u.length + n = 2 + (T.length + u.length + n)
        by omega, hdrop]
    · have hnil : n = 0 := by omega
      subst hnil
      rw [if_neg hH]
      simp only [List.take_zero, Nat.add_zero, List.append_nil, List.drop_drop]
      refine Prod.ext (by simp only) ?_
      simp only
      rw [show 2 + T.length + u.length = 2 + (T.length + u.length) by omega, hdrop]

theorem defaultHeaders_eq (h : List Nat) :
    defaultHeaders h = ([0x96] ++ h ++ [0x00]) ++ defaultHeadersNoHost := by
  simp only [defaultHeaders, defaultHeadersNoHost, List.append_assoc]

theorem defaultHeadersNoHost_length : defaultHeadersNoHost.length = 21 := by decide

/-- The header block `createGetRequest` hands to `createGetRequestWithHeaders`:
Host only when `extractHostFromUrl` succeeds. -/
theorem createGetRequest_headers (w : Nat) (u : List Nat) (t : Nat) (out : List Nat) (size : Nat)
    (headers0 host0 : List Nat) (HB : List Nat)
    (hh : headers0.length = 128) (hhost : host0.length = 64)
    (hHB : HB = if (hostPart u).length = 0 ∨ (hostPart u).length ≥ 64 then defaultHeadersNoHost
      else defaultHeaders (hostPart u)) :
    ∃ H : List Nat, H.length = 128 ∧ H.take HB.length = HB ∧
      createGetRequest w u t out size true headers0 host0
        = createGetRequestWithHeaders w (some u) t (some H) HB.length out size := by
  rw [createGetRequest]
  simp only [↓reduceIte]
  generalize hg : (if (extractHostFromUrl u host0 64).1 = true
    then createHostHeader (extractHostFromUrl u host0 64).2 headers0 128
    else (0, headers0)) = h1
  have hh1 : ∃ P rest, h1 = (P.length, P ++ rest) ∧ HB = P ++ defaultHeadersNoHost
      ∧ (P ++ rest).length = 128 ∧ P.length ≤ 65 := by
    rw [extractHostFromUrl_eq u host0 64 (by omega)] at hg
    by_cases hc : (hostPart u).length = 0 ∨ (hostPart u).length ≥ 64
    · rw [if_pos hc] at hg hHB
      simp only [Bool.false_eq_true, if_false] at hg
      exact ⟨[], headers0, by rw [← hg]; rfl, by rw [hHB]; rfl, by simpa using hh, by simp⟩
    · rw [if_neg hc] at hg hHB
      simp only [if_true] at hg
      rw [createHostHeader_eq (hostPart u) _ headers0 128 (hostPart_no_nul u)
        (Or.inr ⟨_, rfl⟩) (by omega) (by omega)] at hg
      refine ⟨[0x96] ++ hostPart u ++ [0], headers0.drop ((hostPart u).length + 2), ?_, ?_, ?_, ?_⟩
      · rw [← hg]
        refine Prod.ext ?_ rfl
        simp only [List.length_append, List.length_cons, List.length_nil]
        omega
      · rw [hHB, defaultHeaders_eq]
      · simp only [List.length_append, List.length_cons, List.length_nil, List.length_drop]
        omega
      · simp only [List.length_append, List.length_cons, List.length_nil]
        omega
  obtain ⟨P, rest, h1eq, hHBeq, hlen, hP⟩ := hh1
  subst h1eq
  have hrest : rest.length = 128 - P.length := by
    rw [List.length_append] at hlen; omega
  dsimp only
  rw [List.drop_left, List.take_left,
    createUserAgentHeader_eq (asciiBytes "MAP/1.0") (asciiBytes "MAP/1.0") rest (128 - P.length)
      (by decide) (Or.inl rfl) (by rw [show (asciiBytes "MAP/1.0").length = 7 from rfl]; omega)
      (by omega)]
  dsimp only
  have hl2 : P.length + ((asciiBytes "MAP/1.0").length + 2)
      = (P ++ ([0xA9] ++ asciiBytes "MAP/1.0" ++ [0])).length := by
    simp only [List.length_append, List.length_cons, List.length_nil]
    omega
  have hassoc : P ++ ([0xA9] ++ asciiBytes "MAP/1.0" ++ [0]
        ++ List.drop ((asciiBytes "MAP/1.0").length + 2) rest)
      = (P ++ ([0xA9] ++ asciiBytes "MAP/1.0" ++ [0]))
        ++ List.drop ((asciiBytes "MAP/1.0").length + 2) rest := by
    simp only [List.append_assoc]
  rw [hassoc, hl2, List.drop_left, List.take_left,
    createAcceptAllHeaders_eq _ _
      (by rw [← hl2, show (asciiBytes "MAP/1.0").length = 7 from rfl]; omega)
      (by rw [← hl2, List.length_drop, show (asciiBytes "MAP/1.0").length = 7 from rfl]; omega)]
  dsimp only
  have hHBlen : HB.length = P.length + 21 := by
    rw [hHBeq, List.length_append, defaultHeadersNoHost_length]
  have hn : (P ++ ([0xA9] ++ asciiBytes "MAP/1.0" ++ [0])).length + 12 = HB.length := by
    rw [← hl2, hHBlen, show (asciiBytes "MAP/1.0").length = 7 from rfl]
  have htake : List.take HB.length (P ++ ([0xA9] ++ asciiBytes "MAP/1.0" ++ [0]) ++
      ([0x80, 0x94, 0x80, 0x95, 0x80, 0xA1, 0x80, 0x83, 0x81, 0xEA, 0x81, 0x84] ++
        List.drop 12 (List.drop ((asciiBytes "MAP/1.0").length + 2) rest))) = HB := by
    have : P ++ ([0xA9] ++ asciiBytes "MAP/1.0" ++ [0]) ++
      ([0x80, 0x94, 0x80, 0x95, 0x80, 0xA1, 0x80, 0x83, 0x81, 0xEA, 0x81, 0x84] ++
        List.drop 12 (List.drop ((asciiBytes "MAP/1.0").length + 2) rest))
        = HB ++ List.drop 12 (List.drop ((asciiBytes "MAP/1.0").length + 2) rest) := by
      rw [hHBeq, defaultHeadersNoHost]
      simp only [List.append_assoc, List.cons_append, List.nil_append]
    rw [this, List.take_left]
  rw [hn]
  refine ⟨_, ?_, htake, rfl⟩
  simp only [List.length_append, List.length_cons, List.length_nil, List.length_drop]
  rw [show (asciiBytes "MAP/1.0").length = 7 from rfl]
  omega

theorem createGetRequest_eq (w : Nat) (u : List Nat) (t : Nat) (out : List Nat) (size : Nat)
    (headers0 host0 : List Nat) (HB : List Nat)
    (hu0 : u ≠ []) (hu : ∀ c ∈ u, c ≠ 0) (ht : t < 256)
    (hh : headers0.length = 128) (hhost : host0.length = 64)
    (hHB : HB = if (hostPart u).length = 0 ∨ (hostPart u).length ≥ 64 then defaultHeadersNoHost
      else defaultHeaders (hostPart u))
    (hsize : 7 + u.length + HB.length ≤ size) (hbuf : size ≤ out.length) :
    createGetRequest w u t out size true headers0 host0
      = (2 + (uintvarOf w u.length).length + u.length + HB.length,
          [t, 0x40] ++ uintvarOf w u.length ++ u ++ HB ++
            out.drop (2 + (uintvarOf w u.length).length + u.length + HB.length)) := by
  obtain ⟨H, hlen, htake, heq⟩ :=
    createGetRequest_headers w u t out size headers0 host0 HB hh hhost hHB
  have hle : HB.length ≤ H.length := by
    have := congrArg List.length htake
    rw [List.length_take] at this
    omega
  rw [heq, createGetRequestWithHeaders_prefix w u t H HB.length out size hu0 hu ht hle hsize hbuf,
    htake]

/-- Without room for `1 + 1 + 5 + uriLen + headersLen` bytes nothing is stored. -/
theorem createGetRequestWithHeaders_small (w : Nat) (u : List Nat) (t : Nat)
    (hdr : Option (List Nat)) (n : Nat) (buf : List Nat) (size : Nat)
    (hsize : size < 7 + strlen u + n) :
    createGetRequestWithHeaders w (some u) t hdr n buf size = (0, buf) := by
  rw [createGetRequestWithHeaders]
  dsimp only
  by_cases h0 : strlen u = 0
  · rw [if_pos h0]
  · rw [if_neg h0, if_pos (by omega)]

theorem createGetRequest_small (w : Nat) (u : List Nat) (t : Nat) (out : List Nat) (size : Nat)
    (headers0 host0 : List Nat) (HB : List Nat)
    (hh : headers0.length = 128) (hhost : host0.length = 64)
    (hHB : HB = if (hostPart u).length = 0 ∨ (hostPart u).length ≥ 64 then defaultHeadersNoHost
      else defaultHeaders (hostPart u))
    (hsize : size < 7 + strlen u + HB.length) :
    createGetRequest w u t out size true headers0 host0 = (0, out) := by
  obtain ⟨H, _, _, heq⟩ :=
    createGetRequest_headers w u t out size headers0 host0 HB hh hhost hHB
  rw [heq, createGetRequestWithHeaders_small w u t _ _ out size hsize]

/-! ### The table of `wspStatusToHttp`, byte by byte -/

set_option maxRecDepth 100000 in
theorem wspStatusToHttp_low : ∀ s, s < 256 →
    (s ∈ wspStatusCases → s < 0x50 → wspStatusToHttp s / 100 = Int.ofNat (s >>> 4)) := by
  decide

set_option maxRecDepth 100000 in
theorem wspStatusToHttp_5x : ∀ s, s < 256 →
    (s ∈ wspStatusCases → 0x50 ≤ s → s < 0x60 → wspStatusToHttp s / 100 = 4) := by
  decide

set_option maxRecDepth 100000 in
theorem wspStatusToHttp_6x : ∀ s, s < 256 →
    (s ∈ wspStatusCases → 0x60 ≤ s → wspStatusToHttp s / 100 = 5) := by
  decide

set_option maxRecDepth 100000 in
theorem wspStatusToHttp_default : ∀ s, s < 256 →
    (s ∉ wspStatusCases → wspStatusToHttp s = 500) := by
  decide

/-! ### When `decodeUintvar` fails -/

theorem getD_drop (l : List Nat) (n j : Nat) : (l.drop n).getD j 0 = l.getD (n + j) 0 := by
  simp only [List.getD_eq_getElem?_getD, List.getElem?_drop]

/-- `decodeUintvar` fails exactly when none of the first `min len 5` bytes ends
the uintvar. -/
theorem decodeUintvar_zero_iff (w : Nat) (data : List Nat) (len o : Nat) (hw : 7 ≤ w)
    (hlen : len ≤ data.length) :
    (decodeUintvar w data len o).1 = 0 ↔ ∀ j, j < min len 5 → data.getD j 0 &&& 0x80 ≠ 0 := by
  by_cases hlen0 : len = 0
  · simp [decodeUintvar, hlen0]
  · simp only [decodeUintvar, hlen0, if_false]
    have hspec := decodeUintvarLoop_spec w data len o hw hlen 5 0 0 (by norm_num)
      (by intro j hj; omega) (by simp [concat7])
    generalize decodeUintvarLoop w data len o 5 0 0 = r at hspec ⊢
    obtain ⟨r1, r2⟩ := r
    simp only at hspec ⊢
    rcases hspec with ⟨h0, hall⟩ | ⟨h1, h2, h3, h4, h5⟩
    · simp only [Prod.mk.injEq] at h0
      exact ⟨fun _ => hall, fun _ => h0.1⟩
    · exact ⟨fun h => by omega, fun hall => absurd h3 (hall (r1 - 1) (by omega))⟩

end WAPRequest

namespace WAPResponse

/-! ### The Reply parser -/

/-- The flag `decodeWithoutTID` returns comes from its three early exits. -/
theorem decodeWithoutTID_flag (w : Nat) (data : List Nat) (len : Nat) (resp : HTTPResponse) :
    (decodeWithoutTID w data len resp).1
      = if len < 3 then false
        else if data.getD 0 0 ≠ 0x04 then false
        else if (WAPRequest.decodeUintvar w (data.drop 2) (len - 2) 0).1 = 0 then false
        else true := by
  rw [decodeWithoutTID]
  by_cases h1 : len < 3
  · rw [if_pos h1, if_pos h1]
  · rw [if_neg h1, if_neg h1]
    dsimp only
    by_cases h2 : data.getD 0 0 ≠ 0x04
    · rw [if_pos h2, if_pos h2]
    · rw [if_neg h2, if_neg h2]
      by_cases h3 : (WAPRequest.decodeUintvar w (data.drop 2) (len - 2) 0).1 = 0
      · rw [if_pos h3, if_pos h3]
      · rw [if_neg h3, if_neg h3]

/-- The flag of `decodeWithoutTID` in terms of the PDU bytes. -/
theorem decodeWithoutTID_false_iff (w : Nat) (data : List Nat) (len : Nat) (resp : HTTPResponse)
    (hw : 7 ≤ w) (hlen : len ≤ data.length) :
    (decodeWithoutTID w data len resp).1 = false
      ↔ (len < 3 ∨ data.getD 0 0 ≠ 0x04
          ∨ ∀ j, j < min (len - 2) 5 → data.getD (2 + j) 0 &&& 0x80 ≠ 0) := by
  rw [decodeWithoutTID_flag]
  have hz := WAPRequest.decodeUintvar_zero_iff w (data.drop 2) (len - 2) 0 hw
    (by rw [List.length_drop]; omega)
  simp only [WAPRequest.getD_drop] at hz
  by_cases h1 : len < 3
  · rw [if_pos h1]
    exact ⟨fun _ => Or.inl h1, fun _ => rfl⟩
  · by_cases h2 : data.getD 0 0 ≠ 0x04
    · rw [if_neg h1, if_pos h2]
      exact ⟨fun _ => Or.inr (Or.inl h2), fun _ => rfl⟩
    · rw [if_neg h1, if_neg h2]
      by_cases h3 : (WAPRequest.decodeUintvar w (data.drop 2) (len - 2) 0).1 = 0
      · rw [if_pos h3]
        exact ⟨fun _ => Or.inr (Or.inr (hz.mp h3)), fun _ => rfl⟩
      · rw [if_neg h3]
        refine ⟨fun h => absurd h (by decide), fun h => ?_⟩
        rcases h with h | h | h
        · exact absurd h h1
        · exact absurd h h2
        · exact absurd (hz.mpr h) h3

theorem decode_flag (w : Nat) (pdu : List Nat) (pduLen : Nat) (resp : HTTPResponse) :
    (decode w pdu pduLen resp).1
      = if pduLen < 4 then false
        else (decodeWithoutTID w (pdu.drop 1) (pduLen - 1) HTTPResponse.zero).1 := by
  rw [decode]
  by_cases h : pduLen < 4
  · rw [if_pos h, if_pos h]
  · rw [if_neg h, if_neg h]

set_option maxRecDepth 100000 in
/-- Every string `contentTypeToString` returns is shorter than 63 characters. -/
theorem contentTypeToString_length : ∀ code, code < 128 →
    (contentTypeToString code).length < 63 := by
  decide

set_option maxRecDepth 100000 in
theorem contentTypeToString_no_nul : ∀ code, code < 128 →
    ∀ c ∈ contentTypeToString code, c ≠ 0 := by
  decide

set_option maxRecDepth 100000 in
theorem and_7F_short : ∀ c, c < 256 → 0x80 ≤ c → c &&& 0x7F = c - 0x80 := by
  decide

theorem cstr_append_nul (s rest : List Nat) (h : ∀ c ∈ s, c ≠ 0) :
    cstr (s ++ 0 :: rest) = s := by
  induction s with
  | nil => simp [cstr]
  | cons a s ih =>
    have ha : a ≠ 0 := h a (List.mem_cons_self _ _)
    have := ih (fun c hc => h c (List.mem_cons_of_mem _ hc))
    simp only [cstr] at this ⊢
    rw [List.cons_append, List.takeWhile_cons_of_pos (by simpa using ha), this]

/-- The string left by `strncpy(dest, src, n); dest[n] = 0` for a source shorter
than `n`. -/
theorem cstr_strncpy (dest src : List Nat) (n : Nat) (h : ∀ c ∈ src, c ≠ 0)
    (hlen : src.length < n) : cstr ((strncpy dest src n).set n 0) = src := by
  have htake : (src.take n).takeWhile (fun c => c ≠ 0) = src := by
    rw [List.take_of_length_le (by omega), List.takeWhile_eq_self_iff.mpr]
    intro c hc
    simpa using h c hc
  rw [strncpy, htake]
  obtain ⟨k, hk⟩ : ∃ k, n - src.length = k + 1 := ⟨n - src.length - 1, by omega⟩
  rw [hk, List.replicate_succ, List.append_assoc, List.set_append_right _ _ (by omega),
    show n - src.length = k + 1 from hk, List.cons_append, List.set_cons_succ]
  exact cstr_append_nul src _ h

theorem readMultiOctet_left (w : Nat) : ∀ (n : Nat) (c : Cursor) (v : Nat),
    (readMultiOctet w n c v).1.left ≤ c.left := by
  intro n
  induction n with
  | zero => intro c v; exact le_refl _
  | succ n ih =>
    intro c v
    rw [readMultiOctet]
    by_cases h : c.more = true
    · rw [if_pos h]
      have := ih (c.advance 1) (((v <<< 8) % 2 ^ w) ||| c.peek)
      simp only [Cursor.advance] at this ⊢
      omega
    · rw [if_neg h]

/-- One round of the field loop leaves `contentType` alone. -/
theorem fieldStep_contentType (w : Nat) (c : Cursor) (r : HTTPResponse) (c1 : Cursor)
    (r1 : HTTPResponse) (h : fieldStep w c r = some (c1, r1)) :
    r1.contentType = r.contentType := by
  simp only [fieldStep] at h
  split_ifs at h <;>
    simp only [Option.some.injEq, Prod.mk.injEq] at h <;>
    obtain ⟨_, rfl⟩ := h <;> rfl

/-- One round of the field loop moves the position forward. -/
theorem fieldStep_left (w : Nat) (c : Cursor) (r : HTTPResponse) (c1 : Cursor)
    (r1 : HTTPResponse) (h : fieldStep w c r = some (c1, r1)) (hpos : 0 < c.left) :
    c1.left < c.left := by
  have hm := readMultiOctet_left w ((c.advance 1).peek) ((c.advance 1).advance 1) 0
  simp only [fieldStep] at h
  split_ifs at h <;>
    simp only [Option.some.injEq, Prod.mk.injEq] at h <;>
    obtain ⟨rfl, _⟩ := h <;>
    simp only [Cursor.advance, Cursor.skipToNul] at hm ⊢ <;> omega

theorem parseFields_contentType (w : Nat) : ∀ (fuel : Nat) (c : Cursor) (r : HTTPResponse),
    (parseFields w fuel c r).contentType = r.contentType := by
  intro fuel
  induction fuel with
  | zero => intro c r; rfl
  | succ fuel ih =>
    intro c r
    rw [parseFields]
    by_cases hm : c.more = true
    · rw [if_pos hm]
      cases hs : fieldStep w c r with
      | none => rfl
      | some p =>
        obtain ⟨c1, r1⟩ := p
        simp only
        rw [ih c1 r1, fieldStep_contentType w c r c1 r1 hs]
    · rw [if_neg hm]

/-- The loop result does not depend on the fuel once it covers the bytes left. -/
theorem parseFields_fuel (w : Nat) : ∀ (f1 f2 : Nat) (c : Cursor) (r : HTTPResponse),
    c.left ≤ f1 → c.left ≤ f2 → parseFields w f1 c r = parseFields w f2 c r := by
  intro f1
  induction f1 with
  | zero =>
    intro f2 c r h1 _
    have hm : ¬ (c.more = true) := by simp only [Cursor.more, decide_eq_true_eq]; omega
    cases f2 with
    | zero => rfl
    | succ f2 => rw [parseFields, parseFields, if_neg hm]
  | succ f1 ih =>
    intro f2 c r h1 h2
    by_cases hm : c.more = true
    · have hpos : 0 < c.left := by simpa [Cursor.more] using hm
      cases f2 with
      | zero => omega
      | succ f2 =>
        rw [parseFields, parseFields, if_pos hm, if_pos hm]
        cases hs : fieldStep w c r with
        | none => rfl
        | some p =>
          obtain ⟨c1, r1⟩ := p
          simp only
          have := fieldStep_left w c r c1 r1 hs hpos
          exact ih f2 c1 r1 (by omega) (by omega)
    · cases f2 with
      | zero => rw [parseFields, parseFields, if_neg hm]
      | succ f2 => rw [parseFields, parseFields, if_neg hm, if_neg hm]

theorem isText_split (T : List Nat) (h : isText T = true) :
    ∃ S, T = S ++ [0] ∧ ∀ c ∈ S, c ≠ 0 := by
  simp only [isText, Bool.and_eq_true, decide_eq_true_eq, List.all_eq_true] at h
  obtain ⟨hlast, hall⟩ := h
  have hne : T ≠ [] := by
    intro hT
    rw [hT] at hlast
    simp at hlast
  refine ⟨T.dropLast, ?_, hall⟩
  have := List.dropLast_append_getLast hne
  rw [List.getLast?_eq_getLast _ hne, Option.some.injEq] at hlast
  rw [hlast] at this
  exact this.symm

theorem strnlen_text (S Y : List Nat) (m : Nat) (hS : ∀ c ∈ S, c ≠ 0) (hm : S.length < m) :
    strnlen (S ++ 0 :: Y) m = S.length := by
  obtain ⟨k, hk⟩ : ∃ k, m = S.length + (k + 1) := ⟨m - S.length - 1, by omega⟩
  rw [strnlen, hk, List.take_append, List.take_succ_cons]
  exact congrArg List.length (cstr_append_nul S _ hS)

theorem strncpy_prefix (dest S Z : List Nat) :
    strncpy dest (S ++ Z) S.length = strncpy dest S S.length := by
  rw [strncpy, strncpy, List.take_left, List.take_length]

/-- The Content-Type entry moves the position by its length, and what it stores
does not depend on the bytes behind it. -/
theorem parseContentType_skip (C X : List Nat) (k : Nat) (r : HTTPResponse)
    (hC : isContentTypeEntry C = true) :
    parseContentType { mem := C ++ X, left := C.length + k } r
      = ({ mem := X, left := k },
          (parseContentType { mem := C, left := C.length } r).2) := by
  match C, hC with
  | c :: V, hC =>
    have hm : ∀ j, Cursor.more { mem := c :: V ++ X, left := (c :: V).length + j } = true := by
      intro j
      simp only [Cursor.more, List.length_cons, decide_eq_true_eq]
      omega
    have hm0 : Cursor.more { mem := c :: V, left := (c :: V).length } = true := by
      simp only [Cursor.more, List.length_cons, decide_eq_true_eq]
      omega
    rw [parseContentType, parseContentType, if_pos (hm k), if_pos hm0]
    simp only [isContentTypeEntry] at hC
    simp only [Cursor.peek, List.cons_append, List.getD_cons_zero]
    by_cases h80 : 0x80 ≤ c
    · rw [if_pos h80] at hC
      have hV : V = [] := List.isEmpty_iff.mp hC
      subst hV
      rw [if_pos h80, if_pos h80]
      simp only [Cursor.advance, List.nil_append, List.drop_succ_cons, List.drop_zero,
        List.length_cons, List.length_nil, Nat.zero_add]
      refine Prod.ext ?_ rfl
      simp only
      rw [Nat.add_sub_cancel_left]
    · rw [if_neg h80] at hC
      rw [if_neg h80, if_neg h80]
      by_cases h20 : c < 0x20
      · rw [if_pos h20] at hC
        simp only [decide_eq_true_eq] at hC
        obtain ⟨h1, hVlen⟩ := hC
        rw [if_pos h20, if_pos h20]
        cases V with
        | nil =>
          simp only [List.length_nil] at hVlen
          omega
        | cons v V =>
          simp only [Cursor.advance, Cursor.more, List.drop_succ_cons, List.drop_zero,
            List.length_cons, List.cons_append, List.getD_cons_zero, decide_eq_true_eq]
          have e1 : 0 < V.length + 1 + 1 + k - 1 := by omega
          have e2 : 0 < V.length + 1 + 1 - 1 := by omega
          simp only [e1, e2, true_and]
          refine Prod.ext ?_ rfl
          simp only
          rw [← hVlen]
          simp only [List.length_cons]
          rw [show V.length + 1 = (v :: V).length from rfl, ← List.cons_append, List.drop_left]
          have e3 : (v :: V).length + 1 + k - 1 - (v :: V).length = k := by omega
          rw [e3]
      · rw [if_neg h20] at hC
        rw [if_neg h20, if_neg h20]
        obtain ⟨S, hS, hnul⟩ := isText_split _ hC
        rw [← List.cons_append, hS, List.append_assoc, List.singleton_append]
        have hl1 := strnlen_text S X (S.length + 1 + k) hnul (by omega)
        have hl2 := strnlen_text S [] (S.length + 1) hnul (by omega)
        simp only [List.length_append, List.length_cons, List.length_nil, Nat.zero_add]
        rw [hl1, hl2, strncpy_prefix, strncpy_prefix]
        refine Prod.ext ?_ rfl
        have e : S.length + 1 + k - (S.length + 1) = k := by omega
        have hd : List.drop (S.length + 1) (S ++ 0 :: X) = X := by
          rw [show S ++ 0 :: X = (S ++ [0]) ++ X by simp,
            show S.length + 1 = (S ++ [0]).length by simp, List.drop_left]
        simp only [Cursor.advance, hd, e]

/-- A well-known field that is not interpreted is stepped over by its length and
stores nothing. -/
theorem fieldStep_skip (w : Nat) (E Y : List Nat) (k : Nat) (r : HTTPResponse)
    (hE : isSkippedField E = true) :
    fieldStep w { mem := E ++ Y, left := E.length + k } r = some ({ mem := Y, left := k }, r) := by
  match E, hE with
  | fb :: v :: W, hE =>
    simp only [isSkippedField, Bool.and_eq_true, decide_eq_true_eq] at hE
    obtain ⟨⟨hfb, _, h26, h1C, h0D⟩, hV⟩ := hE
    have hmore : ¬ ¬ (Cursor.more (Cursor.advance
        { mem := fb :: v :: W ++ Y, left := (fb :: v :: W).length + k } 1) = true) := by
      simp only [Cursor.more, Cursor.advance, List.length_cons, decide_eq_true_eq, not_not]
      omega
    have hsrv : ¬ (fb &&& 0x7F = WAPRequest.WSP_HEADER_SERVER
        ∧ fb &&& 0x7F < headerNameTableSize) := fun h => h26 h.1
    have hloc : ¬ (fb &&& 0x7F = WAPRequest.WSP_HEADER_LOCATION) := h1C
    have hcl : ¬ (fb &&& 0x7F = WAPRequest.WSP_HEADER_CONTENT_LENGTH) := h0D
    have hpeek : Cursor.peek { mem := fb :: v :: W ++ Y, left := (fb :: v :: W).length + k }
        = fb := rfl
    have hpeek2 : Cursor.peek (Cursor.advance
        { mem := fb :: v :: W ++ Y, left := (fb :: v :: W).length + k } 1) = v := rfl
    rw [fieldStep]
    simp only [hpeek, hpeek2]
    rw [if_pos hfb, if_neg hmore, if_neg hsrv, if_neg hloc, if_neg hcl]
    by_cases h80 : 0x80 ≤ v
    · rw [if_pos h80] at hV
      have hW : W = [] := List.isEmpty_iff.mp hV
      subst hW
      rw [if_pos h80]
      simp only [Cursor.advance, List.cons_append, List.nil_append, List.drop_succ_cons,
        List.drop_zero, List.length_cons, List.length_nil, Nat.zero_add]
      have e : 1 + 1 + k - 1 - 1 = k := by omega
      rw [e]
    · rw [if_neg h80] at hV
      rw [if_neg h80]
      by_cases h31 : v < 31
      · rw [if_pos h31] at hV
        simp only [decide_eq_true_eq] at hV
        subst hV
        rw [if_pos h31]
        simp only [Cursor.advance, List.cons_append, List.drop_succ_cons, List.drop_zero,
          List.length_cons, List.drop_drop]
        have e : W.length + 1 + 1 + k - 1 - (1 + W.length) = k := by omega
        have hd : List.drop (1 + W.length) (W.length :: (W ++ Y)) = Y := by
          rw [Nat.add_comm, List.drop_succ_cons, List.drop_left]
        rw [e, hd]
      · rw [if_neg h31] at hV
        rw [if_neg h31]
        by_cases h20 : 0x20 ≤ v
        · rw [if_pos h20] at hV
          obtain ⟨S, hS, hnul⟩ := isText_split _ hV
          have hlen : (v :: W).length = S.length + 1 := by
            rw [hS, List.length_append, List.length_singleton]
          have hmem : (Cursor.advance
              { mem := fb :: v :: W ++ Y, left := (fb :: v :: W).length + k } 1)
              = { mem := S ++ 0 :: Y, left := S.length + 1 + k } := by
            simp only [Cursor.advance, List.cons_append, List.drop_succ_cons, List.drop_zero]
            rw [← List.cons_append, hS, List.append_assoc, List.singleton_append]
            congr 1
            simp only [List.length_cons, List.length_append, List.length_nil] at hlen ⊢
            omega
          rw [hmem]
          simp only [Cursor.skipToNul]
          rw [strnlen_text S Y (S.length + 1 + k) hnul (by omega)]
          simp only [Cursor.advance, List.drop_drop]
          have e : S.length + 1 + k - S.length - 1 = k := by omega
          have hd : List.drop (S.length + 1) (S ++ 0 :: Y) = Y := by
            rw [show S ++ 0 :: Y = (S ++ [0]) ++ Y by simp,
              show S.length + 1 = (S ++ [0]).length by simp, List.drop_left]
          rw [e, hd]
        · rw [if_neg h20] at hV
          exact absurd hV (by decide)

/-- Dropping a field that is not interpreted from behind the Content-Type entry
does not change what `parseHeaders` stores. -/
theorem parseHeaders_skip (w : Nat) (C E R M : List Nat) (r : HTTPResponse)
    (hC : isContentTypeEntry C = true) (hE : isSkippedField E = true) :
    parseHeaders w (C ++ E ++ R ++ M) (C ++ E ++ R).length r
      = parseHeaders w (C ++ R ++ M) (C ++ R).length r := by
  have hCpos : 0 < C.length := by
    cases C with
    | nil => exact absurd hC (by decide)
    | cons c V => simp
  have h1 := parseContentType_skip C (E ++ (R ++ M)) (E.length + R.length) r hC
  have h2 := parseContentType_skip C (R ++ M) R.length r hC
  have hs := fieldStep_skip w E (R ++ M) R.length
    (parseContentType { mem := C, left := C.length } r).2 hE
  have hEpos : 0 < E.length := by
    cases E with
    | nil => exact absurd hE (by decide)
    | cons c V => simp
  rw [parseHeaders, parseHeaders, if_neg (by simp only [List.length_append]; omega),
    if_neg (by simp only [List.length_append]; omega)]
  simp only [List.length_append, List.append_assoc]
  rw [h1, h2]
  simp only
  obtain ⟨f, hf⟩ : ∃ f, C.length + (E.length + R.length) = f + 1 :=
    ⟨C.length + (E.length + R.length) - 1, by omega⟩
  rw [hf, parseFields, if_pos (by simp only [Cursor.more, decide_eq_true_eq]; omega), hs]
  simp only
  refine congrArg (Prod.mk true) ?_
  apply parseFields_fuel w f (C.length + R.length) { mem := R ++ M, left := R.length }
  · show R.length ≤ f
    omega
  · show R.length ≤ C.length + R.length
    omega

theorem parseHeaders_flag (w : Nat) (headers : List Nat) (n : Nat) (r : HTTPResponse) :
    (parseHeaders w headers n r).1 = true := by
  rw [parseHeaders]
  by_cases h : n = 0
  · rw [if_pos h]
  · rw [if_neg h]

/-- A header block that starts with a short integer: the content type is the
string of `contentTypeToString`. -/
theorem parseHeaders_short_contentType (w : Nat) (c : Nat) (rest : List Nat) (n : Nat)
    (r : HTTPResponse) (hc : 0x80 ≤ c) (hc2 : c < 256) (hn : 0 < n) :
    cstr (parseHeaders w (c :: rest) n r).2.contentType = contentTypeToString (c - 0x80) := by
  have hcode : c &&& 0x7F = c - 0x80 := and_7F_short c hc2 hc
  rw [parseHeaders, if_neg (by omega)]
  simp only
  rw [parseFields_contentType, parseContentType,
    if_pos (by simp only [Cursor.more, decide_eq_true_eq]; exact hn)]
  simp only [Cursor.peek, List.getD_cons_zero]
  rw [if_pos hc, hcode]
  have hlt : c - 0x80 < 128 := by omega
  have h1 := contentTypeToString_no_nul _ hlt
  have h2 := contentTypeToString_length _ hlt
  simp only
  have h := cstr_strncpy r.contentType (contentTypeToString (c - 128)) 63 h1 h2
  exact h

/-- On the success path `decodeWithoutTID` takes `contentType` from
`parseHeaders` on the header block. -/
theorem decodeWithoutTID_contentType (w : Nat) (data : List Nat) (len : Nat)
    (resp : HTTPResponse) (k hl : Nat) (P : List Nat → Prop) (h3 : 3 ≤ len)
    (h0 : data.getD 0 0 = 0x04)
    (hU : WAPRequest.decodeUintvar w (data.drop 2) (len - 2) 0 = (k, hl)) (hk : k ≠ 0)
    (hl0 : 0 < hl) (hfit : (2 + k + hl) % 2 ^ w ≤ len)
    (hP : ∀ r2, P (parseHeaders w (data.drop (2 + k)) hl r2).2.contentType) :
    P (decodeWithoutTID w data len resp).2.contentType := by
  rw [decodeWithoutTID, if_neg (by omega)]
  simp only [Nat.zero_add, h0, ne_eq, not_true_eq_false, if_false, hU, hk]
  have hfit1 : (1 + 1 + k + hl) % 2 ^ w ≤ len := hfit
  rw [if_pos (show hl > 0 ∧ (1 + 1 + k + hl) % 2 ^ w ≤ len from ⟨hl0, hfit1⟩)]
  split_ifs <;> exact hP _

end WAPResponse

namespace WMLCDecompiler

/-! ### The decompiler with room in the output buffer -/

/-- A multi-byte integer of one byte. -/
theorem decodeMbUint_single (w b : Nat) (rest : List Nat) (len v0 : Nat) (hb : b < 128)
    (hlen : 0 < len) : decodeMbUint w (b :: rest) len v0 = (1, b) := by
  have h7 : b &&& 0x7F = b := by
    rw [WAPRequest.and_7F]; omega
  have h8 : ¬ (b &&& 0x80 ≠ 0) := by
    have := (WAPRequest.and_80_eq_zero b (by omega)).mpr hb
    omega
  rw [decodeMbUint, if_neg (by omega), decodeMbUintLoop, if_neg (by omega)]
  simp only [List.getD_cons_zero, h7, Nat.zero_shiftLeft, Nat.zero_mod, Nat.zero_or]
  rw [if_neg h8]

/-- `appendStr` with room: the text grows by the string. -/
theorem appendStr_text (N : Nat) (t rest s : List Nat) (hs : ∀ c ∈ s, c ≠ 0)
    (hN : N ≤ t.length + rest.length) (h1 : t.length + s.length < N) :
    appendStr N s { outPos := t.length, output := t ++ rest }
      = { outPos := (t ++ s).length, output := (t ++ s) ++ rest.drop s.length } := by
  rw [appendStr]
  simp only [WAPRequest.strlen_of_no_nul s hs]
  rw [if_pos h1, WAPRequest.memcpy_at (t ++ rest) s t rest t.length s.length rfl rfl rfl
    (by omega), List.length_append]

/-- `appendChar` with room: the text grows by the character. -/
theorem appendChar_text (N : Nat) (t rest : List Nat) (c : Nat)
    (hN : N ≤ t.length + rest.length) (h1 : t.length + 1 < N) :
    appendChar N c { outPos := t.length, output := t ++ rest }
      = { outPos := (t ++ [c]).length, output := (t ++ [c]) ++ rest.drop 1 } := by
  rw [appendChar]
  simp only
  rw [if_pos h1]
  match rest, hN with
  | [], hN => simp only [List.length_nil] at hN; omega
  | r0 :: rest, _ =>
    rw [Base91.set_len0]
    simp only [List.length_append, List.length_cons, List.length_nil, List.drop_succ_cons,
      List.drop_zero, List.append_assoc, List.singleton_append, Nat.zero_add]

/-- A run of `appendChar` with room: the text grows by the characters. -/
theorem appendChars_text (N : Nat) (cs : List Nat) : ∀ (t rest : List Nat),
    N ≤ t.length + rest.length → t.length + cs.length < N →
    cs.foldl (fun o c => appendChar N c o) { outPos := t.length, output := t ++ rest }
      = { outPos := (t ++ cs).length, output := (t ++ cs) ++ rest.drop cs.length } := by
  induction cs with
  | nil => intro t rest _ _; simp
  | cons c cs ih =>
    intro t rest hN h1
    simp only [List.length_cons] at h1
    rw [List.foldl_cons, appendChar_text N t rest c hN (by omega),
      ih (t ++ [c]) (rest.drop 1)
        (by simp only [List.length_append, List.length_cons, List.length_nil, List.length_drop]
            omega)
        (by simp only [List.length_append, List.length_cons, List.length_nil]; omega)]
    simp only [List.append_assoc, List.singleton_append, List.drop_drop, List.length_cons]
    rw [Nat.add_comm 1 cs.length]

/-- The token loop one round on. -/
theorem tokenLoop_step (w N : Nat) (data : List Nat) (len : Nat) (st : Option (List Nat))
    (stLen fuel : Nat) (s : Body) (h : s.pos < len) :
    tokenLoop w N data len st stLen (fuel + 1) s
      = tokenLoop w N data len st stLen fuel (tokenStep w N data len st stLen s) := by
  rw [tokenLoop, if_pos h]

/-- The token loop at the end of the input. -/
theorem tokenLoop_done (w N : Nat) (data : List Nat) (len : Nat) (st : Option (List Nat))
    (stLen fuel : Nat) (s : Body) (h : ¬ s.pos < len) :
    tokenLoop w N data len st stLen fuel s = some s := by
  cases fuel with
  | zero => rw [tokenLoop, if_neg h]
  | succ fuel => rw [tokenLoop, if_neg h]

set_option maxRecDepth 100000 in
/-- A token whose low six bits are at least 5 and whose bit `0x80` is clear is
none of the global tokens. -/
theorem not_global : ∀ t, t < 256 → 0x05 ≤ t &&& 0x3F → t &&& 0x80 = 0 →
    t ∉ [0x00, 0x01, 0x02, 0x03, 0x83, 0x40, 0x41, 0x42, 0x80, 0x81, 0x82, 0xC3, 0x43, 0x04,
        0x84, 0x44, 0xC4] ∧ 0x05 ≤ t := by
  decide

/-- An element token without attributes: `<name>` and a push, or `<name/>`. -/
theorem tokenStep_element (w N : Nat) (data : List Nat) (len : Nat) (st : Option (List Nat))
    (stLen : Nat) (p : Nat) (o : Out) (k : List (List Nat)) (token : Nat) (elemName : List Nat)
    (htok : data.getD p 0 = token) (hbase : 0x05 ≤ token &&& 0x3F)
    (hattr : token &&& TAG_HAS_ATTRS = 0) (h256 : token < 256)
    (hname : getElementName (token &&& 0x3F) = some elemName) :
    tokenStep w N data len st stLen { pos := p, out := o, elementStack := k }
      = openElement N (decide (token &&& TAG_HAS_CONTENT ≠ 0)) elemName (p + 1)
          (appendStr N elemName (appendChar N 60 o)) k := by
  have hg := not_global token h256 hbase hattr
  simp only [List.mem_cons, List.mem_singleton, List.not_mem_nil, or_false, not_or] at hg
  obtain ⟨⟨g0, g1, g2, g3, g4, g5, g6, g7, g8, g9, g10, g11, g12, g13, g14, g15, g16⟩, g17⟩ := hg
  rw [tokenStep]
  simp only [htok, WBXML_SWITCH_PAGE, WBXML_END, WBXML_ENTITY, WBXML_STR_I, WBXML_STR_T,
    WBXML_EXT_I_0, WBXML_EXT_I_1, WBXML_EXT_I_2, WBXML_EXT_T_0, WBXML_EXT_T_1, WBXML_EXT_T_2,
    WBXML_OPAQUE, WBXML_PI, WBXML_LITERAL, WBXML_LITERAL_A, WBXML_LITERAL_C, WBXML_LITERAL_AC,
    g0, g1, g2, g3, g4, g5, g6, g7, g8, g9, g10, g11, g12, g13, g14, g15, g16, if_false, or_self,
    ge_iff_le, g17, if_true, hname, hattr, ne_eq, not_true_eq_false, decide_False,
    Bool.false_eq_true]

/-- The token `END` with an open element: its closing tag and a pop. -/
theorem tokenStep_end (w N : Nat) (data : List Nat) (len : Nat) (st : Option (List Nat))
    (stLen : Nat) (p : Nat) (o : Out) (elemName : List Nat) (rest : List (List Nat))
    (htok : data.getD p 0 = WBXML_END) :
    tokenStep w N data len st stLen { pos := p, out := o, elementStack := elemName :: rest }
      = { pos := p + 1
          out := appendChar N 62 (appendStr N elemName (appendStr N (asciiBytes "</") o))
          elementStack := rest } := by
  rw [tokenStep]
  simp only [htok, WBXML_SWITCH_PAGE, WBXML_END, Nat.succ_ne_zero, OfNat.ofNat_ne_zero,
    one_ne_zero, if_false, if_true]

/-- The token `END` without an open element: nothing but the step over it. -/
theorem tokenStep_end_empty (w N : Nat) (data : List Nat) (len : Nat) (st : Option (List Nat))
    (stLen : Nat) (p : Nat) (o : Out) (htok : data.getD p 0 = WBXML_END) :
    tokenStep w N data len st stLen { pos := p, out := o, elementStack := [] }
      = { pos := p + 1, out := o, elementStack := [] } := by
  rw [tokenStep]
  simp only [htok, WBXML_SWITCH_PAGE, WBXML_END, Nat.succ_ne_zero, OfNat.ofNat_ne_zero,
    one_ne_zero, if_false, if_true]

/-- The token `STR_I`: the inline string. -/
theorem tokenStep_str_i (w N : Nat) (data : List Nat) (len : Nat) (st : Option (List Nat))
    (stLen : Nat) (p : Nat) (o : Out) (k : List (List Nat))
    (htok : data.getD p 0 = WBXML_STR_I) :
    tokenStep w N data len st stLen { pos := p, out := o, elementStack := k }
      = { pos := (inlineString N data len (p + 1) o).1
          out := (inlineString N data len (p + 1) o).2
          elementStack := k } := by
  rw [tokenStep]
  simp only [htok, WBXML_SWITCH_PAGE, WBXML_END, WBXML_ENTITY, WBXML_STR_I, OfNat.ofNat_ne_zero,
    OfNat.ofNat_ne_one, Nat.reduceEqDiff, if_false, if_true]

/-- The start tag of an element with content, with room in the output. -/
theorem open_text (N : Nat) (t rest elemName : List Nat) (stack : List (List Nat)) (pos : Nat)
    (hname : ∀ c ∈ elemName, c ≠ 0) (hN : N ≤ t.length + rest.length)
    (hroom : t.length + elemName.length + 2 < N) :
    openElement N true elemName pos
        (appendStr N elemName (appendChar N 60 { outPos := t.length, output := t ++ rest })) stack
      = { pos := pos
          out := { outPos := (t ++ [60] ++ elemName ++ [62]).length
                   output := (t ++ [60] ++ elemName ++ [62]) ++ rest.drop (elemName.length + 2) }
          elementStack := push elemName stack } := by
  have hl1 : (t ++ [60]).length = t.length + 1 := by simp
  have hl2 : (t ++ [60] ++ elemName).length = t.length + 1 + elemName.length := by
    simp only [List.length_append, List.length_cons, List.length_nil]
  rw [appendChar_text N t rest 60 hN (by omega),
    appendStr_text N (t ++ [60]) (rest.drop 1) elemName hname
      (by rw [hl1, List.length_drop]; omega) (by rw [hl1]; omega),
    openElement, if_pos rfl,
    appendChar_text N (t ++ [60] ++ elemName) ((rest.drop 1).drop elemName.length) 62
      (by rw [hl2, List.length_drop, List.length_drop]; omega) (by rw [hl2]; omega)]
  simp only [List.drop_drop]
  rw [show 1 + elemName.length + 1 = elemName.length + 2 by omega]

/-- The end tag of an element, with room in the output. -/
theorem close_text (N : Nat) (t rest elemName : List Nat)
    (hname : ∀ c ∈ elemName, c ≠ 0) (hN : N ≤ t.length + rest.length)
    (hroom : t.length + elemName.length + 3 < N) :
    appendChar N 62 (appendStr N elemName
        (appendStr N (asciiBytes "</") { outPos := t.length, output := t ++ rest }))
      = { outPos := (t ++ [60, 47] ++ elemName ++ [62]).length
          output := (t ++ [60, 47] ++ elemName ++ [62]) ++ rest.drop (elemName.length + 3) } := by
  have hl1 : (t ++ [60, 47]).length = t.length + 2 := by simp
  have hl2 : (t ++ [60, 47] ++ elemName).length = t.length + 2 + elemName.length := by
    simp only [List.length_append, List.length_cons, List.length_nil]
  rw [appendStr_text N t rest (asciiBytes "</") (by decide) hN
      (by rw [show (asciiBytes "</").length = 2 from rfl]; omega),
    show asciiBytes "</" = [60, 47] from rfl,
    appendStr_text N (t ++ [60, 47]) (rest.drop [60, 47].length) elemName hname
      (by rw [hl1, List.length_drop]; simp only [List.length_cons, List.length_nil]; omega)
      (by rw [hl1]; omega),
    appendChar_text N (t ++ [60, 47] ++ elemName)
      ((rest.drop [60, 47].length).drop elemName.length) 62
      (by rw [hl2, List.length_drop, List.length_drop]
          simp only [List.length_cons, List.length_nil]; omega)
      (by rw [hl2]; omega)]
  simp only [List.drop_drop, List.length_cons, List.length_nil]
  rw [show 0 + 1 + 1 + elemName.length + 1 = elemName.length + 3 by omega]

/-- An inline string, with room in the output. -/
theorem inline_text (N : Nat) (data : List Nat) (len pos : Nat) (t rest : List Nat)
    (hN : N ≤ t.length + rest.length)
    (hroom : t.length + (inlineChars data len pos).length < N) :
    inlineString N data len pos { outPos := t.length, output := t ++ rest }
      = (if pos + (inlineChars data len pos).length < len
            then pos + (inlineChars data len pos).length + 1
            else pos + (inlineChars data len pos).length,
          { outPos := (t ++ inlineChars data len pos).length
            output := (t ++ inlineChars data len pos)
              ++ rest.drop (inlineChars data len pos).length }) := by
  rw [inlineString, appendChars_text N _ t rest hN hroom]

/-- The body `67 60 03 'h' 'i' 00 01 01` in any output buffer with room for 23
bytes. -/
theorem decompileBody_exampleBody (w : Nat) (rest : List Nat) (N fuel : Nat) (hN : 23 ≤ N)
    (hlen : N ≤ rest.length) (hfuel : 5 ≤ fuel) :
    decompileBody w exampleBody 8 none 0 rest N fuel
      = some (22, asciiBytes "<card><p>hi</p></card>" ++ 0 :: rest.drop 23) := by
  obtain ⟨f, rfl⟩ : ∃ f, fuel = f + 5 := ⟨fuel - 5, by omega⟩
  have hcard : ∀ c ∈ asciiBytes "card", c ≠ 0 := by decide
  have hp : ∀ c ∈ asciiBytes "p", c ≠ 0 := by decide
  have lcard : (asciiBytes "card").length = 4 := rfl
  have lp : (asciiBytes "p").length = 1 := rfl
  rw [decompileBody, if_neg (by decide)]
  -- `<card>`
  rw [tokenLoop_step _ _ _ _ _ _ _ _ (show (0 : Nat) < 8 by decide),
    tokenStep_element w N exampleBody 8 none 0 0 _ _ 0x67 (asciiBytes "card") rfl (by decide)
      (by decide) (by decide) (by decide)]
  simp only [show decide (0x67 &&& TAG_HAS_CONTENT ≠ 0) = true by decide]
  rw [show ({ outPos := 0, output := rest } : Out)
      = { outPos := ([] : List Nat).length, output := [] ++ rest } from rfl,
    open_text N [] rest (asciiBytes "card") [] _ hcard
      (by simp only [List.length_nil]; omega)
      (by simp only [List.length_nil, lcard]; omega)]
  -- `<p>`
  rw [tokenLoop_step _ _ _ _ _ _ _ _ (show (0 + 1 : Nat) < 8 by decide),
    tokenStep_element w N exampleBody 8 none 0 (0 + 1) _ _ 0x60 (asciiBytes "p") rfl (by decide)
      (by decide) (by decide) (by decide)]
  simp only [show decide (0x60 &&& TAG_HAS_CONTENT ≠ 0) = true by decide]
  rw [open_text N _ _ (asciiBytes "p") _ _ hp
      (by simp only [List.length_append, List.length_cons, List.length_nil, List.length_drop,
            lcard]; omega)
      (by simp only [List.length_append, List.length_cons, List.length_nil, lcard, lp]; omega)]
  -- `hi`
  rw [tokenLoop_step _ _ _ _ _ _ _ _ (show (0 + 1 + 1 : Nat) < 8 by decide),
    tokenStep_str_i w N exampleBody 8 none 0 (0 + 1 + 1) _ _ rfl]
  have hchars : inlineChars exampleBody 8 (0 + 1 + 1 + 1) = [104, 105] := by decide
  rw [inline_text N _ 8 _ _ _
      (by simp only [List.length_append, List.length_cons, List.length_nil, List.length_drop,
            lcard, lp]; omega)
      (by rw [hchars]
          simp only [List.length_append, List.length_cons, List.length_nil, lcard, lp]; omega),
    hchars]
  simp only [List.length_cons, List.length_nil, show (0 + 1 + 1 + 1 + (0 + 1 + 1) < 8) from
    by decide, if_true]
  -- `</p>`
  rw [show push (asciiBytes "p") (push (asciiBytes "card") [])
      = [asciiBytes "p", asciiBytes "card"] from rfl,
    tokenLoop_step _ _ _ _ _ _ _ _ (show (0 + 1 + 1 + 1 + (0 + 1 + 1) + 1 : Nat) < 8 by decide),
    tokenStep_end w N exampleBody 8 none 0 (0 + 1 + 1 + 1 + (0 + 1 + 1) + 1) _
      (asciiBytes "p") [asciiBytes "card"] rfl,
    close_text N _ _ (asciiBytes "p") hp
      (by simp only [List.length_append, List.length_cons, List.length_nil, List.length_drop,
            lcard, lp]; omega)
      (by simp only [List.length_append, List.length_cons, List.length_nil, lcard, lp]; omega)]
  -- `</card>`
  rw [tokenLoop_step _ _ _ _ _ _ _ _
      (show (0 + 1 + 1 + 1 + (0 + 1 + 1) + 1 + 1 : Nat) < 8 by decide),
    tokenStep_end w N exampleBody 8 none 0 (0 + 1 + 1 + 1 + (0 + 1 + 1) + 1 + 1) _
      (asciiBytes "card") [] rfl,
    close_text N _ _ (asciiBytes "card") hcard
      (by simp only [List.length_append, List.length_cons, List.length_nil, List.length_drop,
            lcard, lp]; omega)
      (by simp only [List.length_append, List.length_cons, List.length_nil, lcard, lp]; omega)]
  rw [tokenLoop_done _ _ _ _ _ _ _ _
    (show ¬ ((0 + 1 + 1 + 1 + (0 + 1 + 1) + 1 + 1 + 1 : Nat) < 8) by decide)]
  simp only [closeAll, terminate, List.drop_drop, lcard, lp, List.length_cons, List.length_nil]
  have htext : ([] ++ [60] ++ asciiBytes "card" ++ [62] ++ [60] ++ asciiBytes "p" ++ [62]
      ++ [104, 105] ++ [60, 47] ++ asciiBytes "p" ++ [62] ++ [60, 47] ++ asciiBytes "card"
      ++ [62] : List Nat) = asciiBytes "<card><p>hi</p></card>" := by decide
  have hl : (asciiBytes "<card><p>hi</p></card>").length = 22 := rfl
  have hset := Base91.set_len0 (asciiBytes "<card><p>hi</p></card>") (List.drop 23 rest)
    (rest.getD 22 0) 0
  rw [hl] at hset
  rw [htext, hl, if_pos (by omega),
    show 4 + 2 + (1 + 2) + (0 + 1 + 1) + (1 + 3) + (4 + 3) = 22 from rfl,
    WAPRequest.drop_cons_getD rest 22 (by omega), hset]

set_option maxRecDepth 100000 in
theorem doctype_wml11_no_nul : ∀ c ∈ (doctype 0x04).getD [], c ≠ 0 := by decide

set_option maxRecDepth 100000 in
theorem doctype_wml11_length : ((doctype 0x04).getD []).length = 95 := by decide

set_option maxHeartbeats 2000000 in
/-- The example document in any output buffer with room for 140 bytes. -/
theorem decompile_exampleDocument (w : Nat) (output : List Nat) (N fuel p0 : Nat)
    (hN : 140 ≤ N) (hlen : N ≤ output.length) (hfuel : 5 ≤ fuel) :
    decompile w exampleDocument 12 output N fuel p0
      = some (139, xmlDeclaration ++ (doctype 0x04).getD []
          ++ asciiBytes "<card><p>hi</p></card>" ++ 0 :: output.drop 140) := by
  have h1 : decodeMbUint w (exampleDocument.drop (0 + 1)) (12 - (0 + 1)) p0 = (1, 4) :=
    decodeMbUint_single w 4 _ _ _ (by decide) (by decide)
  have h2 : decodeMbUint w (exampleDocument.drop (0 + 1 + 1)) (12 - (0 + 1 + 1)) 0 = (1, 0) :=
    decodeMbUint_single w 0 _ _ _ (by decide) (by decide)
  have h3 : decodeMbUint w (exampleDocument.drop (0 + 1 + 1 + 1)) (12 - (0 + 1 + 1 + 1)) 0
      = (1, 0) :=
    decodeMbUint_single w 0 _ _ _ (by decide) (by decide)
  have hxml : ∀ c ∈ xmlDeclaration, c ≠ 0 := by decide
  have lxml : xmlDeclaration.length = 22 := rfl
  obtain ⟨line, hline, hline0, lline⟩ : ∃ line, doctype 0x04 = some line
      ∧ (∀ c ∈ line, c ≠ 0) ∧ line.length = 95 :=
    ⟨(doctype 0x04).getD [], rfl, doctype_wml11_no_nul, doctype_wml11_length⟩
  rw [decompile, if_neg (by omega)]
  simp only [h1, h2, h3, one_ne_zero, if_false, OfNat.ofNat_ne_zero, false_and, gt_iff_lt,
    Nat.lt_irrefl, hline, Option.getD_some]
  rw [show ({ outPos := 0, output := output } : Out)
      = { outPos := ([] : List Nat).length, output := [] ++ output } from rfl,
    appendStr_text N [] output xmlDeclaration hxml (by simp only [List.length_nil]; omega)
      (by simp only [List.length_nil, lxml]; omega),
    appendStr_text N _ _ line hline0
      (by simp only [List.length_append, List.length_nil, List.length_drop, lxml]; omega)
      (by simp only [List.length_append, List.length_nil, lxml, lline]; omega)]
  simp only [show ((0 + 1 + 1 + 1 + 1 : Nat) < 12) from by decide, if_true, List.drop_left,
    List.take_left, List.drop_drop, lxml, lline]
  rw [show exampleDocument.drop (0 + 1 + 1 + 1 + 1) = exampleBody from rfl,
    show 12 - (0 + 1 + 1 + 1 + 1) = 8 from rfl,
    decompileBody_exampleBody w _ _ fuel
      (by simp only [List.length_append, List.length_nil, lxml, lline]; omega)
      (by simp only [List.length_append, List.length_nil, List.length_drop, lxml, lline]; omega)
      hfuel]
  simp only [terminate, List.length_append, List.length_nil, lxml, lline, List.drop_drop]
  rw [if_pos (by omega)]
  have hl : ([] ++ xmlDeclaration ++ line ++ asciiBytes "<card><p>hi</p></card>").length
      = 0 + 22 + 95 + 22 := by
    simp only [List.length_append, List.length_nil, lxml, lline]
    rfl
  have hset := Base91.set_len0
    ([] ++ xmlDeclaration ++ line ++ asciiBytes "<card><p>hi</p></card>")
    (List.drop (22 + 95 + 23) output) 0 0
  rw [hl] at hset
  simp only [List.append_assoc, List.nil_append] at hset ⊢
  rw [hset]

/-! ### Two runs of the decompiler side by side

The input position and the element stack of the token loop do not depend on the
output; a relation between two outputs that every pair of equal appends keeps is
kept by the whole loop. -/

theorem foldl_appendChar_rel (N1 N2 : Nat) (R : Out → Out → Prop)
    (hC : ∀ c o1 o2, R o1 o2 → R (appendChar N1 c o1) (appendChar N2 c o2)) :
    ∀ (cs : List Nat) (o1 o2 : Out), R o1 o2 →
      R (cs.foldl (fun o c => appendChar N1 c o) o1) (cs.foldl (fun o c => appendChar N2 c o) o2)
  | [], _, _, h => h
  | c :: cs, o1, o2, h => by
    simp only [List.foldl_cons]
    exact foldl_appendChar_rel N1 N2 R hC cs _ _ (hC c o1 o2 h)

theorem inlineString_fst (N : Nat) (data : List Nat) (len p : Nat) (o : Out) :
    (inlineString N data len p o).1
      = if p + (inlineChars data len p).length < len then p + (inlineChars data len p).length + 1
        else p + (inlineChars data len p).length := rfl

theorem inlineString_rel (N1 N2 : Nat) (R : Out → Out → Prop)
    (hC : ∀ c o1 o2, R o1 o2 → R (appendChar N1 c o1) (appendChar N2 c o2))
    (data : List Nat) (len p : Nat) (o1 o2 : Out) (h : R o1 o2) :
    R (inlineString N1 data len p o1).2 (inlineString N2 data len p o2).2 :=
  foldl_appendChar_rel N1 N2 R hC _ _ _ h

theorem appendRef_rel (N1 N2 : Nat) (R : Out → Out → Prop)
    (hS : ∀ s o1 o2, R o1 o2 → R (appendStr N1 s o1) (appendStr N2 s o2))
    (st : Option (List Nat)) (stLen off : Nat) (o1 o2 : Out) (h : R o1 o2) :
    R (appendRef N1 st stLen off o1) (appendRef N2 st stLen off o2) := by
  unfold appendRef
  cases stringRef st stLen off with
  | none => exact h
  | some s => exact hS s o1 o2 h

theorem appendVarEnd_rel (N1 N2 : Nat) (R : Out → Out → Prop)
    (hS : ∀ s o1 o2, R o1 o2 → R (appendStr N1 s o1) (appendStr N2 s o2))
    (hC : ∀ c o1 o2, R o1 o2 → R (appendChar N1 c o1) (appendChar N2 c o2))
    (t e1 e2 : Nat) (o1 o2 : Out) (h : R o1 o2) :
    R (appendVarEnd N1 t e1 e2 o1) (appendVarEnd N2 t e1 e2 o2) := by
  unfold appendVarEnd
  apply hC
  split_ifs
  · exact hS _ _ _ h
  · exact hS _ _ _ h
  · exact h

theorem attrValue_rel (N1 N2 : Nat) (R : Out → Out → Prop)
    (hS : ∀ s o1 o2, R o1 o2 → R (appendStr N1 s o1) (appendStr N2 s o2))
    (t : Nat) (o1 o2 : Out) (h : R o1 o2) :
    R (match getAttributeValue t with
        | some attrVal => appendStr N1 attrVal o1
        | none => o1)
      (match getAttributeValue t with
        | some attrVal => appendStr N2 attrVal o2
        | none => o2) := by
  cases getAttributeValue t with
  | none => exact h
  | some s => exact hS s o1 o2 h

theorem attrValueLoop_rel (w N1 N2 : Nat) (R : Out → Out → Prop)
    (hS : ∀ s o1 o2, R o1 o2 → R (appendStr N1 s o1) (appendStr N2 s o2))
    (hC : ∀ c o1 o2, R o1 o2 → R (appendChar N1 c o1) (appendChar N2 c o2))
    (data : List Nat) (len : Nat) (st : Option (List Nat)) (stLen : Nat) :
    ∀ (fuel p : Nat) (o1 o2 : Out), R o1 o2 →
      (attrValueLoop w N1 data len st stLen fuel p o1).1
          = (attrValueLoop w N2 data len st stLen fuel p o2).1
        ∧ R (attrValueLoop w N1 data len st stLen fuel p o1).2
            (attrValueLoop w N2 data len st stLen fuel p o2).2 := by
  intro fuel
  induction fuel with
  | zero => intro p o1 o2 h; exact ⟨rfl, h⟩
  | succ fuel ih =>
    intro p o1 o2 h
    simp only [attrValueLoop]
    split_ifs
    · exact ⟨rfl, h⟩
    · exact ih _ _ _ (inlineString_rel N1 N2 R hC data len (p + 1) o1 o2 h)
    · exact ih _ _ _ (appendRef_rel N1 N2 R hS st stLen _ o1 o2 h)
    · exact ih _ _ _ h
    · exact ih _ _ _ (appendVarEnd_rel N1 N2 R hS hC _ _ _ _ _
        (inlineString_rel N1 N2 R hC data len (p + 1) _ _ (hS _ _ _ h)))
    · exact ih _ _ _ (appendVarEnd_rel N1 N2 R hS hC _ _ _ _ _
        (appendRef_rel N1 N2 R hS st stLen _ _ _ (hS _ _ _ h)))
    · exact ih _ _ _ h
    · exact ih _ _ _ (attrValue_rel N1 N2 R hS _ o1 o2 h)
    · exact ih _ _ _ h
    · exact ⟨rfl, h⟩

theorem attrLoop_rel (w N1 N2 : Nat) (R : Out → Out → Prop)
    (hS : ∀ s o1 o2, R o1 o2 → R (appendStr N1 s o1) (appendStr N2 s o2))
    (hC : ∀ c o1 o2, R o1 o2 → R (appendChar N1 c o1) (appendChar N2 c o2))
    (data : List Nat) (len : Nat) (st : Option (List Nat)) (stLen : Nat) :
    ∀ (fuel p : Nat) (o1 o2 : Out), R o1 o2 →
      (attrLoop w N1 data len st stLen fuel p o1).1
          = (attrLoop w N2 data len st stLen fuel p o2).1
        ∧ R (attrLoop w N1 data len st stLen fuel p o1).2
            (attrLoop w N2 data len st stLen fuel p o2).2 := by
  intro fuel
  induction fuel with
  | zero => intro p o1 o2 h; exact ⟨rfl, h⟩
  | succ fuel ih =>
    intro p o1 o2 h
    simp only [attrLoop]
    split_ifs
    · exact ⟨rfl, h⟩
    · exact ih _ _ _ (inlineString_rel N1 N2 R hC data len (p + 1) o1 o2 h)
    · exact ih _ _ _ (appendRef_rel N1 N2 R hS st stLen _ o1 o2 h)
    · exact ih _ _ _ h
    · exact ih _ _ _ (attrValue_rel N1 N2 R hS _ o1 o2 h)
    · cases hname : getAttributeName (data.getD p 0) with
      | none => exact ih _ _ _ h
      | some np =>
        obtain ⟨n, pre⟩ := np
        have h3 : R (appendStr N1 (asciiBytes "=\"") (appendStr N1 n (appendChar N1 32 o1)))
            (appendStr N2 (asciiBytes "=\"") (appendStr N2 n (appendChar N2 32 o2))) :=
          hS _ _ _ (hS _ _ _ (hC _ _ _ h))
        cases pre with
        | none =>
          have hv := attrValueLoop_rel w N1 N2 R hS hC data len st stLen len (p + 1) _ _ h3
          simp only []
          rw [hv.1]
          exact ih _ _ _ (hC _ _ _ hv.2)
        | some pr =>
          have hv := attrValueLoop_rel w N1 N2 R hS hC data len st stLen len (p + 1) _ _
            (hS pr _ _ h3)
          simp only []
          rw [hv.1]
          exact ih _ _ _ (hC _ _ _ hv.2)
    · exact ⟨rfl, h⟩

theorem openElement_rel (N1 N2 : Nat) (R : Out → Out → Prop)
    (hS : ∀ s o1 o2, R o1 o2 → R (appendStr N1 s o1) (appendStr N2 s o2))
    (hC : ∀ c o1 o2, R o1 o2 → R (appendChar N1 c o1) (appendChar N2 c o2))
    (hasContent : Bool) (elemName : List Nat) (p1 p2 : Nat) (o1 o2 : Out)
    (k : List (List Nat)) (hp : p1 = p2) (h : R o1 o2) :
    ∃ (q : Nat) (a1 a2 : Out) (j : List (List Nat)),
      openElement N1 hasContent elemName p1 o1 k = { pos := q, out := a1, elementStack := j }
        ∧ openElement N2 hasContent elemName p2 o2 k = { pos := q, out := a2, elementStack := j }
        ∧ R a1 a2 := by
  subst hp
  unfold openElement
  cases hasContent with
  | true => exact ⟨_, _, _, _, rfl, rfl, hC _ _ _ h⟩
  | false => exact ⟨_, _, _, _, rfl, rfl, hS _ _ _ h⟩

/-- One round of the token loop from two states with the same position and
stack and related outputs. -/
theorem tokenStep_rel (w N1 N2 : Nat) (R : Out → Out → Prop)
    (hS : ∀ s o1 o2, R o1 o2 → R (appendStr N1 s o1) (appendStr N2 s o2))
    (hC : ∀ c o1 o2, R o1 o2 → R (appendChar N1 c o1) (appendChar N2 c o2))
    (data : List Nat) (len : Nat) (st : Option (List Nat)) (stLen : Nat)
    (p : Nat) (o1 o2 : Out) (k : List (List Nat)) (h : R o1 o2) :
    ∃ (q : Nat) (a1 a2 : Out) (j : List (List Nat)),
      tokenStep w N1 data len st stLen { pos := p, out := o1, elementStack := k }
          = { pos := q, out := a1, elementStack := j }
        ∧ tokenStep w N2 data len st stLen { pos := p, out := o2, elementStack := k }
          = { pos := q, out := a2, elementStack := j }
        ∧ R a1 a2 := by
  unfold tokenStep
  dsimp only
  generalize decodeMbUint w (List.drop (p + 1) data) (len - (p + 1)) 0 = d
  by_cases c0 : data.getD p 0 = WBXML_SWITCH_PAGE
  · rw [if_pos c0, if_pos c0]; exact ⟨_, _, _, _, rfl, rfl, h⟩
  rw [if_neg c0, if_neg c0]
  by_cases c1 : data.getD p 0 = WBXML_END
  · rw [if_pos c1, if_pos c1]
    cases k with
    | nil => exact ⟨_, _, _, _, rfl, rfl, h⟩
    | cons e rest => exact ⟨_, _, _, _, rfl, rfl, hC _ _ _ (hS _ _ _ (hS _ _ _ h))⟩
  rw [if_neg c1, if_neg c1]
  by_cases c2 : data.getD p 0 = WBXML_ENTITY
  · rw [if_pos c2, if_pos c2]
    split_ifs
    · exact ⟨_, _, _, _, rfl, rfl, hS _ _ _ h⟩
    · exact ⟨_, _, _, _, rfl, rfl, h⟩
    · exact ⟨_, _, _, _, rfl, rfl, h⟩
  rw [if_neg c2, if_neg c2]
  by_cases c3 : data.getD p 0 = WBXML_STR_I
  · rw [if_pos c3, if_pos c3]
    exact ⟨_, _, _, _, rfl, rfl, inlineString_rel N1 N2 R hC data len (p + 1) o1 o2 h⟩
  rw [if_neg c3, if_neg c3]
  by_cases c4 : data.getD p 0 = WBXML_STR_T
  · rw [if_pos c4, if_pos c4]
    split_ifs
    · exact ⟨_, _, _, _, rfl, rfl, appendRef_rel N1 N2 R hS st stLen _ o1 o2 h⟩
    · exact ⟨_, _, _, _, rfl, rfl, h⟩
    · exact ⟨_, _, _, _, rfl, rfl, h⟩
  rw [if_neg c4, if_neg c4]
  by_cases c5 : data.getD p 0 = WBXML_EXT_I_0 ∨ data.getD p 0 = WBXML_EXT_I_1
      ∨ data.getD p 0 = WBXML_EXT_I_2
  · rw [if_pos c5, if_pos c5]
    exact ⟨_, _, _, _, rfl, rfl, appendVarEnd_rel N1 N2 R hS hC _ _ _ _ _
      (inlineString_rel N1 N2 R hC data len (p + 1) _ _ (hS _ _ _ h))⟩
  rw [if_neg c5, if_neg c5]
  by_cases c6 : data.getD p 0 = WBXML_EXT_T_0 ∨ data.getD p 0 = WBXML_EXT_T_1
      ∨ data.getD p 0 = WBXML_EXT_T_2
  · rw [if_pos c6, if_pos c6]
    split_ifs
    · exact ⟨_, _, _, _, rfl, rfl, appendVarEnd_rel N1 N2 R hS hC _ _ _ _ _
        (appendRef_rel N1 N2 R hS st stLen _ _ _ (hS _ _ _ h))⟩
    · exact ⟨_, _, _, _, rfl, rfl, h⟩
    · exact ⟨_, _, _, _, rfl, rfl, h⟩
  rw [if_neg c6, if_neg c6]
  by_cases c7 : data.getD p 0 = WBXML_OPAQUE
  · rw [if_pos c7, if_pos c7]
    split_ifs
    · exact ⟨_, _, _, _, rfl, rfl, h⟩
    · exact ⟨_, _, _, _, rfl, rfl, h⟩
    · exact ⟨_, _, _, _, rfl, rfl, h⟩
  rw [if_neg c7, if_neg c7]
  by_cases c8 : data.getD p 0 = WBXML_PI
  · rw [if_pos c8, if_pos c8]
    exact ⟨_, _, _, _, rfl, rfl, h⟩
  rw [if_neg c8, if_neg c8]
  by_cases c9 : data.getD p 0 = WBXML_LITERAL ∨ data.getD p 0 = WBXML_LITERAL_A
      ∨ data.getD p 0 = WBXML_LITERAL_C ∨ data.getD p 0 = WBXML_LITERAL_AC
  · rw [if_pos c9, if_pos c9]
    by_cases c91 : p + 1 < len
    · rw [if_pos c91, if_pos c91]
      by_cases c92 : d.1 > 0
      · rw [if_pos c92, if_pos c92]
        have ho := openElement_rel N1 N2 R hS hC
          (decide (data.getD p 0 = WBXML_LITERAL_C ∨ data.getD p 0 = WBXML_LITERAL_AC))
          ((stringRef st stLen d.2).getD (asciiBytes "unknown"))
          (if decide (data.getD p 0 = WBXML_LITERAL_A ∨ data.getD p 0 = WBXML_LITERAL_AC) = true then
            if p + 1 + d.1 + (literalAttrs data len (p + 1 + d.1)).length < len then
              p + 1 + d.1 + (literalAttrs data len (p + 1 + d.1)).length + 1
            else p + 1 + d.1 + (literalAttrs data len (p + 1 + d.1)).length
          else p + 1 + d.1) _ _ _ k rfl (hS ((stringRef st stLen d.2).getD (asciiBytes "unknown")) _ _ (hC 60 _ _ h))
        exact ho
      · rw [if_neg c92, if_neg c92]
        exact ⟨_, _, _, _, rfl, rfl, h⟩
    · rw [if_neg c91, if_neg c91]
      exact ⟨_, _, _, _, rfl, rfl, h⟩
  rw [if_neg c9, if_neg c9]
  by_cases c10 : data.getD p 0 ≥ 5
  · rw [if_pos c10, if_pos c10]
    cases hname : getElementName (data.getD p 0 &&& 63) with
    | none => exact ⟨_, _, _, _, rfl, rfl, h⟩
    | some elemName =>
      dsimp only
      have h2 : R (appendStr N1 elemName (appendChar N1 60 o1))
          (appendStr N2 elemName (appendChar N2 60 o2)) := hS _ _ _ (hC _ _ _ h)
      by_cases ha : data.getD p 0 &&& TAG_HAS_ATTRS ≠ 0
      · simp only [ha, decide_True, if_true, ne_eq, not_false_eq_true]
        have hl := attrLoop_rel w N1 N2 R hS hC data len st stLen len (p + 1) _ _ h2
        exact openElement_rel N1 N2 R hS hC _ _ _ _ _ _ _ hl.1 hl.2
      · simp only [ha, decide_False, Bool.false_eq_true, if_false]
        exact openElement_rel N1 N2 R hS hC _ _ _ _ _ _ _ rfl h2
  rw [if_neg c10, if_neg c10]
  exact ⟨_, _, _, _, rfl, rfl, h⟩

/-- Two states of the token loop with the same position and stack and related
outputs. -/
theorem tokenLoop_rel (w N1 N2 : Nat) (R : Out → Out → Prop)
    (hS : ∀ s o1 o2, R o1 o2 → R (appendStr N1 s o1) (appendStr N2 s o2))
    (hC : ∀ c o1 o2, R o1 o2 → R (appendChar N1 c o1) (appendChar N2 c o2))
    (data : List Nat) (len : Nat) (st : Option (List Nat)) (stLen : Nat) :
    ∀ (fuel p : Nat) (o1 o2 : Out) (k : List (List Nat)), R o1 o2 →
      (tokenLoop w N1 data len st stLen fuel { pos := p, out := o1, elementStack := k } = none
        ∧ tokenLoop w N2 data len st stLen fuel { pos := p, out := o2, elementStack := k } = none)
      ∨ ∃ (q : Nat) (a1 a2 : Out) (j : List (List Nat)),
          tokenLoop w N1 data len st stLen fuel { pos := p, out := o1, elementStack := k }
              = some { pos := q, out := a1, elementStack := j }
            ∧ tokenLoop w N2 data len st stLen fuel { pos := p, out := o2, elementStack := k }
              = some { pos := q, out := a2, elementStack := j }
            ∧ R a1 a2 := by
  intro fuel
  induction fuel with
  | zero =>
    intro p o1 o2 k h
    simp only [tokenLoop]
    by_cases hp : p < len
    · left; simp only [hp, if_true, and_self]
    · right; exact ⟨p, o1, o2, k, by simp only [hp, if_false], by simp only [hp, if_false], h⟩
  | succ fuel ih =>
    intro p o1 o2 k h
    simp only [tokenLoop]
    by_cases hp : p < len
    · simp only [hp, if_true]
      obtain ⟨q, a1, a2, j, e1, e2, e3⟩ :=
        tokenStep_rel w N1 N2 R hS hC data len st stLen p o1 o2 k h
      rw [e1, e2]
      exact ih _ _ _ _ e3
    · right; exact ⟨p, o1, o2, k, by simp only [hp, if_false], by simp only [hp, if_false], h⟩

theorem closeAll_rel (N1 N2 : Nat) (R : Out → Out → Prop)
    (hS : ∀ s o1 o2, R o1 o2 → R (appendStr N1 s o1) (appendStr N2 s o2))
    (hC : ∀ c o1 o2, R o1 o2 → R (appendChar N1 c o1) (appendChar N2 c o2)) :
    ∀ (k : List (List Nat)) (o1 o2 : Out), R o1 o2 → R (closeAll N1 k o1) (closeAll N2 k o2)
  | [], _, _, h => h
  | e :: rest, o1, o2, h => by
    simp only [closeAll]
    exact closeAll_rel N1 N2 R hS hC rest _ _ (hC _ _ _ (hS _ _ _ (hS _ _ _ h)))

/-- Two runs of `decompileBody` on the same non-empty input: both use up the
fuel, or both return, with related outputs before the terminator is written. -/
theorem decompileBody_rel (w N1 N2 : Nat) (R : Out → Out → Prop)
    (hS : ∀ s o1 o2, R o1 o2 → R (appendStr N1 s o1) (appendStr N2 s o2))
    (hC : ∀ c o1 o2, R o1 o2 → R (appendChar N1 c o1) (appendChar N2 c o2))
    (data : List Nat) (len : Nat) (st : Option (List Nat)) (stLen : Nat) (fuel : Nat)
    (out1 out2 : List Nat) (hlen : len ≠ 0)
    (h : R { outPos := 0, output := out1 } { outPos := 0, output := out2 }) :
    (decompileBody w data len st stLen out1 N1 fuel = none
        ∧ decompileBody w data len st stLen out2 N2 fuel = none)
      ∨ ∃ a1 a2 : Out, R a1 a2
          ∧ decompileBody w data len st stLen out1 N1 fuel = some (a1.outPos, terminate N1 a1)
          ∧ decompileBody w data len st stLen out2 N2 fuel = some (a2.outPos, terminate N2 a2) := by
  simp only [decompileBody, hlen, if_false]
  rcases tokenLoop_rel w N1 N2 R hS hC data len st stLen fuel 0 _ _ [] h with
    ⟨e1, e2⟩ | ⟨q, a1, a2, j, e1, e2, hR⟩
  · left; rw [e1, e2]; exact ⟨rfl, rfl⟩
  · right
    rw [e1, e2]
    exact ⟨closeAll N1 j a1, closeAll N2 j a2, closeAll_rel N1 N2 R hS hC j _ _ hR, rfl, rfl⟩

/-- The function `decompile` as its guard, `readHeader` and the output part. -/
theorem decompile_eq (w : Nat) (wmlc : List Nat) (wmlcLen : Nat) (output : List Nat)
    (N fuel p0 : Nat) :
    decompile w wmlc wmlcLen output N fuel p0
      = if wmlcLen < 4 ∨ N < 100 then some (0, if N > 0 then output.set 0 0 else output)
        else
          match readHeader w wmlc wmlcLen p0 with
          | none => some (0, output.set 0 0)
          | some (publicId, pos, stringTable, stringTableLen) =>
            let o := prolog N publicId output
            let body : Option Out :=
              if pos < wmlcLen then
                match decompileBody w (wmlc.drop pos) (wmlcLen - pos) stringTable
                    stringTableLen (o.output.drop o.outPos) (N - o.outPos) fuel with
                | none => none
                | some r =>
                  some { outPos := o.outPos + r.1, output := o.output.take o.outPos ++ r.2 }
              else some o
            match body with
            | none => none
            | some o => some (o.outPos, terminate N o) := by
  unfold decompile readHeader
  dsimp only
  generalize decodeMbUint w (List.drop (0 + 1) wmlc) (wmlcLen - (0 + 1)) p0 = d1
  generalize (if d1.2 = 0 ∧ 0 + 1 + d1.1 < wmlcLen then
      decodeMbUint w (List.drop (0 + 1 + d1.1) wmlc) (wmlcLen - (0 + 1 + d1.1)) d1.2
    else (0, d1.2)) = d2
  generalize (if d2.1 > 0 then 0 + 1 + d1.1 + d2.1 else 0 + 1 + d1.1) = pos2
  generalize decodeMbUint w (List.drop pos2 wmlc) (wmlcLen - pos2) 0 = d3
  generalize decodeMbUint w (List.drop (pos2 + d3.1) wmlc) (wmlcLen - (pos2 + d3.1)) 0 = d4
  by_cases h0 : wmlcLen < 4 ∨ N < 100
  · rw [if_pos h0, if_pos h0]
  rw [if_neg h0, if_neg h0]
  by_cases h1 : d1.1 = 0
  · rw [if_pos h1, if_pos h1]
  rw [if_neg h1, if_neg h1]
  by_cases h3 : d3.1 = 0
  · rw [if_pos h3, if_pos h3]
  rw [if_neg h3, if_neg h3]
  by_cases h4 : d4.1 = 0
  · rw [if_pos h4, if_pos h4]
  rw [if_neg h4, if_neg h4]
  by_cases h5 : d4.2 > 0 ∧ (pos2 + d3.1 + d4.1 + d4.2) % 2 ^ w > wmlcLen
  · rw [if_pos h5, if_pos h5]
  rw [if_neg h5, if_neg h5]
  rfl

/-! ### The appends in a buffer that has room behind the capacity -/

theorem memcpy_length (dst src : List Nat) (pos : Nat) :
    ∀ n, (WAPRequest.memcpy dst pos src n).length = dst.length
  | 0 => rfl
  | n + 1 => by rw [WAPRequest.memcpy, List.length_set, memcpy_length dst src pos n]

theorem memcpy_append_left (pre dst src : List Nat) (pos : Nat) :
    ∀ n, WAPRequest.memcpy (pre ++ dst) (pre.length + pos) src n
      = pre ++ WAPRequest.memcpy dst pos src n
  | 0 => rfl
  | n + 1 => by
    rw [WAPRequest.memcpy, WAPRequest.memcpy, memcpy_append_left pre dst src pos n,
      List.set_append_right _ _ (by omega)]
    congr 2
    omega

theorem strlen_le (s : List Nat) : WAPRequest.strlen s ≤ s.length :=
  WAPRequest.takeWhile_length_le _ s

/-- An append that has room: the string stands behind the text, the rest of the
memory is kept. -/
theorem appendStr_fit (N : Nat) (s : List Nat) (o : Out)
    (hfit : o.outPos + WAPRequest.strlen s < N) (hN : N ≤ o.output.length) :
    appendStr N s o
      = { outPos := o.outPos + WAPRequest.strlen s
          output := o.output.take o.outPos ++ s.take (WAPRequest.strlen s)
            ++ o.output.drop (o.outPos + WAPRequest.strlen s) } := by
  rw [appendStr]
  simp only [hfit, if_true]
  have h := WAPRequest.memcpy_eq s (WAPRequest.strlen s) (o.output.take o.outPos)
    (o.output.drop o.outPos) (strlen_le s) (by rw [List.length_drop]; omega)
  rw [List.take_append_drop, List.length_take, min_eq_left (by omega), List.drop_drop] at h
  rw [h, Nat.add_comm o.outPos]

theorem appendStr_full (N : Nat) (s : List Nat) (o : Out)
    (hfull : ¬ o.outPos + WAPRequest.strlen s < N) : appendStr N s o = o := by
  rw [appendStr]
  simp only [hfull, if_false]

theorem appendChar_fit (N c : Nat) (o : Out) (hfit : o.outPos + 1 < N)
    (hN : N ≤ o.output.length) :
    appendChar N c o
      = { outPos := o.outPos + 1
          output := o.output.take o.outPos ++ [c] ++ o.output.drop (o.outPos + 1) } := by
  rw [appendChar]
  simp only [hfit, if_true]
  rw [List.set_eq_take_append_cons_drop, if_pos (by omega), List.append_assoc]
  rfl

theorem appendChar_full (N c : Nat) (o : Out) (hfull : ¬ o.outPos + 1 < N) :
    appendChar N c o = o := by
  rw [appendChar]
  simp only [hfull, if_false]

/-- A text written behind the position, with room, keeps `Kept`. -/
theorem kept_of_fit (N L : Nat) (orig t0 : List Nat) (o : Out) (x : List Nat)
    (hN : N ≤ L) (hk : Kept N L orig t0 o) (hfit : o.outPos + x.length < N) :
    Kept N L orig t0
      { outPos := o.outPos + x.length
        output := o.output.take o.outPos ++ x ++ o.output.drop (o.outPos + x.length) } := by
  obtain ⟨h1, h2, h3, h4, h5⟩ := hk
  refine ⟨hfit, ?_, ?_, by simp only; omega, ?_⟩
  · simp only [List.length_append, List.length_take, List.length_drop]
    omega
  · simp only
    rw [← h3]
    have hl : (o.output.take o.outPos ++ x).length = o.outPos + x.length := by
      simp only [List.length_append, List.length_take]; omega
    rw [List.drop_append_eq_append_drop, List.drop_eq_nil_of_le (by rw [hl]; omega),
      List.nil_append, hl, List.drop_drop]
    congr 1
    omega
  · simp only
    rw [List.append_assoc, List.take_append_of_le_length (by rw [List.length_take]; omega),
      List.take_take, min_eq_left h4, h5]

theorem appendStr_kept (N L : Nat) (orig t0 : List Nat) (hN : N ≤ L) (s : List Nat) (o : Out)
    (hk : Kept N L orig t0 o) : Kept N L orig t0 (appendStr N s o) := by
  by_cases hfit : o.outPos + WAPRequest.strlen s < N
  · rw [appendStr_fit N s o hfit (by rw [hk.2.1]; exact hN)]
    have h := kept_of_fit N L orig t0 o (s.take (WAPRequest.strlen s)) hN hk
      (by rw [List.length_take, min_eq_left (strlen_le s)]; exact hfit)
    rw [List.length_take, min_eq_left (strlen_le s)] at h
    exact h
  · rw [appendStr_full N s o hfit]
    exact hk

theorem appendChar_kept (N L : Nat) (orig t0 : List Nat) (hN : N ≤ L) (c : Nat) (o : Out)
    (hk : Kept N L orig t0 o) : Kept N L orig t0 (appendChar N c o) := by
  by_cases hfit : o.outPos + 1 < N
  · rw [appendChar_fit N c o hfit (by rw [hk.2.1]; exact hN)]
    exact kept_of_fit N L orig t0 o [c] hN hk hfit
  · rw [appendChar_full N c o hfit]
    exact hk

theorem appendStr_shift (pre : List Nat) (N L : Nat) (s : List Nat) (b a : Out)
    (h : Shift pre N L b a) :
    Shift pre N L (appendStr (N - pre.length) s b) (appendStr N s a) := by
  obtain ⟨h1, h2, h3, h4⟩ := h
  by_cases hfit : a.outPos + WAPRequest.strlen s < N
  · have hfit2 : b.outPos + WAPRequest.strlen s < N - pre.length := by omega
    rw [appendStr, appendStr]
    simp only [hfit, hfit2, if_true]
    refine ⟨by simp only; omega, ?_, hfit, ?_⟩
    · simp only
      rw [h2, h1, memcpy_append_left]
    · rw [memcpy_length]; exact h4
  · have hfit2 : ¬ b.outPos + WAPRequest.strlen s < N - pre.length := by omega
    rw [appendStr_full N s a hfit, appendStr_full _ s b hfit2]
    exact ⟨h1, h2, h3, h4⟩

theorem appendChar_shift (pre : List Nat) (N L : Nat) (c : Nat) (b a : Out)
    (h : Shift pre N L b a) :
    Shift pre N L (appendChar (N - pre.length) c b) (appendChar N c a) := by
  obtain ⟨h1, h2, h3, h4⟩ := h
  by_cases hfit : a.outPos + 1 < N
  · have hfit2 : b.outPos + 1 < N - pre.length := by omega
    rw [appendChar, appendChar]
    simp only [hfit, hfit2, if_true]
    refine ⟨by simp only; omega, ?_, hfit, ?_⟩
    · simp only
      rw [h2, h1, List.set_append_right _ _ (by omega)]
      congr 2
      omega
    · rw [List.length_set]; exact h4
  · have hfit2 : ¬ b.outPos + 1 < N - pre.length := by omega
    rw [appendChar_full N c a hfit, appendChar_full _ c b hfit2]
    exact ⟨h1, h2, h3, h4⟩

/-- Two appends of the same text with the capacities `N ≤ M`. -/
theorem trunc_of_fit (N M L1 L2 : Nat) (hNM : N ≤ M) (hN : N ≤ L1) (hM : M ≤ L2)
    (x : List Nat) (o1 o2 : Out) (h : Trunc N M L1 L2 o1 o2) :
    Trunc N M L1 L2
      (if o1.outPos + x.length < N then
        { outPos := o1.outPos + x.length
          output := o1.output.take o1.outPos ++ x ++ o1.output.drop (o1.outPos + x.length) }
      else o1)
      (if o2.outPos + x.length < M then
        { outPos := o2.outPos + x.length
          output := o2.output.take o2.outPos ++ x ++ o2.output.drop (o2.outPos + x.length) }
      else o2) := by
  obtain ⟨h1, h2, h3, h4, h5⟩ := h
  have hl1 : ∀ o : Out, o.outPos + x.length ≤ o.output.length →
      (o.output.take o.outPos ++ x ++ o.output.drop (o.outPos + x.length)).length
        = o.output.length := by
    intro o ho
    simp only [List.length_append, List.length_take, List.length_drop]
    omega
  have ht : ∀ o : Out, o.outPos + x.length ≤ o.output.length →
      (o.output.take o.outPos ++ x ++ o.output.drop (o.outPos + x.length)).take
          (o.outPos + x.length) = o.output.take o.outPos ++ x := by
    intro o ho
    rw [List.take_append_of_le_length
      (by simp only [List.length_append, List.length_take]; omega)]
    exact List.take_of_length_le
      (by simp only [List.length_append, List.length_take]; omega)
  by_cases f1 : o1.outPos + x.length < N
  · have f2 : o2.outPos + x.length < M ∨ N ≤ o2.outPos := by omega
    rw [if_pos f1]
    rcases h5 with ⟨e1, e2⟩ | h5
    · rw [if_pos (by omega)]
      refine ⟨f1, by rw [hl1 o1 (by omega)]; exact h2, by simp only; omega,
        by rw [hl1 o2 (by omega)]; exact h4, Or.inl ⟨by simp only; omega, ?_⟩⟩
      simp only
      rw [ht o1 (by omega), ht o2 (by omega), e2]
    · by_cases f3 : o2.outPos + x.length < M
      · rw [if_pos f3]
        exact ⟨f1, by rw [hl1 o1 (by omega)]; exact h2, f3,
          by rw [hl1 o2 (by omega)]; exact h4, Or.inr (by simp only; omega)⟩
      · rw [if_neg f3]
        exact ⟨f1, by rw [hl1 o1 (by omega)]; exact h2, h3, h4, Or.inr h5⟩
  · rw [if_neg f1]
    by_cases f3 : o2.outPos + x.length < M
    · rw [if_pos f3]
      refine ⟨h1, h2, f3, by rw [hl1 o2 (by omega)]; exact h4, Or.inr ?_⟩
      simp only
      rcases h5 with ⟨e1, _⟩ | h5
      · omega
      · omega
    · rw [if_neg f3]
      exact ⟨h1, h2, h3, h4, h5⟩

theorem appendStr_trunc (N M L1 L2 : Nat) (hNM : N ≤ M) (hN : N ≤ L1) (hM : M ≤ L2)
    (s : List Nat) (o1 o2 : Out) (h : Trunc N M L1 L2 o1 o2) :
    Trunc N M L1 L2 (appendStr N s o1) (appendStr M s o2) := by
  have hx := trunc_of_fit N M L1 L2 hNM hN hM (s.take (WAPRequest.strlen s)) o1 o2 h
  rw [List.length_take, min_eq_left (strlen_le s)] at hx
  have e1 : appendStr N s o1 = if o1.outPos + WAPRequest.strlen s < N then
      { outPos := o1.outPos + WAPRequest.strlen s
        output := o1.output.take o1.outPos ++ s.take (WAPRequest.strlen s)
          ++ o1.output.drop (o1.outPos + WAPRequest.strlen s) } else o1 := by
    split_ifs with hf
    · exact appendStr_fit N s o1 hf (by rw [h.2.1]; exact hN)
    · exact appendStr_full N s o1 hf
  have e2 : appendStr M s o2 = if o2.outPos + WAPRequest.strlen s < M then
      { outPos := o2.outPos + WAPRequest.strlen s
        output := o2.output.take o2.outPos ++ s.take (WAPRequest.strlen s)
          ++ o2.output.drop (o2.outPos + WAPRequest.strlen s) } else o2 := by
    split_ifs with hf
    · exact appendStr_fit M s o2 hf (by rw [h.2.2.2.1]; exact hM)
    · exact appendStr_full M s o2 hf
  rw [e1, e2]
  exact hx

theorem appendChar_trunc (N M L1 L2 : Nat) (hNM : N ≤ M) (hN : N ≤ L1) (hM : M ≤ L2)
    (c : Nat) (o1 o2 : Out) (h : Trunc N M L1 L2 o1 o2) :
    Trunc N M L1 L2 (appendChar N c o1) (appendChar M c o2) := by
  have hx := trunc_of_fit N M L1 L2 hNM hN hM [c] o1 o2 h
  have e1 : appendChar N c o1 = if o1.outPos + [c].length < N then
      { outPos := o1.outPos + [c].length
        output := o1.output.take o1.outPos ++ [c] ++ o1.output.drop (o1.outPos + [c].length) }
      else o1 := by
    split_ifs with hf
    · exact appendChar_fit N c o1 hf (by rw [h.2.1]; exact hN)
    · exact appendChar_full N c o1 hf
  have e2 : appendChar M c o2 = if o2.outPos + [c].length < M then
      { outPos := o2.outPos + [c].length
        output := o2.output.take o2.outPos ++ [c] ++ o2.output.drop (o2.outPos + [c].length) }
      else o2 := by
    split_ifs with hf
    · exact appendChar_fit M c o2 hf (by rw [h.2.2.2.1]; exact hM)
    · exact appendChar_full M c o2 hf
  rw [e1, e2]
  exact hx

/-! ### `decompile` as one run in the whole buffer -/

theorem kept_start (N : Nat) (output : List Nat) (hN : 0 < N) :
    Kept N output.length output [] { outPos := 0, output := output } :=
  ⟨hN, rfl, rfl, Nat.le_refl 0, rfl⟩

/-- The XML declaration and the DOCTYPE line keep `Kept`. -/
theorem kept_header (N : Nat) (output : List Nat) (hN : 0 < N) (hL : N ≤ output.length)
    (publicId : Nat) :
    Kept N output.length output [] (prolog N publicId output) := by
  unfold prolog
  have h1 := appendStr_kept N output.length output [] hL xmlDeclaration _ (kept_start N output hN)
  cases doctype publicId with
  | none => exact h1
  | some line => exact appendStr_kept N output.length output [] hL line _ h1

theorem terminate_lt (N : Nat) (o : Out) (h : o.outPos < N) :
    terminate N o = o.output.set o.outPos 0 := by
  rw [terminate, if_pos h]

/-- For an accepted header, `decompile` is the token loop, the closing tags and
the terminator, all in the whole buffer with the whole capacity, started behind
the XML declaration and the DOCTYPE line. -/
theorem decompile_flat (w : Nat) (wmlc : List Nat) (wmlcLen : Nat) (output : List Nat)
    (N fuel p0 : Nat) (hlen : 4 ≤ wmlcLen) (hN : 100 ≤ N) (hL : N ≤ output.length)
    (publicId pos : Nat) (st : Option (List Nat)) (stLen : Nat)
    (hh : readHeader w wmlc wmlcLen p0 = some (publicId, pos, st, stLen)) :
    decompile w wmlc wmlcLen output N fuel p0
      = if pos < wmlcLen then
          match tokenLoop w N (wmlc.drop pos) (wmlcLen - pos) st stLen fuel
              { pos := 0, out := prolog N publicId output, elementStack := [] } with
          | none => none
          | some s =>
            some ((closeAll N s.elementStack s.out).outPos,
              terminate N (closeAll N s.elementStack s.out))
        else some ((prolog N publicId output).outPos, terminate N (prolog N publicId output)) := by
  have hk : Kept N output.length output [] (prolog N publicId output) :=
    kept_header N output (by omega) hL publicId
  rw [decompile_eq, if_neg (by omega), hh]
  dsimp only
  generalize prolog N publicId output = o at hk ⊢
  by_cases hp : pos < wmlcLen
  · rw [if_pos hp, if_pos hp]
    have hpre : (o.output.take o.outPos).length = o.outPos := by
      rw [List.length_take, min_eq_left]
      have := hk.1; have := hk.2.1; omega
    have h0 : Shift (o.output.take o.outPos) N output.length
        { outPos := 0, output := o.output.drop o.outPos } o :=
      ⟨by rw [hpre]; rfl, (List.take_append_drop _ _).symm, hk.1, hk.2.1⟩
    have hS := appendStr_shift (o.output.take o.outPos) N output.length
    have hC := appendChar_shift (o.output.take o.outPos) N output.length
    rw [decompileBody, if_neg (by omega)]
    rcases tokenLoop_rel w (N - (o.output.take o.outPos).length) N
        (Shift (o.output.take o.outPos) N output.length) hS hC (wmlc.drop pos) (wmlcLen - pos)
        st stLen fuel 0 _ _ [] h0 with ⟨e1, e2⟩ | ⟨q, a1, a2, j, e1, e2, hR⟩
    · rw [hpre] at e1
      rw [e1, e2]
    · rw [hpre] at e1
      rw [e1, e2]
      have hc := closeAll_rel (N - (o.output.take o.outPos).length) N
        (Shift (o.output.take o.outPos) N output.length) hS hC j _ _ hR
      rw [hpre] at hc
      dsimp only
      generalize closeAll (N - o.outPos) j a1 = b at hc
      generalize closeAll N j a2 = a at hc
      obtain ⟨c1, c2, c3, c4⟩ := hc
      rw [hpre] at c1
      have hb : b.outPos < N - o.outPos := by omega
      rw [terminate_lt _ b hb, terminate_lt N a c3, terminate_lt N _ (by simp only; omega)]
      simp only
      rw [← c1, c2]
      have hi : a.outPos = (o.output.take o.outPos).length + b.outPos := by rw [hpre]; exact c1
      rw [hi, List.set_append_right _ _ (by omega), List.set_append_right _ _ (by omega)]
      simp only [Nat.add_sub_cancel_left, List.set_set]
  · rw [if_neg hp, if_neg hp]

/-! ### The input position and the element stack after one round -/

theorem inlineString_pos_gt (N : Nat) (data : List Nat) (len p : Nat) (o : Out) :
    p ≤ (inlineString N data len p o).1 := by
  rw [inlineString_fst]
  split_ifs <;> omega

theorem attrValueLoop_pos_ge (w N : Nat) (data : List Nat) (len : Nat) (st : Option (List Nat))
    (stLen : Nat) : ∀ (fuel p : Nat) (o : Out),
      p ≤ (attrValueLoop w N data len st stLen fuel p o).1 := by
  intro fuel
  induction fuel with
  | zero => intro p o; exact Nat.le_refl p
  | succ fuel ih =>
    intro p o
    simp only [attrValueLoop]
    split_ifs
    · exact Nat.le_refl p
    · exact Nat.le_trans (Nat.le_trans (Nat.le_succ p) (inlineString_pos_gt N data len (p + 1) o))
        (ih _ _)
    · exact Nat.le_trans (by omega) (ih _ _)
    · exact Nat.le_trans (by omega) (ih _ _)
    · exact Nat.le_trans (Nat.le_trans (Nat.le_succ p) (inlineString_pos_gt N data len (p + 1) _))
        (ih _ _)
    · exact Nat.le_trans (by omega) (ih _ _)
    · exact Nat.le_trans (by omega) (ih _ _)
    · exact Nat.le_trans (by omega) (ih _ _)
    · exact Nat.le_trans (by omega) (ih _ _)
    · exact Nat.le_refl p

theorem attrLoop_pos_ge (w N : Nat) (data : List Nat) (len : Nat) (st : Option (List Nat))
    (stLen : Nat) : ∀ (fuel p : Nat) (o : Out),
      p ≤ (attrLoop w N data len st stLen fuel p o).1 := by
  intro fuel
  induction fuel with
  | zero => intro p o; exact Nat.le_refl p
  | succ fuel ih =>
    intro p o
    simp only [attrLoop]
    split_ifs
    · exact Nat.le_succ p
    · exact Nat.le_trans (Nat.le_trans (Nat.le_succ p) (inlineString_pos_gt N data len (p + 1) o))
        (ih _ _)
    · exact Nat.le_trans (by omega) (ih _ _)
    · exact Nat.le_trans (by omega) (ih _ _)
    · exact Nat.le_trans (by omega) (ih _ _)
    · cases hname : getAttributeName (data.getD p 0) with
      | none => exact Nat.le_trans (by omega) (ih _ _)
      | some np =>
        obtain ⟨n, pre⟩ := np
        simp only []
        exact Nat.le_trans (Nat.le_trans (Nat.le_succ p)
          (attrValueLoop_pos_ge w N data len st stLen len (p + 1) _)) (ih _ _)
    · exact Nat.le_refl p

theorem openElement_shape (N : Nat) (hasContent : Bool) (elemName : List Nat) (q : Nat) (o : Out)
    (k : List (List Nat)) :
    (openElement N hasContent elemName q o k).pos = q
      ∧ ((openElement N hasContent elemName q o k).elementStack = k
        ∨ (openElement N hasContent elemName q o k).elementStack = push elemName k) := by
  unfold openElement
  cases hasContent with
  | true => exact ⟨rfl, Or.inr rfl⟩
  | false => exact ⟨rfl, Or.inl rfl⟩

/-- One round of the token loop: the stack is kept, popped or pushed, and the
position moves forward unless the round is the skip of `OPAQUE` data. -/
theorem tokenStep_shape (w N : Nat) (data : List Nat) (len : Nat) (st : Option (List Nat))
    (stLen : Nat) (p : Nat) (o : Out) (k : List (List Nat)) :
    ((tokenStep w N data len st stLen { pos := p, out := o, elementStack := k }).elementStack = k
        ∨ (tokenStep w N data len st stLen { pos := p, out := o, elementStack := k }).elementStack
            = k.tail
        ∨ ∃ e, (tokenStep w N data len st stLen
            { pos := p, out := o, elementStack := k }).elementStack = push e k)
      ∧ (p < (tokenStep w N data len st stLen { pos := p, out := o, elementStack := k }).pos
        ∨ (data.getD p 0 = WBXML_OPAQUE ∧ p + 1 < len
          ∧ (tokenStep w N data len st stLen { pos := p, out := o, elementStack := k }).pos
            = (p + 1 + (decodeMbUint w (data.drop (p + 1)) (len - (p + 1)) 0).1
                + (decodeMbUint w (data.drop (p + 1)) (len - (p + 1)) 0).2) % 2 ^ w)) := by
  unfold tokenStep
  dsimp only
  generalize decodeMbUint w (List.drop (p + 1) data) (len - (p + 1)) 0 = d
  by_cases c0 : data.getD p 0 = WBXML_SWITCH_PAGE
  · rw [if_pos c0]
    refine ⟨Or.inl rfl, Or.inl ?_⟩
    simp only
    split_ifs <;> omega
  rw [if_neg c0]
  by_cases c1 : data.getD p 0 = WBXML_END
  · rw [if_pos c1]
    cases k with
    | nil => exact ⟨Or.inl rfl, Or.inl (Nat.lt_succ_self p)⟩
    | cons e rest => exact ⟨Or.inr (Or.inl rfl), Or.inl (Nat.lt_succ_self p)⟩
  rw [if_neg c1]
  by_cases c2 : data.getD p 0 = WBXML_ENTITY
  · rw [if_pos c2]
    split_ifs
    · exact ⟨Or.inl rfl, Or.inl (by simp only; omega)⟩
    · exact ⟨Or.inl rfl, Or.inl (Nat.lt_succ_self p)⟩
    · exact ⟨Or.inl rfl, Or.inl (Nat.lt_succ_self p)⟩
  rw [if_neg c2]
  by_cases c3 : data.getD p 0 = WBXML_STR_I
  · rw [if_pos c3]
    exact ⟨Or.inl rfl, Or.inl (inlineString_pos_gt N data len (p + 1) o)⟩
  rw [if_neg c3]
  by_cases c4 : data.getD p 0 = WBXML_STR_T
  · rw [if_pos c4]
    split_ifs
    · exact ⟨Or.inl rfl, Or.inl (by simp only; omega)⟩
    · exact ⟨Or.inl rfl, Or.inl (Nat.lt_succ_self p)⟩
    · exact ⟨Or.inl rfl, Or.inl (Nat.lt_succ_self p)⟩
  rw [if_neg c4]
  by_cases c5 : data.getD p 0 = WBXML_EXT_I_0 ∨ data.getD p 0 = WBXML_EXT_I_1
      ∨ data.getD p 0 = WBXML_EXT_I_2
  · rw [if_pos c5]
    exact ⟨Or.inl rfl, Or.inl (inlineString_pos_gt N data len (p + 1)
      (appendStr N (asciiBytes "$(") o))⟩
  rw [if_neg c5]
  by_cases c6 : data.getD p 0 = WBXML_EXT_T_0 ∨ data.getD p 0 = WBXML_EXT_T_1
      ∨ data.getD p 0 = WBXML_EXT_T_2
  · rw [if_pos c6]
    split_ifs
    · exact ⟨Or.inl rfl, Or.inl (by simp only; omega)⟩
    · exact ⟨Or.inl rfl, Or.inl (Nat.lt_succ_self p)⟩
    · exact ⟨Or.inl rfl, Or.inl (Nat.lt_succ_self p)⟩
  rw [if_neg c6]
  by_cases c7 : data.getD p 0 = WBXML_OPAQUE
  · rw [if_pos c7]
    by_cases c71 : p + 1 < len
    · rw [if_pos c71]
      by_cases c72 : d.1 > 0
      · rw [if_pos c72]
        exact ⟨Or.inl rfl, Or.inr ⟨c7, c71, rfl⟩⟩
      · rw [if_neg c72]
        exact ⟨Or.inl rfl, Or.inl (Nat.lt_succ_self p)⟩
    · rw [if_neg c71]
      exact ⟨Or.inl rfl, Or.inl (Nat.lt_succ_self p)⟩
  rw [if_neg c7]
  by_cases c8 : data.getD p 0 = WBXML_PI
  · rw [if_pos c8]
    exact ⟨Or.inl rfl, Or.inl (Nat.lt_succ_self p)⟩
  rw [if_neg c8]
  by_cases c9 : data.getD p 0 = WBXML_LITERAL ∨ data.getD p 0 = WBXML_LITERAL_A
      ∨ data.getD p 0 = WBXML_LITERAL_C ∨ data.getD p 0 = WBXML_LITERAL_AC
  · rw [if_pos c9]
    by_cases c91 : p + 1 < len
    · rw [if_pos c91]
      by_cases c92 : d.1 > 0
      · rw [if_pos c92]
        generalize hq : (if decide (data.getD p 0 = WBXML_LITERAL_A ∨ data.getD p 0 = WBXML_LITERAL_AC)
            = true then
            if p + 1 + d.1 + (literalAttrs data len (p + 1 + d.1)).length < len then
              p + 1 + d.1 + (literalAttrs data len (p + 1 + d.1)).length + 1
            else p + 1 + d.1 + (literalAttrs data len (p + 1 + d.1)).length
          else p + 1 + d.1) = q
        have hq2 : p < q := by
          rw [← hq]
          split_ifs <;> omega
        have hs := openElement_shape N
          (decide (data.getD p 0 = WBXML_LITERAL_C ∨ data.getD p 0 = WBXML_LITERAL_AC))
          ((stringRef st stLen d.2).getD (asciiBytes "unknown")) q
          (appendStr N ((stringRef st stLen d.2).getD (asciiBytes "unknown")) (appendChar N 60 o)) k
        rw [hs.1]
        rcases hs.2 with h | h
        · exact ⟨Or.inl h, Or.inl hq2⟩
        · exact ⟨Or.inr (Or.inr ⟨_, h⟩), Or.inl hq2⟩
      · rw [if_neg c92]
        exact ⟨Or.inl rfl, Or.inl (Nat.lt_succ_self p)⟩
    · rw [if_neg c91]
      exact ⟨Or.inl rfl, Or.inl (Nat.lt_succ_self p)⟩
  rw [if_neg c9]
  by_cases c10 : data.getD p 0 ≥ 5
  · rw [if_pos c10]
    cases hname : getElementName (data.getD p 0 &&& 63) with
    | none => exact ⟨Or.inl rfl, Or.inl (Nat.lt_succ_self p)⟩
    | some elemName =>
      dsimp only
      generalize hr : (if decide (data.getD p 0 &&& TAG_HAS_ATTRS ≠ 0) = true then
          attrLoop w N data len st stLen len (p + 1) (appendStr N elemName (appendChar N 60 o))
        else (p + 1, appendStr N elemName (appendChar N 60 o))) = r
      have hq2 : p < r.1 := by
        rw [← hr]
        split_ifs
        · exact attrLoop_pos_ge w N data len st stLen len (p + 1) _
        · exact Nat.lt_succ_self p
      have hs := openElement_shape N (decide (data.getD p 0 &&& TAG_HAS_CONTENT ≠ 0)) elemName
        r.1 r.2 k
      rw [hs.1]
      rcases hs.2 with h | h
      · exact ⟨Or.inl h, Or.inl hq2⟩
      · exact ⟨Or.inr (Or.inr ⟨_, h⟩), Or.inl hq2⟩
  rw [if_neg c10]
  exact ⟨Or.inl rfl, Or.inl (Nat.lt_succ_self p)⟩

/-! ### Properties every run keeps -/

theorem xmlDeclaration_no_nul : ∀ c ∈ xmlDeclaration, c ≠ 0 := by decide

set_option maxRecDepth 100000 in
theorem doctype_line_no_nul : ∀ c ∈ (doctype 0x04).getD [] ++ (doctype 0x09).getD []
    ++ (doctype 0x0A).getD [], c ≠ 0 := by decide

set_option maxRecDepth 100000 in
theorem doctype_line_length : ((doctype 0x04).getD []).length = 95
    ∧ ((doctype 0x09).getD []).length = 93 ∧ ((doctype 0x0A).getD []).length = 93 := by decide

/-- A DOCTYPE line has no `0` and at most 95 characters. -/
theorem doctype_line (publicId : Nat) (line : List Nat) (h : doctype publicId = some line) :
    (∀ c ∈ line, c ≠ 0) ∧ line.length ≤ 95 := by
  have h0 := doctype_line_no_nul
  have hl := doctype_line_length
  unfold doctype at h
  split_ifs at h with h1 h2 h3
  · have e : (doctype 0x04).getD [] = line := by
      rw [doctype, if_pos rfl, Option.getD_some]; exact Option.some.inj h
    rw [← e]
    exact ⟨fun c hc => h0 c (List.mem_append_left _ (List.mem_append_left _ hc)), by omega⟩
  · have e : (doctype 0x09).getD [] = line := by
      rw [doctype, if_neg (by decide), if_pos rfl, Option.getD_some]; exact Option.some.inj h
    rw [← e]
    exact ⟨fun c hc => h0 c (List.mem_append_left _ (List.mem_append_right _ hc)), by omega⟩
  · have e : (doctype 0x0A).getD [] = line := by
      rw [doctype, if_neg (by decide), if_neg (by decide), if_pos rfl, Option.getD_some]
      exact Option.some.inj h
    rw [← e]
    exact ⟨fun c hc => h0 c (List.mem_append_right _ hc), by omega⟩

theorem doctype_getD (publicId : Nat) :
    (∀ c ∈ (doctype publicId).getD [], c ≠ 0) ∧ ((doctype publicId).getD []).length ≤ 95 := by
  cases h : doctype publicId with
  | none => exact ⟨fun c hc => absurd hc (List.not_mem_nil c), Nat.zero_le _⟩
  | some line => exact doctype_line publicId line h

/-- The text that stands before the position can be taken for `t0`. -/
theorem kept_text (N L : Nat) (orig t0 : List Nat) (o : Out) (hL : N ≤ L)
    (h : Kept N L orig t0 o) : Kept N L orig (o.output.take o.outPos) o := by
  obtain ⟨h1, h2, h3, h4, h5⟩ := h
  have hl : (o.output.take o.outPos).length = o.outPos := by
    rw [List.length_take, min_eq_left (by omega)]
  exact ⟨h1, h2, h3, by rw [hl], by rw [hl]⟩

/-- The output behind the XML declaration and the DOCTYPE line, with room for
both. -/
theorem header_text (N : Nat) (output : List Nat) (publicId : Nat) (hL : N ≤ output.length)
    (hroom : 22 + ((doctype publicId).getD []).length < N) :
    prolog N publicId output
      = { outPos := 22 + ((doctype publicId).getD []).length
          output := xmlDeclaration ++ (doctype publicId).getD []
            ++ output.drop (22 + ((doctype publicId).getD []).length) } := by
  unfold prolog
  have lxml : xmlDeclaration.length = 22 := rfl
  have e1 : appendStr N xmlDeclaration { outPos := 0, output := output }
      = { outPos := 22, output := xmlDeclaration ++ output.drop 22 } := by
    have h := appendStr_text N [] output xmlDeclaration xmlDeclaration_no_nul
      (by simp only [List.length_nil]; omega) (by simp only [List.length_nil, lxml]; omega)
    simp only [List.nil_append, List.length_nil, lxml] at h
    exact h
  cases hd : doctype publicId with
  | none =>
    simp only [Option.getD_none, List.length_nil, List.append_nil, Nat.add_zero]
    exact e1
  | some line =>
    rw [hd] at hroom
    simp only [Option.getD_some] at hroom ⊢
    rw [e1]
    have h := appendStr_text N xmlDeclaration (output.drop 22) line
      (doctype_line publicId line hd).1
      (by rw [List.length_drop, lxml]; omega) (by rw [lxml]; exact hroom)
    rw [lxml] at h
    rw [h, List.drop_drop, List.length_append, lxml]

/-- The XML declaration always has room in a buffer of 100 bytes. -/
theorem kept_header_xml (N : Nat) (output : List Nat) (publicId : Nat) (hN : 100 ≤ N)
    (hL : N ≤ output.length) :
    Kept N output.length output xmlDeclaration (prolog N publicId output) := by
  unfold prolog
  have lxml : xmlDeclaration.length = 22 := rfl
  have e1 : appendStr N xmlDeclaration { outPos := 0, output := output }
      = { outPos := 22, output := xmlDeclaration ++ output.drop 22 } := by
    have h := appendStr_text N [] output xmlDeclaration xmlDeclaration_no_nul
      (by simp only [List.length_nil]; omega) (by simp only [List.length_nil, lxml]; omega)
    simp only [List.nil_append, List.length_nil, lxml] at h
    exact h
  have k0 := appendStr_kept N output.length output [] hL xmlDeclaration _
    (kept_start N output (by omega))
  have k1 := kept_text N output.length output [] _ hL k0
  rw [e1] at k0 k1
  simp only at k1
  rw [show (xmlDeclaration ++ output.drop 22).take 22 = xmlDeclaration from
    List.take_left' lxml] at k1
  cases hd : doctype publicId with
  | none => simp only; rw [e1]; exact k1
  | some line =>
    simp only; rw [e1]
    exact appendStr_kept N output.length output xmlDeclaration hL line _ k1

/-- A property of the output that every append keeps holds when the token loop
is left. -/
theorem tokenLoop_inv (w N : Nat) (P : Out → Prop)
    (hS : ∀ s o, P o → P (appendStr N s o)) (hC : ∀ c o, P o → P (appendChar N c o))
    (data : List Nat) (len : Nat) (st : Option (List Nat)) (stLen : Nat)
    (fuel p : Nat) (o : Out) (k : List (List Nat)) (h : P o) (s : Body)
    (hs : tokenLoop w N data len st stLen fuel { pos := p, out := o, elementStack := k }
      = some s) : P s.out := by
  rcases tokenLoop_rel w N N (fun o1 _ => P o1) (fun s o1 _ h1 => hS s o1 h1)
      (fun c o1 _ h1 => hC c o1 h1) data len st stLen fuel p o o k h with
    ⟨e1, _⟩ | ⟨q, a1, a2, j, e1, _, hR⟩
  · rw [e1] at hs; exact absurd hs (by simp)
  · rw [e1] at hs
    rw [← Option.some.inj hs]
    exact hR

theorem closeAll_inv (N : Nat) (P : Out → Prop)
    (hS : ∀ s o, P o → P (appendStr N s o)) (hC : ∀ c o, P o → P (appendChar N c o))
    (k : List (List Nat)) (o : Out) (h : P o) : P (closeAll N k o) :=
  closeAll_rel N N (fun o1 _ => P o1) (fun s o1 _ h1 => hS s o1 h1)
    (fun c o1 _ h1 => hC c o1 h1) k o o h

/-- What `decompile` returns for an accepted header: the output before the
terminator keeps everything the output behind the header has. -/
theorem decompile_kept (w : Nat) (wmlc : List Nat) (wmlcLen : Nat) (output : List Nat)
    (N fuel p0 : Nat) (hlen : 4 ≤ wmlcLen) (hN : 100 ≤ N) (hL : N ≤ output.length)
    (publicId pos : Nat) (st : Option (List Nat)) (stLen : Nat)
    (hh : readHeader w wmlc wmlcLen p0 = some (publicId, pos, st, stLen))
    (t0 : List Nat) (hk : Kept N output.length output t0 (prolog N publicId output))
    (n : Nat) (out : List Nat) (h : decompile w wmlc wmlcLen output N fuel p0 = some (n, out)) :
    ∃ a : Out, Kept N output.length output t0 a ∧ n = a.outPos ∧ out = a.output.set a.outPos 0 := by
  rw [decompile_flat w wmlc wmlcLen output N fuel p0 hlen hN hL publicId pos st stLen hh] at h
  have hS := appendStr_kept N output.length output t0 hL
  have hC := appendChar_kept N output.length output t0 hL
  by_cases hp : pos < wmlcLen
  · rw [if_pos hp] at h
    cases hl : tokenLoop w N (wmlc.drop pos) (wmlcLen - pos) st stLen fuel
        { pos := 0, out := prolog N publicId output, elementStack := [] } with
    | none => rw [hl] at h; exact absurd h (by simp)
    | some s =>
      rw [hl] at h
      simp only [Option.some.injEq, Prod.mk.injEq] at h
      have k1 := tokenLoop_inv w N _ hS hC _ _ _ _ _ _ _ _ hk s hl
      have k2 := closeAll_inv N _ hS hC s.elementStack s.out k1
      exact ⟨_, k2, h.1.symm, by rw [← h.2, terminate_lt N _ k2.1]⟩
  · rw [if_neg hp] at h
    simp only [Option.some.injEq, Prod.mk.injEq] at h
    exact ⟨_, hk, h.1.symm, by rw [← h.2, terminate_lt N _ hk.1]⟩

theorem take_set_of_le (l : List Nat) (n m a : Nat) (h : m ≤ n) :
    (l.set n a).take m = l.take m := by
  rw [List.set_take, List.set_eq_of_length_le]
  rw [List.length_take]
  omega

/-- What `Kept` gives for the output with the terminator. -/
theorem kept_terminated (N L : Nat) (orig t0 : List Nat) (a : Out) (hL : N ≤ L)
    (hk : Kept N L orig t0 a) :
    a.outPos < N ∧ (a.output.set a.outPos 0).getD a.outPos 0 = 0
      ∧ (a.output.set a.outPos 0).length = L
      ∧ (a.output.set a.outPos 0).drop N = orig.drop N
      ∧ t0.length ≤ a.outPos ∧ (a.output.set a.outPos 0).take t0.length = t0 := by
  obtain ⟨h1, h2, h3, h4, h5⟩ := hk
  refine ⟨h1, ?_, by rw [List.length_set]; exact h2, ?_, h4, ?_⟩
  · rw [List.getD_eq_getElem?_getD, List.getElem?_set_self (by omega)]
    rfl
  · rw [List.drop_set_of_lt _ _ h1]; exact h3
  · rw [take_set_of_le _ _ _ _ h4]; exact h5

/-! ### The token loop returns -/

/-- When no length of `OPAQUE` data carries the position past `2 ^ w`, every
round moves the position forward and fuel for one round per input byte is
enough. -/
theorem tokenLoop_returns (w N : Nat) (data : List Nat) (len : Nat) (st : Option (List Nat))
    (stLen : Nat)
    (hfit : ∀ i, i + 1 < len → data.getD i 0 = WBXML_OPAQUE →
      i + 1 + (decodeMbUint w (data.drop (i + 1)) (len - (i + 1)) 0).1
        + (decodeMbUint w (data.drop (i + 1)) (len - (i + 1)) 0).2 < 2 ^ w) :
    ∀ (fuel p : Nat) (o : Out) (k : List (List Nat)), len ≤ p + fuel →
      ∃ s, tokenLoop w N data len st stLen fuel { pos := p, out := o, elementStack := k }
        = some s := by
  intro fuel
  induction fuel with
  | zero =>
    intro p o k h
    exact ⟨_, tokenLoop_done w N data len st stLen 0 _ (by simp only; omega)⟩
  | succ fuel ih =>
    intro p o k h
    by_cases hp : p < len
    · rw [tokenLoop_step w N data len st stLen fuel _ hp]
      have hs := (tokenStep_shape w N data len st stLen p o k).2
      generalize tokenStep w N data len st stLen { pos := p, out := o, elementStack := k } = s1
        at hs ⊢
      obtain ⟨q, a, j⟩ := s1
      simp only at hs
      have hq : p < q := by
        rcases hs with hs | ⟨h1, h2, h3⟩
        · exact hs
        · rw [h3, Nat.mod_eq_of_lt (hfit p h2 h1)]
          omega
      exact ih q a j (by omega)
    · exact ⟨_, tokenLoop_done w N data len st stLen _ _ hp⟩

/-- Whether the token loop uses up the fuel does not depend on the output and
its capacity. -/
theorem tokenLoop_isSome (w N1 N2 : Nat) (data : List Nat) (len : Nat) (st : Option (List Nat))
    (stLen : Nat) (fuel p : Nat) (o1 o2 : Out) (k : List (List Nat)) :
    (tokenLoop w N1 data len st stLen fuel { pos := p, out := o1, elementStack := k }).isSome
      = (tokenLoop w N2 data len st stLen fuel { pos := p, out := o2, elementStack := k }).isSome := by
  rcases tokenLoop_rel w N1 N2 (fun _ _ => True) (fun _ _ _ _ => trivial)
      (fun _ _ _ _ => trivial) data len st stLen fuel p o1 o2 k trivial with
    ⟨e1, e2⟩ | ⟨q, a1, a2, j, e1, e2, _⟩
  · rw [e1, e2]
  · rw [e1, e2]; rfl

/-- Whether `decompile` returns is a matter of the input and the fuel alone. -/
theorem decompile_isSome (w : Nat) (wmlc : List Nat) (wmlcLen : Nat) (output : List Nat)
    (N fuel p0 : Nat) (hN : 100 ≤ N) (hL : N ≤ output.length) :
    (decompile w wmlc wmlcLen output N fuel p0).isSome
      = match readHeader w wmlc wmlcLen p0 with
        | none => true
        | some (_, pos, st, stLen) =>
          if 4 ≤ wmlcLen ∧ pos < wmlcLen then
            (tokenLoop w 0 (wmlc.drop pos) (wmlcLen - pos) st stLen fuel
              { pos := 0, out := { outPos := 0, output := [] }, elementStack := [] }).isSome
          else true := by
  by_cases hl4 : wmlcLen < 4
  · rw [decompile_eq, if_pos (Or.inl hl4)]
    cases readHeader w wmlc wmlcLen p0 with
    | none => rfl
    | some r =>
      obtain ⟨pid, pos, st, stLen⟩ := r
      simp only [Option.isSome_some]
      rw [if_neg (by omega)]
  · cases hh : readHeader w wmlc wmlcLen p0 with
    | none =>
      rw [decompile_eq, if_neg (by omega), hh]
      rfl
    | some r =>
      obtain ⟨pid, pos, st, stLen⟩ := r
      rw [decompile_flat w wmlc wmlcLen output N fuel p0 (by omega) hN hL pid pos st stLen hh]
      simp only
      by_cases hp : pos < wmlcLen
      · rw [if_pos hp, if_pos ⟨by omega, hp⟩,
          ← tokenLoop_isSome w N 0 (wmlc.drop pos) (wmlcLen - pos) st stLen fuel 0 _ _ []]
        cases tokenLoop w N (wmlc.drop pos) (wmlcLen - pos) st stLen fuel _ with
        | none => rfl
        | some s => rfl
      · rw [if_neg hp, if_neg (fun h => hp h.2)]
        rfl

/-! ### The example document in small buffers -/

set_option maxRecDepth 1000000 in
theorem decompile_exampleDocument_100 :
    decompile 32 exampleDocument 12 (List.replicate 100 0) 100 12 0
      = some (44, xmlDeclaration ++ asciiBytes "<card><p>hi</p></card>" ++ List.replicate 56 0) := by
  decide

set_option maxRecDepth 1000000 in
theorem decompile_exampleDocument_120 :
    decompile 32 exampleDocument 12 (List.replicate 120 0) 120 12 0
      = some (119, xmlDeclaration ++ (doctype 0x04).getD [] ++ asciiBytes "<>" ++ [0]) := by
  decide

set_option maxRecDepth 1000000 in
theorem exampleDocument_not_prefix :
    ¬ (xmlDeclaration ++ asciiBytes "<card><p>hi</p></card>" ++ List.replicate 56 0).take 44
        <+: (xmlDeclaration ++ (doctype 0x04).getD []
            ++ asciiBytes "<card><p>hi</p></card>" ++ 0 :: (List.replicate 256 0).drop 140).take 139
      ∧ ¬ (xmlDeclaration ++ (doctype 0x04).getD [] ++ asciiBytes "<>" ++ [0]).take 119
        <+: (xmlDeclaration ++ (doctype 0x04).getD []
            ++ asciiBytes "<card><p>hi</p></card>" ++ 0 :: (List.replicate 256 0).drop 140).take 139 := by
  decide

/-- The outputs behind the header, for two capacities. -/
theorem trunc_header (N M : Nat) (out1 out2 : List Nat) (hN : 0 < N) (hNM : N ≤ M)
    (h1 : N ≤ out1.length) (h2 : M ≤ out2.length) (publicId : Nat) :
    Trunc N M out1.length out2.length (prolog N publicId out1) (prolog M publicId out2) := by
  unfold prolog
  have h0 : Trunc N M out1.length out2.length { outPos := 0, output := out1 }
      { outPos := 0, output := out2 } :=
    ⟨hN, rfl, by simp only; omega, rfl, Or.inl ⟨rfl, rfl⟩⟩
  have hx := appendStr_trunc N M out1.length out2.length hNM h1 h2 xmlDeclaration _ _ h0
  cases doctype publicId with
  | none => exact hx
  | some line => exact appendStr_trunc N M out1.length out2.length hNM h1 h2 line _ _ hx

/-! ### The header of an accepted document -/

theorem decodeMbUint_len0 (w : Nat) (data : List Nat) (v : Nat) :
    decodeMbUint w data 0 v = (0, v) := by
  rw [decodeMbUint, if_pos rfl]

/-- What `readHeader` has read when it accepts: the public identifier, a second
one behind it when the first is `0`, the charset and the length of the string
table. -/
theorem readHeader_some (w : Nat) (wmlc : List Nat) (wmlcLen p0 : Nat)
    (publicId pos : Nat) (st : Option (List Nat)) (stLen : Nat)
    (h : readHeader w wmlc wmlcLen p0 = some (publicId, pos, st, stLen))
    (raw sec cs tl : Nat × Nat) (p2 : Nat)
    (hraw : raw = decodeMbUint w (wmlc.drop 1) (wmlcLen - 1) p0)
    (hsec : sec = decodeMbUint w (wmlc.drop (1 + raw.1)) (wmlcLen - (1 + raw.1)) 0)
    (hp2 : p2 = if raw.2 = 0 then 1 + raw.1 + sec.1 else 1 + raw.1)
    (hcs : cs = decodeMbUint w (wmlc.drop p2) (wmlcLen - p2) 0)
    (htl : tl = decodeMbUint w (wmlc.drop (p2 + cs.1)) (wmlcLen - (p2 + cs.1)) 0) :
    0 < raw.1 ∧ (raw.2 = 0 → 1 + raw.1 < wmlcLen ∧ 0 < sec.1)
      ∧ publicId = (if raw.2 = 0 then sec.2 else raw.2)
      ∧ 0 < cs.1 ∧ 0 < tl.1 ∧ stLen = tl.2
      ∧ pos = (if tl.2 > 0 then (p2 + cs.1 + tl.1 + tl.2) % 2 ^ w else p2 + cs.1 + tl.1)
      ∧ st = (if tl.2 > 0 then some (wmlc.drop (p2 + cs.1 + tl.1)) else none) := by
  unfold readHeader at h
  dsimp only at h
  simp only [Nat.zero_add] at h
  rw [← hraw] at h
  by_cases h1 : raw.1 = 0
  · rw [if_pos h1] at h; exact absurd h (by simp)
  rw [if_neg h1] at h
  -- the second public identifier
  have hd2 : (if raw.2 = 0 ∧ 1 + raw.1 < wmlcLen then
        decodeMbUint w (wmlc.drop (1 + raw.1)) (wmlcLen - (1 + raw.1)) raw.2
      else (0, raw.2))
      = if raw.2 = 0 then (if 1 + raw.1 < wmlcLen then sec else (0, 0)) else (0, raw.2) := by
    by_cases c : raw.2 = 0
    · rw [if_pos c]
      by_cases c2 : 1 + raw.1 < wmlcLen
      · rw [if_pos ⟨c, c2⟩, if_pos c2, c, hsec]
      · rw [if_neg (fun x => c2 x.2), if_neg c2, c]
    · rw [if_neg (fun x => c x.1), if_neg c]
  rw [hd2] at h
  by_cases c : raw.2 = 0
  · simp only [c, if_true] at h hp2 ⊢
    by_cases c2 : 1 + raw.1 < wmlcLen
    · simp only [c2, if_true] at h
      have hpos : (if sec.1 > 0 then 1 + raw.1 + sec.1 else 1 + raw.1) = p2 := by
        rw [hp2]; split_ifs <;> omega
      rw [hpos, ← hcs] at h
      by_cases h3 : cs.1 = 0
      · rw [if_pos h3] at h; exact absurd h (by simp)
      rw [if_neg h3, ← htl] at h
      by_cases h4 : tl.1 = 0
      · rw [if_pos h4] at h; exact absurd h (by simp)
      rw [if_neg h4] at h
      by_cases h5 : tl.2 > 0 ∧ (p2 + cs.1 + tl.1 + tl.2) % 2 ^ w > wmlcLen
      · rw [if_pos h5] at h; exact absurd h (by simp)
      rw [if_neg h5] at h
      simp only [Option.some.injEq, Prod.mk.injEq] at h
      obtain ⟨e1, e2, e3, e4⟩ := h
      have hs1 : 0 < sec.1 := by
        by_contra hs0
        have hs0 : sec.1 = 0 := by omega
        rw [hs0, Nat.add_zero] at hp2
        rw [hp2, ← hsec] at hcs
        rw [hcs] at h3
        exact h3 hs0
      exact ⟨by omega, fun _ => ⟨c2, hs1⟩, e1.symm, by omega, by omega, e4.symm, e2.symm, e3.symm⟩
    · simp only [c2, if_false] at h
      simp only [gt_iff_lt, Nat.lt_irrefl, if_false] at h
      rw [show wmlcLen - (1 + raw.1) = 0 by omega, decodeMbUint_len0, if_pos rfl] at h
      exact absurd h (by simp)
  · simp only [c, if_false] at h hp2 ⊢
    simp only [Nat.lt_irrefl, gt_iff_lt, if_false] at h
    rw [← hp2, ← hcs] at h
    by_cases h3 : cs.1 = 0
    · rw [if_pos h3] at h; exact absurd h (by simp)
    rw [if_neg h3, ← htl] at h
    by_cases h4 : tl.1 = 0
    · rw [if_pos h4] at h; exact absurd h (by simp)
    rw [if_neg h4] at h
    by_cases h5 : 0 < tl.2 ∧ wmlcLen < (p2 + cs.1 + tl.1 + tl.2) % 2 ^ w
    · rw [if_pos h5] at h; exact absurd h (by simp)
    rw [if_neg h5] at h
    simp only [Option.some.injEq, Prod.mk.injEq] at h
    obtain ⟨e1, e2, e3, e4⟩ := h
    exact ⟨by omega, fun x => False.elim x, e1.symm, by omega, by omega, e4.symm, e2.symm, e3.symm⟩

/-- What `decompileBody` returns for a non-empty input in a buffer of at least
`N > 0` bytes. -/
theorem decompileBody_kept (w N : Nat) (data : List Nat) (len : Nat) (st : Option (List Nat))
    (stLen fuel : Nat) (buf : List Nat) (hlen : len ≠ 0) (hN : 0 < N) (hL : N ≤ buf.length)
    (r : Nat × List Nat) (h : decompileBody w data len st stLen buf N fuel = some r) :
    ∃ a : Out, Kept N buf.length buf [] a ∧ r = (a.outPos, a.output.set a.outPos 0) := by
  rcases decompileBody_rel w N N (fun o1 _ => Kept N buf.length buf [] o1)
      (fun s o1 _ h1 => appendStr_kept N buf.length buf [] hL s o1 h1)
      (fun c o1 _ h1 => appendChar_kept N buf.length buf [] hL c o1 h1)
      data len st stLen fuel buf buf hlen (kept_start N buf hN) with
    ⟨e1, _⟩ | ⟨a1, a2, hR, e1, _⟩
  · rw [e1] at h; exact absurd h (by simp)
  · rw [e1] at h
    exact ⟨a1, hR, by rw [← Option.some.inj h, terminate_lt N a1 hR.1]⟩

/-- The output behind the header with room for the DOCTYPE line keeps the XML
declaration and the line. -/
theorem kept_prolog (N : Nat) (output : List Nat) (publicId : Nat) (hL : N ≤ output.length)
    (hroom : 22 + ((doctype publicId).getD []).length < N) :
    Kept N output.length output (xmlDeclaration ++ (doctype publicId).getD [])
      (prolog N publicId output) := by
  have h := kept_text N output.length output [] _ hL (kept_header N output (by omega) hL publicId)
  rw [header_text N output publicId hL hroom] at h ⊢
  simp only at h
  rw [List.take_left' (by
    rw [List.length_append]
    rfl)] at h
  exact h

/-! ### Element tokens -/

set_option maxRecDepth 100000 in
theorem not_global_byte : ∀ t, t < 256 → 0x05 ≤ t &&& 0x3F →
    t ∉ [0x00, 0x01, 0x02, 0x03, 0x83, 0x40, 0x41, 0x42, 0x80, 0x81, 0x82, 0xC3, 0x43, 0x04,
        0x84, 0x44, 0xC4] ∧ 0x05 ≤ t := by
  decide

/-- A token whose low six bits are at least 5 is none of the global tokens. -/
theorem not_global_base (t : Nat) (hbase : 0x05 ≤ t &&& 0x3F) :
    t ∉ [0x00, 0x01, 0x02, 0x03, 0x83, 0x40, 0x41, 0x42, 0x80, 0x81, 0x82, 0xC3, 0x43, 0x04,
        0x84, 0x44, 0xC4] ∧ 0x05 ≤ t := by
  by_cases h : t < 256
  · exact not_global_byte t h hbase
  · refine ⟨?_, by omega⟩
    simp only [List.mem_cons, List.mem_singleton, List.not_mem_nil, or_false, not_or]
    omega

/-- A token that is none of the global tokens and at least 5 reaches the lookup
of the element table. -/
theorem tokenStep_application (w N : Nat) (data : List Nat) (len : Nat) (st : Option (List Nat))
    (stLen : Nat) (p : Nat) (o : Out) (k : List (List Nat)) (token : Nat)
    (htok : data.getD p 0 = token)
    (hg : token ∉ [0x00, 0x01, 0x02, 0x03, 0x83, 0x40, 0x41, 0x42, 0x80, 0x81, 0x82, 0xC3, 0x43,
        0x04, 0x84, 0x44, 0xC4])
    (h5 : 0x05 ≤ token) :
    tokenStep w N data len st stLen { pos := p, out := o, elementStack := k }
      = match getElementName (token &&& 0x3F) with
        | none => { pos := p + 1, out := o, elementStack := k }
        | some elemName =>
          openElement N (decide (token &&& TAG_HAS_CONTENT ≠ 0)) elemName
            (if token &&& TAG_HAS_ATTRS ≠ 0 then
              attrLoop w N data len st stLen len (p + 1) (appendStr N elemName (appendChar N 60 o))
            else (p + 1, appendStr N elemName (appendChar N 60 o))).1
            (if token &&& TAG_HAS_ATTRS ≠ 0 then
              attrLoop w N data len st stLen len (p + 1) (appendStr N elemName (appendChar N 60 o))
            else (p + 1, appendStr N elemName (appendChar N 60 o))).2 k := by
  simp only [List.mem_cons, List.mem_singleton, List.not_mem_nil, or_false, not_or] at hg
  obtain ⟨g0, g1, g2, g3, g4, g5, g6, g7, g8, g9, g10, g11, g12, g13, g14, g15, g16⟩ := hg
  unfold tokenStep
  dsimp only
  rw [htok]
  rw [if_neg (show ¬ token = WBXML_SWITCH_PAGE from g0), if_neg (show ¬ token = WBXML_END from g1),
    if_neg (show ¬ token = WBXML_ENTITY from g2), if_neg (show ¬ token = WBXML_STR_I from g3),
    if_neg (show ¬ token = WBXML_STR_T from g4),
    if_neg (show ¬ (token = WBXML_EXT_I_0 ∨ token = WBXML_EXT_I_1 ∨ token = WBXML_EXT_I_2) from
      fun h => h.elim g5 (fun h => h.elim g6 g7)),
    if_neg (show ¬ (token = WBXML_EXT_T_0 ∨ token = WBXML_EXT_T_1 ∨ token = WBXML_EXT_T_2) from
      fun h => h.elim g8 (fun h => h.elim g9 g10)),
    if_neg (show ¬ token = WBXML_OPAQUE from g11), if_neg (show ¬ token = WBXML_PI from g12),
    if_neg (show ¬ (token = WBXML_LITERAL ∨ token = WBXML_LITERAL_A ∨ token = WBXML_LITERAL_C
        ∨ token = WBXML_LITERAL_AC) from
      fun h => h.elim g13 (fun h => h.elim g14 (fun h => h.elim g15 g16))),
    if_pos (show token ≥ 5 from h5)]
  cases getElementName (token &&& 63) with
  | none => rfl
  | some elemName =>
    dsimp only
    by_cases ha : token &&& TAG_HAS_ATTRS ≠ 0
    · simp only [ha, decide_True, if_true, ne_eq, not_false_eq_true]
    · simp only [ha, decide_False, Bool.false_eq_true, if_false]

theorem push_length (e : List Nat) (k : List (List Nat)) (h : k.length ≤ 32) :
    (push e k).length ≤ 32 := by
  unfold push
  split_ifs with hk
  · rw [List.length_cons]; omega
  · exact h

/-- One round of the token loop keeps the stack within 32 entries. -/
theorem tokenStep_depth (w N : Nat) (data : List Nat) (len : Nat) (st : Option (List Nat))
    (stLen : Nat) (s : Body) (h : s.elementStack.length ≤ 32) :
    (tokenStep w N data len st stLen s).elementStack.length ≤ 32 := by
  obtain ⟨p, o, k⟩ := s
  rcases (tokenStep_shape w N data len st stLen p o k).1 with e | e | ⟨x, e⟩
  · rw [e]; exact h
  · rw [e, List.length_tail]; exact Nat.le_trans (Nat.sub_le _ _) h
  · rw [e]; exact push_length x k h

theorem iterate_depth (w N : Nat) (data : List Nat) (len : Nat) (st : Option (List Nat))
    (stLen : Nat) (s : Body) (h : s.elementStack.length ≤ 32) :
    ∀ n, ((tokenStep w N data len st stLen)^[n] s).elementStack.length ≤ 32
  | 0 => h
  | n + 1 => by
    rw [Function.iterate_succ_apply']
    exact tokenStep_depth w N data len st stLen _ (iterate_depth w N data len st stLen s h n)

/-! ### The skip of `OPAQUE` data -/

/-- The token `OPAQUE` with a length behind it: the position moves by the length,
modulo `2 ^ w`. -/
theorem tokenStep_opaque (w N : Nat) (data : List Nat) (len : Nat) (st : Option (List Nat))
    (stLen : Nat) (p : Nat) (o : Out) (k : List (List Nat))
    (htok : data.getD p 0 = WBXML_OPAQUE) (hp : p + 1 < len)
    (hd : (decodeMbUint w (data.drop (p + 1)) (len - (p + 1)) 0).1 > 0) :
    tokenStep w N data len st stLen { pos := p, out := o, elementStack := k }
      = { pos := (p + 1 + (decodeMbUint w (data.drop (p + 1)) (len - (p + 1)) 0).1
            + (decodeMbUint w (data.drop (p + 1)) (len - (p + 1)) 0).2) % 2 ^ w
          out := o, elementStack := k } := by
  unfold tokenStep
  dsimp only
  rw [htok]
  rw [if_neg (show ¬ WBXML_OPAQUE = WBXML_SWITCH_PAGE by decide),
    if_neg (show ¬ WBXML_OPAQUE = WBXML_END by decide),
    if_neg (show ¬ WBXML_OPAQUE = WBXML_ENTITY by decide),
    if_neg (show ¬ WBXML_OPAQUE = WBXML_STR_I by decide),
    if_neg (show ¬ WBXML_OPAQUE = WBXML_STR_T by decide),
    if_neg (show ¬ (WBXML_OPAQUE = WBXML_EXT_I_0 ∨ WBXML_OPAQUE = WBXML_EXT_I_1
      ∨ WBXML_OPAQUE = WBXML_EXT_I_2) by decide),
    if_neg (show ¬ (WBXML_OPAQUE = WBXML_EXT_T_0 ∨ WBXML_OPAQUE = WBXML_EXT_T_1
      ∨ WBXML_OPAQUE = WBXML_EXT_T_2) by decide),
    if_pos rfl, if_pos hp, if_pos hd]

/-- The body `C3 8F FF FF FF 79`: `OPAQUE` data of `2 ^ 32 - 7` bytes. -/
theorem opaque_length :
    decodeMbUint 32 [0x8F, 0xFF, 0xFF, 0xFF, 0x79] 5 0 = (5, 2 ^ 32 - 7) := by decide

/-- With 32-bit positions, the token loop on `05 C3 8F FF FF FF 79` is back at
position 0 after two rounds, and never left. -/
theorem tokenLoop_wraps (N : Nat) (o : Out) : ∀ fuel,
    tokenLoop 32 N [0x05, 0xC3, 0x8F, 0xFF, 0xFF, 0xFF, 0x79] 7 none 0 fuel
        { pos := 0, out := o, elementStack := [] } = none
      ∧ tokenLoop 32 N [0x05, 0xC3, 0x8F, 0xFF, 0xFF, 0xFF, 0x79] 7 none 0 fuel
        { pos := 1, out := o, elementStack := [] } = none := by
  intro fuel
  induction fuel with
  | zero => exact ⟨rfl, rfl⟩
  | succ fuel ih =>
    constructor
    · rw [tokenLoop_step _ _ _ _ _ _ _ _ (show (0 : Nat) < 7 by decide),
        tokenStep_application 32 N [0x05, 0xC3, 0x8F, 0xFF, 0xFF, 0xFF, 0x79] 7 none 0 0 o [] 0x05 rfl (by decide) (by decide),
        show getElementName (0x05 &&& 0x3F) = none by decide]
      exact ih.2
    · rw [tokenLoop_step _ _ _ _ _ _ _ _ (show (1 : Nat) < 7 by decide),
        tokenStep_opaque 32 N [0x05, 0xC3, 0x8F, 0xFF, 0xFF, 0xFF, 0x79] 7 none 0 1 o [] rfl (by decide)
          (by rw [show List.drop (1 + 1) [0x05, 0xC3, 0x8F, 0xFF, 0xFF, 0xFF, 0x79]
              = [0x8F, 0xFF, 0xFF, 0xFF, 0x79] from rfl, show 7 - (1 + 1) = 5 from rfl,
            opaque_length]; decide),
        show List.drop (1 + 1) [0x05, 0xC3, 0x8F, 0xFF, 0xFF, 0xFF, 0x79]
              = [0x8F, 0xFF, 0xFF, 0xFF, 0x79] from rfl, show 7 - (1 + 1) = 5 from rfl,
        opaque_length]
      exact ih.1

/-- Without the byte `05` in front the same loop is left after one round, at
position `2 ^ 32 - 1`. -/
theorem tokenLoop_opaque_only (N : Nat) (o : Out) (fuel : Nat) :
    tokenLoop 32 N [0xC3, 0x8F, 0xFF, 0xFF, 0xFF, 0x79] 6 none 0 (fuel + 1)
        { pos := 0, out := o, elementStack := [] }
      = some { pos := 2 ^ 32 - 1, out := o, elementStack := [] } := by
  rw [tokenLoop_step _ _ _ _ _ _ _ _ (show (0 : Nat) < 6 by decide),
    tokenStep_opaque 32 N [0xC3, 0x8F, 0xFF, 0xFF, 0xFF, 0x79] 6 none 0 0 o [] rfl (by decide)
      (by rw [show List.drop (0 + 1) [0xC3, 0x8F, 0xFF, 0xFF, 0xFF, 0x79]
          = [0x8F, 0xFF, 0xFF, 0xFF, 0x79] from rfl, show 6 - (0 + 1) = 5 from rfl,
        opaque_length]; decide),
    show List.drop (0 + 1) [0xC3, 0x8F, 0xFF, 0xFF, 0xFF, 0x79]
          = [0x8F, 0xFF, 0xFF, 0xFF, 0x79] from rfl, show 6 - (0 + 1) = 5 from rfl,
    opaque_length]
  exact tokenLoop_done _ _ _ _ _ _ _ _
    (show ¬ (0 + 1 + 5 + (2 ^ 32 - 7)) % 2 ^ 32 < 6 by decide)

/-! ### Variables in attribute values and in content -/

set_option maxRecDepth 1000000 in
theorem variable_in_attribute :
    decompileBody 32 [0xE7, 0x4A, 0x40, 120, 0x00, 0x01, 0x01] 7 none 0 (List.replicate 40 7) 40 7
        = some (21, asciiBytes "<card href=\"\"></card>" ++ 0 :: List.replicate 18 7)
      ∧ decompileBody 32 [0xE7, 0x4A, 0x41, 120, 0x00, 0x01, 0x01] 7 none 0 (List.replicate 40 7)
          40 7
        = some (21, asciiBytes "<card href=\"\"></card>" ++ 0 :: List.replicate 18 7)
      ∧ decompileBody 32 [0xE7, 0x4A, 0x42, 120, 0x00, 0x01, 0x01] 7 none 0 (List.replicate 40 7)
          40 7
        = some (21, asciiBytes "<card href=\"\"></card>" ++ 0 :: List.replicate 18 7) := by
  decide

set_option maxRecDepth 1000000 in
theorem variable_in_content :
    decompileBody 32 [0x67, 0x40, 120, 0x00, 0x01] 5 none 0 (List.replicate 40 7) 40 5
        = some (17, asciiBytes "<card>$(x)</card>" ++ 0 :: List.replicate 22 7)
      ∧ decompileBody 32 [0x67, 0x41, 120, 0x00, 0x01] 5 none 0 (List.replicate 40 7) 40 5
        = some (19, asciiBytes "<card>$(x:e)</card>" ++ 0 :: List.replicate 20 7)
      ∧ decompileBody 32 [0x67, 0x42, 120, 0x00, 0x01] 5 none 0 (List.replicate 40 7) 40 5
        = some (19, asciiBytes "<card>$(x:u)</card>" ++ 0 :: List.replicate 20 7) := by
  decide

/-- The loop of the attribute value is left at a token from `0x05` to `0x7F`,
before any of its branches. -/
theorem attrValueLoop_break (w N : Nat) (data : List Nat) (len : Nat) (st : Option (List Nat))
    (stLen fuel pos : Nat) (o : Out)
    (h : data.getD pos 0 < 0x80 ∧ data.getD pos 0 ≥ 0x05) :
    attrValueLoop w N data len st stLen fuel pos o = (pos, o) := by
  cases fuel with
  | zero => rfl
  | succ fuel =>
    rw [attrValueLoop]
    split_ifs with hp
    · simp only [h, and_self, or_true, if_true]
    · rfl

/-! ### An element with one attribute -/

/-- A string appended to the text `t` at the start of the buffer. -/
theorem appendStr_canon (N : Nat) (output t s : List Nat) (hs : ∀ c ∈ s, c ≠ 0)
    (hN : N ≤ output.length) (h1 : t.length + s.length < N) :
    appendStr N s { outPos := t.length, output := t ++ output.drop t.length }
      = { outPos := (t ++ s).length, output := (t ++ s) ++ output.drop (t ++ s).length } := by
  rw [appendStr_text N t _ s hs (by rw [List.length_drop]; omega) h1, List.drop_drop,
    List.length_append]

theorem appendChar_canon (N : Nat) (output t : List Nat) (c : Nat)
    (hN : N ≤ output.length) (h1 : t.length + 1 < N) :
    appendChar N c { outPos := t.length, output := t ++ output.drop t.length }
      = { outPos := (t ++ [c]).length, output := (t ++ [c]) ++ output.drop (t ++ [c]).length } := by
  rw [appendChar_text N t _ c (by rw [List.length_drop]; omega) h1, List.drop_drop,
    List.length_append]
  rfl

theorem inlineString_canon (N : Nat) (data : List Nat) (len pos : Nat) (output t : List Nat)
    (hN : N ≤ output.length) (h1 : t.length + (inlineChars data len pos).length < N) :
    inlineString N data len pos { outPos := t.length, output := t ++ output.drop t.length }
      = (if pos + (inlineChars data len pos).length < len
            then pos + (inlineChars data len pos).length + 1
            else pos + (inlineChars data len pos).length,
          { outPos := (t ++ inlineChars data len pos).length
            output := (t ++ inlineChars data len pos)
              ++ output.drop (t ++ inlineChars data len pos).length }) := by
  rw [inline_text N data len pos t _ (by rw [List.length_drop]; omega) h1, List.drop_drop,
    List.length_append]

/-- The bytes from `pos` on, for the length of the whole input. -/
theorem slice_length (data : List Nat) (pos : Nat) : slice data pos data.length = data.drop pos := by
  apply List.ext_getElem?
  intro i
  rw [slice, List.getElem?_map, List.getElem?_drop]
  by_cases hi : i < data.length - pos
  · rw [List.getElem?_range hi, List.getElem?_eq_getElem (by omega), Option.map_some',
      List.getD_eq_getElem _ _ (by omega)]
  · rw [List.getElem?_eq_none (by rw [List.length_range]; omega),
      List.getElem?_eq_none (by omega)]
    rfl

set_option maxRecDepth 1000000 in
theorem wml_elements_ok : ∀ e ∈ wml_elements, 0x05 ≤ e.1 ∧ e.1 < 0x40 ∧ ∀ c ∈ asciiBytes e.2, c ≠ 0 := by
  decide

set_option maxRecDepth 1000000 in
theorem wml_attributes_ok : ∀ e ∈ wml_attributes, 0x05 ≤ e.1 ∧ e.1 < 0x80
    ∧ (∀ c ∈ asciiBytes e.2.1, c ≠ 0) ∧ ∀ c ∈ (e.2.2.map asciiBytes).getD [], c ≠ 0 := by
  decide

/-- A name of the element table: its token is from `0x05` to `0x3F` and it has
no `0`. -/
theorem getElementName_some (token : Nat) (elemName : List Nat)
    (h : getElementName token = some elemName) :
    0x05 ≤ token &&& 0x3F ∧ ∀ c ∈ elemName, c ≠ 0 := by
  unfold getElementName at h
  simp only [Option.map_eq_some'] at h
  obtain ⟨e, he, rfl⟩ := h
  have hm := List.mem_of_find?_eq_some he
  have hp := List.find?_some he
  simp only [decide_eq_true_eq] at hp
  have := wml_elements_ok e hm
  exact ⟨by rw [← hp]; exact this.1, this.2.2⟩

/-- An entry of the attribute table: its token is from `0x05` to `0x7F`, the name
and the value prefix have no `0`. -/
theorem getAttributeName_some (token : Nat) (n : List Nat) (pre : Option (List Nat))
    (h : getAttributeName token = some (n, pre)) :
    0x05 ≤ token ∧ token < 0x80 ∧ (∀ c ∈ n, c ≠ 0) ∧ ∀ c ∈ pre.getD [], c ≠ 0 := by
  unfold getAttributeName at h
  simp only [Option.map_eq_some', Prod.mk.injEq] at h
  obtain ⟨e, he, rfl, rfl⟩ := h
  have hm := List.mem_of_find?_eq_some he
  have hp := List.find?_some he
  simp only [decide_eq_true_eq] at hp
  have := wml_attributes_ok e hm
  exact ⟨by rw [← hp]; exact this.1, by rw [← hp]; exact this.2.1, this.2.2.1, this.2.2.2⟩

theorem and_3F_idem (x : Nat) : (x &&& 0x3F) &&& 0x3F = x &&& 0x3F := by
  rw [Nat.and_assoc]
  rfl

/-- The loop of the attribute value on `STR_I s 00 END`: the string is appended
and the loop is left at the `END`. -/
theorem attrValueLoop_inline (w N : Nat) (data : List Nat) (len : Nat) (st : Option (List Nat))
    (stLen fuel pos : Nat) (output t s : List Nat)
    (hd : data.getD pos 0 = WBXML_STR_I) (hin : inlineChars data len (pos + 1) = s)
    (hend : data.getD (pos + 1 + s.length + 1) 0 = WBXML_END) (hlen : pos + 1 + s.length + 1 < len)
    (hN : N ≤ output.length) (hroom : t.length + s.length < N) :
    attrValueLoop w N data len st stLen (fuel + 2) pos
        { outPos := t.length, output := t ++ output.drop t.length }
      = (pos + 1 + s.length + 1,
          { outPos := (t ++ s).length, output := (t ++ s) ++ output.drop (t ++ s).length }) := by
  have hi := inlineString_canon N data len (pos + 1) output t hN (by rw [hin]; exact hroom)
  rw [hin, if_pos (by omega)] at hi
  rw [attrValueLoop]
  simp only [show pos < len by omega, if_true, hd]
  rw [hi]
  simp only
  rw [attrValueLoop]
  simp only [hlen, if_true, hend, true_or]
  rw [if_neg (by decide)]

/-- The value `STR_I s 00 END` of the last attribute, behind the text `t`, which
ends with the opening quote. -/
theorem attrLoop_value (w N : Nat) (data : List Nat) (len : Nat) (st : Option (List Nat))
    (stLen fuel pos : Nat) (output t s : List Nat)
    (hd2 : data.getD (pos + 1) 0 = WBXML_STR_I) (hin : inlineChars data len (pos + 1 + 1) = s)
    (hend : data.getD (pos + 1 + 1 + s.length + 1) 0 = WBXML_END)
    (hlen : len = pos + 1 + 1 + s.length + 1 + 1)
    (hN : N ≤ output.length) (hroom : t.length + s.length + 1 < N) (hfuel : 1 ≤ fuel) :
    attrLoop w N data len st stLen fuel
        (attrValueLoop w N data len st stLen len (pos + 1)
          { outPos := t.length, output := t ++ output.drop t.length }).1
        (appendChar N 34 (attrValueLoop w N data len st stLen len (pos + 1)
          { outPos := t.length, output := t ++ output.drop t.length }).2)
      = (len,
          { outPos := (t ++ s ++ [34]).length
            output := (t ++ s ++ [34]) ++ output.drop (t ++ s ++ [34]).length }) := by
  obtain ⟨g, hg⟩ : ∃ g, len = g + 2 := ⟨len - 2, by omega⟩
  obtain ⟨f, rfl⟩ : ∃ f, fuel = f + 1 := ⟨fuel - 1, by omega⟩
  have e5 := attrValueLoop_inline w N data len st stLen g (pos + 1) output t s hd2 hin hend
    (by omega) hN (by omega)
  have e6 := appendChar_canon N output (t ++ s) 34 hN
    (by simp only [List.length_append]; omega)
  rw [← hg] at e5
  rw [e5]
  simp only
  rw [e6, attrLoop]
  simp only [show pos + 1 + 1 + s.length + 1 < len by omega, if_true, hend]
  congr 1
  omega

/-- The loop of the attributes on `a STR_I s 00 END` for an attribute start token
`a`: ` n="ps"` is appended and the loop is left behind the `END`. -/
theorem attrLoop_one (w N : Nat) (data : List Nat) (len : Nat) (st : Option (List Nat))
    (stLen fuel pos : Nat) (output t s n : List Nat) (pre : Option (List Nat)) (a : Nat)
    (hd : data.getD pos 0 = a) (hattr : getAttributeName a = some (n, pre))
    (hd2 : data.getD (pos + 1) 0 = WBXML_STR_I) (hin : inlineChars data len (pos + 1 + 1) = s)
    (hend : data.getD (pos + 1 + 1 + s.length + 1) 0 = WBXML_END)
    (hlen : len = pos + 1 + 1 + s.length + 1 + 1)
    (hN : N ≤ output.length)
    (hroom : t.length + 1 + n.length + 2 + (pre.getD []).length + s.length + 1 < N)
    (hfuel : 2 ≤ fuel) :
    attrLoop w N data len st stLen fuel pos
        { outPos := t.length, output := t ++ output.drop t.length }
      = (len,
          { outPos := (t ++ [32] ++ n ++ [61, 34] ++ pre.getD [] ++ s ++ [34]).length
            output := (t ++ [32] ++ n ++ [61, 34] ++ pre.getD [] ++ s ++ [34])
              ++ output.drop (t ++ [32] ++ n ++ [61, 34] ++ pre.getD [] ++ s ++ [34]).length }) := by
  obtain ⟨f, rfl⟩ : ∃ f, fuel = f + 2 := ⟨fuel - 2, by omega⟩
  obtain ⟨a5, a80, hn0, hp0⟩ := getAttributeName_some a n pre hattr
  have c1 : ¬ a = WBXML_END := by unfold WBXML_END; omega
  have c2 : ¬ a = WBXML_STR_I := by unfold WBXML_STR_I; omega
  have c3 : ¬ a = WBXML_STR_T := by unfold WBXML_STR_T; omega
  have c4 : ¬ a ≥ 0x80 := by omega
  have l2 : (asciiBytes "=\"") = [61, 34] := rfl
  have e1 := appendChar_canon N output t 32 hN (by omega)
  have e2 := appendStr_canon N output (t ++ [32]) n hn0 hN
    (by simp only [List.length_append, List.length_cons, List.length_nil]; omega)
  have e3 := appendStr_canon N output (t ++ [32] ++ n) (asciiBytes "=\"") (by decide) hN
    (by simp only [List.length_append, List.length_cons, List.length_nil, l2]; omega)
  rw [l2] at e3
  cases pre with
  | none =>
    simp only [Option.getD_none, List.length_nil, List.append_nil, Nat.add_zero] at hroom ⊢
    rw [attrLoop]
    simp only [show pos < len by omega, if_true, hd, c1, c2, c3, c4, if_false, hattr]
    rw [e1, e2, l2, e3]
    exact attrLoop_value w N data len st stLen (f + 1) pos output _ s hd2 hin hend hlen hN
      (by simp only [List.length_append, List.length_cons, List.length_nil]; omega) (by omega)
  | some p =>
    simp only [Option.getD_some] at hroom hp0 ⊢
    have e4 := appendStr_canon N output (t ++ [32] ++ n ++ [61, 34]) p hp0 hN
      (by simp only [List.length_append, List.length_cons, List.length_nil]; omega)
    rw [attrLoop]
    simp only [show pos < len by omega, if_true, hd, c1, c2, c3, c4, if_false, hattr]
    rw [e1, e2, l2, e3, e4]
    exact attrLoop_value w N data len st stLen (f + 1) pos output _ s hd2 hin hend hlen hN
      (by simp only [List.length_append, List.length_cons, List.length_nil]; omega) (by omega)

/-- The body `tok a STR_I s 00 END` of an element with one attribute. -/
theorem attribute_run (w N : Nat) (st : Option (List Nat)) (stLen : Nat)
    (output : List Nat) (fuel : Nat) (tok a : Nat) (s elem n : List Nat)
    (pre : Option (List Nat))
    (helem : getElementName (tok &&& 0x3F) = some elem) (hattrs : tok &&& TAG_HAS_ATTRS ≠ 0)
    (hattr : getAttributeName a = some (n, pre)) (hs : ∀ c ∈ s, c ≠ 0)
    (hN : N ≤ output.length)
    (hroom : 1 + elem.length + 1 + n.length + 2 + (pre.getD []).length + s.length + 1 + 1
      + 2 + elem.length + 1 < N)
    (hfuel : 1 ≤ fuel) (data tag : List Nat)
    (hdata : data = [tok, a, WBXML_STR_I] ++ s ++ [0, WBXML_END])
    (htagdef : tag = asciiBytes "<" ++ elem ++ asciiBytes " " ++ n ++ asciiBytes "=\"" ++ pre.getD []
      ++ s ++ asciiBytes "\"") :
    (tok &&& TAG_HAS_CONTENT ≠ 0 →
        tokenStep w N data data.length st stLen
            { pos := 0, out := { outPos := 0, output := output }, elementStack := [] }
          = { pos := data.length
              out := { outPos := (tag ++ asciiBytes ">").length
                       output := tag ++ asciiBytes ">"
                         ++ output.drop (tag ++ asciiBytes ">").length }
              elementStack := [elem] }
        ∧ decompileBody w data data.length st stLen output N fuel
          = some ((tag ++ asciiBytes ">" ++ asciiBytes "</" ++ elem ++ asciiBytes ">").length,
              tag ++ asciiBytes ">" ++ asciiBytes "</" ++ elem ++ asciiBytes ">"
                ++ 0 :: output.drop
                  ((tag ++ asciiBytes ">" ++ asciiBytes "</" ++ elem ++ asciiBytes ">").length + 1)))
      ∧ (tok &&& TAG_HAS_CONTENT = 0 →
        tokenStep w N data data.length st stLen
            { pos := 0, out := { outPos := 0, output := output }, elementStack := [] }
          = { pos := data.length
              out := { outPos := (tag ++ asciiBytes "/>").length
                       output := tag ++ asciiBytes "/>"
                         ++ output.drop (tag ++ asciiBytes "/>").length }
              elementStack := [] }
        ∧ decompileBody w data data.length st stLen output N fuel
          = some ((tag ++ asciiBytes "/>").length,
              tag ++ asciiBytes "/>" ++ 0 :: output.drop ((tag ++ asciiBytes "/>").length + 1))) := by
  obtain ⟨f, rfl⟩ : ∃ f, fuel = f + 1 := ⟨fuel - 1, by omega⟩
  obtain ⟨hb, he0⟩ := getElementName_some _ _ helem
  rw [and_3F_idem] at hb
  have hg := not_global_base tok hb
  have hlen : data.length = 0 + 1 + 1 + 1 + s.length + 1 + 1 := by
    rw [hdata]
    simp only [List.length_append, List.length_cons, List.length_nil]
  have hin : inlineChars data data.length (0 + 1 + 1 + 1) = s := by
    rw [inlineChars, slice_length, hdata]
    simp only [List.cons_append, List.drop_succ_cons, List.drop_zero, List.nil_append]
    have h1 := WAPRequest.take_length_takeWhile (fun c => decide (c ≠ 0)) (s ++ 0 :: [WBXML_END])
    have h2 := WAPRequest.strlen_append_nul s [WBXML_END] hs
    rw [WAPRequest.strlen] at h2
    rw [h2, List.take_left] at h1
    exact h1.symm
  have hend : data.getD (0 + 1 + 1 + 1 + s.length + 1) 0 = WBXML_END := by
    rw [hdata]
    rw [List.getD_append_right _ _ _ _ (by
      simp only [List.length_append, List.length_cons, List.length_nil]; omega)]
    simp only [List.length_append, List.length_cons, List.length_nil]
    rw [show 0 + 1 + 1 + 1 + s.length + 1 - (0 + 1 + 1 + 1 + s.length) = 1 by omega]
    rfl
  have e1 := appendChar_canon N output [] 60 hN (by simp only [List.length_nil]; omega)
  have e2 := appendStr_canon N output ([] ++ [60]) elem he0 hN
    (by simp only [List.length_append, List.length_cons, List.length_nil]; omega)
  have hloop := attrLoop_one w N data data.length st stLen data.length (0 + 1) output
    ([] ++ [60] ++ elem) s n pre a
    (by rw [hdata]; simp only [List.cons_append, List.getD_cons_zero, List.getD_cons_succ]) hattr
    (by rw [hdata]; simp only [List.cons_append, List.getD_cons_zero, List.getD_cons_succ])
    hin hend hlen hN
    (by simp only [List.length_append, List.length_cons, List.length_nil]; omega) (by omega)
  have hstep : tokenStep w N data data.length st stLen
      { pos := 0, out := { outPos := 0, output := output }, elementStack := [] }
      = openElement N (decide (tok &&& TAG_HAS_CONTENT ≠ 0)) elem data.length
          { outPos := tag.length, output := tag ++ output.drop tag.length } [] := by
    rw [tokenStep_application w N data data.length st stLen 0 _ [] tok
      (by rw [hdata]; simp only [List.cons_append, List.getD_cons_zero]) hg.1 hg.2, helem]
    simp only [hattrs, ne_eq, not_false_eq_true, if_true]
    rw [show ({ outPos := 0, output := output } : Out)
        = { outPos := ([] : List Nat).length, output := [] ++ output.drop ([] : List Nat).length }
        from rfl, e1, e2, hloop, htagdef]
    rfl
  have htag : tag.length = 1 + elem.length + 1 + n.length + 2 + (pre.getD []).length + s.length
      + 1 := by
    rw [htagdef]
    simp only [List.length_append]
    rfl
  constructor
  · intro hc
    have hopen : openElement N (decide (tok &&& TAG_HAS_CONTENT ≠ 0)) elem data.length
        { outPos := tag.length, output := tag ++ output.drop tag.length } []
        = { pos := data.length
            out := { outPos := (tag ++ asciiBytes ">").length
                     output := tag ++ asciiBytes ">"
                       ++ output.drop (tag ++ asciiBytes ">").length }
            elementStack := [elem] } := by
      rw [openElement]
      simp only [hc, ne_eq, not_false_eq_true, decide_True, if_true, push, List.length_nil]
      rw [appendChar_canon N output tag 62 hN (by omega)]
      rfl
    rw [hstep, hopen]
    refine ⟨rfl, ?_⟩
    rw [decompileBody, if_neg (by omega), tokenLoop_step _ _ _ _ _ _ _ _ (by simp only; omega),
      hstep, hopen, tokenLoop_done _ _ _ _ _ _ _ _ (by simp only; omega)]
    simp only [closeAll]
    have hl1 : (tag ++ asciiBytes ">").length = tag.length + 1 := by
      rw [List.length_append]; rfl
    have c1 := appendStr_canon N output (tag ++ asciiBytes ">") (asciiBytes "</") (by decide) hN
      (by rw [hl1, show (asciiBytes "</").length = 2 from rfl]; omega)
    have c2 := appendStr_canon N output (tag ++ asciiBytes ">" ++ asciiBytes "</") elem he0 hN
      (by rw [List.length_append, hl1, show (asciiBytes "</").length = 2 from rfl]; omega)
    have c3 := appendChar_canon N output (tag ++ asciiBytes ">" ++ asciiBytes "</" ++ elem) 62 hN
      (by rw [List.length_append, List.length_append, hl1,
            show (asciiBytes "</").length = 2 from rfl]; omega)
    rw [c1, c2, c3]
    have hl2 : (tag ++ asciiBytes ">" ++ asciiBytes "</" ++ elem ++ [62]).length
        = tag.length + 1 + 2 + elem.length + 1 := by
      rw [List.length_append, List.length_append, List.length_append, hl1]; rfl
    rw [terminate_lt N _ (by simp only; rw [hl2]; omega)]
    refine congrArg some (Prod.ext rfl ?_)
    dsimp only
    rw [WAPRequest.drop_cons_getD output _ (by rw [hl2]; omega)]
    exact Base91.set_len0 _ _ _ _
  · intro hc
    have hopen : openElement N (decide (tok &&& TAG_HAS_CONTENT ≠ 0)) elem data.length
        { outPos := tag.length, output := tag ++ output.drop tag.length } []
        = { pos := data.length
            out := { outPos := (tag ++ asciiBytes "/>").length
                     output := tag ++ asciiBytes "/>"
                       ++ output.drop (tag ++ asciiBytes "/>").length }
            elementStack := [] } := by
      rw [openElement]
      simp only [hc, ne_eq, not_true_eq_false, decide_False, Bool.false_eq_true, if_false]
      rw [appendStr_canon N output tag (asciiBytes "/>") (by decide) hN
        (by rw [show (asciiBytes "/>").length = 2 from rfl]; omega)]
    rw [hstep, hopen]
    refine ⟨rfl, ?_⟩
    rw [decompileBody, if_neg (by omega), tokenLoop_step _ _ _ _ _ _ _ _ (by simp only; omega),
      hstep, hopen, tokenLoop_done _ _ _ _ _ _ _ _ (by simp only; omega)]
    simp only [closeAll]
    have hl2 : (tag ++ asciiBytes "/>").length = tag.length + 2 := by
      rw [List.length_append]; rfl
    rw [terminate_lt N _ (by simp only; rw [hl2]; omega)]
    refine congrArg some (Prod.ext rfl ?_)
    dsimp only
    rw [WAPRequest.drop_cons_getD output _ (by rw [hl2]; omega)]
    exact Base91.set_len0 _ _ _ _

end WMLCDecompiler

namespace WDPGateway

/-! ### The datagrams of `sendWDPViaMesh` -/

theorem bytesAt_length (mem : List Nat) (pos n : Nat) : (bytesAt mem pos n).length = n := by
  rw [bytesAt, List.length_map, List.length_range]

theorem bytesAt_eq (mem : List Nat) (pos n : Nat) (h : pos + n ≤ mem.length) :
    bytesAt mem pos n = (mem.drop pos).take n := by
  apply List.ext_getElem?
  intro i
  rw [bytesAt, List.getElem?_map, List.getElem?_take]
  by_cases hi : i < n
  · rw [List.getElem?_range hi, if_pos hi, List.getElem?_drop, Option.map_some',
      List.getElem?_eq_getElem (by omega), List.getD_eq_getElem _ _ (by omega)]
  · rw [List.getElem?_eq_none (by rw [List.length_range]; omega), if_neg hi]
    rfl

theorem bytesAt_getD (mem : List Nat) (pos n i : Nat) (hi : i < n) :
    (bytesAt mem pos n).getD i 0 = mem.getD (pos + i) 0 := by
  rw [bytesAt, List.getD_eq_getElem?_getD, List.getElem?_map, List.getElem?_range hi]
  rfl

/-- The two bytes of a 16-bit port put together again. -/
theorem port_bytes (x : Nat) (hx : x < 65536) :
    ((((x >>> 8) &&& 0xFF) <<< 8) ||| (x &&& 0xFF)) % 65536 = x := by
  rw [Nat.lor_comm, Base91.or_shl _ _ 8 (by rw [Base91.and_255]; exact Nat.mod_lt _ (by decide)),
    Base91.and_255, Base91.and_255, Nat.shiftRight_eq_div_pow]
  have h1 : x / 2 ^ 8 < 256 := by
    rw [Nat.div_lt_iff_lt_mul (by decide)]
    exact hx
  rw [Nat.mod_eq_of_lt h1]
  have h2 : (2 : Nat) ^ 8 = 256 := by decide
  rw [h2] at h1 ⊢
  omega

/-- `parseUDH` on a simple datagram. -/
theorem parseUDH_simple (srcPort dstPort : Nat) (data : List Nat) (len n : Nat)
    (hs : srcPort < 65536) (hd : dstPort < 65536) (hn : 7 ≤ n) :
    parseUDH (simpleDatagram srcPort dstPort data len) n
      = some { headerLen := 0x06, ei := 0x05, eiLength := 0x04, source := srcPort,
               dest := dstPort } := by
  rw [parseUDH, if_neg (by omega), simpleDatagram]
  simp only [List.cons_append, List.getD_cons_zero, List.getD_cons_succ, port_bytes _ hs,
    port_bytes _ hd]

/-- `parseConcatUDH` on a datagram of a concatenated message. -/
theorem parseConcatUDH_concat (refNum totalParts part srcPort dstPort : Nat) (data : List Nat)
    (len n : Nat) (hs : srcPort < 65536) (hd : dstPort < 65536) (hn : 12 ≤ n) :
    parseConcatUDH (concatDatagram refNum totalParts part srcPort dstPort data len) n
      = some (refNum, totalParts % 256, part % 256,
          { headerLen := 0x0B, ei := 0x05, eiLength := 0x04, source := srcPort,
            dest := dstPort }) := by
  rw [parseConcatUDH, concatDatagram]
  simp only [List.cons_append, List.getD_cons_zero, List.getD_cons_succ, port_bytes _ hs,
    port_bytes _ hd]
  rw [if_neg (by omega), if_neg (by decide)]

theorem concatDatagram_length (refNum totalParts part srcPort dstPort : Nat) (data : List Nat)
    (len : Nat) :
    (concatDatagram refNum totalParts part srcPort dstPort data len).length
      = 12 + (if len - (part - 1) * maxPayloadConcat < maxPayloadConcat
          then len - (part - 1) * maxPayloadConcat else maxPayloadConcat) := by
  rw [concatDatagram]
  simp only [List.length_append, List.length_cons, List.length_nil, bytesAt_length]

theorem flatMap_if_singleton {α β : Type} (f : α → β) : ∀ l : List α,
    l.flatMap (fun i => if true = true then [f i] else []) = l.map f
  | [] => rfl
  | a :: l => by
    rw [List.flatMap_cons, List.map_cons, flatMap_if_singleton f l]
    rfl

/-- The simple case of `sendWDPViaMesh`. -/
theorem sendWDPViaMesh_simple (now : Nat) (recipient : String) (srcPort dstPort : Nat)
    (data : List Nat) (len : Nat) (h : len ≤ 113) :
    sendWDPViaMesh true now recipient srcPort dstPort data len
      = [(recipient, simpleDatagram srcPort dstPort data len)] := by
  rw [sendWDPViaMesh, if_pos (show len ≤ maxPayloadSimple from h)]
  rfl

/-- The concatenated case of `sendWDPViaMesh`. -/
theorem sendWDPViaMesh_concat (now : Nat) (recipient : String) (srcPort dstPort : Nat)
    (data : List Nat) (len : Nat) (h : 113 < len) (h32 : len + 107 < 2 ^ 32) :
    sendWDPViaMesh true now recipient srcPort dstPort data len
      = (List.range ((len + 107) / 108)).map (fun i =>
          (recipient, concatDatagram (now &&& 0xFF) ((len + 107) / 108) (i + 1) srcPort dstPort
            data len)) := by
  rw [sendWDPViaMesh, if_neg (show ¬ len ≤ maxPayloadSimple by
    rw [show maxPayloadSimple = 113 from rfl]; omega)]
  simp only [show maxPayloadConcat = 108 from rfl]
  rw [show len + 108 - 1 = len + 107 by omega, Nat.mod_eq_of_lt h32]
  exact flatMap_if_singleton _ _

/-- The sender of `mode_ap.h` with a callback makes the calls of
`sendWDPViaMesh`. -/
theorem ap_sendWDPViaMesh_eq (now : Nat) (recipient : String) (srcPort dstPort : Nat)
    (data : List Nat) (len : Nat) :
    ModeAP.ap_sendWDPViaMesh true now recipient srcPort dstPort data len
      = sendWDPViaMesh true now recipient srcPort dstPort data len := by
  rw [ModeAP.ap_sendWDPViaMesh, sendWDPViaMesh]
  simp only [Bool.not_true, Bool.false_eq_true, if_false, if_true]
  split_ifs
  · rfl
  · exact (flatMap_if_singleton _ _).symm

/-- The slices of `c` bytes of a list, one behind the other. -/
theorem join_slices (data : List Nat) (c : Nat) : ∀ n,
    ((List.range n).map (fun i => (data.drop (i * c)).take c)).flatten = data.take (n * c)
  | 0 => by simp
  | n + 1 => by
    rw [List.range_succ, List.map_append, List.flatten_append, join_slices data c n]
    simp only [List.map_cons, List.map_nil, List.flatten_cons, List.flatten_nil, List.append_nil]
    rw [Nat.add_mul, Nat.one_mul, List.take_add]

/-- The payload of the `k`-th datagram: the slice of 108 bytes at `(k - 1) * 108`. -/
theorem concatDatagram_eq (refNum totalParts part srcPort dstPort : Nat) (data : List Nat)
    (hp : (part - 1) * 108 ≤ data.length) :
    concatDatagram refNum totalParts part srcPort dstPort data data.length
      = [0x0B, 0x00, 0x03, refNum, totalParts % 256, part % 256, 0x05, 0x04,
          (dstPort >>> 8) &&& 0xFF, dstPort &&& 0xFF, (srcPort >>> 8) &&& 0xFF, srcPort &&& 0xFF]
        ++ (data.drop ((part - 1) * 108)).take 108 := by
  rw [concatDatagram]
  simp only [show maxPayloadConcat = 108 from rfl]
  congr 1
  split_ifs with h
  · rw [bytesAt_eq _ _ _ (by omega), List.take_of_length_le (by rw [List.length_drop]),
      List.take_of_length_le (by rw [List.length_drop]; omega)]
  · exact bytesAt_eq _ _ _ (by omega)

/-! ### Reassembly -/

theorem memcpy_getD (dst src : List Nat) (pos : Nat) : ∀ (n j : Nat), pos + n ≤ dst.length →
    (WAPRequest.memcpy dst pos src n).getD j 0
      = if pos ≤ j ∧ j < pos + n then src.getD (j - pos) 0 else dst.getD j 0
  | 0, j, _ => by rw [WAPRequest.memcpy, if_neg (by omega)]
  | n + 1, j, h => by
    rw [WAPRequest.memcpy, List.getD_eq_getElem?_getD, List.getElem?_set,
      WMLCDecompiler.memcpy_length]
    by_cases e : pos + n = j
    · rw [if_pos e, if_pos (by omega), if_pos (by omega), show j - pos = n by omega]
      rfl
    · rw [if_neg e, ← List.getD_eq_getElem?_getD, memcpy_getD dst src pos n j (by omega)]
      by_cases c : pos ≤ j ∧ j < pos + n
      · rw [if_pos c, if_pos (by omega)]
      · rw [if_neg c, if_neg (by omega)]

theorem partLen_le (len i : Nat) : partLen len i ≤ 108 := by
  rw [partLen]
  simp only [show maxPayloadConcat = 108 from rfl]
  split_ifs <;> omega

theorem partLen_add (len i : Nat) (h : i * 108 ≤ len) : i * 108 + partLen len i ≤ len := by
  rw [partLen]
  simp only [show maxPayloadConcat = 108 from rfl]
  split_ifs <;> omega

theorem sum_partLen (len : Nat) : ∀ m, m * 108 ≤ len + 108 →
    ((List.range m).map (fun i => partLen len i)).sum = min len (m * 108)
  | 0, _ => by simp
  | m + 1, h => by
    rw [List.range_succ, List.map_append, List.sum_append, sum_partLen len m (by omega)]
    simp only [List.map_cons, List.map_nil, List.sum_cons, List.sum_nil, partLen,
      show maxPayloadConcat = 108 from rfl]
    split_ifs <;> omega

theorem findIdx?_set_of_none {α : Type} (p : α → Bool) (c : α) (hc : p c = true) :
    ∀ (l : List α) (i : Nat), l.findIdx? p = none → i < l.length →
      (l.set i c).findIdx? p = some i
  | [], i, _, h => by simp at h
  | a :: l, 0, h, _ => by
    rw [List.set_cons_zero, List.findIdx?_cons, hc]
    rfl
  | a :: l, i + 1, h, hi => by
    rw [List.findIdx?_cons] at h
    rw [List.set_cons_succ, List.findIdx?_cons]
    cases hp : p a
    · rw [hp] at h
      simp only [Bool.false_eq_true, if_false, Nat.zero_add, List.findIdx?_succ,
        Option.map_eq_none'] at h ⊢
      rw [findIdx?_set_of_none p c hc l i h (by simpa using hi)]
      rfl
    · rw [hp] at h
      simp at h

theorem findIdx?_some_lt {α : Type} (p : α → Bool) (l : List α) (i : Nat)
    (h : l.findIdx? p = some i) : i < l.length := by
  obtain ⟨h1, _⟩ := List.findIdx?_eq_some_iff_getElem.mp h
  exact h1

/-- Storing the part with the index `i`, which the slot does not hold yet. -/
theorem storePart_inv (D ref n src dst : Nat) (sender : String) (payload K : List Nat)
    (c : ConcatMessage) (h : SlotInv D ref n src dst sender payload K c) (i : Nat) (hi : i < 16)
    (hiL : i * 108 ≤ payload.length) (hiK : i ∉ K) (hD : payload.length < D) (hD32 : D ≤ 2 ^ 32)
    (hK : K.length < 255) (dg : List Nat) (len now : Nat)
    (hlen : len = 12 + partLen payload.length i)
    (hdg : ∀ j, j < partLen payload.length i →
      (dg.drop 12).getD j 0 = payload.getD (i * 108 + j) 0) :
    (storePart D c (i + 1) dg len now).2 = true
      ∧ SlotInv D ref n src dst sender payload (i :: K) (storePart D c (i + 1) dg len now).1 := by
  obtain ⟨h1, h2, h3, h4, h5, h6, h7, h8, h9, h10, h11, h12, h13⟩ := h
  have hp := partLen_le payload.length i
  have hq := partLen_add payload.length i hiL
  have hc : i + 1 > 0 ∧ i + 1 ≤ 16 ∧ c.partReceived.getD (i + 1 - 1) 0 = 0 := by
    refine ⟨by omega, by omega, ?_⟩
    rw [Nat.add_sub_cancel, h9 i hi, if_neg hiK]
  have hlen2 : len - 12 = partLen payload.length i := by omega
  have hoff : (i + 1 - 1) * (MESHCORE_MAX_BINARY_PAYLOAD - 12) = i * 108 := by
    rw [Nat.add_sub_cancel]
    rfl
  have hfit : (i * 108 + partLen payload.length i) % 2 ^ 32 < D := by
    rw [Nat.mod_eq_of_lt (by omega)]
    omega
  rw [storePart, if_pos hc]
  simp only [hlen2, hoff]
  rw [if_pos hfit]
  simp only [Nat.add_sub_cancel]
  refine ⟨trivial, h1, h2, h3, h4, h5, h6, ?_, ?_, ?_, ?_, ?_, ?_, ?_⟩
  · show (c.receivedParts + 1) % 256 = (i :: K).length
    rw [h7, List.length_cons, Nat.mod_eq_of_lt (by omega)]
  · show (c.partReceived.set i 1).length = 16
    rw [List.length_set, h8]
  · intro k hk
    show (c.partReceived.set i 1).getD k 0 = _
    rw [List.getD_eq_getElem?_getD, List.getElem?_set]
    by_cases e : i = k
    · rw [if_pos e, if_pos (by omega), if_pos (by rw [e]; exact List.mem_cons_self _ _)]
      rfl
    · rw [if_neg e, ← List.getD_eq_getElem?_getD, h9 k hk]
      have hm : k ∈ i :: K ↔ k ∈ K := by
        rw [List.mem_cons]
        constructor
        · rintro (r | r)
          · exact absurd r.symm e
          · exact r
        · exact Or.inr
      simp only [hm]
  · show (c.partSizes.set i (partLen payload.length i % 65536)).length = 16
    rw [List.length_set, h10]
  · intro k hk
    show (c.partSizes.set i (partLen payload.length i % 65536)).getD k 0 = _
    rw [List.getD_eq_getElem?_getD, List.getElem?_set]
    by_cases e : i = k
    · rw [if_pos e, if_pos (by omega), Nat.mod_eq_of_lt (by omega), e]
      rfl
    · rw [if_neg e, ← List.getD_eq_getElem?_getD]
      rcases List.mem_cons.mp hk with r | r
      · exact absurd r.symm e
      · exact h11 k r
  · show (WAPRequest.memcpy c.data (i * 108) (dg.drop 12) (partLen payload.length i)).length = D
    rw [WMLCDecompiler.memcpy_length, h12]
  · intro k hk j hj
    show (WAPRequest.memcpy c.data (i * 108) (dg.drop 12) (partLen payload.length i)).getD
      (k * 108 + j) 0 = _
    rw [memcpy_getD _ _ _ _ _ (by omega)]
    have hpk := partLen_le payload.length k
    by_cases e : i = k
    · subst e
      rw [if_pos (by omega), show i * 108 + j - i * 108 = j by omega, hdg j hj]
    · rw [if_neg (by omega)]
      rcases List.mem_cons.mp hk with r | r
      · exact absurd r.symm e
      · exact h13 k r j hj

/-- The bytes behind the header of a datagram of `sendWDPViaMesh`. -/
theorem concatDatagram_payload (refNum totalParts i srcPort dstPort : Nat) (data : List Nat)
    (j : Nat) (hj : j < partLen data.length i) :
    ((concatDatagram refNum totalParts (i + 1) srcPort dstPort data data.length).drop 12).getD j 0
      = data.getD (i * 108 + j) 0 := by
  rw [concatDatagram]
  simp only [Nat.add_sub_cancel, show maxPayloadConcat = 108 from rfl]
  rw [show ∀ (a b c d e f g h k l m n : Nat) (t : List Nat),
      ([a, b, c, d, e, f, g, h, k, l, m, n] ++ t).drop 12 = t from fun _ _ _ _ _ _ _ _ _ _ _ _ _ => rfl]
  exact bytesAt_getD _ _ _ _ hj

theorem concatDatagram_len (refNum totalParts i srcPort dstPort : Nat) (data : List Nat) :
    (concatDatagram refNum totalParts (i + 1) srcPort dstPort data data.length).length
      = 12 + partLen data.length i := by
  rw [concatDatagram_length, Nat.add_sub_cancel]
  rfl

theorem getD_replicate_zero (m i : Nat) : (List.replicate m 0).getD i 0 = 0 := by
  rw [List.getD_eq_getElem?_getD, List.getElem?_replicate]
  split_ifs <;> rfl

/-- A slot that has just been taken for a message holds no part of it. -/
theorem slotInv_nil (D ref n src dst : Nat) (sender : String) (payload : List Nat)
    (c : ConcatMessage) (h1 : c.active = true) (h2 : c.refNum = ref) (h3 : c.totalParts = n)
    (h4 : c.senderMeshId = sender) (h5 : c.sourcePort = src) (h6 : c.destPort = dst)
    (h7 : c.receivedParts = 0) (h8 : c.partReceived = List.replicate 16 0)
    (h9 : c.partSizes.length = 16) (h10 : c.data = List.replicate D 0) :
    SlotInv D ref n src dst sender payload [] c := by
  refine ⟨h1, h2, h3, h4, h5, h6, h7, ?_, ?_, h9, ?_, ?_, ?_⟩
  · rw [h8, List.length_replicate]
  · intro i _
    rw [h8, getD_replicate_zero, if_neg (List.not_mem_nil i)]
  · intro i hi
    exact absurd hi (List.not_mem_nil i)
  · rw [h10, List.length_replicate]
  · intro i hi
    exact absurd hi (List.not_mem_nil i)

theorem findFree_lt (msgs : List ConcatMessage) (i0 : Nat) (h : findFree msgs = some i0) :
    i0 < msgs.length :=
  findIdx?_some_lt _ _ _ h

theorem getD_set_self (msgs : List ConcatMessage) (i0 : Nat) (c : ConcatMessage)
    (h : i0 < msgs.length) : (msgs.set i0 c).getD i0 default = c := by
  rw [List.getD_eq_getElem?_getD, List.getElem?_set_self h]
  rfl

theorem findConcat_set (msgs : List ConcatMessage) (ref : Nat) (sender : String) (i0 : Nat)
    (c : ConcatMessage) (hfind : findConcat msgs ref sender = none) (h : i0 < msgs.length)
    (h1 : c.active = true) (h2 : c.refNum = ref) (h3 : c.senderMeshId = sender) :
    findConcat (msgs.set i0 c) ref sender = some i0 := by
  rw [findConcat] at hfind ⊢
  exact findIdx?_set_of_none _ c (by simp only [h1, h2, h3, decide_True, Bool.and_self]) msgs i0
    hfind h

/-- The slot that `handleIncomingMesh` finds or takes for the next part. -/
theorem findOrCreate_inv (ref n src dst : Nat) (sender : String) (payload : List Nat)
    (msgs : List ConcatMessage) (i0 : Nat) (K : List Nat) (pool : List ConcatMessage)
    (hfind : findConcat msgs ref sender = none) (hfree : findFree msgs = some i0)
    (hsz : (msgs.getD i0 default).partSizes.length = 16)
    (hinv : PoolInv 2048 ref n src dst sender payload msgs i0 K pool) (hl ei el : Nat) :
    ∃ pool' c0, findOrCreate pool ref n
          { headerLen := hl, ei := ei, eiLength := el, source := src, dest := dst } sender
        = some (i0, pool')
      ∧ pool'.getD i0 default = c0 ∧ (∀ x, pool'.set i0 x = msgs.set i0 x)
      ∧ SlotInv 2048 ref n src dst sender payload K c0 := by
  have hlt := findFree_lt msgs i0 hfree
  rcases hinv with ⟨hK, hp⟩ | ⟨_, c, hp, hc⟩
  · subst hK hp
    refine ⟨_,
      { pool.getD i0 default with
        active := true, refNum := ref, totalParts := n, receivedParts := 0, sourcePort := src,
        destPort := dst, senderMeshId := sender, partReceived := List.replicate 16 0,
        data := List.replicate 2048 0 },
      ?_, getD_set_self _ _ _ hlt, fun x => List.set_set _ _ _ _, ?_⟩
    · rw [findOrCreate, hfind]
      simp only []
      rw [hfree]
    · exact slotInv_nil _ _ _ _ _ _ _ _ rfl rfl rfl rfl rfl rfl rfl rfl hsz rfl
  · subst hp
    refine ⟨_, c, ?_, getD_set_self _ _ _ hlt, fun x => List.set_set _ _ _ _, hc⟩
    rw [findOrCreate, findConcat_set msgs ref sender i0 c hfind hlt hc.1 hc.2.1 hc.2.2.2.1]

/-- One call of `handleIncomingMesh` with a part that the slot does not hold
yet. -/
theorem handleIncomingMesh_part (now ref n src dst : Nat) (sender : String)
    (payload : List Nat) (msgs : List ConcatMessage) (i0 : Nat) (K : List Nat)
    (pool : List ConcatMessage) (i : Nat) (hs : src < 65536) (hd : dst < 65536) (hn : n ≤ 16)
    (hL1 : (n - 1) * 108 ≤ payload.length) (hL2 : payload.length ≤ n * 108)
    (hfind : findConcat msgs ref sender = none) (hfree : findFree msgs = some i0)
    (hsz : (msgs.getD i0 default).partSizes.length = 16)
    (hinv : PoolInv 2048 ref n src dst sender payload msgs i0 K pool)
    (hi : i < n) (hiK : i ∉ K) (hK : K.length < n) :
    ∃ c, SlotInv 2048 ref n src dst sender payload (i :: K) c
      ∧ handleIncomingMesh now pool sender
          (concatDatagram ref n (i + 1) src dst payload payload.length)
          (concatDatagram ref n (i + 1) src dst payload payload.length).length
        = if K.length + 1 = n then
            (msgs.set i0 (clearConcatMessage 2048 c),
              some { sender := sender, srcPort := src, dstPort := dst,
                     data := bytesAt c.data 0 (totalSize c) })
          else (msgs.set i0 c, none) := by
  have hlen := concatDatagram_len ref n i src dst payload
  have hparse := parseConcatUDH_concat ref n (i + 1) src dst payload payload.length
    (concatDatagram ref n (i + 1) src dst payload payload.length).length hs hd (by omega)
  rw [Nat.mod_eq_of_lt (show n < 256 by omega), Nat.mod_eq_of_lt (show i + 1 < 256 by omega)]
    at hparse
  obtain ⟨pool', c0, hslot, hget, hset, hinv0⟩ := findOrCreate_inv ref n src dst sender payload
    msgs i0 K pool hfind hfree hsz hinv 0x0B 0x05 0x04
  obtain ⟨_, hinv1⟩ := storePart_inv 2048 ref n src dst sender payload K c0 hinv0 i (by omega)
    (by omega) hiK (by omega) (by decide) (by omega)
    (concatDatagram ref n (i + 1) src dst payload payload.length)
    (concatDatagram ref n (i + 1) src dst payload payload.length).length now hlen
    (fun j hj => concatDatagram_payload ref n i src dst payload j hj)
  refine ⟨_, hinv1, ?_⟩
  rw [handleIncomingMesh, if_neg (by omega), hparse]
  simp only []
  rw [hslot]
  simp only [hget, hset]
  generalize (storePart 2048 c0 (i + 1) (concatDatagram ref n (i + 1) src dst payload
    payload.length) (concatDatagram ref n (i + 1) src dst payload payload.length).length now).1
    = c at hinv1 ⊢
  obtain ⟨_, _, h3, h4, h5, h6, h7, _⟩ := hinv1
  rw [h3, h4, h5, h6, h7, List.length_cons]

/-- A slot that holds all the parts holds the payload. -/
theorem slotInv_complete (D ref n src dst : Nat) (sender : String) (payload K : List Nat)
    (c : ConcatMessage) (h : SlotInv D ref n src dst sender payload K c) (hn : n ≤ 16)
    (hL1 : (n - 1) * 108 ≤ payload.length) (hL2 : payload.length ≤ n * 108)
    (hK : ∀ i, i < n → i ∈ K) :
    totalSize c = payload.length ∧ bytesAt c.data 0 (totalSize c) = payload := by
  obtain ⟨_, _, h3, _, _, _, _, _, _, _, h11, h12, h13⟩ := h
  have hsum : totalSize c = payload.length := by
    rw [totalSize, h3]
    have e : (List.range n).map (fun i => c.partSizes.getD i 0)
        = (List.range n).map (fun i => partLen payload.length i) := by
      apply List.map_congr_left
      intro i hi
      exact h11 i (hK i (List.mem_range.mp hi))
    rw [e, sum_partLen payload.length n (by omega)]
    omega
  refine ⟨hsum, ?_⟩
  rw [hsum]
  apply List.ext_getElem?
  intro j
  by_cases hj : j < payload.length
  · rw [List.getElem?_eq_getElem hj, bytesAt, List.getElem?_map, List.getElem?_range hj,
      Option.map_some', Nat.zero_add]
    have hq : j / 108 < n := by omega
    have hr : j % 108 < partLen payload.length (j / 108) := by
      rw [partLen]
      simp only [show maxPayloadConcat = 108 from rfl]
      split_ifs <;> omega
    have e := h13 (j / 108) (hK _ hq) (j % 108) hr
    rw [show j / 108 * 108 + j % 108 = j by omega] at e
    rw [e, List.getD_eq_getElem _ _ hj]
  · rw [List.getElem?_eq_none (by rw [bytesAt_length]; omega), List.getElem?_eq_none (by omega)]

theorem nodup_length_le (l : List Nat) (n : Nat) (hd : l.Nodup) (hb : ∀ i ∈ l, i < n) :
    l.length ≤ n := by
  have h := (List.subperm_of_subset hd (fun i hi => List.mem_range.mpr (hb i hi))).length_le
  rwa [List.length_range] at h

theorem nodup_mem_of_length (l : List Nat) (n : Nat) (hd : l.Nodup) (hb : ∀ i ∈ l, i < n)
    (hl : l.length = n) (i : Nat) (hi : i < n) : i ∈ l := by
  have h := (List.subperm_of_subset hd (fun i hi => List.mem_range.mpr (hb i hi))).perm_of_length_le
    (by rw [List.length_range, hl])
  exact h.mem_iff.mpr (List.mem_range.mpr hi)

/-- A list that is a rearrangement of the images of `m` is the list of the images
of a rearrangement of `m`. -/
theorem perm_map_exists {α β : Type} (f : α → β) {l l2 : List β} (h : l.Perm l2) :
    ∀ m : List α, l2 = m.map f → ∃ m2 : List α, m2.Perm m ∧ l = m2.map f := by
  induction h with
  | nil =>
    intro m hm
    exact ⟨m, List.Perm.refl m, hm⟩
  | cons x _ ih =>
    intro m hm
    cases m with
    | nil => simp at hm
    | cons a m =>
      rw [List.map_cons, List.cons.injEq] at hm
      obtain ⟨m2, hp, he⟩ := ih m hm.2
      exact ⟨a :: m2, hp.cons a, by rw [List.map_cons, hm.1, he]⟩
  | swap x y l =>
    intro m hm
    cases m with
    | nil => simp at hm
    | cons a m =>
      cases m with
      | nil => simp at hm
      | cons b m =>
        rw [List.map_cons, List.map_cons, List.cons.injEq, List.cons.injEq] at hm
        exact ⟨b :: a :: m, List.Perm.swap a b m, by
          rw [List.map_cons, List.map_cons, hm.1, hm.2.1, hm.2.2]⟩
  | trans _ _ ih1 ih2 =>
    intro m hm
    obtain ⟨m2, hp2, he2⟩ := ih2 m hm
    obtain ⟨m1, hp1, he1⟩ := ih1 m2 he2
    exact ⟨m1, hp1.trans hp2, he1⟩

/-- The calls of `handleIncomingMesh` for parts that the slot does not hold
yet, one after the other. -/
theorem handleAll_parts (ref n src dst : Nat) (sender : String) (payload : List Nat)
    (msgs : List ConcatMessage) (i0 : Nat) (hs : src < 65536) (hd : dst < 65536) (hn : n ≤ 16)
    (hL1 : (n - 1) * 108 ≤ payload.length) (hL2 : payload.length ≤ n * 108)
    (hfind : findConcat msgs ref sender = none) (hfree : findFree msgs = some i0)
    (hsz : (msgs.getD i0 default).partSizes.length = 16) :
    ∀ (is K : List Nat) (pool : List ConcatMessage) (now : Nat),
      PoolInv 2048 ref n src dst sender payload msgs i0 K pool → (is ++ K).Nodup →
      (∀ i ∈ is ++ K, i < n) →
      ∀ r, r = handleAll now pool sender
          (is.map (fun i => concatDatagram ref n (i + 1) src dst payload payload.length)) →
        (is.length + K.length < n →
          PoolInv 2048 ref n src dst sender payload msgs i0 (is.reverse ++ K) r.1
            ∧ r.2 = List.replicate is.length none)
        ∧ (is ≠ [] → is.length + K.length = n →
          r.1 = msgs.set i0 (clearConcatMessage 2048 default)
            ∧ r.2 = List.replicate (is.length - 1) none
                ++ [some { sender := sender, srcPort := src, dstPort := dst, data := payload }])
  | [], K, pool, now, hinv, _, _, r, hr => by
    subst hr
    refine ⟨fun _ => ⟨hinv, rfl⟩, fun h => absurd rfl h⟩
  | i :: is, K, pool, now, hinv, hnd, hb, r, hr => by
    have hnd1 : (i :: (is ++ K)).Nodup := hnd
    obtain ⟨hi1, hnd2⟩ := List.nodup_cons.mp hnd1
    have hlen : (i :: (is ++ K)).length ≤ n := nodup_length_le _ n hnd1 hb
    rw [List.length_cons, List.length_append] at hlen
    have hiK : i ∉ K := fun h => hi1 (List.mem_append_right _ h)
    have hin : i < n := hb i (List.mem_cons_self _ _)
    obtain ⟨c, hc, he⟩ := handleIncomingMesh_part now ref n src dst sender payload msgs i0 K pool i
      hs hd hn hL1 hL2 hfind hfree hsz hinv hin hiK (by omega)
    rw [List.map_cons, handleAll] at hr
    simp only [he] at hr
    by_cases hcomp : K.length + 1 = n
    · have his : is = [] := List.eq_nil_of_length_eq_zero (by omega)
      subst his
      rw [if_pos hcomp] at hr
      subst hr
      refine ⟨fun h => ?_, fun _ _ => ⟨rfl, ?_⟩⟩
      · rw [List.length_cons, List.length_nil] at h
        omega
      · have hall : ∀ j, j < n → j ∈ i :: K := nodup_mem_of_length (i :: K) n
          (by simpa using hnd1) (by simpa using hb) (by rw [List.length_cons]; exact hcomp)
        show [some _] = [some _]
        rw [(slotInv_complete 2048 ref n src dst sender payload (i :: K) c hc hn hL1 hL2 hall).2]
    · rw [if_neg hcomp] at hr
      have hinv2 : PoolInv 2048 ref n src dst sender payload msgs i0 (i :: K) (msgs.set i0 c) :=
        Or.inr ⟨List.cons_ne_nil _ _, c, rfl, hc⟩
      have hperm : (is ++ i :: K).Perm (i :: (is ++ K)) := List.perm_middle
      have ih := handleAll_parts ref n src dst sender payload msgs i0 hs hd hn hL1 hL2 hfind hfree
        hsz is (i :: K) (msgs.set i0 c) (now + 1) hinv2 (hperm.nodup_iff.mpr hnd1)
        (fun j hj => hb j (hperm.mem_iff.mp hj)) _ rfl
      subst hr
      simp only [List.length_cons] at ih ⊢
      refine ⟨fun h => ?_, fun _ h => ?_⟩
      · obtain ⟨h1, h2⟩ := ih.1 (by omega)
        refine ⟨?_, ?_⟩
        · rw [List.reverse_cons, List.append_assoc, List.singleton_append]
          exact h1
        · rw [h2]
          rfl
      · have hne : is ≠ [] := by
          intro e
          rw [e, List.length_nil] at h
          omega
        obtain ⟨h1, h2⟩ := ih.2 hne (by omega)
        refine ⟨h1, ?_⟩
        rw [h2, Nat.add_sub_cancel]
        have : is.length = (is.length - 1) + 1 := by
          have := List.length_pos.mpr hne
          omega
        conv_rhs => rw [this, List.replicate_succ]
        rfl

end WDPGateway

namespace ModeAP

open WDPGateway

/-! ### Reassembly in `mode_ap.h` -/

theorem sameResponse_refl (s : APState) : SameResponse s s :=
  ⟨rfl, rfl, rfl, rfl, rfl, fun _ => rfl⟩

theorem sameResponse_trans (a b c : APState) (h1 : SameResponse a b) (h2 : SameResponse b c) :
    SameResponse a c := by
  obtain ⟨a1, a2, a3, a4, a5, a6⟩ := h1
  obtain ⟨b1, b2, b3, b4, b5, b6⟩ := h2
  refine ⟨a1.trans b1, a2.trans b2, a3.trans b3, a4.trans b4, a5.trans b5, fun h => ?_⟩
  rw [a6 (b5.trans h), b6 h]

/-- `ap_trySendEarlyHeaders` leaves the slots and the response buffer alone. -/
theorem ap_trySendEarlyHeaders_frame (s : APState) (wspData : List Nat) (wspLen : Nat) :
    (ap_trySendEarlyHeaders s wspData wspLen).2.concatMessages = s.concatMessages
      ∧ SameResponse (ap_trySendEarlyHeaders s wspData wspLen).2 s := by
  by_cases hw : s.waitingClient = false
  · have e : (ap_trySendEarlyHeaders s wspData wspLen).2 = s := by
      rw [ap_trySendEarlyHeaders, if_pos (by rw [hw]; rfl)]
    rw [e]
    exact ⟨rfl, sameResponse_refl s⟩
  · rw [ap_trySendEarlyHeaders]
    by_cases h1 : (!s.waitingClient || s.headersSent) = true
    · rw [if_pos h1]
      exact ⟨rfl, sameResponse_refl s⟩
    · rw [if_neg h1]
      dsimp only
      generalize WAPResponse.decode 32 wspData wspLen s.earlyResponse = r
      by_cases h2 : (!r.1) = true
      · rw [if_pos h2]
        exact ⟨rfl, rfl, rfl, rfl, rfl, rfl, fun h => absurd h hw⟩
      · rw [if_neg h2]
        exact ⟨rfl, rfl, rfl, rfl, rfl, rfl, fun h => absurd h hw⟩

/-- The block that writes to the waiting client leaves the slots and the
response buffer alone. -/
theorem ap_onStored_frame (s2 : APState) (concat : ConcatMessage) (currentPart : Nat)
    (data : List Nat) (partPayloadLen : Nat) :
    (ap_onStored s2 concat currentPart data partPayloadLen).concatMessages = s2.concatMessages
      ∧ SameResponse (ap_onStored s2 concat currentPart data partPayloadLen) s2 := by
  rw [ap_onStored]
  split_ifs with h1 h2 h3 h4
  · exact ap_trySendEarlyHeaders_frame s2 _ _
  · exact ⟨rfl, sameResponse_refl s2⟩
  · refine ⟨rfl, rfl, rfl, rfl, rfl, rfl, fun h => ?_⟩
    rw [h] at h3
    exact absurd h3.2.2.1 (by decide)
  · exact ⟨rfl, sameResponse_refl s2⟩
  · exact ⟨rfl, sameResponse_refl s2⟩

/-- The slot that `ap_handleIncomingMesh` finds or takes for the next part. -/
theorem ap_findOrCreate_inv (now ref n src dst : Nat) (sender : String) (payload : List Nat)
    (msgs : List ConcatMessage) (i0 : Nat) (K : List Nat) (s : APState)
    (hfind : findConcat msgs ref sender = none) (hfree : findFree msgs = some i0)
    (hinv : PoolInv 4096 ref n src dst sender payload msgs i0 K s.concatMessages)
    (hl ei el : Nat) :
    ∃ s1 c0, ap_findOrCreate now s ref n
          { headerLen := hl, ei := ei, eiLength := el, source := src, dest := dst } sender
        = some (i0, s1)
      ∧ s1.concatMessages.getD i0 default = c0
      ∧ (∀ x, s1.concatMessages.set i0 x = msgs.set i0 x)
      ∧ SlotInv 4096 ref n src dst sender payload K c0 ∧ SameResponse s1 s := by
  have hlt := findFree_lt msgs i0 hfree
  rcases hinv with ⟨hK, hp⟩ | ⟨_, c, hp, hc⟩
  · subst hK
    refine ⟨
      { s with
        concatMessages := s.concatMessages.set i0
          { s.concatMessages.getD i0 default with
            active := true, refNum := ref, totalParts := n, receivedParts := 0, sourcePort := src,
            destPort := dst, senderMeshId := sender, lastUpdate := now,
            partReceived := List.replicate 16 0, data := List.replicate 4096 0,
            partSizes := List.replicate 16 0 }
        wdpTotalParts := n
        wdpReceivedParts := 0 },
      { s.concatMessages.getD i0 default with
        active := true, refNum := ref, totalParts := n, receivedParts := 0, sourcePort := src,
        destPort := dst, senderMeshId := sender, lastUpdate := now,
        partReceived := List.replicate 16 0, data := List.replicate 4096 0,
        partSizes := List.replicate 16 0 },
      ?_, ?_, ?_, ?_, ?_⟩
    · rw [ap_findOrCreate, hp, hfind]
      simp only []
      rw [hfree]
    · exact getD_set_self _ _ _ (by rw [hp]; exact hlt)
    · intro x
      show (s.concatMessages.set i0 _).set i0 x = msgs.set i0 x
      rw [hp]
      exact List.set_set _ _ _ _
    · exact slotInv_nil _ _ _ _ _ _ _ _ rfl rfl rfl rfl rfl rfl rfl rfl
        (List.length_replicate _ _) rfl
    · exact ⟨rfl, rfl, rfl, rfl, rfl, fun _ => rfl⟩
  · refine ⟨s, c, ?_, ?_, ?_, hc, sameResponse_refl s⟩
    · rw [ap_findOrCreate, hp,
        findConcat_set msgs ref sender i0 c hfind hlt hc.1 hc.2.1 hc.2.2.2.1]
    · rw [hp]
      exact getD_set_self _ _ _ hlt
    · intro x
      rw [hp]
      exact List.set_set _ _ _ _

open WDPGateway

/-- One call of `ap_handleIncomingMesh` with a part that the slot does not hold
yet. -/
theorem ap_handleIncomingMesh_part (now ref n src dst : Nat) (sender : String)
    (payload : List Nat) (msgs : List ConcatMessage) (i0 : Nat) (K : List Nat) (s : APState)
    (i : Nat) (hs : src < 65536) (hd : dst < 65536) (hn : n ≤ 16)
    (hL1 : (n - 1) * 108 ≤ payload.length) (hL2 : payload.length ≤ n * 108)
    (hfind : findConcat msgs ref sender = none) (hfree : findFree msgs = some i0)
    (hinv : PoolInv 4096 ref n src dst sender payload msgs i0 K s.concatMessages)
    (hbuf : payload.length ≤ s.meshResponseBuffer.length)
    (hnd : (i :: K).Nodup) (hb : ∀ j ∈ i :: K, j < n) :
    ∀ r, r = ap_handleIncomingMesh now s sender
        (concatDatagram ref n (i + 1) src dst payload payload.length)
        (concatDatagram ref n (i + 1) src dst payload payload.length).length →
      (K.length + 1 ≠ n →
        PoolInv 4096 ref n src dst sender payload msgs i0 (i :: K) r.concatMessages
          ∧ SameResponse r s)
      ∧ (K.length + 1 = n →
        r.concatMessages = msgs.set i0 (clearConcatMessage 4096 default)
          ∧ r.waitingClient = s.waitingClient ∧ (s.waitingClient = false → r.written = s.written)
          ∧ (s.currentRequestPort ≠ 0 ∧ dst ≠ s.currentRequestPort → SameResponse r s)
          ∧ (¬ (s.currentRequestPort ≠ 0 ∧ dst ≠ s.currentRequestPort) →
              r.meshResponseBuffer = payload ++ s.meshResponseBuffer.drop payload.length
                ∧ r.meshResponseLen = payload.length ∧ r.meshResponseReady = true
                ∧ r.currentRequestPort = 0)) := by
  intro r hr
  have hi : i < n := hb i (List.mem_cons_self _ _)
  have hiK : i ∉ K := (List.nodup_cons.mp hnd).1
  have hK : (i :: K).length ≤ n := nodup_length_le _ n hnd hb
  rw [List.length_cons] at hK
  have hlen := concatDatagram_len ref n i src dst payload
  have hparse := parseConcatUDH_concat ref n (i + 1) src dst payload payload.length
    (concatDatagram ref n (i + 1) src dst payload payload.length).length hs hd (by omega)
  rw [Nat.mod_eq_of_lt (show n < 256 by omega), Nat.mod_eq_of_lt (show i + 1 < 256 by omega)]
    at hparse
  obtain ⟨s1, c0, hslot, hget, hset, hinv0, hsame1⟩ := ap_findOrCreate_inv now ref n src dst sender
    payload msgs i0 K s hfind hfree hinv 0x0B 0x05 0x04
  obtain ⟨hst, hinv1⟩ := storePart_inv 4096 ref n src dst sender payload K c0 hinv0 i (by omega)
    (by omega) hiK (by omega) (by decide) (by omega)
    (concatDatagram ref n (i + 1) src dst payload payload.length)
    (concatDatagram ref n (i + 1) src dst payload payload.length).length now hlen
    (fun j hj => concatDatagram_payload ref n i src dst payload j hj)
  rw [ap_handleIncomingMesh, if_neg (by omega), hparse] at hr
  simp only [] at hr
  rw [hslot] at hr
  simp only [hget, hst, if_true] at hr
  generalize (storePart 4096 c0 (i + 1) (concatDatagram ref n (i + 1) src dst payload
    payload.length) (concatDatagram ref n (i + 1) src dst payload payload.length).length now).1
    = c at hinv1 hr
  obtain ⟨hcm, hsame2⟩ := ap_onStored_frame
    { s1 with
      concatMessages := s1.concatMessages.set i0 c
      lastPartReceivedTime := now
      wdpReceivedParts := c.receivedParts }
    c (i + 1) (concatDatagram ref n (i + 1) src dst payload payload.length)
    ((concatDatagram ref n (i + 1) src dst payload payload.length).length - 12)
  generalize ap_onStored
    { s1 with
      concatMessages := s1.concatMessages.set i0 c
      lastPartReceivedTime := now
      wdpReceivedParts := c.receivedParts }
    c (i + 1) (concatDatagram ref n (i + 1) src dst payload payload.length)
    ((concatDatagram ref n (i + 1) src dst payload payload.length).length - 12) = s2
    at hcm hsame2 hr
  have hcm2 : s2.concatMessages = msgs.set i0 c := hcm.trans (hset c)
  have hsame : SameResponse s2 s := sameResponse_trans _ _ _ hsame2 hsame1
  obtain ⟨_, _, h3, _, _, h6, h7, _⟩ := id hinv1
  rw [h3, h6, h7, List.length_cons] at hr
  obtain ⟨e1, e2, e3, e4, e5, e6⟩ := hsame
  constructor
  · intro hne
    rw [if_neg hne] at hr
    subst hr
    exact ⟨Or.inr ⟨List.cons_ne_nil _ _, c, hcm2, hinv1⟩, e1, e2, e3, e4, e5, e6⟩
  · intro hcomp
    rw [if_pos hcomp, e4] at hr
    have hall : ∀ j, j < n → j ∈ i :: K := nodup_mem_of_length (i :: K) n hnd hb
      (by rw [List.length_cons]; exact hcomp)
    obtain ⟨hsum, hdata⟩ := slotInv_complete 4096 ref n src dst sender payload (i :: K) c hinv1 hn
      hL1 hL2 hall
    by_cases hm : s.currentRequestPort ≠ 0 ∧ dst ≠ s.currentRequestPort
    · rw [if_pos hm] at hr
      subst hr
      refine ⟨?_, e5, e6, fun _ => ⟨e1, e2, e3, rfl, e5, e6⟩, fun h => absurd hm h⟩
      show s2.concatMessages.set i0 _ = _
      rw [hcm2, List.set_set]
      rfl
    · rw [if_neg hm] at hr
      simp only [hsum] at hr
      rw [if_pos (show payload.length < 4096 by omega)] at hr
      subst hr
      refine ⟨?_, e5, e6, fun h => absurd h hm, fun _ => ⟨?_, rfl, rfl, rfl⟩⟩
      · show s2.concatMessages.set i0 _ = _
        rw [hcm2, List.set_set]
        rfl
      · show WAPRequest.memcpy s2.meshResponseBuffer 0 c.data payload.length = _
        have hcd : payload.length ≤ c.data.length := by
          rw [hinv1.2.2.2.2.2.2.2.2.2.2.2.1]
          omega
        have e := WAPRequest.memcpy_eq c.data payload.length [] s.meshResponseBuffer hcd hbuf
        rw [List.nil_append, List.length_nil, List.nil_append] at e
        rw [hsum, bytesAt_eq _ _ _ (by omega), List.drop_zero] at hdata
        rw [e1, e, hdata]

open WDPGateway

/-- The calls of `ap_handleIncomingMesh` for parts that the slot does not hold
yet, one after the other. -/
theorem ap_handleAll_parts (ref n src dst : Nat) (sender : String) (payload : List Nat)
    (msgs : List ConcatMessage) (i0 : Nat) (hs : src < 65536) (hd : dst < 65536) (hn : n ≤ 16)
    (hL1 : (n - 1) * 108 ≤ payload.length) (hL2 : payload.length ≤ n * 108)
    (hfind : findConcat msgs ref sender = none) (hfree : findFree msgs = some i0) :
    ∀ (is K : List Nat) (s : APState) (now : Nat),
      PoolInv 4096 ref n src dst sender payload msgs i0 K s.concatMessages →
      payload.length ≤ s.meshResponseBuffer.length → (is ++ K).Nodup →
      (∀ i ∈ is ++ K, i < n) →
      ∀ r, r = ap_handleAll now s sender
          (is.map (fun i => concatDatagram ref n (i + 1) src dst payload payload.length)) →
        (is.length + K.length < n →
          PoolInv 4096 ref n src dst sender payload msgs i0 (is.reverse ++ K) r.concatMessages
            ∧ SameResponse r s)
        ∧ (is ≠ [] → is.length + K.length = n →
          r.concatMessages = msgs.set i0 (clearConcatMessage 4096 default)
            ∧ r.waitingClient = s.waitingClient
            ∧ (s.waitingClient = false → r.written = s.written)
            ∧ (s.currentRequestPort ≠ 0 ∧ dst ≠ s.currentRequestPort → SameResponse r s)
            ∧ (¬ (s.currentRequestPort ≠ 0 ∧ dst ≠ s.currentRequestPort) →
                r.meshResponseBuffer = payload ++ s.meshResponseBuffer.drop payload.length
                  ∧ r.meshResponseLen = payload.length ∧ r.meshResponseReady = true
                  ∧ r.currentRequestPort = 0))
  | [], K, s, now, hinv, _, _, _, r, hr => by
    subst hr
    exact ⟨fun _ => ⟨hinv, sameResponse_refl _⟩, fun h => absurd rfl h⟩
  | i :: is, K, s, now, hinv, hbuf, hnd, hb, r, hr => by
    have hnd1 : (i :: (is ++ K)).Nodup := hnd
    have hlen : (i :: (is ++ K)).length ≤ n := nodup_length_le _ n hnd1 hb
    rw [List.length_cons, List.length_append] at hlen
    have hndK : (i :: K).Nodup := by
      rw [List.nodup_cons] at hnd1 ⊢
      exact ⟨fun h => hnd1.1 (List.mem_append_right _ h), (List.nodup_append.mp hnd1.2).2.1⟩
    have hbK : ∀ j ∈ i :: K, j < n := by
      intro j hj
      apply hb j
      rcases List.mem_cons.mp hj with e | e
      · rw [e]
        exact List.mem_cons_self _ _
      · exact List.mem_cons_of_mem _ (List.mem_append_right _ e)
    obtain ⟨st1, st2⟩ := ap_handleIncomingMesh_part now ref n src dst sender payload msgs i0 K s i
      hs hd hn hL1 hL2 hfind hfree hinv hbuf hndK hbK _ rfl
    rw [List.map_cons, ap_handleAll] at hr
    by_cases hcomp : K.length + 1 = n
    · have his : is = [] := List.eq_nil_of_length_eq_zero (by omega)
      subst his
      rw [List.map_nil, ap_handleAll] at hr
      subst hr
      refine ⟨fun h => ?_, fun _ _ => st2 hcomp⟩
      rw [List.length_cons, List.length_nil] at h
      omega
    · obtain ⟨hinv2, hsame⟩ := st1 hcomp
      have hperm : (is ++ i :: K).Perm (i :: (is ++ K)) := List.perm_middle
      have ih := ap_handleAll_parts ref n src dst sender payload msgs i0 hs hd hn hL1 hL2 hfind
        hfree is (i :: K) _ (now + 1) hinv2 (by rw [hsame.1]; exact hbuf)
        (hperm.nodup_iff.mpr hnd1) (fun j hj => hb j (hperm.mem_iff.mp hj)) r hr
      simp only [List.length_cons] at ih ⊢
      obtain ⟨e1, e2, e3, e4, e5, e6⟩ := id hsame
      refine ⟨fun h => ?_, fun _ h => ?_⟩
      · obtain ⟨h1, h2⟩ := ih.1 (by omega)
        refine ⟨?_, sameResponse_trans _ _ _ h2 hsame⟩
        rw [List.reverse_cons, List.append_assoc, List.singleton_append]
        exact h1
      · have hne : is ≠ [] := by
          intro e
          rw [e, List.length_nil] at h
          omega
        obtain ⟨h1, h2, h3, h4, h5⟩ := ih.2 hne (by omega)
        rw [e4, e1] at h5
        rw [e4] at h4
        refine ⟨h1, h2.trans e5, fun hw => ?_, fun hm => sameResponse_trans _ _ _ (h4 hm) hsame,
          h5⟩
        rw [h3 (e5.trans hw), e6 hw]

end ModeAP

namespace WDPGateway

/-! ### Parts that are not stored -/

theorem findConcat_none_of (msgs : List ConcatMessage) (refNum : Nat) (sender : String)
    (h : ∀ m ∈ msgs, ¬ (m.refNum = refNum ∧ m.senderMeshId = sender)) :
    findConcat msgs refNum sender = none := by
  rw [findConcat, List.findIdx?_eq_none_iff]
  intro m hm
  have := h m hm
  by_cases h1 : m.refNum = refNum
  · have h2 : ¬ m.senderMeshId = sender := fun e => this ⟨h1, e⟩
    simp only [h1, h2, decide_True, decide_False, Bool.and_false]
  · simp only [h1, decide_False, Bool.and_false, Bool.false_and]

theorem findFree_none_of (msgs : List ConcatMessage) (h : ∀ m ∈ msgs, m.active = true) :
    findFree msgs = none := by
  rw [findFree, List.findIdx?_eq_none_iff]
  intro m hm
  rw [h m hm]
  rfl

theorem parseConcatUDH_len (data : List Nat) (len : Nat) (r : Nat × Nat × Nat × UDH)
    (h : parseConcatUDH data len = some r) : 12 ≤ len := by
  rw [parseConcatUDH] at h
  by_cases c : len < 12 ∨ data.getD 0 0 ≠ 0x0B
  · rw [if_pos c] at h
    exact absurd h (by simp)
  · have : ¬ len < 12 := fun e => c (Or.inl e)
    omega

/-- Without a slot `handleIncomingMesh` returns at once. -/
theorem handleIncomingMesh_no_slot (now : Nat) (msgs : List ConcatMessage) (sender : String)
    (data : List Nat) (len refNum totalParts currentPart : Nat) (udh : UDH)
    (hparse : parseConcatUDH data len = some (refNum, totalParts, currentPart, udh))
    (hslot : findOrCreate msgs refNum totalParts udh sender = none) :
    handleIncomingMesh now msgs sender data len = (msgs, none) := by
  have hlen := parseConcatUDH_len data len _ hparse
  rw [handleIncomingMesh, if_neg (by omega), hparse]
  simp only []
  rw [hslot]

theorem findOrCreate_none (msgs : List ConcatMessage) (refNum totalParts : Nat) (udh : UDH)
    (sender : String) (h1 : findConcat msgs refNum sender = none) (h2 : findFree msgs = none) :
    findOrCreate msgs refNum totalParts udh sender = none := by
  rw [findOrCreate, h1]
  simp only []
  rw [h2]

theorem findOrCreate_some (msgs : List ConcatMessage) (refNum totalParts : Nat) (udh : UDH)
    (sender : String) (j : Nat) (h1 : findConcat msgs refNum sender = some j) :
    findOrCreate msgs refNum totalParts udh sender = some (j, msgs) := by
  rw [findOrCreate, h1]

/-- A part whose index is marked in the slot is not stored. -/
theorem storePart_received (D : Nat) (c : ConcatMessage) (currentPart : Nat) (data : List Nat)
    (len now : Nat) (h : c.partReceived.getD (currentPart - 1) 0 ≠ 0) :
    storePart D c currentPart data len now = (c, false) := by
  rw [storePart, if_neg (fun e => h e.2.2)]

/-- A part with the index 0 or an index above 16 is not stored. -/
theorem storePart_range (D : Nat) (c : ConcatMessage) (currentPart : Nat) (data : List Nat)
    (len now : Nat) (h : currentPart = 0 ∨ 16 < currentPart) :
    storePart D c currentPart data len now = (c, false) := by
  rw [storePart, if_neg (fun e => by omega)]

theorem set_getD_self (msgs : List ConcatMessage) (j : Nat) :
    msgs.set j (msgs.getD j default) = msgs := by
  apply List.ext_getElem?
  intro i
  rw [List.getElem?_set]
  by_cases e : j = i
  · subst e
    rw [if_pos rfl]
    by_cases hl : j < msgs.length
    · rw [if_pos hl, List.getD_eq_getElem _ _ hl, List.getElem?_eq_getElem hl]
    · rw [if_neg hl, List.getElem?_eq_none (by omega)]
  · rw [if_neg e]

/-- One call of `handleIncomingMesh` with a part that goes to the slot `j` and is
not stored there, while the slot is not complete. -/
theorem handleIncomingMesh_not_stored (now : Nat) (msgs : List ConcatMessage) (sender : String)
    (data : List Nat) (len refNum totalParts currentPart : Nat) (udh : UDH) (j : Nat)
    (hparse : parseConcatUDH data len = some (refNum, totalParts, currentPart, udh))
    (hfind : findConcat msgs refNum sender = some j)
    (hst : storePart 2048 (msgs.getD j default) currentPart data len now
      = (msgs.getD j default, false))
    (hinc : (msgs.getD j default).receivedParts ≠ (msgs.getD j default).totalParts) :
    handleIncomingMesh now msgs sender data len = (msgs, none) := by
  have hlen := parseConcatUDH_len data len _ hparse
  rw [handleIncomingMesh, if_neg (by omega), hparse]
  simp only []
  rw [findOrCreate_some msgs refNum totalParts udh sender j hfind]
  simp only [hst]
  rw [if_neg hinc, set_getD_self]

end WDPGateway

namespace ModeAP

open WDPGateway

theorem ap_findOrCreate_none (now : Nat) (s : APState) (refNum totalParts : Nat) (udh : UDH)
    (sender : String) (h1 : findConcat s.concatMessages refNum sender = none)
    (h2 : findFree s.concatMessages = none) :
    ap_findOrCreate now s refNum totalParts udh sender = none := by
  rw [ap_findOrCreate, h1]
  simp only []
  rw [h2]

theorem ap_findOrCreate_some (now : Nat) (s : APState) (refNum totalParts : Nat) (udh : UDH)
    (sender : String) (j : Nat) (h1 : findConcat s.concatMessages refNum sender = some j) :
    ap_findOrCreate now s refNum totalParts udh sender = some (j, s) := by
  rw [ap_findOrCreate, h1]

/-- Without a slot `ap_handleIncomingMesh` returns at once. -/
theorem ap_handleIncomingMesh_no_slot (now : Nat) (s : APState) (sender : String)
    (data : List Nat) (len refNum totalParts currentPart : Nat) (udh : UDH)
    (hparse : parseConcatUDH data len = some (refNum, totalParts, currentPart, udh))
    (hslot : ap_findOrCreate now s refNum totalParts udh sender = none) :
    ap_handleIncomingMesh now s sender data len = s := by
  have hlen := parseConcatUDH_len data len _ hparse
  rw [ap_handleIncomingMesh, if_neg (by omega), hparse]
  simp only []
  rw [hslot]

/-- One call of `ap_handleIncomingMesh` with a part that goes to the slot `j` and
is not stored there, while the slot is not complete. -/
theorem ap_handleIncomingMesh_not_stored (now : Nat) (s : APState) (sender : String)
    (data : List Nat) (len refNum totalParts currentPart : Nat) (udh : UDH) (j : Nat)
    (hparse : parseConcatUDH data len = some (refNum, totalParts, currentPart, udh))
    (hfind : findConcat s.concatMessages refNum sender = some j)
    (hst : storePart 4096 (s.concatMessages.getD j default) currentPart data len now
      = (s.concatMessages.getD j default, false))
    (hinc : (s.concatMessages.getD j default).receivedParts
      ≠ (s.concatMessages.getD j default).totalParts) :
    ap_handleIncomingMesh now s sender data len = s := by
  have hlen := parseConcatUDH_len data len _ hparse
  rw [ap_handleIncomingMesh, if_neg (by omega), hparse]
  simp only []
  rw [ap_findOrCreate_some now s refNum totalParts udh sender j hfind]
  simp only [hst]
  rw [if_neg hinc]
  rfl

end ModeAP

namespace WDPGateway

theorem incomplete_set (msgs : List ConcatMessage) (i : Nat) (x : ConcatMessage)
    (h : Incomplete msgs) (hx : x.active = true → x.receivedParts ≠ x.totalParts) :
    Incomplete (msgs.set i x) := by
  intro m hm
  rcases List.mem_or_eq_of_mem_set hm with e | e
  · exact h m e
  · rw [e]
    exact hx

theorem findOrCreate_incomplete (msgs : List ConcatMessage) (refNum totalParts : Nat) (udh : UDH)
    (sender : String) (i : Nat) (msgs1 : List ConcatMessage)
    (h : findOrCreate msgs refNum totalParts udh sender = some (i, msgs1))
    (hinc : Incomplete msgs) (x : ConcatMessage)
    (hx : x.active = true → x.receivedParts ≠ x.totalParts) :
    Incomplete (msgs1.set i x) := by
  rw [findOrCreate] at h
  cases h1 : findConcat msgs refNum sender with
  | some j =>
    rw [h1] at h
    simp only [Option.some.injEq, Prod.mk.injEq] at h
    rw [← h.2]
    exact incomplete_set msgs i x hinc hx
  | none =>
    rw [h1] at h
    simp only [] at h
    cases h2 : findFree msgs with
    | none =>
      rw [h2] at h
      exact absurd h (by simp)
    | some j =>
      rw [h2] at h
      simp only [Option.some.injEq, Prod.mk.injEq] at h
      rw [← h.2, ← h.1, List.set_set]
      exact incomplete_set msgs j x hinc hx

theorem clearConcatMessage_inactive (D : Nat) (c : ConcatMessage) :
    (clearConcatMessage D c).active = true → (clearConcatMessage D c).receivedParts
      ≠ (clearConcatMessage D c).totalParts := by
  intro h
  exact absurd h Bool.false_ne_true

/-- Every call of `handleIncomingMesh` leaves no active slot that holds all its
parts. -/
theorem handleIncomingMesh_incomplete (now : Nat) (msgs : List ConcatMessage) (sender : String)
    (data : List Nat) (len : Nat) (hinc : Incomplete msgs) :
    Incomplete (handleIncomingMesh now msgs sender data len).1 := by
  rw [handleIncomingMesh]
  by_cases hl : len < 7
  · rw [if_pos hl]
    exact hinc
  · rw [if_neg hl]
    cases hp : parseConcatUDH data len with
    | none =>
      simp only []
      cases parseUDH data len with
      | none => exact hinc
      | some udh => exact hinc
    | some r =>
      obtain ⟨refNum, totalParts, currentPart, udh⟩ := r
      simp only []
      cases hs : findOrCreate msgs refNum totalParts udh sender with
      | none => exact hinc
      | some q =>
        obtain ⟨i, msgs1⟩ := q
        simp only []
        split_ifs with hc
        · exact findOrCreate_incomplete msgs refNum totalParts udh sender i msgs1 hs hinc _
            (clearConcatMessage_inactive 2048 _)
        · exact findOrCreate_incomplete msgs refNum totalParts udh sender i msgs1 hs hinc _
            (fun _ => hc)

end WDPGateway

namespace ModeAP

open WDPGateway

theorem storePart_false (D : Nat) (c : ConcatMessage) (currentPart : Nat) (data : List Nat)
    (len now : Nat) (h : (storePart D c currentPart data len now).2 = false) :
    (storePart D c currentPart data len now).1 = c := by
  rw [storePart] at h ⊢
  by_cases c1 : currentPart > 0 ∧ currentPart ≤ 16 ∧ c.partReceived.getD (currentPart - 1) 0 = 0
  · rw [if_pos c1] at h ⊢
    dsimp only at h ⊢
    by_cases c2 : ((currentPart - 1) * (MESHCORE_MAX_BINARY_PAYLOAD - 12) + (len - 12)) % 2 ^ 32
        < D
    · rw [if_pos c2] at h
      exact absurd h (by simp)
    · rw [if_neg c2]
  · rw [if_neg c1]

theorem ap_findOrCreate_incomplete (now : Nat) (s : APState) (refNum totalParts : Nat)
    (udh : UDH) (sender : String) (i : Nat) (s1 : APState)
    (h : ap_findOrCreate now s refNum totalParts udh sender = some (i, s1))
    (hinc : Incomplete s.concatMessages) (x : ConcatMessage)
    (hx : x.active = true → x.receivedParts ≠ x.totalParts) :
    Incomplete (s1.concatMessages.set i x) := by
  rw [ap_findOrCreate] at h
  cases h1 : findConcat s.concatMessages refNum sender with
  | some j =>
    rw [h1] at h
    simp only [Option.some.injEq, Prod.mk.injEq] at h
    rw [← h.2]
    exact incomplete_set _ i x hinc hx
  | none =>
    rw [h1] at h
    simp only [] at h
    cases h2 : findFree s.concatMessages with
    | none =>
      rw [h2] at h
      exact absurd h (by simp)
    | some j =>
      rw [h2] at h
      simp only [Option.some.injEq, Prod.mk.injEq] at h
      rw [← h.2, ← h.1]
      show Incomplete ((s.concatMessages.set j _).set j x)
      rw [List.set_set]
      exact incomplete_set _ j x hinc hx

/-- The slots after the block that stores a part in `ap_handleIncomingMesh`. -/
theorem ap_stored_slots (now : Nat) (s1 : APState) (i currentPart : Nat) (data : List Nat)
    (len : Nat) :
    (if (storePart 4096 (s1.concatMessages.getD i default) currentPart data len now).2 then
        ap_onStored
          { s1 with
            concatMessages := s1.concatMessages.set i
              (storePart 4096 (s1.concatMessages.getD i default) currentPart data len now).1
            lastPartReceivedTime := now
            wdpReceivedParts :=
              (storePart 4096 (s1.concatMessages.getD i default) currentPart data len
                now).1.receivedParts }
          (storePart 4096 (s1.concatMessages.getD i default) currentPart data len now).1
          currentPart data (len - 12)
      else s1).concatMessages
      = s1.concatMessages.set i
          (storePart 4096 (s1.concatMessages.getD i default) currentPart data len now).1 := by
  cases h : (storePart 4096 (s1.concatMessages.getD i default) currentPart data len now).2 with
  | true =>
    rw [if_pos rfl, (ap_onStored_frame _ _ _ _ _).1]
  | false =>
    rw [if_neg (by simp), storePart_false _ _ _ _ _ _ h, set_getD_self]

/-- Every call of `ap_handleIncomingMesh` leaves no active slot that holds all
its parts. -/
theorem ap_handleIncomingMesh_incomplete (now : Nat) (s : APState) (sender : String)
    (data : List Nat) (len : Nat) (hinc : Incomplete s.concatMessages) :
    Incomplete (ap_handleIncomingMesh now s sender data len).concatMessages := by
  rw [ap_handleIncomingMesh]
  by_cases hl : len < 7
  · rw [if_pos hl]
    exact hinc
  · rw [if_neg hl]
    cases hp : parseConcatUDH data len with
    | none =>
      simp only []
      cases parseUDH data len with
      | none => exact hinc
      | some udh =>
        simp only []
        split_ifs
        · exact hinc
        · show Incomplete (ap_trySendEarlyHeaders s _ _).2.concatMessages
          rw [(ap_trySendEarlyHeaders_frame s _ _).1]
          exact hinc
        · exact hinc
        · show Incomplete (ap_trySendEarlyHeaders s _ _).2.concatMessages
          rw [(ap_trySendEarlyHeaders_frame s _ _).1]
          exact hinc
        · exact hinc
    | some r =>
      obtain ⟨refNum, totalParts, currentPart, udh⟩ := r
      simp only []
      cases hs : ap_findOrCreate now s refNum totalParts udh sender with
      | none => exact hinc
      | some q =>
        obtain ⟨i, s1⟩ := q
        simp only []
        have hcm := ap_stored_slots now s1 i currentPart data len
        generalize (if (storePart 4096 (s1.concatMessages.getD i default) currentPart data len
          now).2 then
            ap_onStored
              { s1 with
                concatMessages := s1.concatMessages.set i
                  (storePart 4096 (s1.concatMessages.getD i default) currentPart data len now).1
                lastPartReceivedTime := now
                wdpReceivedParts :=
                  (storePart 4096 (s1.concatMessages.getD i default) currentPart data len
                    now).1.receivedParts }
              (storePart 4096 (s1.concatMessages.getD i default) currentPart data len now).1
              currentPart data (len - 12)
          else s1) = s2 at hcm ⊢
        generalize (storePart 4096 (s1.concatMessages.getD i default) currentPart data len
          now).1 = concat at hcm ⊢
        have hclr : Incomplete (s2.concatMessages.set i (clearConcatMessage 4096 concat)) := by
          rw [hcm, List.set_set]
          exact ap_findOrCreate_incomplete now s refNum totalParts udh sender i s1 hs hinc _
            (clearConcatMessage_inactive 4096 _)
        split_ifs with hc
        · exact hclr
        · exact hclr
        · exact hclr
        · rw [hcm]
          exact ap_findOrCreate_incomplete now s refNum totalParts udh sender i s1 hs hinc _
            (fun _ => hc)

end ModeAP

namespace WDPGateway

theorem findConcat_some (msgs : List ConcatMessage) (refNum : Nat) (sender : String) (j : Nat)
    (h : findConcat msgs refNum sender = some j) :
    msgs.getD j default ∈ msgs ∧ (msgs.getD j default).active = true
      ∧ (msgs.getD j default).refNum = refNum ∧ (msgs.getD j default).senderMeshId = sender := by
  rw [findConcat] at h
  obtain ⟨hl, hp, _⟩ := List.findIdx?_eq_some_iff_getElem.mp h
  rw [List.getD_eq_getElem _ _ hl]
  simp only [Bool.and_eq_true, decide_eq_true_eq] at hp
  exact ⟨List.getElem_mem hl, hp.1.1, hp.1.2, hp.2⟩

set_option maxRecDepth 100000 in
/-- The part 5 of 5 with the reference number 7, which `isValidWDPMessage`
accepts, completes the slot of a message of 2 parts that holds the part 1. -/
theorem part_above_total_completes :
    MyMesh.isValidWDPMessage [0x0B, 0x00, 0x03, 7, 5, 5, 0x05, 0x04, 0xC0, 0x00, 0x23, 0xF0, 66] 13
        = true
      ∧ parseConcatUDH [0x0B, 0x00, 0x03, 7, 5, 5, 0x05, 0x04, 0xC0, 0x00, 0x23, 0xF0, 66] 13
        = some (7, 5, 5, { headerLen := 0x0B, ei := 0x05, eiLength := 0x04, source := 9200,
                           dest := 49152 })
      ∧ findConcat (examplePool 2048) 7 "node" = some 0
      ∧ (storePart 2048 (exampleSlot 2048) 5
          [0x0B, 0x00, 0x03, 7, 5, 5, 0x05, 0x04, 0xC0, 0x00, 0x23, 0xF0, 66] 13 5).2 = true
      ∧ (storePart 2048 (exampleSlot 2048) 5
          [0x0B, 0x00, 0x03, 7, 5, 5, 0x05, 0x04, 0xC0, 0x00, 0x23, 0xF0, 66] 13 5).1.receivedParts
        = 2
      ∧ (handleIncomingMesh 5 (examplePool 2048) "node"
          [0x0B, 0x00, 0x03, 7, 5, 5, 0x05, 0x04, 0xC0, 0x00, 0x23, 0xF0, 66] 13).2
        = some { sender := "node", srcPort := 9200, dstPort := 49152, data := [65] }
      ∧ (handleIncomingMesh 5 (examplePool 2048) "node"
          [0x0B, 0x00, 0x03, 7, 5, 5, 0x05, 0x04, 0xC0, 0x00, 0x23, 0xF0, 66] 13).1.map
            (fun m => m.active)
        = [false, false, false, false] := by
  decide

set_option maxRecDepth 100000 in
/-- The same part in the receiver of `mode_ap.h`, with no request outstanding. -/
theorem ap_part_above_total_completes :
    (ModeAP.ap_handleIncomingMesh 5
        { ModeAP.requestState false 0 with concatMessages := examplePool 4096 } "node"
        [0x0B, 0x00, 0x03, 7, 5, 5, 0x05, 0x04, 0xC0, 0x00, 0x23, 0xF0, 66] 13).meshResponseReady
        = true
      ∧ (ModeAP.ap_handleIncomingMesh 5
        { ModeAP.requestState false 0 with concatMessages := examplePool 4096 } "node"
        [0x0B, 0x00, 0x03, 7, 5, 5, 0x05, 0x04, 0xC0, 0x00, 0x23, 0xF0, 66] 13).meshResponseLen
        = 1
      ∧ (ModeAP.ap_handleIncomingMesh 5
        { ModeAP.requestState false 0 with concatMessages := examplePool 4096 } "node"
        [0x0B, 0x00, 0x03, 7, 5, 5, 0x05, 0x04, 0xC0, 0x00, 0x23, 0xF0, 66]
          13).meshResponseBuffer.take 1 = [65] := by
  decide

end WDPGateway

namespace ModeAP

open WDPGateway

/-! ### The check of the port in `mode_ap.h` -/

/-- The block that finds or takes a slot changes the slots and the two counters
of the display only. -/
theorem ap_findOrCreate_frame (now : Nat) (s : APState) (refNum totalParts : Nat) (udh : UDH)
    (sender : String) (i : Nat) (s1 : APState)
    (h : ap_findOrCreate now s refNum totalParts udh sender = some (i, s1)) :
    s1 = { s with concatMessages := s1.concatMessages, wdpTotalParts := s1.wdpTotalParts,
                  wdpReceivedParts := s1.wdpReceivedParts }
      ∧ ((∃ j, findConcat s.concatMessages refNum sender = some j ∧ i = j
            ∧ s1.concatMessages = s.concatMessages)
          ∨ (findConcat s.concatMessages refNum sender = none
            ∧ (s1.concatMessages.getD i default).destPort = udh.dest)) := by
  rw [ap_findOrCreate] at h
  cases h1 : findConcat s.concatMessages refNum sender with
  | some j =>
    rw [h1] at h
    simp only [Option.some.injEq, Prod.mk.injEq] at h
    rw [← h.2]
    exact ⟨rfl, Or.inl ⟨j, rfl, h.1.symm, rfl⟩⟩
  | none =>
    rw [h1] at h
    simp only [] at h
    cases h2 : findFree s.concatMessages with
    | none =>
      rw [h2] at h
      exact absurd h (by simp)
    | some j =>
      rw [h2] at h
      simp only [Option.some.injEq, Prod.mk.injEq] at h
      rw [← h.2, ← h.1]
      refine ⟨rfl, Or.inr ⟨rfl, ?_⟩⟩
      show ((s.concatMessages.set j _).getD j default).destPort = udh.dest
      rw [getD_set_self _ _ _ (findFree_lt _ _ h2)]

theorem storePart_destPort (D : Nat) (c : ConcatMessage) (currentPart : Nat) (data : List Nat)
    (len now : Nat) : (storePart D c currentPart data len now).1.destPort = c.destPort := by
  rw [storePart]
  by_cases c1 : currentPart > 0 ∧ currentPart ≤ 16 ∧ c.partReceived.getD (currentPart - 1) 0 = 0
  · rw [if_pos c1]
    dsimp only
    by_cases c2 : ((currentPart - 1) * (MESHCORE_MAX_BINARY_PAYLOAD - 12) + (len - 12)) % 2 ^ 32
        < D
    · rw [if_pos c2]
    · rw [if_neg c2]
  · rw [if_neg c1]

/-- The part 1 and the part 0 of a message for another port than the expected
one: the block that writes to the waiting client does nothing. -/
theorem ap_onStored_first (s2 : APState) (concat : ConcatMessage) (currentPart : Nat)
    (data : List Nat) (partPayloadLen : Nat) (hcp : currentPart ≤ 1)
    (hp0 : s2.currentRequestPort ≠ 0) (hp : concat.destPort ≠ s2.currentRequestPort) :
    ap_onStored s2 concat currentPart data partPayloadLen = s2 := by
  rw [ap_onStored]
  split_ifs with h1 h2 h3 h4
  · rcases h2 with e | e
    · exact absurd e hp0
    · exact absurd e hp
  · rfl
  · omega
  · rfl
  · rfl

/-- A concatenated part whose slot has another port than the expected one leaves
the response buffer, its length, its flag and the expected port as they are, and
the part 1 or 0 writes nothing to the client. -/
theorem ap_handleIncomingMesh_mismatch (now : Nat) (s : APState) (sender : String)
    (data : List Nat) (len refNum totalParts currentPart : Nat) (udh : UDH)
    (hparse : parseConcatUDH data len = some (refNum, totalParts, currentPart, udh))
    (hp0 : s.currentRequestPort ≠ 0) (hd : udh.dest ≠ s.currentRequestPort)
    (hslot : ∀ j, findConcat s.concatMessages refNum sender = some j →
      (s.concatMessages.getD j default).destPort = udh.dest) :
    (ap_handleIncomingMesh now s sender data len).meshResponseBuffer = s.meshResponseBuffer
      ∧ (ap_handleIncomingMesh now s sender data len).meshResponseLen = s.meshResponseLen
      ∧ (ap_handleIncomingMesh now s sender data len).meshResponseReady = s.meshResponseReady
      ∧ (ap_handleIncomingMesh now s sender data len).currentRequestPort = s.currentRequestPort
      ∧ (currentPart ≤ 1 →
          (ap_handleIncomingMesh now s sender data len).written = s.written) := by
  have hlen := parseConcatUDH_len data len _ hparse
  rw [ap_handleIncomingMesh, if_neg (by omega), hparse]
  simp only []
  cases hs : ap_findOrCreate now s refNum totalParts udh sender with
  | none => exact ⟨rfl, rfl, rfl, rfl, fun _ => rfl⟩
  | some q =>
    obtain ⟨i, s1⟩ := q
    simp only []
    obtain ⟨hs1, hcase⟩ := ap_findOrCreate_frame now s refNum totalParts udh sender i s1 hs
    have hport : (s1.concatMessages.getD i default).destPort ≠ s.currentRequestPort := by
      rcases hcase with ⟨j, hj, hij, hcm⟩ | ⟨_, hc⟩
      · rw [hcm, hij, hslot j hj]
        exact hd
      · rw [hc]
        exact hd
    have e1 : s1.meshResponseBuffer = s.meshResponseBuffer := by rw [hs1]
    have e2 : s1.meshResponseLen = s.meshResponseLen := by rw [hs1]
    have e3 : s1.meshResponseReady = s.meshResponseReady := by rw [hs1]
    have e4 : s1.currentRequestPort = s.currentRequestPort := by rw [hs1]
    have e5 : s1.written = s.written := by rw [hs1]
    have hdp := storePart_destPort 4096 (s1.concatMessages.getD i default) currentPart data len now
    have key : ∀ s2 : APState,
        s2.meshResponseBuffer = s.meshResponseBuffer → s2.meshResponseLen = s.meshResponseLen →
        s2.meshResponseReady = s.meshResponseReady →
        s2.currentRequestPort = s.currentRequestPort →
        (currentPart ≤ 1 → s2.written = s.written) →
        ∀ concat : ConcatMessage, concat.destPort ≠ s.currentRequestPort →
        ∀ r : APState,
        r = (if concat.receivedParts = concat.totalParts then
              if s2.currentRequestPort ≠ 0 ∧ concat.destPort ≠ s2.currentRequestPort then
                { s2 with
                  concatMessages := s2.concatMessages.set i (clearConcatMessage 4096 concat) }
              else
                { (if totalSize concat < 4096 then
                    { s2 with
                      meshResponseBuffer :=
                        WAPRequest.memcpy s2.meshResponseBuffer 0 concat.data (totalSize concat)
                      meshResponseLen := totalSize concat
                      meshResponseReady := true
                      currentRequestPort := 0 }
                  else s2) with
                  concatMessages :=
                    (if totalSize concat < 4096 then
                      { s2 with
                        meshResponseBuffer :=
                          WAPRequest.memcpy s2.meshResponseBuffer 0 concat.data (totalSize concat)
                        meshResponseLen := totalSize concat
                        meshResponseReady := true
                        currentRequestPort := 0 }
                    else s2).concatMessages.set i (clearConcatMessage 4096 concat) }
            else s2) →
        r.meshResponseBuffer = s.meshResponseBuffer ∧ r.meshResponseLen = s.meshResponseLen
          ∧ r.meshResponseReady = s.meshResponseReady
          ∧ r.currentRequestPort = s.currentRequestPort
          ∧ (currentPart ≤ 1 → r.written = s.written) := by
      intro s2 a1 a2 a3 a4 a5 concat hc r hr
      by_cases hcomp : concat.receivedParts = concat.totalParts
      · rw [if_pos hcomp, if_pos ⟨by rw [a4]; exact hp0, by rw [a4]; exact hc⟩] at hr
        rw [hr]
        exact ⟨a1, a2, a3, a4, a5⟩
      · rw [if_neg hcomp] at hr
        rw [hr]
        exact ⟨a1, a2, a3, a4, a5⟩
    have hprops : ∀ s2 : APState,
        s2 = (if (storePart 4096 (s1.concatMessages.getD i default) currentPart data len now).2
          then
            ap_onStored
              { s1 with
                concatMessages := s1.concatMessages.set i
                  (storePart 4096 (s1.concatMessages.getD i default) currentPart data len now).1
                lastPartReceivedTime := now
                wdpReceivedParts :=
                  (storePart 4096 (s1.concatMessages.getD i default) currentPart data len
                    now).1.receivedParts }
              (storePart 4096 (s1.concatMessages.getD i default) currentPart data len now).1
              currentPart data (len - 12)
          else s1) →
        s2.meshResponseBuffer = s.meshResponseBuffer ∧ s2.meshResponseLen = s.meshResponseLen
          ∧ s2.meshResponseReady = s.meshResponseReady
          ∧ s2.currentRequestPort = s.currentRequestPort
          ∧ (currentPart ≤ 1 → s2.written = s.written) := by
      intro s2 hs2
      by_cases hst : (storePart 4096 (s1.concatMessages.getD i default) currentPart data len
          now).2 = true
      · rw [if_pos hst] at hs2
        obtain ⟨_, f1, f2, f3, f4, _, _⟩ := ap_onStored_frame
          { s1 with
            concatMessages := s1.concatMessages.set i
              (storePart 4096 (s1.concatMessages.getD i default) currentPart data len now).1
            lastPartReceivedTime := now
            wdpReceivedParts :=
              (storePart 4096 (s1.concatMessages.getD i default) currentPart data len
                now).1.receivedParts }
          (storePart 4096 (s1.concatMessages.getD i default) currentPart data len now).1
          currentPart data (len - 12)
        rw [← hs2] at f1 f2 f3 f4
        refine ⟨f1.trans e1, f2.trans e2, f3.trans e3, f4.trans e4, ?_⟩
        intro hcp
        rw [hs2, ap_onStored_first _ _ _ _ _ hcp
          (by show s1.currentRequestPort ≠ 0; rw [e4]; exact hp0)
          (by rw [hdp]; show _ ≠ s1.currentRequestPort; rw [e4]; exact hport)]
        exact e5
      · rw [if_neg hst] at hs2
        rw [hs2]
        exact ⟨e1, e2, e3, e4, fun _ => e5⟩
    obtain ⟨p1, p2, p3, p4, p5⟩ := hprops _ rfl
    exact key _ p1 p2 p3 p4 p5 _ (by rw [hdp]; exact hport) _ rfl

open WDPGateway

/-- A simple datagram for another port than the expected one is dropped. -/
theorem ap_handleIncomingMesh_simple_mismatch (now : Nat) (s : APState) (sender : String)
    (data : List Nat) (len : Nat) (udh : UDH) (hc : parseConcatUDH data len = none)
    (hu : parseUDH data len = some udh) (hp0 : s.currentRequestPort ≠ 0)
    (hd : udh.dest ≠ s.currentRequestPort) :
    ap_handleIncomingMesh now s sender data len = s := by
  have hlen : ¬ len < 7 := by
    intro h
    rw [parseUDH, if_pos h] at hu
    exact absurd hu (by simp)
  rw [ap_handleIncomingMesh, if_neg hlen, hc]
  simp only []
  rw [hu]
  simp only []
  rw [if_pos ⟨hp0, hd⟩]

set_option maxRecDepth 100000 in
/-- While the port 49153 is expected and the headers of the response have been
sent to the waiting client, the part 2 of 2 of a message for the port 49152 is
written to the client. -/
theorem stale_part_streamed :
    parseConcatUDH [0x0B, 0x00, 0x03, 9, 2, 2, 0x05, 0x04, 0xC0, 0x00, 0x23, 0xF0, 66] 13
        = some (9, 2, 2, { headerLen := 0x0B, ei := 0x05, eiLength := 0x04, source := 9200,
                           dest := 49152 })
      ∧ (ap_handleIncomingMesh 5 { requestState true 49153 with headersSent := true } "node"
          [0x0B, 0x00, 0x03, 9, 2, 2, 0x05, 0x04, 0xC0, 0x00, 0x23, 0xF0, 66] 13).written
        = [ClientWrite.body [66]]
      ∧ (ap_handleIncomingMesh 5 { requestState true 49153 with headersSent := true } "node"
          [0x0B, 0x00, 0x03, 9, 2, 2, 0x05, 0x04, 0xC0, 0x00, 0x23, 0xF0, 66]
            13).bodyBytesReceived = 1 := by
  decide

end ModeAP

namespace WDPGateway

/-! ### Parts of any size -/

theorem flatten_full_length : ∀ (full : List (List Nat)), (∀ p ∈ full, p.length = 108) →
    full.flatten.length = full.length * 108
  | [], _ => rfl
  | p :: f, h => by
    rw [List.flatten_cons, List.length_append, h p (List.mem_cons_self _ _),
      flatten_full_length f (fun q hq => h q (List.mem_cons_of_mem _ hq)), List.length_cons]
    omega

theorem drop_flatten_full (last : List Nat) : ∀ (full : List (List Nat)) (i : Nat),
    (∀ p ∈ full, p.length = 108) → i ≤ full.length →
    (full.flatten ++ last).drop (i * 108) = (full.drop i).flatten ++ last
  | full, 0, _, _ => by rw [Nat.zero_mul, List.drop_zero, List.drop_zero]
  | [], i + 1, _, hi => by
    rw [List.length_nil] at hi
    omega
  | p :: f, i + 1, h, hi => by
    have hp := h p (List.mem_cons_self _ _)
    rw [List.flatten_cons, List.append_assoc, List.drop_succ_cons,
      show (i + 1) * 108 = p.length + i * 108 by rw [hp]; omega, List.drop_append]
    exact drop_flatten_full last f i (fun q hq => h q (List.mem_cons_of_mem _ hq))
      (by rw [List.length_cons] at hi; omega)

/-- The slice of 108 bytes at `i * 108` of the payloads one behind the other is
the payload of the part `i`, when every part before the last has 108 bytes. -/
theorem slice_full (full : List (List Nat)) (last : List Nat)
    (h : ∀ p ∈ full, p.length = 108) (hlast : last.length ≤ 108) (i : Nat)
    (hi : i ≤ full.length) :
    ((full.flatten ++ last).drop (i * 108)).take 108 = (full ++ [last]).getD i [] := by
  rw [drop_flatten_full last full i h hi]
  by_cases hlt : i < full.length
  · rw [List.drop_eq_getElem_cons hlt, List.flatten_cons, List.append_assoc,
      List.take_left' (h _ (List.getElem_mem hlt)), List.getD_eq_getElem?_getD,
      List.getElem?_append_left hlt, List.getElem?_eq_getElem hlt]
    rfl
  · have e : i = full.length := by omega
    rw [e, List.drop_length, List.flatten_nil, List.nil_append, List.take_of_length_le hlast,
      List.getD_eq_getElem?_getD, List.getElem?_append_right (Nat.le_refl _), Nat.sub_self]
    rfl

/-- The datagrams of parts of which every one before the last has 108 bytes are
the datagrams `sendWDPViaMesh` makes for the payloads one behind the other. -/
theorem partDatagrams_eq (refNum srcPort dstPort : Nat) (full : List (List Nat))
    (last : List Nat) (h : ∀ p ∈ full, p.length = 108) (hlast : last.length ≤ 108)
    (hn : full.length + 1 ≤ 16) :
    partDatagrams refNum srcPort dstPort (full ++ [last])
      = (List.range (full.length + 1)).map (fun i =>
          concatDatagram refNum (full.length + 1) (i + 1) srcPort dstPort (full.flatten ++ last)
            (full.flatten ++ last).length) := by
  rw [partDatagrams, List.length_append, List.length_singleton]
  apply List.map_congr_left
  intro i hi
  have hi2 : i ≤ full.length := by
    have := List.mem_range.mp hi
    omega
  have hlen : (full.flatten ++ last).length = full.length * 108 + last.length := by
    rw [List.length_append, flatten_full_length full h]
  rw [concatDatagram_eq refNum (full.length + 1) (i + 1) srcPort dstPort (full.flatten ++ last)
      (by rw [hlen, Nat.add_sub_cancel]; omega),
    Nat.add_sub_cancel, slice_full full last h hlast i hi2,
    Nat.mod_eq_of_lt (show full.length + 1 < 256 by omega),
    Nat.mod_eq_of_lt (show i + 1 < 256 by omega), partDatagram]

set_option maxRecDepth 100000 in
/-- Two parts of one byte each: the second byte delivered is the `0` at the
offset 1 of the slot, not the byte of the part 2, which lies at the offset 108. -/
theorem short_parts_delivery :
    partDatagrams 7 9200 49152 [[65], [66]]
        = [[0x0B, 0x00, 0x03, 7, 2, 1, 0x05, 0x04, 0xC0, 0x00, 0x23, 0xF0, 65],
           [0x0B, 0x00, 0x03, 7, 2, 2, 0x05, 0x04, 0xC0, 0x00, 0x23, 0xF0, 66]]
      ∧ (handleAll 0 (List.replicate 4 (clearConcatMessage 2048 default)) "node"
          (partDatagrams 7 9200 49152 [[65], [66]])).2
        = [none, some { sender := "node", srcPort := 9200, dstPort := 49152, data := [65, 0] }]
      ∧ (handleAll 0 (List.replicate 4 (clearConcatMessage 2048 default)) "node"
          (partDatagrams 7 9200 49152 [[65], [66]])).1.map (fun m => m.active)
        = [false, false, false, false] := by
  decide

end WDPGateway

namespace WMLCDecompiler

/-! ### A round of the token loop that does not move -/

/-- A round that gives back the state it was entered with is repeated until the
fuel is used up. -/
theorem tokenLoop_fixed (w N : Nat) (data : List Nat) (len : Nat) (st : Option (List Nat))
    (stLen : Nat) (s : Body) (hp : s.pos < len) (hfix : tokenStep w N data len st stLen s = s) :
    ∀ fuel, tokenLoop w N data len st stLen fuel s = none
  | 0 => by rw [tokenLoop, if_pos hp]
  | fuel + 1 => by
    rw [tokenLoop_step w N data len st stLen fuel s hp, hfix]
    exact tokenLoop_fixed w N data len st stLen s hp hfix fuel

/-- The length `2 ^ 32 - 6` as a varint of 5 bytes. -/
theorem opaque_length_32 :
    decodeMbUint 32 [0x8F, 0xFF, 0xFF, 0xFF, 0x7A] 5 0 = (5, 2 ^ 32 - 6) := by decide

/-- The length `2 ^ 64 - 11` as a varint of 10 bytes. -/
theorem opaque_length_64 :
    decodeMbUint 64 [0x81, 0xFF, 0xFF, 0xFF, 0xFF, 0xFF, 0xFF, 0xFF, 0xFF, 0x75] 10 0
      = (10, 2 ^ 64 - 11) := by decide

/-- With 32-bit positions the round on `C3 8F FF FF FF 7A` at the position 0 ends
at the position 0. -/
theorem tokenStep_opaque_32 (N : Nat) (o : Out) (k : List (List Nat)) :
    tokenStep 32 N [0xC3, 0x8F, 0xFF, 0xFF, 0xFF, 0x7A] 6 none 0
        { pos := 0, out := o, elementStack := k }
      = { pos := 0, out := o, elementStack := k } := by
  rw [ tokenStep_opaque 32 N [0xC3, 0x8F, 0xFF, 0xFF, 0xFF, 0x7A] 6 none 0 0 o k rfl (by decide)
      (by rw [show List.drop (0 + 1) [0xC3, 0x8F, 0xFF, 0xFF, 0xFF, 0x7A]
          = [0x8F, 0xFF, 0xFF, 0xFF, 0x7A] from rfl, show 6 - (0 + 1) = 5 from rfl,
        opaque_length_32]; decide),
    show List.drop (0 + 1) [0xC3, 0x8F, 0xFF, 0xFF, 0xFF, 0x7A]
          = [0x8F, 0xFF, 0xFF, 0xFF, 0x7A] from rfl, show 6 - (0 + 1) = 5 from rfl,
    opaque_length_32]
  rfl

/-- With 64-bit positions the round on `C3 81 FF FF FF FF FF FF FF FF 75` at the
position 0 ends at the position 0. -/
theorem tokenStep_opaque_64 (N : Nat) (o : Out) (k : List (List Nat)) :
    tokenStep 64 N [0xC3, 0x81, 0xFF, 0xFF, 0xFF, 0xFF, 0xFF, 0xFF, 0xFF, 0xFF, 0x75] 11 none 0
        { pos := 0, out := o, elementStack := k }
      = { pos := 0, out := o, elementStack := k } := by
  rw [ tokenStep_opaque 64 N [0xC3, 0x81, 0xFF, 0xFF, 0xFF, 0xFF, 0xFF, 0xFF, 0xFF, 0xFF, 0x75] 11
      none 0 0 o k rfl (by decide)
      (by rw [show List.drop (0 + 1) [0xC3, 0x81, 0xFF, 0xFF, 0xFF, 0xFF, 0xFF, 0xFF, 0xFF, 0xFF,
            0x75] = [0x81, 0xFF, 0xFF, 0xFF, 0xFF, 0xFF, 0xFF, 0xFF, 0xFF, 0x75] from rfl,
          show 11 - (0 + 1) = 10 from rfl, opaque_length_64]; decide),
    show List.drop (0 + 1) [0xC3, 0x81, 0xFF, 0xFF, 0xFF, 0xFF, 0xFF, 0xFF, 0xFF, 0xFF, 0x75]
          = [0x81, 0xFF, 0xFF, 0xFF, 0xFF, 0xFF, 0xFF, 0xFF, 0xFF, 0x75] from rfl,
    show 11 - (0 + 1) = 10 from rfl, opaque_length_64]
  rfl

/-- `decompileBody` returns when the token loop does. -/
theorem decompileBody_returns (w : Nat) (data : List Nat) (len : Nat) (st : Option (List Nat))
    (stLen : Nat) (output : List Nat) (N fuel : Nat)
    (hfit : ∀ i, i + 1 < len → data.getD i 0 = WBXML_OPAQUE →
      i + 1 + (decodeMbUint w (data.drop (i + 1)) (len - (i + 1)) 0).1
        + (decodeMbUint w (data.drop (i + 1)) (len - (i + 1)) 0).2 < 2 ^ w)
    (hfuel : len ≤ fuel) :
    (decompileBody w data len st stLen output N fuel).isSome = true := by
  rw [decompileBody]
  by_cases h0 : len = 0
  · rw [if_pos h0]
    rfl
  · rw [if_neg h0]
    obtain ⟨s, hs⟩ := tokenLoop_returns w N data len st stLen hfit fuel 0
      { outPos := 0, output := output } [] (by omega)
    rw [hs]
    rfl

/-! ### The two varint readers -/

/-- Where the loop of `decodeUintvar` returns a count, the loop of `decodeMbUint`
returns the same count and value. -/
theorem decodeMbUintLoop_eq (w : Nat) (data : List Nat) (len o : Nat) :
    ∀ (fuelU fuelM i value : Nat),
      (WAPRequest.decodeUintvarLoop w data len o fuelU i value).1 ≠ 0 → len + 1 ≤ i + fuelM →
      decodeMbUintLoop w data len fuelM i value
        = WAPRequest.decodeUintvarLoop w data len o fuelU i value
  | 0, _, _, _, h, _ => absurd rfl h
  | fuelU + 1, fuelM, i, value, h, hf => by
    rw [WAPRequest.decodeUintvarLoop] at h ⊢
    by_cases c : i < len ∧ i < 5
    · rw [if_pos c] at h ⊢
      obtain ⟨fm, rfl⟩ : ∃ fm, fuelM = fm + 1 := ⟨fuelM - 1, by omega⟩
      rw [decodeMbUintLoop, if_neg (by omega)]
      dsimp only at h ⊢
      by_cases t : data.getD i 0 &&& 0x80 = 0
      · rw [if_pos t, if_neg (not_not.mpr t)]
      · rw [if_neg t] at h ⊢
        rw [if_pos t]
        exact decodeMbUintLoop_eq w data len o fuelU fm (i + 1) _ h (by omega)
    · rw [if_neg c] at h
      exact absurd rfl h

/-- The count the loop of `decodeMbUint` returns: `0` when no byte from `i` on has
the bit `0x80` clear, and otherwise the position behind the first such byte. -/
theorem decodeMbUintLoop_count (w : Nat) (data : List Nat) (len : Nat) :
    ∀ (fuel i value : Nat), len + 1 ≤ i + fuel →
      ((decodeMbUintLoop w data len fuel i value).1 = 0
          ∧ ∀ j, i ≤ j → j < len → data.getD j 0 &&& 0x80 ≠ 0)
        ∨ (i < (decodeMbUintLoop w data len fuel i value).1
          ∧ (decodeMbUintLoop w data len fuel i value).1 ≤ len
          ∧ data.getD ((decodeMbUintLoop w data len fuel i value).1 - 1) 0 &&& 0x80 = 0
          ∧ ∀ j, i ≤ j → j < (decodeMbUintLoop w data len fuel i value).1 - 1 →
              data.getD j 0 &&& 0x80 ≠ 0)
  | 0, i, value, hf => by
    left
    exact ⟨rfl, fun j h1 h2 => by omega⟩
  | fuel + 1, i, value, hf => by
    rw [decodeMbUintLoop]
    by_cases c : i ≥ len
    · rw [if_pos c]
      left
      exact ⟨rfl, fun j h1 h2 => by omega⟩
    · rw [if_neg c]
      dsimp only
      by_cases t : data.getD i 0 &&& 0x80 ≠ 0
      · rw [if_pos t]
        rcases decodeMbUintLoop_count w data len fuel (i + 1)
            (((value <<< 7) % 2 ^ w) ||| (data.getD i 0 &&& 0x7F)) (by omega) with
          ⟨h0, hall⟩ | ⟨h1, h2, h3, h4⟩
        · left
          refine ⟨h0, fun j hj1 hj2 => ?_⟩
          by_cases e : j = i
          · rw [e]
            exact t
          · exact hall j (by omega) hj2
        · right
          refine ⟨by omega, h2, h3, fun j hj1 hj2 => ?_⟩
          by_cases e : j = i
          · rw [e]
            exact t
          · exact h4 j (by omega) hj2
      · rw [if_neg t]
        right
        refine ⟨Nat.lt_succ_self i, by omega, ?_, fun j hj1 hj2 => ?_⟩
        · rw [Nat.add_sub_cancel]
          exact not_not.mp t
        · simp only [Nat.add_sub_cancel] at hj2
          omega

/-- The count the loop of `decodeUintvar` returns: `0` when none of the bytes from
`i` on among the first 5 has the bit `0x80` clear, and otherwise the position
behind the first such byte. -/
theorem decodeUintvarLoop_count (w : Nat) (data : List Nat) (len o : Nat) :
    ∀ (fuel i value : Nat), 5 ≤ i + fuel →
      ((WAPRequest.decodeUintvarLoop w data len o fuel i value).1 = 0
          ∧ ∀ j, i ≤ j → j < len → j < 5 → data.getD j 0 &&& 0x80 ≠ 0)
        ∨ (i < (WAPRequest.decodeUintvarLoop w data len o fuel i value).1
          ∧ (WAPRequest.decodeUintvarLoop w data len o fuel i value).1 ≤ len
          ∧ (WAPRequest.decodeUintvarLoop w data len o fuel i value).1 ≤ 5
          ∧ data.getD ((WAPRequest.decodeUintvarLoop w data len o fuel i value).1 - 1) 0
              &&& 0x80 = 0
          ∧ ∀ j, i ≤ j → j < (WAPRequest.decodeUintvarLoop w data len o fuel i value).1 - 1 →
              data.getD j 0 &&& 0x80 ≠ 0)
  | 0, i, value, hf => by
    left
    exact ⟨rfl, fun j h1 _ h3 => by omega⟩
  | fuel + 1, i, value, hf => by
    rw [WAPRequest.decodeUintvarLoop]
    by_cases c : i < len ∧ i < 5
    · rw [if_pos c]
      dsimp only
      by_cases t : data.getD i 0 &&& 0x80 = 0
      · rw [if_pos t]
        right
        refine ⟨Nat.lt_succ_self i, by omega, by omega, ?_, fun j hj1 hj2 => ?_⟩
        · rw [Nat.add_sub_cancel]
          exact t
        · simp only [Nat.add_sub_cancel] at hj2
          omega
      · rw [if_neg t]
        rcases decodeUintvarLoop_count w data len o fuel (i + 1)
            (((value <<< 7) % 2 ^ w) ||| (data.getD i 0 &&& 0x7F)) (by omega) with
          ⟨h0, hall⟩ | ⟨h1, h2, h3, h4, h5⟩
        · left
          refine ⟨h0, fun j hj1 hj2 hj3 => ?_⟩
          by_cases e : j = i
          · rw [e]
            exact t
          · exact hall j (by omega) hj2 hj3
        · right
          refine ⟨by omega, h2, h3, h4, fun j hj1 hj2 => ?_⟩
          by_cases e : j = i
          · rw [e]
            exact t
          · exact h5 j (by omega) hj2
    · rw [if_neg c]
      left
      exact ⟨rfl, fun j h1 h2 h3 => by omega⟩

end WMLCDecompiler

namespace WAPResponse

/-! ### `parseHeaders` and the memory behind the header block -/

theorem getD_take_zero (l : List Nat) (n : Nat) (h : 0 < n) :
    (l.take n).getD 0 0 = l.getD 0 0 := by
  cases l with
  | nil => simp
  | cons a t =>
    cases n with
    | zero => omega
    | succ n => rfl

theorem agree_refl (c : Cursor) : c.Agree c := ⟨rfl, rfl⟩

theorem agree_more {c c' : Cursor} (h : c.Agree c') : c'.more = c.more := by
  simp only [Cursor.more, h.1]

theorem agree_peek {c c' : Cursor} (h : c.Agree c') (hpos : 0 < c.left) : c'.peek = c.peek := by
  have e := congrArg (fun l => l.getD 0 0) h.2
  simp only at e
  rw [getD_take_zero _ _ hpos, getD_take_zero _ _ (h.1 ▸ hpos)] at e
  exact e.symm

theorem agree_advance {c c' : Cursor} (h : c.Agree c') (k : Nat) :
    (c.advance k).Agree (c'.advance k) := by
  refine ⟨?_, ?_⟩
  · simp only [Cursor.advance, h.1]
  · simp only [Cursor.advance]
    rw [← List.drop_take, ← List.drop_take, h.2]

theorem agree_strnlen {c c' : Cursor} (h : c.Agree c') :
    strnlen c'.mem c'.left = strnlen c.mem c.left := by
  simp only [strnlen, h.2]

theorem agree_strncpy {c c' : Cursor} (h : c.Agree c') (dest : List Nat) (n : Nat)
    (hn : n ≤ c.left) : strncpy dest c'.mem n = strncpy dest c.mem n := by
  have e : c'.mem.take n = c.mem.take n := by
    have := congrArg (fun l => l.take n) h.2
    simp only [List.take_take] at this
    rw [min_eq_left hn, min_eq_left (h.1 ▸ hn)] at this
    exact this.symm
  simp only [strncpy, e]

theorem strnlen_le (s : List Nat) (n : Nat) : strnlen s n ≤ n := by
  unfold strnlen
  have h1 := WAPRequest.takeWhile_length_le (fun c => decide (c ≠ 0)) (s.take n)
  have h2 : (s.take n).length ≤ n := by
    rw [List.length_take]
    exact Nat.min_le_left _ _
  exact le_trans h1 h2

theorem agree_skipToNul {c c' : Cursor} (h : c.Agree c') : c.skipToNul.Agree c'.skipToNul := by
  unfold Cursor.skipToNul
  rw [agree_strnlen h]
  exact agree_advance h _

theorem readMultiOctet_agree (w : Nat) : ∀ (n : Nat) (c c' : Cursor) (v : Nat), c.Agree c' →
    (readMultiOctet w n c v).1.Agree (readMultiOctet w n c' v).1
      ∧ (readMultiOctet w n c v).2 = (readMultiOctet w n c' v).2
  | 0, c, c', v, h => ⟨h, rfl⟩
  | n + 1, c, c', v, h => by
    rw [readMultiOctet, readMultiOctet, agree_more h]
    by_cases hm : c.more = true
    · have hpos : 0 < c.left := by simpa [Cursor.more] using hm
      rw [if_pos hm, if_pos hm, agree_peek h hpos]
      exact readMultiOctet_agree w n _ _ _ (agree_advance h 1)
    · rw [if_neg hm, if_neg hm]
      exact ⟨h, rfl⟩

theorem parseContentType_agree (c c' : Cursor) (r : HTTPResponse) (h : c.Agree c') :
    (parseContentType c r).1.Agree (parseContentType c' r).1
      ∧ (parseContentType c r).2 = (parseContentType c' r).2 := by
  unfold parseContentType
  rw [agree_more h]
  by_cases hm : c.more = true
  · have hpos : 0 < c.left := by simpa [Cursor.more] using hm
    rw [if_pos hm, if_pos hm]
    dsimp only
    rw [agree_peek h hpos]
    by_cases h1 : c.peek ≥ 0x80
    · rw [if_pos h1, if_pos h1]
      exact ⟨agree_advance h 1, rfl⟩
    · rw [if_neg h1, if_neg h1]
      by_cases h2 : c.peek < 0x20
      · rw [if_pos h2, if_pos h2]
        have ha := agree_advance h 1
        refine ⟨agree_advance ha _, ?_⟩
        dsimp only
        rw [agree_more ha]
        by_cases hm1 : (c.advance 1).more = true
        · have hpos1 : 0 < (c.advance 1).left := by simpa [Cursor.more] using hm1
          rw [agree_peek ha hpos1]
        · rw [if_neg (fun hh => hm1 hh.1), if_neg (fun hh => hm1 hh.1)]
      · rw [if_neg h2, if_neg h2]
        dsimp only
        rw [agree_strnlen h]
        refine ⟨agree_advance h _, ?_⟩
        dsimp only
        rw [agree_strncpy h _ _ (strnlen_le _ _)]
  · rw [if_neg hm, if_neg hm]
    exact ⟨h, rfl⟩

theorem fieldStep_agree (w : Nat) (c c' : Cursor) (r : HTTPResponse) (h : c.Agree c')
    (hpos : 0 < c.left) : StepAgree (fieldStep w c r) (fieldStep w c' r) := by
  unfold fieldStep
  dsimp only
  rw [agree_peek h hpos]
  have ha := agree_advance h 1
  have hs := agree_advance (agree_skipToNul h) 1
  by_cases h1 : c.peek ≥ 0x80
  · rw [if_pos h1, if_pos h1, agree_more ha]
    by_cases hm : (c.advance 1).more = true
    · have hpos1 : 0 < (c.advance 1).left := by simpa [Cursor.more] using hm
      rw [if_neg (not_not.mpr hm), if_neg (not_not.mpr hm), agree_peek ha hpos1,
        agree_strnlen ha, agree_strncpy ha _ _ (strnlen_le _ _),
        agree_strncpy ha _ _ (strnlen_le _ _)]
      split_ifs
      all_goals first
        | exact ⟨agree_advance ha _, rfl⟩
        | exact ⟨agree_advance (agree_skipToNul ha) _, rfl⟩
        | exact ⟨(readMultiOctet_agree w _ _ _ _ (agree_advance ha 1)).1,
            by rw [(readMultiOctet_agree w _ _ _ _ (agree_advance ha 1)).2]⟩
    · rw [if_pos hm, if_pos hm]
      exact trivial
  · rw [if_neg h1, if_neg h1]
    by_cases h2 : c.peek < 0x20
    · rw [if_pos h2, if_pos h2]
      exact ⟨ha, rfl⟩
    · rw [if_neg h2, if_neg h2, agree_more hs]
      by_cases hm : (c.skipToNul.advance 1).more = true
      · have hpos1 : 0 < (c.skipToNul.advance 1).left := by simpa [Cursor.more] using hm
        rw [if_pos hm, if_pos hm, agree_peek hs hpos1]
        split_ifs
        · exact ⟨agree_advance hs _, rfl⟩
        · exact ⟨agree_advance (agree_skipToNul hs) _, rfl⟩
      · rw [if_neg hm, if_neg hm]
        exact ⟨hs, rfl⟩

theorem parseFields_agree (w : Nat) : ∀ (fuel : Nat) (c c' : Cursor) (r : HTTPResponse),
    c.Agree c' → parseFields w fuel c r = parseFields w fuel c' r
  | 0, _, _, _, _ => rfl
  | fuel + 1, c, c', r, h => by
    rw [parseFields, parseFields, agree_more h]
    by_cases hm : c.more = true
    · have hpos : 0 < c.left := by simpa [Cursor.more] using hm
      rw [if_pos hm, if_pos hm]
      have hs := fieldStep_agree w c c' r h hpos
      cases e : fieldStep w c r with
      | none =>
        cases e' : fieldStep w c' r with
        | none => rfl
        | some p' =>
          rw [e, e'] at hs
          exact hs.elim
      | some p =>
        cases e' : fieldStep w c' r with
        | none =>
          rw [e, e'] at hs
          exact hs.elim
        | some p' =>
          rw [e, e'] at hs
          obtain ⟨c1, r1⟩ := p
          obtain ⟨c1', r1'⟩ := p'
          obtain ⟨hc, hr⟩ := hs
          simp only at hr ⊢
          rw [← hr]
          exact parseFields_agree w fuel c1 c1' r1 hc
    · rw [if_neg hm, if_neg hm]

/-- The result of `parseHeaders` depends on the first `headersLen` bytes only. -/
theorem parseHeaders_take (w : Nat) (headers headers' : List Nat) (n : Nat) (r : HTTPResponse)
    (h : headers.take n = headers'.take n) :
    parseHeaders w headers n r = parseHeaders w headers' n r := by
  unfold parseHeaders
  by_cases h0 : n = 0
  · rw [if_pos h0, if_pos h0]
  · rw [if_neg h0, if_neg h0]
    have ha : Cursor.Agree { mem := headers, left := n } { mem := headers', left := n } :=
      ⟨rfl, h⟩
    obtain ⟨hc, hr⟩ := parseContentType_agree _ _ r ha
    dsimp only
    rw [← hr, parseFields_agree w n _ _ _ hc]

end WAPResponse

namespace WMLCDecompiler

/-! ### References into the string table -/

theorem takeWhile_length_le_index (p : Nat → Bool) : ∀ (l : List Nat) (j : Nat),
    j < l.length → p (l.getD j 0) = false → (l.takeWhile p).length ≤ j
  | [], j, hj, _ => by simp only [List.length_nil] at hj; omega
  | a :: l, 0, _, hp => by
    simp only [List.getD_cons_zero] at hp
    rw [List.takeWhile_cons, hp]
    exact Nat.le_refl _
  | a :: l, j + 1, hj, hp => by
    simp only [List.getD_cons_succ] at hp
    simp only [List.length_cons] at hj
    rw [List.takeWhile_cons]
    cases p a with
    | true =>
      simp only [if_true, List.length_cons]
      exact Nat.succ_le_succ (takeWhile_length_le_index p l j (by omega) hp)
    | false => exact Nat.zero_le _

/-- A string of the table that has its terminator at the index `k` ends there at
the latest. -/
theorem strlen_drop_le (t : List Nat) (off k : Nat) (h1 : off ≤ k) (h2 : k < t.length)
    (h3 : t.getD k 0 = 0) : off + WAPRequest.strlen (t.drop off) ≤ k := by
  have hg : (t.drop off).getD (k - off) 0 = 0 := by
    rw [List.getD_eq_getElem?_getD, List.getElem?_drop, ← List.getD_eq_getElem?_getD,
      Nat.add_sub_cancel' h1, h3]
  have := takeWhile_length_le_index (fun c => decide (c ≠ 0)) (t.drop off) (k - off)
    (by rw [List.length_drop]; omega) (by rw [hg]; rfl)
  unfold WAPRequest.strlen
  omega

theorem take_eq_slice (s : List Nat) (n : Nat) (h : n ≤ s.length) :
    s.take n = (List.range n).map (fun i => s.getD i 0) := by
  apply List.ext_getElem?
  intro i
  by_cases hi : i < n
  · rw [List.getElem?_take_of_lt hi, List.getElem?_map, List.getElem?_range hi,
      List.getElem?_eq_getElem (by omega)]
    simp only [Option.map_some', List.getD_eq_getElem?_getD,
      List.getElem?_eq_getElem (show i < s.length by omega), Option.getD_some]
  · rw [List.getElem?_eq_none (by rw [List.length_take]; omega),
      List.getElem?_eq_none (by rw [List.length_map, List.length_range]; omega)]

/-- The bytes a string of the table is made of, by their indices in the table. -/
theorem string_of_table (t : List Nat) (off : Nat) :
    (t.drop off).take (WAPRequest.strlen (t.drop off))
      = slice t off (off + WAPRequest.strlen (t.drop off)) := by
  rw [take_eq_slice _ _ (strlen_le _), slice, Nat.add_sub_cancel_left]
  apply List.map_congr_left
  intro i _
  rw [List.getD_eq_getElem?_getD, List.getElem?_drop, ← List.getD_eq_getElem?_getD]

theorem readHeader_unterminatedDocument :
    readHeader 32 unterminatedDocument 7 0 = some (1, 5, some [0x61, 0x83, 0x00], 1) := by
  decide

set_option maxRecDepth 1000000 in
theorem decompile_unterminatedDocument :
    decompile 32 unterminatedDocument 7 (List.replicate 100 0) 100 7 0
      = some (24, xmlDeclaration ++ [0x61, 0x83] ++ List.replicate 76 0) := by
  decide

/-! ### The element stack and the tags -/

/-- A round that is not the token `END`: it starts an element with content and
pushes it behind the `>` of its start tag, or it leaves the stack alone. -/
theorem tokenStep_tag (w N : Nat) (data : List Nat) (len : Nat) (st : Option (List Nat))
    (stLen : Nat) (p : Nat) (o : Out) (k : List (List Nat))
    (hend : data.getD p 0 ≠ WBXML_END) :
    match contentElement w data len st stLen p with
    | some e => ∃ q o1, tokenStep w N data len st stLen { pos := p, out := o, elementStack := k }
        = { pos := q, out := appendChar N 62 o1, elementStack := push e k }
    | none => (tokenStep w N data len st stLen
        { pos := p, out := o, elementStack := k }).elementStack = k := by
  unfold tokenStep contentElement
  dsimp only
  generalize decodeMbUint w (List.drop (p + 1) data) (len - (p + 1)) 0 = d
  generalize data.getD p 0 = token at hend ⊢
  simp only [WBXML_SWITCH_PAGE, WBXML_END, WBXML_ENTITY, WBXML_STR_I, WBXML_STR_T,
    WBXML_EXT_I_0, WBXML_EXT_I_1, WBXML_EXT_I_2, WBXML_EXT_T_0, WBXML_EXT_T_1, WBXML_EXT_T_2,
    WBXML_OPAQUE, WBXML_PI, WBXML_LITERAL, WBXML_LITERAL_A, WBXML_LITERAL_C, WBXML_LITERAL_AC,
    List.mem_cons, List.mem_singleton, List.not_mem_nil, or_false] at hend ⊢
  by_cases c0 : token = 0x00
  · subst c0
    simp
  by_cases c2 : token = 0x02
  · subst c2
    simp
    split_ifs <;> rfl
  by_cases c3 : token = 0x03
  · subst c3
    simp
  by_cases c4 : token = 0x83
  · subst c4
    simp
    split_ifs <;> rfl
  by_cases c5 : token = 0x40 ∨ token = 0x41 ∨ token = 0x42
  · rcases c5 with c | c | c <;> subst c <;> simp
  by_cases c6 : token = 0x80 ∨ token = 0x81 ∨ token = 0x82
  · rcases c6 with c | c | c <;> subst c <;> simp <;> split_ifs <;> rfl
  by_cases c7 : token = 0xC3
  · subst c7
    simp
    split_ifs <;> rfl
  by_cases c8 : token = 0x43
  · subst c8
    simp
  by_cases c9 : token = 0x04 ∨ token = 0x84
  · rcases c9 with c | c <;> subst c <;> simp [openElement] <;> split_ifs <;> rfl
  by_cases c10 : token = 0x44 ∨ token = 0xC4
  · rcases c10 with c | c <;> subst c <;> simp [openElement]
    · split_ifs
      · exact ⟨_, _, rfl⟩
      · rfl
      · rfl
    · split_ifs
      all_goals first
        | exact ⟨_, _, rfl⟩
        | rfl
  simp only [not_or] at c5 c6 c9 c10
  simp only [c0, hend, c2, c3, c4, c5.1, c5.2.1, c5.2.2, c6.1, c6.2.1, c6.2.2, c7, c8, c9.1, c9.2,
    c10.1, c10.2, or_self, if_false]
  generalize hr : (fun elemName => if decide (token &&& TAG_HAS_ATTRS ≠ 0) = true then
      attrLoop w N data len st stLen len (p + 1) (appendStr N elemName (appendChar N 60 o))
    else (p + 1, appendStr N elemName (appendChar N 60 o))) = r
  have hr2 : ∀ elemName, (if decide (token &&& TAG_HAS_ATTRS ≠ 0) = true then
      attrLoop w N data len st stLen len (p + 1) (appendStr N elemName (appendChar N 60 o))
    else (p + 1, appendStr N elemName (appendChar N 60 o))) = r elemName := by
    intro elemName
    rw [← hr]
  simp only [hr2]
  by_cases h5 : token ≥ 5
  · by_cases hc : token &&& TAG_HAS_CONTENT ≠ 0
    · rw [if_pos ⟨h5, hc⟩]
      cases hname : getElementName (token &&& 63) with
      | none =>
        simp only [if_pos h5]
      | some elemName =>
        have hd : decide (token &&& TAG_HAS_CONTENT ≠ 0) = true := decide_eq_true hc
        simp only [if_pos h5, openElement]
        rw [if_pos hd]
        exact ⟨_, _, rfl⟩
    · rw [if_neg (fun h => hc h.2)]
      simp only [if_pos h5]
      cases hname : getElementName (token &&& 63) with
      | none => rfl
      | some elemName =>
        have hd : ¬ decide (token &&& TAG_HAS_CONTENT ≠ 0) = true := by
          rw [decide_eq_true_eq]
          exact hc
        simp only [openElement]
        rw [if_neg hd]
  · rw [if_neg (fun h => h5 h.1)]
    simp only [if_neg h5]

theorem wellNested_closed : ∀ k : List (List Nat), wellNested (k.map Tag.closed) k = true
  | [] => rfl
  | e :: k => by
    rw [List.map_cons, wellNested, decide_eq_true rfl, Bool.true_and]
    exact wellNested_closed k

/-- Well-nested tags have as many end tags as start tags and elements open at the
start. -/
theorem wellNested_count : ∀ (tags : List Tag) (k : List (List Nat)),
    wellNested tags k = true →
    tags.countP Tag.isClosed = tags.countP Tag.isOpened + k.length
  | [], k, h => by
    rw [wellNested, List.isEmpty_iff] at h
    rw [h]
    rfl
  | Tag.opened e :: tags, k, h => by
    rw [wellNested] at h
    have := wellNested_count tags (e :: k) h
    rw [List.countP_cons_of_neg _ _ (by simp [Tag.isClosed]),
      List.countP_cons_of_pos _ _ (show Tag.isOpened (Tag.opened e) = true from rfl), this,
      List.length_cons]
    omega
  | Tag.closed e :: tags, [], h => by
    rw [wellNested] at h
    exact absurd h Bool.false_ne_true
  | Tag.closed e :: tags, top :: k, h => by
    rw [wellNested, Bool.and_eq_true] at h
    have := wellNested_count tags k h.2
    rw [List.countP_cons_of_pos _ _ (show Tag.isClosed (Tag.closed e) = true from rfl),
      List.countP_cons_of_neg _ _ (by simp [Tag.isOpened]), this, List.length_cons]
    omega

/-- The tags written from a state on are well nested over the elements on the
stack, when the nesting stays within 32. -/
theorem tagsLoop_nested (w N : Nat) (data : List Nat) (len : Nat) (st : Option (List Nat))
    (stLen : Nat) : ∀ (fuel : Nat) (s : Body),
    nestingWithin w N data len st stLen fuel s = true →
    ∀ tags, tagsLoop w N data len st stLen fuel s = some tags →
    wellNested tags s.elementStack = true
  | 0, s, _, tags, h => by
    rw [tagsLoop] at h
    by_cases hp : s.pos < len
    · rw [if_pos hp] at h
      exact absurd h (by simp)
    · rw [if_neg hp, Option.some.injEq] at h
      rw [← h]
      exact wellNested_closed _
  | fuel + 1, s, hn, tags, h => by
    rw [tagsLoop] at h
    rw [nestingWithin] at hn
    by_cases hp : s.pos < len
    · rw [if_pos hp] at h hn
      rw [Bool.and_eq_true, Bool.or_eq_true, decide_eq_true_eq] at hn
      obtain ⟨hdepth, hn⟩ := hn
      cases ht : tagsLoop w N data len st stLen fuel (tokenStep w N data len st stLen s) with
      | none =>
        rw [ht] at h
        exact absurd h (by simp)
      | some tags1 =>
        rw [ht, Option.map_some', Option.some.injEq] at h
        have ih := tagsLoop_nested w N data len st stLen fuel _ hn tags1 ht
        rw [← h, roundTags]
        obtain ⟨p, o, k⟩ := s
        simp only at hp hdepth ih ⊢
        by_cases hend : data.getD p 0 = WBXML_END
        · rw [if_pos hend]
          cases k with
          | nil =>
            rw [tokenStep_end_empty w N data len st stLen p o hend] at ih
            exact ih
          | cons e rest =>
            rw [tokenStep_end w N data len st stLen p o e rest hend] at ih
            simp only [List.cons_append, List.nil_append]
            rw [wellNested, decide_eq_true rfl, Bool.true_and]
            exact ih
        · rw [if_neg hend]
          have hs := tokenStep_tag w N data len st stLen p o k hend
          cases hc : contentElement w data len st stLen p with
          | none =>
            rw [hc] at hs
            simp only at hs
            rw [hs] at ih
            exact ih
          | some e =>
            rw [hc] at hs hdepth
            simp only at hs
            obtain ⟨q, o1, hs⟩ := hs
            have hk : k.length < 32 := by
              rcases hdepth with hd | hd
              · exact absurd hd (by simp)
              · exact hd
            rw [hs, push, if_pos hk] at ih
            simp only [List.cons_append, List.nil_append]
            rw [wellNested]
            exact ih
    · rw [if_neg hp, Option.some.injEq] at h
      rw [← h]
      exact wellNested_closed _

/-- The tags are there exactly when the token loop returns. -/
theorem tagsLoop_isSome (w N : Nat) (data : List Nat) (len : Nat) (st : Option (List Nat))
    (stLen : Nat) : ∀ (fuel : Nat) (s : Body),
    (tagsLoop w N data len st stLen fuel s).isSome = (tokenLoop w N data len st stLen fuel s).isSome
  | 0, s => by
    rw [tagsLoop, tokenLoop]
    split_ifs <;> rfl
  | fuel + 1, s => by
    rw [tagsLoop, tokenLoop]
    by_cases hp : s.pos < len
    · rw [if_pos hp, if_pos hp, Option.isSome_map']
      exact tagsLoop_isSome w N data len st stLen fuel _
    · rw [if_neg hp, if_neg hp]
      rfl

theorem bodyTags_isSome (w : Nat) (data : List Nat) (len : Nat) (st : Option (List Nat))
    (stLen : Nat) (output : List Nat) (N fuel : Nat) :
    (bodyTags w data len st stLen output N fuel).isSome
      = (decompileBody w data len st stLen output N fuel).isSome := by
  rw [bodyTags, decompileBody]
  by_cases h0 : len = 0
  · rw [if_pos h0, if_pos h0]
    rfl
  · rw [if_neg h0, if_neg h0, tagsLoop_isSome]
    cases tokenLoop w N data len st stLen fuel
      { pos := 0, out := { outPos := 0, output := output }, elementStack := [] } with
    | none => rfl
    | some s => rfl

/-! ### The text of the end tags -/

theorem endTag_length (e : List Nat) : (endTag e).length = WAPRequest.strlen e + 3 := by
  rw [endTag, List.length_append, List.length_append, List.length_take,
    min_eq_left (strlen_le e)]
  simp only [List.length_singleton]
  rw [show (asciiBytes "</").length = 2 from rfl]
  omega

/-- A text that stands in the output as an append with room leaves it. -/
theorem fit_text (o : Out) (x : List Nat) (h : o.outPos + x.length ≤ o.output.length) :
    (o.output.take o.outPos ++ x ++ o.output.drop (o.outPos + x.length)).length = o.output.length
      ∧ (o.output.take o.outPos ++ x ++ o.output.drop (o.outPos + x.length)).take
          (o.outPos + x.length) = o.output.take o.outPos ++ x := by
  have hl : (o.output.take o.outPos ++ x).length = o.outPos + x.length := by
    rw [List.length_append, List.length_take, min_eq_left (by omega)]
  constructor
  · rw [List.length_append, hl, List.length_drop]
    omega
  · rw [← hl, List.take_left']
    rfl

/-- The end tag of an element, with room in the output: the text grows by the
tag. -/
theorem closeElement_fit (N : Nat) (e : List Nat) (o : Out) (hN : N ≤ o.output.length)
    (hroom : o.outPos + (endTag e).length < N) :
    (closeElement N e o).outPos = o.outPos + (endTag e).length
      ∧ (closeElement N e o).output.length = o.output.length
      ∧ (closeElement N e o).output.take (closeElement N e o).outPos
          = o.output.take o.outPos ++ endTag e := by
  rw [endTag_length] at hroom
  rw [closeElement]
  have hs2 : WAPRequest.strlen (asciiBytes "</") = 2 := by decide
  have ht2 : (asciiBytes "</").take 2 = asciiBytes "</" := rfl
  have hte : (e.take (WAPRequest.strlen e)).length = WAPRequest.strlen e := by
    rw [List.length_take, min_eq_left (strlen_le e)]
  have e1 := appendStr_fit N (asciiBytes "</") o (by rw [hs2]; omega) hN
  rw [hs2, ht2] at e1
  have f1 := fit_text o (asciiBytes "</") (by rw [show (asciiBytes "</").length = 2 from rfl]; omega)
  rw [show (asciiBytes "</").length = 2 from rfl] at f1
  generalize appendStr N (asciiBytes "</") o = o1 at e1 ⊢
  have p1 : o1.outPos = o.outPos + 2 := by rw [e1]
  have l1 : o1.output.length = o.output.length := by rw [e1]; exact f1.1
  have t1 : o1.output.take o1.outPos = o.output.take o.outPos ++ asciiBytes "</" := by
    rw [e1]
    exact f1.2
  have e2 := appendStr_fit N e o1 (by omega) (by omega)
  have f2 := fit_text o1 (e.take (WAPRequest.strlen e)) (by rw [hte]; omega)
  rw [hte] at f2
  generalize appendStr N e o1 = o2 at e2 ⊢
  have p2 : o2.outPos = o1.outPos + WAPRequest.strlen e := by rw [e2]
  have l2 : o2.output.length = o1.output.length := by rw [e2]; exact f2.1
  have t2 : o2.output.take o2.outPos = o1.output.take o1.outPos ++ e.take (WAPRequest.strlen e) := by
    rw [e2]
    exact f2.2
  have e3 := appendChar_fit N 62 o2 (by omega) (by omega)
  have f3 := fit_text o2 [62] (by simp only [List.length_singleton]; omega)
  simp only [List.length_singleton] at f3
  generalize appendChar N 62 o2 = o3 at e3 ⊢
  have p3 : o3.outPos = o2.outPos + 1 := by rw [e3]
  have l3 : o3.output.length = o2.output.length := by rw [e3]; exact f3.1
  have t3 : o3.output.take o3.outPos = o2.output.take o2.outPos ++ [62] := by
    rw [e3]
    exact f3.2
  refine ⟨?_, by omega, ?_⟩
  · rw [endTag_length]
    omega
  · rw [t3, t2, t1, endTag]
    simp only [List.append_assoc]

theorem closeAll_cons (N : Nat) (e : List Nat) (k : List (List Nat)) (o : Out) :
    closeAll N (e :: k) o = closeAll N k (closeElement N e o) := rfl

/-- The loop behind the token loop, with room in the output: the text grows by
the end tags of the elements on the stack, the last pushed first. -/
theorem closeAll_fit (N : Nat) : ∀ (k : List (List Nat)) (o : Out), N ≤ o.output.length →
    o.outPos + ((k.map endTag).flatten).length < N →
    (closeAll N k o).outPos = o.outPos + ((k.map endTag).flatten).length
      ∧ (closeAll N k o).output.length = o.output.length
      ∧ (closeAll N k o).output.take (closeAll N k o).outPos
          = o.output.take o.outPos ++ (k.map endTag).flatten
  | [], o, _, _ => by
    rw [closeAll]
    simp
  | e :: k, o, hN, hroom => by
    rw [List.map_cons, List.flatten_cons, List.length_append] at hroom
    obtain ⟨p1, l1, t1⟩ := closeElement_fit N e o hN (by omega)
    obtain ⟨p2, l2, t2⟩ := closeAll_fit N k (closeElement N e o) (by omega) (by omega)
    rw [closeAll_cons, List.map_cons, List.flatten_cons, List.length_append]
    refine ⟨by omega, by omega, ?_⟩
    rw [t2, t1, List.append_assoc]

/-- The last tags are the end tags of the elements that are open when the token
loop is left. -/
theorem tagsLoop_closing (w N : Nat) (data : List Nat) (len : Nat) (st : Option (List Nat))
    (stLen : Nat) : ∀ (fuel : Nat) (s sEnd : Body),
    tokenLoop w N data len st stLen fuel s = some sEnd →
    ∃ pre, tagsLoop w N data len st stLen fuel s = some (pre ++ sEnd.elementStack.map Tag.closed)
  | 0, s, sEnd, h => by
    rw [tokenLoop] at h
    rw [tagsLoop]
    by_cases hp : s.pos < len
    · rw [if_pos hp] at h
      exact absurd h (by simp)
    · rw [if_neg hp, Option.some.injEq] at h
      rw [if_neg hp, h]
      exact ⟨[], rfl⟩
  | fuel + 1, s, sEnd, h => by
    rw [tokenLoop] at h
    rw [tagsLoop]
    by_cases hp : s.pos < len
    · rw [if_pos hp] at h
      obtain ⟨pre, hpre⟩ := tagsLoop_closing w N data len st stLen fuel _ sEnd h
      rw [if_pos hp, hpre, Option.map_some']
      exact ⟨roundTags w data len st stLen s ++ pre, by rw [List.append_assoc]⟩
    · rw [if_neg hp, Option.some.injEq] at h
      rw [if_neg hp, h]
      exact ⟨[], rfl⟩

set_option maxRecDepth 1000000 in
theorem exampleBody_nesting :
    nestingWithin 32 100 exampleBody 8 none 0 8
      { pos := 0, out := { outPos := 0, output := List.replicate 100 0 }, elementStack := [] }
      = true := by
  decide

set_option maxRecDepth 1000000 in
theorem exampleBody_tags :
    bodyTags 32 exampleBody 8 none 0 (List.replicate 100 0) 100 8
      = some [Tag.opened (asciiBytes "card"), Tag.opened (asciiBytes "p"),
          Tag.closed (asciiBytes "p"), Tag.closed (asciiBytes "card")] := by
  decide

end WMLCDecompiler

/-! ## The claims -/

namespace Base91

/-- C1: for every byte buffer `b` (of any length, so also of length 0..4096),
an output buffer with room for the text and its terminator, and an output
buffer with room for `b.length` bytes, `decode` applied to the string that
`encode b` wrote returns `b.length` and stores exactly the bytes of `b`. -/
theorem decode_encode_roundtrip (b out1 out2 : List Nat) (cap1 cap2 : Nat)
    (hb : ∀ x ∈ b, x < 256)
    (h1 : (encodeChars b).length + 1 ≤ cap1) (h1b : cap1 ≤ out1.length)
    (h2 : b.length ≤ cap2) (h2b : cap2 ≤ out2.length) :
    decode (encode b out1 cap1).2 out2 cap2 = (b.length, b ++ out2.drop b.length) := by
  rw [encode_fits b out1 cap1 h1 h1b]
  have hd : decodeBytes (encodeChars b ++ 0 :: out1.drop ((encodeChars b).length + 1)) = b := by
    rw [decodeBytes, decodeBytesFrom_terminated _ _ _ _ _ (encodeChars_ne_zero b hb)]
    exact decodeBytes_encodeChars b hb
  have := decode_fits (encodeChars b ++ 0 :: out1.drop ((encodeChars b).length + 1)) out2 cap2
    (by rw [hd]; exact h2) h2b
  rw [hd] at this
  exact this

/-- Witness of C1 on the buffer of `testBasicEncodeDecode`. -/
theorem decode_encode_roundtrip_witness :
    decode (encode [0, 1, 2, 3, 4, 5] (List.replicate 32 255) 32).2 (List.replicate 32 255) 32
      = ([0, 1, 2, 3, 4, 5].length, [0, 1, 2, 3, 4, 5] ++ (List.replicate 32 255).drop 6) :=
  decode_encode_roundtrip [0, 1, 2, 3, 4, 5] (List.replicate 32 255) (List.replicate 32 255) 32 32
    (by decide) (by decide) (by decide) (by decide) (by decide)

/-- C2: for every input and every capacity within the buffer, every character
of the text is `ALPHABET[i]` for a digit index `i < 91`, and every byte that
`encode` changes in the output memory is a symbol of the 91-symbol `ALPHABET`
or the terminator `0` at the returned position; the bytes before the returned length are alphabet symbols, none of
them NUL, the double quote, the single quote or the backslash; and when the call
does not fail, the byte at the returned length is `0` and the returned length
is the C-string length of the output. -/
theorem encode_output_alphabet (input out : List Nat) (cap : Nat)
    (hin : ∀ x ∈ input, x < 256) (hcap : cap ≤ out.length) :
    ALPHABET.length = 91 ∧
    (∀ c ∈ encodeChars input, ∃ i, i < 91 ∧ c = alphabetAt i) ∧
    (∀ i, (encode input out cap).2.getD i 0 ≠ out.getD i 0 →
      (encode input out cap).2.getD i 0 ∈ ALPHABET ∨
        (i = (encode input out cap).1 ∧ (encode input out cap).2.getD i 0 = 0)) ∧
    (∀ i, i < (encode input out cap).1 →
      (encode input out cap).2.getD i 0 ∈ ALPHABET ∧
      (encode input out cap).2.getD i 0 ≠ 0 ∧ (encode input out cap).2.getD i 0 ≠ 34 ∧
      (encode input out cap).2.getD i 0 ≠ 39 ∧ (encode input out cap).2.getD i 0 ≠ 92) ∧
    ((encode input out cap).1 ≠ 0 ∨ (input = [] ∧ cap ≠ 0) →
      (encode input out cap).2.getD (encode input out cap).1 1 = 0 ∧
      cstrlen (encode input out cap).2 = (encode input out cap).1) := by
  have hexcl : ∀ c ∈ ALPHABET, c ≠ 0 ∧ c ≠ 34 ∧ c ≠ 39 ∧ c ≠ 92 := by decide
  have hmem := encodeChars_mem input hin
  refine ⟨rfl, encodeChars_digits input hin, ?_⟩
  by_cases hfit : (encodeChars input).length + 1 ≤ cap
  · rw [encode_fits input out cap hfit hcap]
    simp only
    have hform : encodeChars input ++ 0 :: out.drop ((encodeChars input).length + 1)
        = (encodeChars input ++ [0]) ++ out.drop (encodeChars input ++ [0]).length := by simp
    have hget : ∀ i, i < (encodeChars input).length →
        (encodeChars input ++ 0 :: out.drop ((encodeChars input).length + 1)).getD i 0
          ∈ ALPHABET := by
      intro i hi
      rw [List.getD_append _ _ _ _ hi, List.getD_eq_getElem _ _ hi]
      exact hmem _ (List.getElem_mem hi)
    refine ⟨?_, ?_, ?_⟩
    · intro i hne
      by_cases hi : i < (encodeChars input).length
      · exact Or.inl (hget i hi)
      · by_cases hi2 : i = (encodeChars input).length
        · right
          refine ⟨hi2, ?_⟩
          rw [hi2, List.getD_append_right _ _ _ _ (le_refl _)]
          simp
        · exfalso
          apply hne
          rw [hform, getD_patch]
          have : ¬ i < (encodeChars input ++ [0]).length := by
            simp only [List.length_append, List.length_cons, List.length_nil]; omega
          simp only [this, if_false]
    · intro i hi
      exact ⟨hget i hi, hexcl _ (hget i hi)⟩
    · intro _
      refine ⟨?_, ?_⟩
      · rw [List.getD_append_right _ _ _ _ (le_refl _)]
        simp
      · rw [cstrlen, List.takeWhile_append_of_pos]
        · simp
        · intro a ha
          simpa using encodeChars_ne_zero input hin a ha
  · obtain ⟨k, hk1, hk2, hk3⟩ := encode_short input out cap (by omega) hcap
    rw [hk3]
    simp only
    have hlen : ((encodeChars input).take k).length = k := by
      rw [List.length_take]; omega
    refine ⟨?_, ?_, ?_⟩
    · intro i hne
      left
      have hform : (encodeChars input).take k ++ out.drop k
          = (encodeChars input).take k ++ out.drop ((encodeChars input).take k).length := by
        rw [hlen]
      rw [hform, getD_patch] at hne ⊢
      by_cases hi : i < ((encodeChars input).take k).length
      · simp only [hi, if_true]
        rw [List.getD_eq_getElem _ _ hi]
        exact hmem _ (List.mem_of_mem_take (List.getElem_mem hi))
      · simp only [hi, if_false] at hne
        exact absurd rfl hne
    · intro i hi
      omega
    · intro h
      rcases h with h | ⟨h, hc⟩
      · exact absurd rfl h
      · subst h
        simp [encodeChars, encodeCharsFrom, flushChars] at hfit
        omega

/-- Witness of C2 on the buffer of `testNullBytesInInput`. -/
theorem encode_output_alphabet_witness :
    cstrlen (encode [150, 119, 97, 112, 0, 169, 77, 65, 80, 0, 128] (List.replicate 64 0) 64).2
      = (encode [150, 119, 97, 112, 0, 169, 77, 65, 80, 0, 128] (List.replicate 64 0) 64).1 :=
  ((encode_output_alphabet [150, 119, 97, 112, 0, 169, 77, 65, 80, 0, 128]
      (List.replicate 64 0) 64 (by decide) (by decide)).2.2.2.2 (Or.inl (by decide))).2

/-- C3 (evaluation at the failing input): `decodedSize 32` is 27, yet the 32
characters that `encode` writes for 28 zero bytes decode to 28 bytes, so
`decode` into a buffer of `decodedSize 32` bytes returns 0. -/
theorem decodedSize_too_small :
    decodedSize 32 = 27 ∧
    encode (List.replicate 28 0) (List.replicate 33 255) 33
      = (32, List.replicate 32 65 ++ [0]) ∧
    (decodeBytes (List.replicate 32 65)).length = 28 ∧
    (decode (List.replicate 32 65 ++ [0]) (List.replicate 28 255) (decodedSize 32)).1 = 0 ∧
    decode (List.replicate 32 65 ++ [0]) (List.replicate 28 255) 28
      = (28, List.replicate 28 0) := by
  decide

/-- C4: for every input of `n ≥ 1` bytes, `encode` into a buffer of exactly
`encodedSize n` bytes succeeds: it stores the complete text and its terminator,
and the length it returns is at least 1 and at most `encodedSize n - 1`. -/
theorem encode_into_encodedSize (input out : List Nat)
    (hin : ∀ x ∈ input, x < 256) (hne : input ≠ [])
    (hbuf : encodedSize input.length ≤ out.length) :
    1 ≤ (encode input out (encodedSize input.length)).1 ∧
    (encode input out (encodedSize input.length)).1 ≤ encodedSize input.length - 1 ∧
    encodedSize input.length = (input.length * 16 + 12) / 13 + 1 ∧
    encode input out (encodedSize input.length)
      = ((encodeChars input).length,
          encodeChars input ++ 0 :: out.drop ((encodeChars input).length + 1)) := by
  have hle := encodeChars_length_le input hin
  have hpos := encodeChars_length_pos input hin hne
  rw [encode_fits input out _ hle hbuf]
  exact ⟨hpos, by simp only; omega, rfl, rfl⟩

/-- Witness of C4 on a two-byte input and a buffer of `encodedSize 2 = 4` bytes. -/
theorem encode_into_encodedSize_witness :
    1 ≤ (encode [255, 255] [7, 7, 7, 7] (encodedSize [255, 255].length)).1 ∧
    (encode [255, 255] [7, 7, 7, 7] (encodedSize [255, 255].length)).1
      ≤ encodedSize [255, 255].length - 1 :=
  ⟨(encode_into_encodedSize [255, 255] [7, 7, 7, 7] (by decide) (by decide) (by decide)).1,
   (encode_into_encodedSize [255, 255] [7, 7, 7, 7] (by decide) (by decide) (by decide)).2.1⟩

/-- C5 (counterexample): the text of the 4 bytes `01 02 03 04` has 5 characters;
with capacity 3 `encode` returns 0 but has already stored two characters.
The string `AAAA` decodes to 3 bytes; with capacity 1 `decode` returns 0 but has
already stored one byte. -/
theorem failing_call_changes_buffer :
    3 < (encodeChars [1, 2, 3, 4]).length + 1 ∧
    encode [1, 2, 3, 4] [255, 255, 255, 255] 3 = (0, [54, 70, 255, 255]) ∧
    (encode [1, 2, 3, 4] [255, 255, 255, 255] 3).2 ≠ [255, 255, 255, 255] ∧
    1 < (decodeBytes [65, 65, 65, 65]).length ∧
    decode [65, 65, 65, 65] [255, 255] 1 = (0, [0, 255]) ∧
    (decode [65, 65, 65, 65] [255, 255] 1).2 ≠ [255, 255] := by
  decide

/-- C5 (amended): whenever the complete result does not fit in the supplied
capacity, `encode` and `decode` return 0; the output memory then holds the
first `k ≤ capacity` bytes of the result, stored before the check that failed,
and is unchanged from position `k` on. -/
theorem capacity_failure_returns_zero (bytes text out : List Nat) (cap : Nat)
    (hcap : cap ≤ out.length) :
    (cap < (encodeChars bytes).length + 1 →
      ∃ k, k ≤ (encodeChars bytes).length ∧ k ≤ cap ∧
        encode bytes out cap = (0, (encodeChars bytes).take k ++ out.drop k)) ∧
    (cap < (decodeBytes text).length →
      ∃ k, k ≤ (decodeBytes text).length ∧ k ≤ cap ∧
        decode text out cap = (0, (decodeBytes text).take k ++ out.drop k)) :=
  ⟨fun h => encode_short bytes out cap h hcap, fun h => decode_short text out cap h hcap⟩

/-- Witness of C5 (amended): capacity 3 for a 5-character text, capacity 1 for
a 3-byte result. -/
theorem capacity_failure_returns_zero_witness :
    (∃ k, k ≤ (encodeChars [1, 2, 3, 4]).length ∧ k ≤ 3 ∧
      encode [1, 2, 3, 4] [255, 255, 255, 255] 3
        = (0, (encodeChars [1, 2, 3, 4]).take k ++ [255, 255, 255, 255].drop k)) :=
  (capacity_failure_returns_zero [1, 2, 3, 4] [65, 65, 65, 65] [255, 255, 255, 255] 3
    (by decide)).1 (by decide)

/-- C6: for every NUL-terminated string `s` (its bytes before the terminator),
`decode s` equals `decode` of `s` with every byte outside the 91-symbol
alphabet removed: in the returned length and in the output memory. -/
theorem decode_skips_foreign_bytes (s out : List Nat) (cap : Nat)
    (hs : ∀ c ∈ s, c < 256 ∧ c ≠ 0) :
    decode s out cap = decode (s.filter (fun c => decide (c ∈ ALPHABET))) out cap := by
  simp only [decode]
  split
  · rfl
  · exact decodeLoop_filter cap s _ hs

/-- Witness of C6: the text of `test` with a blank, a line feed, a quote and a
byte above 127 mixed in. -/
theorem decode_skips_foreign_bytes_witness :
    decode [102, 32, 80, 10, 78, 34, 75, 200, 100] [0, 0, 0, 0] 4
      = decode ([102, 32, 80, 10, 78, 34, 75, 200, 100].filter
          (fun c => decide (c ∈ ALPHABET))) [0, 0, 0, 0] 4 :=
  decode_skips_foreign_bytes [102, 32, 80, 10, 78, 34, 75, 200, 100] [0, 0, 0, 0] 4 (by decide)

end Base91

namespace WAPRequest

/-- C7: for every `v < 2^32` (and an `unsigned long` of at least 32 bits),
`decodeUintvar` applied to the bytes that a successful `encodeUintvar v` wrote
returns the value `v` and a consumed-byte count equal to the encoded length. -/
theorem decodeUintvar_encodeUintvar (w v : Nat) (buf : List Nat) (size len o : Nat)
    (hw : 32 ≤ w) (hv : v < 2 ^ 32) (hbuf : size ≤ buf.length)
    (hok : (encodeUintvar w v buf size).1 ≠ 0)
    (hlen : (encodeUintvar w v buf size).1 ≤ len) (hlen2 : len ≤ buf.length) :
    decodeUintvar w (encodeUintvar w v buf size).2 len o
      = ((encodeUintvar w v buf size).1, v) := by
  have hr := uintvarLen_range v
  have hv35 : v < 2 ^ 35 := by norm_num at hv ⊢; omega
  rw [encodeUintvar_eq w v buf size hbuf, encodeUintvarTemp_eq w v hw hv] at hok hlen ⊢
  simp only [List.length_reverse, List.reverse_reverse, uintvarBytes_length] at hok hlen ⊢
  by_cases hfit : uintvarLen v ≤ size
  · simp only [hfit, if_true] at hok hlen ⊢
    have hbits := uintvarBytes_bits v (buf.drop (uintvarLen v))
    have hdlen : len ≤ (uintvarBytes v ++ buf.drop (uintvarLen v)).length := by
      rw [List.length_append, uintvarBytes_length, List.length_drop]; omega
    have hlen0 : ¬ len = 0 := by omega
    simp only [decodeUintvar, hlen0, if_false]
    have hspec := decodeUintvarLoop_spec w (uintvarBytes v ++ buf.drop (uintvarLen v)) len o
      (by omega) hdlen 5 0 0 (by norm_num) (by intro j hj; omega) (by simp [concat7])
    rcases hspec with ⟨_, hall⟩ | ⟨h1, h2, h3, h4, h5⟩
    · exact absurd hbits.2 (hall (uintvarLen v - 1) (by omega))
    · generalize decodeUintvarLoop w (uintvarBytes v ++ buf.drop (uintvarLen v)) len o 5 0 0 = r
        at h1 h2 h3 h4 h5 ⊢
      obtain ⟨r1, r2⟩ := r
      simp only at h1 h2 h3 h4 h5 ⊢
      have hr1 : r1 = uintvarLen v := by
        by_contra hne
        rcases Nat.lt_or_gt_of_ne hne with hlt | hgt
        · exact hbits.1 (r1 - 1) (by omega) h3
        · exact h4 (uintvarLen v - 1) (by omega) hbits.2
      subst hr1
      have htake : (uintvarBytes v ++ buf.drop (uintvarLen v)).take (uintvarLen v)
          = uintvarBytes v := by
        rw [← uintvarBytes_length v, List.take_left]
      rw [htake, concat7_uintvarBytes v hv35, mod_ulong w v hw hv] at h5
      rw [h5]
  · simp only [hfit, if_false] at hok
    exact absurd rfl hok

/-- Witness of C7: the value 16384 through a buffer of 8 bytes. -/
theorem decodeUintvar_encodeUintvar_witness :
    decodeUintvar 32 (encodeUintvar 32 16384 [9, 9, 9, 9, 9, 9, 9, 9] 8).2 8 77
      = ((encodeUintvar 32 16384 [9, 9, 9, 9, 9, 9, 9, 9] 8).1, 16384) :=
  decodeUintvar_encodeUintvar 32 16384 [9, 9, 9, 9, 9, 9, 9, 9] 8 8 77
    (by decide) (by decide) (by decide) (by decide) (by decide) (by decide)

/-- C8: for every `v < 2^32` (and an `unsigned long` of at least 32 bits),
`encodeUintvar` into a buffer with room writes `k = uintvarLen v` bytes, where
`k` in 1..5 is the least number of 7-bit groups that hold `v`; byte `i` is group
`k - 1 - i` of `v` (most significant group first), with bit `0x80` added on every
byte except the last.  0 gives `00`, 127 gives `7F`, 128 gives `81 00`, 16383
takes 2 bytes and 16384 takes 3. -/
theorem encodeUintvar_format (w v : Nat) (buf : List Nat) (size : Nat)
    (hw : 32 ≤ w) (hv : v < 2 ^ 32) (hsize : uintvarLen v ≤ size) (hbuf : size ≤ buf.length) :
    encodeUintvar w v buf size = (uintvarLen v, uintvarBytes v ++ buf.drop (uintvarLen v)) ∧
    1 ≤ uintvarLen v ∧ uintvarLen v ≤ 5 ∧
    v < 128 ^ uintvarLen v ∧ (uintvarLen v = 1 ∨ 128 ^ (uintvarLen v - 1) ≤ v) ∧
    (uintvarBytes v).length = uintvarLen v ∧
    (∀ i, i < uintvarLen v →
      (uintvarBytes v).getD i 0
        = v / 128 ^ (uintvarLen v - 1 - i) % 128 + (if i + 1 < uintvarLen v then 128 else 0)) ∧
    (uintvarBytes 0 = [0x00] ∧ uintvarBytes 127 = [0x7F] ∧ uintvarBytes 128 = [0x81, 0x00] ∧
      uintvarLen 16383 = 2 ∧ uintvarLen 16384 = 3) := by
  have hr := uintvarLen_range v
  have hv35 : v < 2 ^ 35 := by norm_num at hv ⊢; omega
  have hholds := uintvarLen_holds v hv35
  refine ⟨?_, hr.1, hr.2, hholds.1, hholds.2, uintvarBytes_length v, ?_, by decide⟩
  · rw [encodeUintvar_eq w v buf size hbuf, encodeUintvarTemp_eq w v hw hv]
    simp only [List.length_reverse, List.reverse_reverse, uintvarBytes_length, hsize, if_true]
  · intro i hi
    have hl := uintvarGroups_length (v / 128) (uintvarLen v - 1)
    by_cases hlast : i + 1 < uintvarLen v
    · simp only [hlast, if_true]
      rw [uintvarBytes, List.getD_append _ _ _ _ (by omega)]
      have hgen : ∀ (m x j : Nat), j < m →
          (uintvarGroups x m).getD j 0 = x / 128 ^ (m - 1 - j) % 128 + 128 := by
        intro m
        induction m with
        | zero => intro x j hj; omega
        | succ m ih =>
          intro x j hj
          cases j with
          | zero => simp [uintvarGroups]
          | succ j =>
            simp only [uintvarGroups, List.getD_cons_succ]
            rw [ih x j (by omega)]
            have : m + 1 - 1 - (j + 1) = m - 1 - j := by omega
            rw [this]
      rw [hgen _ _ _ (by omega)]
      have hexp : uintvarLen v - 1 - i = (uintvarLen v - 1 - 1 - i) + 1 := by omega
      rw [hexp, pow_succ, Nat.mul_comm, Nat.div_div_eq_div_mul]
    · have hi2 : i = uintvarLen v - 1 := by omega
      simp only [hlast, if_false, Nat.add_zero]
      rw [uintvarBytes, List.getD_append_right _ _ _ _ (by omega), hl, hi2, Nat.sub_self]
      simp

/-- Witness of C8: the value 200 of `testUintvarEncoding`. -/
theorem encodeUintvar_format_witness :
    encodeUintvar 32 200 [9, 9, 9, 9, 9, 9, 9, 9] 8
      = (uintvarLen 200, uintvarBytes 200 ++ [9, 9, 9, 9, 9, 9, 9, 9].drop (uintvarLen 200)) :=
  (encodeUintvar_format 32 200 [9, 9, 9, 9, 9, 9, 9, 9] 8
    (by decide) (by decide) (by decide) (by decide)).1

/-- C9 (counterexample): with a 32-bit `unsigned long` (ESP32, nRF52) the five
bytes `FF FF FF FF 7F` decode to 5 consumed bytes and the value `2^32 - 1`,
while the concatenation of their low 7 bits is `2^35 - 1`. -/
theorem decodeUintvar_wraps :
    decodeUintvar 32 [0xFF, 0xFF, 0xFF, 0xFF, 0x7F] 5 0 = (5, 4294967295) ∧
    concat7 ([0xFF, 0xFF, 0xFF, 0xFF, 0x7F].take 5) = 34359738367 ∧
    (decodeUintvar 32 [0xFF, 0xFF, 0xFF, 0xFF, 0x7F] 5 0).2
      ≠ concat7 ([0xFF, 0xFF, 0xFF, 0xFF, 0x7F].take
          (decodeUintvar 32 [0xFF, 0xFF, 0xFF, 0xFF, 0x7F] 5 0).1) := by
  decide

/-- C9 (amended): `decodeUintvar` returns 0 (and leaves `*outValue` alone)
exactly when `len = 0` or none of the first `min len 5` bytes has bit `0x80`
clear; otherwise it returns the 1-based position of the first byte with bit
`0x80` clear, and the value is the big-endian concatenation of the low 7 bits of
the bytes up to and including it, reduced modulo `2^w` for a `w`-bit
`unsigned long`: the concatenation itself when `w ≥ 35`. -/
theorem decodeUintvar_spec (w : Nat) (data : List Nat) (len o : Nat) (hw : 32 ≤ w)
    (hlen : len ≤ data.length) :
    ((decodeUintvar w data len o).1 = 0 ↔
      (len = 0 ∨ ∀ j, j < min len 5 → data.getD j 0 &&& 0x80 ≠ 0)) ∧
    ((decodeUintvar w data len o).1 = 0 → (decodeUintvar w data len o).2 = o) ∧
    ((decodeUintvar w data len o).1 ≠ 0 →
      (decodeUintvar w data len o).1 ≤ min len 5 ∧
      data.getD ((decodeUintvar w data len o).1 - 1) 0 &&& 0x80 = 0 ∧
      (∀ j, j < (decodeUintvar w data len o).1 - 1 → data.getD j 0 &&& 0x80 ≠ 0) ∧
      (decodeUintvar w data len o).2
        = concat7 (data.take (decodeUintvar w data len o).1) % 2 ^ w ∧
      (35 ≤ w →
        (decodeUintvar w data len o).2 = concat7 (data.take (decodeUintvar w data len o).1))) := by
  by_cases hlen0 : len = 0
  · simp [decodeUintvar, hlen0]
  · simp only [decodeUintvar, hlen0, if_false, false_or]
    have hspec := decodeUintvarLoop_spec w data len o (by omega) hlen 5 0 0 (by norm_num)
      (by intro j hj; omega) (by simp [concat7])
    generalize decodeUintvarLoop w data len o 5 0 0 = r at hspec ⊢
    obtain ⟨r1, r2⟩ := r
    simp only at hspec ⊢
    rcases hspec with ⟨h0, hall⟩ | ⟨h1, h2, h3, h4, h5⟩
    · simp only [Prod.mk.injEq] at h0
      obtain ⟨rfl, rfl⟩ := h0
      exact ⟨⟨fun _ => hall, fun _ => rfl⟩, fun _ => rfl, fun h => absurd rfl h⟩
    · refine ⟨⟨fun h => by omega, fun hall => absurd h3 (hall (r1 - 1) (by omega))⟩,
        fun h => by omega, fun _ => ⟨h2, h3, h4, h5, ?_⟩⟩
      intro h35
      rw [h5]
      apply Nat.mod_eq_of_lt
      have hl : (data.take r1).length ≤ 5 := by
        rw [List.length_take]; omega
      calc concat7 (data.take r1) < 128 ^ (data.take r1).length := concat7_lt _
        _ ≤ 128 ^ 5 := Nat.pow_le_pow_right (by norm_num) hl
        _ = 2 ^ 35 := by norm_num
        _ ≤ 2 ^ w := Nat.pow_le_pow_right (by norm_num) h35

/-- Witness of C9 (amended): the three bytes `81 80 00` of `testUintvarDecoding`. -/
theorem decodeUintvar_spec_witness :
    (decodeUintvar 32 [0x81, 0x80, 0x00] 3 0).1 ≠ 0 ∧
    (decodeUintvar 32 [0x81, 0x80, 0x00] 3 0).2
      = concat7 ([0x81, 0x80, 0x00].take (decodeUintvar 32 [0x81, 0x80, 0x00] 3 0).1) % 2 ^ 32 :=
  ⟨by decide,
   ((decodeUintvar_spec 32 [0x81, 0x80, 0x00] 3 0 (by decide) (by decide)).2.2
      (by decide)).2.2.2.1⟩

/-- C10: for every non-empty URI `u`, transaction id `t`, header block `H`
(`headers`, possibly null when empty) and output buffer of at least
`7 + |u| + |H|` bytes, `createGetRequestWithHeaders` writes exactly
`[t, 0x40] ++ uintvar(|u|) ++ u ++ H` and returns its length
`2 + uintvarLen(|u|) + |u| + |H|`, where `uintvar(|u|)` is what `encodeUintvar`
stores for `|u|`: the uintvar of the specification when `|u| < 2^32`, one byte
when `|u| < 128`, so that without headers the length is `1 + 1 + 1 + |u|`. -/
theorem createGetRequestWithHeaders_layout (w : Nat) (u : List Nat) (t : Nat)
    (headers : Option (List Nat)) (buf : List Nat) (size : Nat)
    (hu0 : u ≠ []) (hu : ∀ c ∈ u, c ≠ 0) (ht : t < 256)
    (hsize : 7 + u.length + (headers.getD []).length ≤ size) (hbuf : size ≤ buf.length) :
    createGetRequestWithHeaders w (some u) t headers (headers.getD []).length buf size
      = (2 + (uintvarOf w u.length).length + u.length + (headers.getD []).length,
          [t, 0x40] ++ uintvarOf w u.length ++ u ++ headers.getD [] ++
            buf.drop (2 + (uintvarOf w u.length).length + u.length + (headers.getD []).length)) ∧
    (32 ≤ w → u.length < 2 ^ 32 →
      uintvarOf w u.length = uintvarBytes u.length ∧
      (uintvarOf w u.length).length = uintvarLen u.length) ∧
    (32 ≤ w → u.length < 128 → headers.getD [] = [] →
      (createGetRequestWithHeaders w (some u) t headers (headers.getD []).length buf size).1
        = 1 + 1 + 1 + u.length) := by
  have hspec : ∀ v, 32 ≤ w → v < 2 ^ 32 →
      uintvarOf w v = uintvarBytes v ∧ (uintvarOf w v).length = uintvarLen v := by
    intro v hw hv
    have : uintvarOf w v = uintvarBytes v := by
      rw [uintvarOf, encodeUintvarTemp_eq w v hw hv, List.reverse_reverse]
    exact ⟨this, by rw [this, uintvarBytes_length]⟩
  have hmain : createGetRequestWithHeaders w (some u) t headers (headers.getD []).length buf size
      = (2 + (uintvarOf w u.length).length + u.length + (headers.getD []).length,
          [t, 0x40] ++ uintvarOf w u.length ++ u ++ headers.getD [] ++
            buf.drop (2 + (uintvarOf w u.length).length + u.length
              + (headers.getD []).length)) := by
    have hstr : strlen u = u.length := by
      rw [strlen, List.takeWhile_eq_self_iff.mpr]
      intro c hc
      simpa using hu c hc
    have hpos : u.length ≠ 0 := by
      intro h; exact hu0 (List.length_eq_zero.mp h)
    have htl := encodeUintvarTemp_length w u.length
    have hget : GET_PDU_TYPE ||| WSP_GET = 0x40 := by decide
    match buf, hbuf with
    | [], hbuf => simp at hbuf; omega
    | [_], hbuf => simp at hbuf; omega
    | b0 :: b1 :: rest, hbuf =>
      simp only [List.length_cons] at hbuf
      have hmax : ¬ (1 + 1 + 5 + u.length + (headers.getD []).length > size) := by omega
      have henc := encodeUintvar_eq w u.length rest (size - 2) (by omega)
      rw [if_pos (by omega)] at henc
      simp only [createGetRequestWithHeaders, hstr, if_neg hpos, if_neg hmax,
        Nat.mod_eq_of_lt ht, List.set_cons_zero, List.set_cons_succ, Nat.zero_add,
        List.drop_succ_cons, List.drop_zero, List.take_succ_cons, List.take_zero, hget]
      rw [show size - (1 + 1) = size - 2 from rfl, henc]
      dsimp only
      rw [uintvarOf]
      generalize encodeUintvarTemp w u.length = T at htl ⊢
      have hk0 : ¬ (T.length = 0) := by omega
      have hfit : ¬ (1 + 1 + T.length + u.length > size) := by omega
      rw [if_neg hk0, if_neg hfit]
      have hcopy : memcpy ([t, 64] ++ (T.reverse ++ List.drop T.length rest)) (1 + 1 + T.length)
          u u.length = ([t, 64] ++ T.reverse) ++ u ++ (rest.drop T.length).drop u.length :=
        memcpy_at _ u ([t, 64] ++ T.reverse) (rest.drop T.length) _ _ (by simp)
          (by simp only [List.length_append, List.length_cons, List.length_nil,
            List.length_reverse, Nat.zero_add])
          rfl (by rw [List.length_drop]; omega)
      have hdrop : ∀ n, List.drop (2 + n) (b0 :: b1 :: rest) = List.drop n rest := by
        intro n
        rw [Nat.add_comm 2 n]
        rfl
      rw [hcopy, List.length_reverse]
      cases headers with
      | none =>
        simp only [Option.getD_none, List.length_nil, Nat.add_zero, List.append_nil,
          List.drop_drop]
        refine Prod.ext (by simp only) ?_
        simp only
        rw [show 2 + T.length + u.length = 2 + (T.length + u.length) by omega, hdrop]
      | some H =>
        simp only [Option.getD_some] at hsize ⊢
        by_cases hH : H.length > 0
        · have hfit2 : ¬ (1 + 1 + T.length + u.length + H.length > size) := by omega
          rw [if_pos hH, if_neg hfit2]
          rw [memcpy_at _ H ([t, 64] ++ T.reverse ++ u) ((rest.drop T.length).drop u.length)
            _ _ rfl
            (by simp only [List.length_append, List.length_cons, List.length_nil,
              List.length_reverse, Nat.zero_add])
            rfl (by rw [List.length_drop, List.length_drop]; omega)]
          simp only [List.drop_drop]
          refine Prod.ext (by simp only) ?_
          simp only
          rw [show 2 + T.length + u.length + H.length = 2 + (T.length + u.length + H.length)
            by omega, hdrop]
        · have hnil : H = [] := List.length_eq_zero.mp (by omega)
          subst hnil
          rw [if_neg hH]
          simp only [List.length_nil, Nat.add_zero, List.append_nil, List.drop_drop]
          refine Prod.ext (by simp only) ?_
          simp only
          rw [show 2 + T.length + u.length = 2 + (T.length + u.length) by omega, hdrop]
  refine ⟨hmain, fun hw hv => hspec _ hw hv, ?_⟩
  intro hw h128 hH
  rw [hmain, hH]
  have hv : u.length < 2 ^ 32 := by norm_num; omega
  have := (hspec u.length hw hv).2
  simp only [this, uintvarLen, List.length_nil]
  have h7 : u.length < 2 ^ 7 := by norm_num; omega
  simp only [h7, if_true]
  omega

/-- Witness of C10: the URI `http` with transaction id `0x42` and three header
bytes in a buffer of 20 bytes. -/
theorem createGetRequestWithHeaders_layout_witness :
    createGetRequestWithHeaders 32 (some [104, 116, 116, 112]) 0x42 (some [1, 2, 3])
        ((some [1, 2, 3] : Option (List Nat)).getD []).length (List.replicate 20 9) 20
      = (2 + (uintvarOf 32 [104, 116, 116, 112].length).length + [104, 116, 116, 112].length
            + ((some [1, 2, 3] : Option (List Nat)).getD []).length,
          [0x42, 0x40] ++ uintvarOf 32 [104, 116, 116, 112].length ++ [104, 116, 116, 112]
            ++ (some [1, 2, 3] : Option (List Nat)).getD [] ++
            (List.replicate 20 9).drop (2 + (uintvarOf 32 [104, 116, 116, 112].length).length
              + [104, 116, 116, 112].length
              + ((some [1, 2, 3] : Option (List Nat)).getD []).length)) :=
  (createGetRequestWithHeaders_layout 32 [104, 116, 116, 112] 0x42 (some [1, 2, 3])
    (List.replicate 20 9) 20 (by decide) (by decide) (by decide) (by decide) (by decide)).1

/-- C11: for every URL `u` (a C string, so without NUL bytes) whose host part
`h = hostPart u` is non-empty and shorter than 64 characters, every transaction
id and every output buffer with room for `1 + 1 + 5 + |u| + headersLen` bytes,
`createGetRequest` with `addHostHeader = true` returns the PDU length and stores
the transaction id, `0x40`, the uintvar of `|u|`, the URL and the header block
`0x96 ++ h ++ 0x00`, `0xA9 ++ "MAP/1.0" ++ 0x00`, `80 94`, `80 95`, `80 A1`,
`80 83`, `81 EA`, `81 84`; the bytes behind the PDU keep their value.  For
`http://wap.bevelgacom.be/` with transaction id `0x42` the PDU has 68 bytes:
`0x42`, `0x40`, URI length 25, the URL, `0x96`, `wap.bevelgacom.be`, `0x00` and
the other headers. -/
theorem createGetRequest_default_headers (w : Nat) (u : List Nat) (t : Nat)
    (outBuffer : List Nat) (outBufferSize : Nat) (headers0 host0 : List Nat)
    (hu : ∀ c ∈ u, c ≠ 0) (ht : t < 256)
    (hh : headers0.length = 128) (hhost : host0.length = 64)
    (hne : hostPart u ≠ []) (hlt : (hostPart u).length < 64)
    (hsize : 7 + u.length + (defaultHeaders (hostPart u)).length ≤ outBufferSize)
    (hbuf : outBufferSize ≤ outBuffer.length) :
    createGetRequest w u t outBuffer outBufferSize true headers0 host0
        = (2 + (uintvarOf w u.length).length + u.length + (defaultHeaders (hostPart u)).length,
            [t, 0x40] ++ uintvarOf w u.length ++ u ++ defaultHeaders (hostPart u) ++
              outBuffer.drop (2 + (uintvarOf w u.length).length + u.length
                + (defaultHeaders (hostPart u)).length))
      ∧ defaultHeaders (hostPart u)
          = [0x96] ++ hostPart u ++ [0x00] ++ [0xA9, 77, 65, 80, 47, 49, 46, 48, 0x00]
            ++ [0x80, 0x94] ++ [0x80, 0x95] ++ [0x80, 0xA1] ++ [0x80, 0x83]
            ++ [0x81, 0xEA] ++ [0x81, 0x84]
      ∧ (32 ≤ w → u.length < 2 ^ 32 → uintvarOf w u.length = uintvarBytes u.length)
      ∧ createGetRequest 32 (asciiBytes "http://wap.bevelgacom.be/") 0x42
          (List.replicate 128 0) 128 true (List.replicate 128 0) (List.replicate 64 0)
        = (68, [0x42, 0x40, 25] ++ asciiBytes "http://wap.bevelgacom.be/" ++ [0x96]
            ++ asciiBytes "wap.bevelgacom.be" ++ [0x00]
            ++ [0xA9, 77, 65, 80, 47, 49, 46, 48, 0x00]
            ++ [0x80, 0x94, 0x80, 0x95, 0x80, 0xA1, 0x80, 0x83, 0x81, 0xEA, 0x81, 0x84]
            ++ List.replicate 60 0) := by
  have hu0 : u ≠ [] := by
    intro h
    subst h
    exact hne rfl
  have hc : ¬ ((hostPart u).length = 0 ∨ (hostPart u).length ≥ 64) := by
    intro h
    rcases h with h | h
    · exact hne (List.length_eq_zero.mp h)
    · omega
  refine ⟨?_, ?_, ?_, ?_⟩
  · exact createGetRequest_eq w u t outBuffer outBufferSize headers0 host0 _ hu0 hu ht hh hhost
      (by rw [if_neg hc]) hsize hbuf
  · simp only [defaultHeaders, List.append_assoc]
    rfl
  · intro hw hv
    rw [uintvarOf, encodeUintvarTemp_eq w u.length hw hv, List.reverse_reverse]
  · rw [createGetRequest_eq 32 (asciiBytes "http://wap.bevelgacom.be/") 0x42
      (List.replicate 128 0) 128 (List.replicate 128 0) (List.replicate 64 0)
      (defaultHeaders (asciiBytes "wap.bevelgacom.be")) (by decide) (by decide) (by decide)
      (List.length_replicate _ _) (List.length_replicate _ _) (by decide) (by decide)
      (by rw [List.length_replicate])]
    refine Prod.ext (by decide) ?_
    simp only [List.drop_replicate]
    decide

/-- Witness of C11: the URL `http://wap.bevelgacom.be/` with transaction id
`0x42` and a buffer of 128 bytes. -/
theorem createGetRequest_default_headers_witness :
    (∀ c ∈ asciiBytes "http://wap.bevelgacom.be/", c ≠ 0) ∧ 0x42 < 256
      ∧ hostPart (asciiBytes "http://wap.bevelgacom.be/") ≠ []
      ∧ (hostPart (asciiBytes "http://wap.bevelgacom.be/")).length < 64
      ∧ defaultHeaders (hostPart (asciiBytes "http://wap.bevelgacom.be/"))
          = [0x96] ++ hostPart (asciiBytes "http://wap.bevelgacom.be/") ++ [0x00]
            ++ [0xA9, 77, 65, 80, 47, 49, 46, 48, 0x00]
            ++ [0x80, 0x94] ++ [0x80, 0x95] ++ [0x80, 0xA1] ++ [0x80, 0x83]
            ++ [0x81, 0xEA] ++ [0x81, 0x84] :=
  ⟨by decide, by decide, by decide, by decide,
    (createGetRequest_default_headers 32 (asciiBytes "http://wap.bevelgacom.be/") 0x42
      (List.replicate 128 0) 128 (List.replicate 128 0) (List.replicate 64 0)
      (by decide) (by decide) (List.length_replicate _ _) (List.length_replicate _ _)
      (by decide) (by decide) (by decide) (by rw [List.length_replicate])).2.1⟩

/-- C12, counterexample: for the URL `http://` ++ 64 times `a` ++ `/`, whose
host part has 64 characters, `createGetRequest` with `addHostHeader = true` and
a buffer of 128 bytes returns 96, not 0, and the 96 bytes are a Get PDU whose
header block starts with User-Agent: there is no Host header. -/
theorem createGetRequest_long_host_emits :
    (hostPart (asciiBytes "http://" ++ List.replicate 64 97 ++ [47])).length = 64
      ∧ createGetRequest 32 (asciiBytes "http://" ++ List.replicate 64 97 ++ [47]) 0x42
          (List.replicate 128 0) 128 true (List.replicate 128 0) (List.replicate 64 0)
        = (96, [0x42, 0x40, 72] ++ (asciiBytes "http://" ++ List.replicate 64 97 ++ [47])
            ++ [0xA9, 77, 65, 80, 47, 49, 46, 48, 0x00]
            ++ [0x80, 0x94, 0x80, 0x95, 0x80, 0xA1, 0x80, 0x83, 0x81, 0xEA, 0x81, 0x84]
            ++ List.replicate 32 0) := by
  refine ⟨by decide, ?_⟩
  rw [createGetRequest_eq 32 (asciiBytes "http://" ++ List.replicate 64 97 ++ [47]) 0x42
    (List.replicate 128 0) 128 (List.replicate 128 0) (List.replicate 64 0)
    defaultHeadersNoHost (by decide) (by decide) (by decide)
    (List.length_replicate _ _) (List.length_replicate _ _) (by decide) (by decide)
    (by rw [List.length_replicate])]
  refine Prod.ext (by decide) ?_
  simp only [List.drop_replicate]
  decide

/-- C12, amended: for every URL `u` (a C string) whose host part has 64 or more
characters, `createGetRequest` with `addHostHeader = true` leaves the Host
header out.  With room for `1 + 1 + 5 + |u| + 21` bytes it returns a non-zero
length and stores the Get PDU whose header block is User-Agent `MAP/1.0`, the
four Accept entries and the two Accept-Charset entries; with less room it
returns 0 and stores nothing. -/
theorem createGetRequest_long_host (w : Nat) (u : List Nat) (t : Nat)
    (outBuffer : List Nat) (outBufferSize : Nat) (headers0 host0 : List Nat)
    (hu : ∀ c ∈ u, c ≠ 0) (ht : t < 256)
    (hh : headers0.length = 128) (hhost : host0.length = 64)
    (hlong : (hostPart u).length ≥ 64) (hbuf : outBufferSize ≤ outBuffer.length) :
    (7 + u.length + 21 ≤ outBufferSize →
      createGetRequest w u t outBuffer outBufferSize true headers0 host0
          = (2 + (uintvarOf w u.length).length + u.length + 21,
              [t, 0x40] ++ uintvarOf w u.length ++ u ++ defaultHeadersNoHost ++
                outBuffer.drop (2 + (uintvarOf w u.length).length + u.length + 21))
        ∧ (createGetRequest w u t outBuffer outBufferSize true headers0 host0).1 ≠ 0)
      ∧ (outBufferSize < 7 + u.length + 21 →
          createGetRequest w u t outBuffer outBufferSize true headers0 host0 = (0, outBuffer))
      ∧ defaultHeadersNoHost
          = [0xA9, 77, 65, 80, 47, 49, 46, 48, 0x00]
            ++ [0x80, 0x94] ++ [0x80, 0x95] ++ [0x80, 0xA1] ++ [0x80, 0x83]
            ++ [0x81, 0xEA] ++ [0x81, 0x84] := by
  have hu0 : u ≠ [] := by
    intro h
    subst h
    exact absurd hlong (by decide)
  have hHB : defaultHeadersNoHost = if (hostPart u).length = 0 ∨ (hostPart u).length ≥ 64
      then defaultHeadersNoHost else defaultHeaders (hostPart u) := by
    rw [if_pos (Or.inr hlong)]
  refine ⟨?_, ?_, by decide⟩
  · intro hsize
    have := createGetRequest_eq w u t outBuffer outBufferSize headers0 host0 _ hu0 hu ht hh
      hhost hHB (by rw [defaultHeadersNoHost_length]; exact hsize) hbuf
    rw [defaultHeadersNoHost_length] at this
    refine ⟨this, ?_⟩
    rw [this]
    simp only
    omega
  · intro hsize
    exact createGetRequest_small w u t outBuffer outBufferSize headers0 host0 _ hh hhost hHB
      (by rw [defaultHeadersNoHost_length, strlen_of_no_nul u hu]; exact hsize)

/-- Witness of C12 (amended): the URL `http://` ++ 64 times `a` ++ `/` and a
buffer of 128 bytes. -/
theorem createGetRequest_long_host_witness :
    (∀ c ∈ asciiBytes "http://" ++ List.replicate 64 97 ++ [47], c ≠ 0) ∧ 0x42 < 256
      ∧ (hostPart (asciiBytes "http://" ++ List.replicate 64 97 ++ [47])).length ≥ 64
      ∧ (createGetRequest 32 (asciiBytes "http://" ++ List.replicate 64 97 ++ [47]) 0x42
          (List.replicate 128 0) 128 true (List.replicate 128 0) (List.replicate 64 0)).1 ≠ 0 :=
  ⟨by decide, by decide, by decide,
    ((createGetRequest_long_host 32 (asciiBytes "http://" ++ List.replicate 64 97 ++ [47]) 0x42
      (List.replicate 128 0) 128 (List.replicate 128 0) (List.replicate 64 0)
      (by decide) (by decide) (List.length_replicate _ _) (List.length_replicate _ _)
      (by decide) (by rw [List.length_replicate])).1 (by decide)).2⟩

/-- C13: for every URL and every host buffer of at least `hostBufferSize` bytes,
`extractHostFromUrl` works on the URL without one leading `http://` or
`https://` (`stripScheme`), takes its longest leading part `hostPart url` that
holds none of `:`, `/`, `?` (nor the terminator), returns false with the buffer
untouched exactly when that part is empty or has `hostBufferSize` or more
characters, and otherwise returns true with the part and a terminator stored.
The host of `https://example.com:8080/path` is `example.com`, that of
`wap.test.com/page` is `wap.test.com`. -/
theorem extractHostFromUrl_spec (url hostBuffer : List Nat) (hostBufferSize : Nat)
    (hsize : hostBufferSize ≤ hostBuffer.length) :
    extractHostFromUrl url hostBuffer hostBufferSize
        = (if hostPart url = [] ∨ (hostPart url).length ≥ hostBufferSize then (false, hostBuffer)
           else (true, hostPart url ++ 0 :: hostBuffer.drop ((hostPart url).length + 1)))
      ∧ ((∀ r, url = asciiBytes "http://" ++ r → stripScheme url = r)
        ∧ (∀ r, url = asciiBytes "https://" ++ r → stripScheme url = r)
        ∧ ((∀ r, url ≠ asciiBytes "http://" ++ r) → (∀ r, url ≠ asciiBytes "https://" ++ r) →
            stripScheme url = url))
      ∧ (∃ rest, stripScheme url = hostPart url ++ rest
          ∧ (∀ c ∈ hostPart url, c ≠ 58 ∧ c ≠ 47 ∧ c ≠ 63 ∧ c ≠ 0)
          ∧ (∀ c, rest.head? = some c → c = 58 ∨ c = 47 ∨ c = 63 ∨ c = 0))
      ∧ hostPart (asciiBytes "https://example.com:8080/path") = asciiBytes "example.com"
      ∧ hostPart (asciiBytes "wap.test.com/page") = asciiBytes "wap.test.com" := by
  refine ⟨?_, ⟨?_, ?_, ?_⟩, ?_, by decide, by decide⟩
  · rw [extractHostFromUrl_eq url hostBuffer hostBufferSize hsize]
    by_cases hc : (hostPart url).length = 0 ∨ (hostPart url).length ≥ hostBufferSize
    · rw [if_pos hc, if_pos (hc.imp List.length_eq_zero.mp id)]
    · rw [if_neg hc, if_neg (fun h => hc (h.imp List.length_eq_zero.mpr id))]
  · intro r hr
    have h7 : url.take 7 = asciiBytes "http://" := by
      rw [hr]
      exact List.take_left' rfl
    rw [stripScheme, if_pos h7, hr]
    exact List.drop_left' rfl
  · intro r hr
    have h7 : url.take 7 ≠ asciiBytes "http://" := by
      rw [hr, List.take_append_of_le_length (by decide)]
      decide
    have h8 : url.take 8 = asciiBytes "https://" := by
      rw [hr]
      exact List.take_left' rfl
    rw [stripScheme, if_neg h7, if_pos h8, hr]
    exact List.drop_left' rfl
  · intro h7 h8
    have e7 : url.take 7 ≠ asciiBytes "http://" := by
      intro h
      exact h7 (url.drop 7) (by rw [← h, List.take_append_drop])
    have e8 : url.take 8 ≠ asciiBytes "https://" := by
      intro h
      exact h8 (url.drop 8) (by rw [← h, List.take_append_drop])
    rw [stripScheme, if_neg e7, if_neg e8]
  · refine ⟨(stripScheme url).dropWhile (fun c => !endsHost c), ?_, ?_, ?_⟩
    · rw [hostPart, List.takeWhile_append_dropWhile]
    · intro c hc
      have := hostPart_not_endsHost url c hc
      simp only [endsHost, decide_eq_false_iff_not, not_or] at this
      exact ⟨this.2.1, this.2.2.1, this.2.2.2, this.1⟩
    · intro c hc
      generalize stripScheme url = l at hc
      induction l with
      | nil => simp at hc
      | cons a l ih =>
        by_cases ha : endsHost a = true
        · rw [List.dropWhile_cons_of_neg (by simp [ha])] at hc
          simp only [List.head?_cons, Option.some.injEq] at hc
          subst hc
          simp only [endsHost, decide_eq_true_eq] at ha
          rcases ha with h | h | h | h
          · exact Or.inr (Or.inr (Or.inr h))
          · exact Or.inl h
          · exact Or.inr (Or.inl h)
          · exact Or.inr (Or.inr (Or.inl h))
        · rw [List.dropWhile_cons_of_pos (by simp [ha])] at hc
          exact ih hc

/-- Witness of C13: the URL `wap.test.com/page` and a buffer of 64 bytes. -/
theorem extractHostFromUrl_spec_witness :
    64 ≤ (List.replicate 64 7).length
      ∧ extractHostFromUrl (asciiBytes "wap.test.com/page") (List.replicate 64 7) 64
        = (if hostPart (asciiBytes "wap.test.com/page") = []
              ∨ (hostPart (asciiBytes "wap.test.com/page")).length ≥ 64
            then (false, List.replicate 64 7)
            else (true, hostPart (asciiBytes "wap.test.com/page") ++
              0 :: (List.replicate 64 7).drop
                ((hostPart (asciiBytes "wap.test.com/page")).length + 1))) :=
  ⟨by decide,
    (extractHostFromUrl_spec (asciiBytes "wap.test.com/page") (List.replicate 64 7) 64
      (by decide)).1⟩

/-- C14, counterexample: the status bytes `0x50` and `0x60` have a case in the
table of `wspStatusToHttp`, which maps them to 416 and 500: the classes 4 and 5
are not the high nibbles 5 and 6. -/
theorem wspStatusToHttp_class_mismatch :
    0x50 ∈ wspStatusCases ∧ wspStatusToHttp 0x50 = 416
      ∧ wspStatusToHttp 0x50 / 100 ≠ Int.ofNat (0x50 >>> 4)
      ∧ 0x60 ∈ wspStatusCases ∧ wspStatusToHttp 0x60 = 500
      ∧ wspStatusToHttp 0x60 / 100 ≠ Int.ofNat (0x60 >>> 4) := by
  decide

/-- C14, amended: for every status byte `s` with a case in the table of
`wspStatusToHttp`, the class `floor(result / 100)` is the high nibble `s >> 4`
when `s < 0x50` (`0x1_` to `0x4_`), is 4 for the bytes `0x50` and `0x51` (416
and 417) and is 5 for the bytes `0x60 .. 0x65` (500 .. 505); every byte without
a case yields 500. -/
theorem wspStatusToHttp_class (s : Nat) (hs : s < 256) :
    (s ∈ wspStatusCases → s < 0x50 → wspStatusToHttp s / 100 = Int.ofNat (s >>> 4))
      ∧ (s ∈ wspStatusCases → 0x50 ≤ s → s < 0x60 → wspStatusToHttp s / 100 = 4)
      ∧ (s ∈ wspStatusCases → 0x60 ≤ s → wspStatusToHttp s / 100 = 5)
      ∧ (s ∉ wspStatusCases → wspStatusToHttp s = 500)
      ∧ wspStatusToHttp 0x50 = 416 ∧ wspStatusToHttp 0x51 = 417
      ∧ wspStatusToHttp 0x60 = 500 ∧ wspStatusToHttp 0x65 = 505 := by
  exact ⟨wspStatusToHttp_low s hs, wspStatusToHttp_5x s hs, wspStatusToHttp_6x s hs,
    wspStatusToHttp_default s hs, by decide, by decide, by decide, by decide⟩

/-- Witness of C14 (amended): the status byte `0x44` maps to class 4. -/
theorem wspStatusToHttp_class_witness :
    0x44 < 256 ∧ 0x44 ∈ wspStatusCases ∧ 0x44 < 0x50
      ∧ wspStatusToHttp 0x44 / 100 = Int.ofNat (0x44 >>> 4) :=
  ⟨by decide, by decide, by decide,
    (wspStatusToHttp_class 0x44 (by decide)).1 (by decide) (by decide)⟩

/-- C15: with a 32-bit `unsigned long` and `size_t`, `parseReplyPDU` on the 7
bytes `04 20 8F FF FF FF 7F` reads the header length `2^32 - 1` from the 5-byte
uintvar; the sum `pos + headersLen = 7 + (2^32 - 1)` wraps to 6, the test
`pos + headersLen > len` does not fire, and the call returns true with status
200 and a body of one byte that is the last byte of the uintvar, although the
declared header length exceeds the bytes that remain (none).  With 64 bits the
same call returns false. -/
theorem parseReplyPDU_header_length_wraps :
    decodeUintvar 32 [0x8F, 0xFF, 0xFF, 0xFF, 0x7F] 5 0 = (5, 2 ^ 32 - 1)
      ∧ parseReplyPDU 32 [0x04, 0x20, 0x8F, 0xFF, 0xFF, 0xFF, 0x7F] 7
          { outStatus := 0, outBody := none, outBodyLen := 0 }
        = (true, { outStatus := 200, outBody := some [0x7F], outBodyLen := 1 })
      ∧ (parseReplyPDU 64 [0x04, 0x20, 0x8F, 0xFF, 0xFF, 0xFF, 0x7F] 7
          { outStatus := 0, outBody := none, outBodyLen := 0 }).1 = false := by
  decide

end WAPRequest

namespace WAPResponse

/-- C16, counterexample: `decodeWithoutTID` returns false for the 3 bytes
`05 20 00`, a PDU of the minimal length whose declared header length 0 does not
run past its end (the first byte is not `0x04`), and returns true for the 4
bytes `04 20 05 84`, whose declared header length 5 runs past the single byte
that is left; `decode` does the same behind a transaction-id byte. -/
theorem decodeWithoutTID_other_failures :
    WAPRequest.decodeUintvar 32 [0x00] 1 0 = (1, 0)
      ∧ (decodeWithoutTID 32 [0x05, 0x20, 0x00] 3 HTTPResponse.zero).1 = false
      ∧ (decode 32 [0x01, 0x05, 0x20, 0x00] 4 HTTPResponse.zero).1 = false
      ∧ WAPRequest.decodeUintvar 32 [0x05, 0x84] 2 0 = (1, 5)
      ∧ (decodeWithoutTID 32 [0x04, 0x20, 0x05, 0x84] 4 HTTPResponse.zero).1 = true
      ∧ (decode 32 [0x01, 0x04, 0x20, 0x05, 0x84] 5 HTTPResponse.zero).1 = true := by
  refine ⟨by decide, ?_, ?_, by decide, ?_, ?_⟩
  · rw [decodeWithoutTID_flag]; decide
  · rw [decode_flag, decodeWithoutTID_flag]; decide
  · rw [decodeWithoutTID_flag]; decide
  · rw [decode_flag, decodeWithoutTID_flag]; decide

/-- C16, amended: `decodeWithoutTID` returns false when the PDU has fewer than 3
bytes, when its first byte is not `0x04`, or when none of the at most 5 bytes of
the header-length uintvar (from index 2, inside the PDU) has bit `0x80` clear;
for every other PDU whose declared header length does not run past the end it
returns true.  `decode` does the same on the bytes behind the transaction id,
with a minimum of 4 bytes. -/
theorem decodeWithoutTID_failures (w : Nat) (data : List Nat) (len : Nat) (resp : HTTPResponse)
    (hw : 32 ≤ w) (hlen : len ≤ data.length) :
    ((len < 3 ∨ data.getD 0 0 ≠ 0x04
          ∨ ∀ j, j < min (len - 2) 5 → data.getD (2 + j) 0 &&& 0x80 ≠ 0) →
        (decodeWithoutTID w data len resp).1 = false)
      ∧ (3 ≤ len → data.getD 0 0 = 0x04 →
          (∃ j, j < min (len - 2) 5 ∧ data.getD (2 + j) 0 &&& 0x80 = 0) →
          2 + (WAPRequest.decodeUintvar w (data.drop 2) (len - 2) 0).1
            + (WAPRequest.decodeUintvar w (data.drop 2) (len - 2) 0).2 ≤ len →
          (decodeWithoutTID w data len resp).1 = true)
      ∧ ((len < 4 ∨ data.getD 1 0 ≠ 0x04
          ∨ ∀ j, j < min (len - 3) 5 → data.getD (3 + j) 0 &&& 0x80 ≠ 0) →
        (decode w data len resp).1 = false)
      ∧ (4 ≤ len → data.getD 1 0 = 0x04 →
          (∃ j, j < min (len - 3) 5 ∧ data.getD (3 + j) 0 &&& 0x80 = 0) →
          3 + (WAPRequest.decodeUintvar w (data.drop 3) (len - 3) 0).1
            + (WAPRequest.decodeUintvar w (data.drop 3) (len - 3) 0).2 ≤ len →
          (decode w data len resp).1 = true) := by
  have hiff := decodeWithoutTID_false_iff w data len resp (by omega) hlen
  have hiff1 := decodeWithoutTID_false_iff w (data.drop 1) (len - 1) HTTPResponse.zero
    (by omega) (by rw [List.length_drop]; omega)
  simp only [WAPRequest.getD_drop] at hiff1
  refine ⟨hiff.mpr, ?_, ?_, ?_⟩
  · intro h3 h4 ⟨j, hj, hbit⟩ _
    cases hflag : (decodeWithoutTID w data len resp).1 with
    | true => rfl
    | false =>
      rcases hiff.mp hflag with h | h | h
      · omega
      · exact absurd h4 h
      · exact absurd hbit (h j hj)
  · intro h
    rw [decode_flag]
    by_cases h4 : len < 4
    · rw [if_pos h4]
    · rw [if_neg h4]
      apply hiff1.mpr
      rcases h with h | h | h
      · exact absurd h h4
      · exact Or.inr (Or.inl h)
      · refine Or.inr (Or.inr ?_)
        intro j hj
        have := h j (by rw [show len - 3 = len - 1 - 2 by omega]; exact hj)
        rw [show 1 + (2 + j) = 3 + j by omega]
        exact this
  · intro h4 h1 ⟨j, hj, hbit⟩ _
    rw [decode_flag, if_neg (by omega)]
    cases hflag : (decodeWithoutTID w (data.drop 1) (len - 1) HTTPResponse.zero).1 with
    | true => rfl
    | false =>
      rcases hiff1.mp hflag with h | h | h
      · omega
      · exact absurd h1 h
      · have := h j (by rw [show len - 1 - 2 = len - 3 by omega]; exact hj)
        rw [show 1 + (2 + j) = 3 + j by omega] at this
        exact absurd hbit this

/-- Witness of C16 (amended): the Reply PDU `04 20 01 84 48 69`. -/
theorem decodeWithoutTID_failures_witness :
    3 ≤ 6 ∧ [0x04, 0x20, 0x01, 0x84, 72, 105].getD 0 0 = 0x04
      ∧ (decodeWithoutTID 32 [0x04, 0x20, 0x01, 0x84, 72, 105] 6 HTTPResponse.zero).1 = true :=
  ⟨by decide, by decide,
    (decodeWithoutTID_failures 32 [0x04, 0x20, 0x01, 0x84, 72, 105] 6 HTTPResponse.zero
      (by decide) (by decide)).2.1 (by decide) (by decide) ⟨0, by decide, by decide⟩
      (by decide)⟩

/-- C17, counterexample: on the 6-byte PDU `04 20 01 84 48 69` the content type
`decodeWithoutTID` stores is `text/x-hdml`, entry `0x84 - 0x80 = 4` of the
table, not `text/html`, which is entry 2 (byte `0x82`). -/
theorem decodeWithoutTID_example_contentType :
    cstr (decodeWithoutTID 32 [0x04, 0x20, 0x01, 0x84, 72, 105] 6
        HTTPResponse.zero).2.contentType = asciiBytes "text/x-hdml"
      ∧ cstr (decodeWithoutTID 32 [0x04, 0x20, 0x01, 0x84, 72, 105] 6
        HTTPResponse.zero).2.contentType ≠ asciiBytes "text/html"
      ∧ contentTypeTable.getD 4 "" = "text/x-hdml"
      ∧ contentTypeTable.getD 2 "" = "text/html" := by
  decide

/-- C17, amended: `decodeWithoutTID` on the 6-byte PDU `04 20 01 84 48 69`
succeeds with statusCode 200, contentType `text/x-hdml` and a body view equal
to `Hi` of length 2 (with a 32-bit and with a 64-bit `unsigned long`). -/
theorem decodeWithoutTID_example :
    (decodeWithoutTID 32 [0x04, 0x20, 0x01, 0x84, 72, 105] 6 HTTPResponse.zero).1 = true
      ∧ (decodeWithoutTID 32 [0x04, 0x20, 0x01, 0x84, 72, 105] 6
          HTTPResponse.zero).2.statusCode = 200
      ∧ cstr (decodeWithoutTID 32 [0x04, 0x20, 0x01, 0x84, 72, 105] 6
          HTTPResponse.zero).2.contentType = asciiBytes "text/x-hdml"
      ∧ (decodeWithoutTID 32 [0x04, 0x20, 0x01, 0x84, 72, 105] 6
          HTTPResponse.zero).2.body = some (asciiBytes "Hi")
      ∧ (decodeWithoutTID 32 [0x04, 0x20, 0x01, 0x84, 72, 105] 6
          HTTPResponse.zero).2.bodyLen = 2
      ∧ (decodeWithoutTID 64 [0x04, 0x20, 0x01, 0x84, 72, 105] 6 HTTPResponse.zero).1 = true
      ∧ (decodeWithoutTID 64 [0x04, 0x20, 0x01, 0x84, 72, 105] 6
          HTTPResponse.zero).2.statusCode = 200
      ∧ cstr (decodeWithoutTID 64 [0x04, 0x20, 0x01, 0x84, 72, 105] 6
          HTTPResponse.zero).2.contentType = asciiBytes "text/x-hdml"
      ∧ (decodeWithoutTID 64 [0x04, 0x20, 0x01, 0x84, 72, 105] 6
          HTTPResponse.zero).2.body = some (asciiBytes "Hi")
      ∧ (decodeWithoutTID 64 [0x04, 0x20, 0x01, 0x84, 72, 105] 6
          HTTPResponse.zero).2.bodyLen = 2 := by
  decide

/-- C18: for every Reply PDU `[0x04, s] ++ U ++ (c :: H) ++ B` whose header
length field `U` decodes to the length of the header block `c :: H`, with a
first header byte `0x80 ≤ c < 256`, `decodeWithoutTID` succeeds and the content
type it stores is entry `c - 0x80` of the 64-entry table `contentTypeTable`
when `c - 0x80 < 64` and `application/octet-stream` otherwise; the entries 2,
3, 8, `0x1D` and `0x1E` are `text/html`, `text/plain`, `text/vnd.wap.wml`,
`image/gif` and `image/jpeg`. -/
theorem decodeWithoutTID_wellknown_contentType (w s c : Nat) (U H B : List Nat)
    (resp : HTTPResponse) (hc : 0x80 ≤ c) (hc2 : c < 256) (hU0 : U ≠ [])
    (hU : WAPRequest.decodeUintvar w (U ++ (c :: H) ++ B) (U ++ (c :: H) ++ B).length 0
      = (U.length, (c :: H).length))
    (hlen : ([0x04, s] ++ U ++ (c :: H) ++ B).length < 2 ^ w) :
    (decodeWithoutTID w ([0x04, s] ++ U ++ (c :: H) ++ B)
        ([0x04, s] ++ U ++ (c :: H) ++ B).length resp).1 = true
      ∧ cstr (decodeWithoutTID w ([0x04, s] ++ U ++ (c :: H) ++ B)
          ([0x04, s] ++ U ++ (c :: H) ++ B).length resp).2.contentType
        = (if c - 0x80 < 64 then asciiBytes (contentTypeTable.getD (c - 0x80) "")
           else asciiBytes "application/octet-stream")
      ∧ contentTypeTable.length = 64
      ∧ contentTypeTable.getD (0x82 - 0x80) "" = "text/html"
      ∧ contentTypeTable.getD (0x83 - 0x80) "" = "text/plain"
      ∧ contentTypeTable.getD (0x88 - 0x80) "" = "text/vnd.wap.wml"
      ∧ contentTypeTable.getD (0x9D - 0x80) "" = "image/gif"
      ∧ contentTypeTable.getD (0x9E - 0x80) "" = "image/jpeg" := by
  have hd2 : ([0x04, s] ++ U ++ (c :: H) ++ B).drop 2 = U ++ (c :: H) ++ B := by
    simp only [List.append_assoc, List.cons_append, List.nil_append, List.drop_succ_cons,
      List.drop_zero]
  have hl2 : ([0x04, s] ++ U ++ (c :: H) ++ B).length - 2 = (U ++ (c :: H) ++ B).length := by
    simp only [List.length_append, List.length_cons, List.length_nil]
    omega
  have hUpos : U.length ≠ 0 := fun h => hU0 (List.length_eq_zero.mp h)
  have hU2 : WAPRequest.decodeUintvar w (([0x04, s] ++ U ++ (c :: H) ++ B).drop 2)
      (([0x04, s] ++ U ++ (c :: H) ++ B).length - 2) 0 = (U.length, (c :: H).length) := by
    rw [hd2, hl2]
    exact hU
  have hsum : 2 + U.length + (c :: H).length ≤ ([0x04, s] ++ U ++ (c :: H) ++ B).length := by
    simp only [List.length_append, List.length_cons, List.length_nil]
    omega
  refine ⟨?_, ?_, by decide, by decide, by decide, by decide, by decide, by decide⟩
  · rw [decodeWithoutTID_flag, hU2,
      if_neg (by simp only [List.length_append, List.length_cons, List.length_nil]; omega),
      if_neg (by simp), if_neg hUpos]
  · apply decodeWithoutTID_contentType w _ _ resp U.length (c :: H).length
      (fun ct => cstr ct = (if c - 0x80 < 64 then asciiBytes (contentTypeTable.getD (c - 0x80) "")
           else asciiBytes "application/octet-stream"))
      (by simp only [List.length_append, List.length_cons, List.length_nil]; omega)
      (by simp) hU2 hUpos (by simp)
      (by rw [Nat.mod_eq_of_lt (by omega)]; exact hsum)
    intro r2
    have hd : ([0x04, s] ++ U ++ (c :: H) ++ B).drop (2 + U.length) = c :: (H ++ B) := by
      rw [show [0x04, s] ++ U ++ (c :: H) ++ B = ([0x04, s] ++ U) ++ (c :: (H ++ B)) by simp,
        show 2 + U.length = ([0x04, s] ++ U).length by
          simp only [List.length_append, List.length_cons, List.length_nil],
        List.drop_left]
    rw [hd, parseHeaders_short_contentType w c _ _ r2 hc hc2 (by simp)]
    rfl

/-- Witness of C18: the Reply PDU `04 20 01 82 48 69`. -/
theorem decodeWithoutTID_wellknown_contentType_witness :
    0x80 ≤ 0x82 ∧ 0x82 < 256
      ∧ cstr (decodeWithoutTID 32 ([0x04, 0x20] ++ [0x01] ++ (0x82 :: []) ++ [72, 105])
          ([0x04, 0x20] ++ [0x01] ++ (0x82 :: []) ++ [72, 105]).length
          HTTPResponse.zero).2.contentType
        = (if 0x82 - 0x80 < 64 then asciiBytes (contentTypeTable.getD (0x82 - 0x80) "")
           else asciiBytes "application/octet-stream") :=
  ⟨by decide, by decide,
    (decodeWithoutTID_wellknown_contentType 32 0x20 0x82 [0x01] [] [72, 105] HTTPResponse.zero
      (by decide) (by decide) (by decide) (by decide) (by decide)).2.1⟩

/-- C19: for every header block `C ++ E ++ R` (followed in memory by any bytes
`M`) where `C` is a Content-Type entry and `E` is a well-known field other than
Server, Location and Content-Length with a short-integer, length-prefixed or
text value, `parseHeaders` returns true and stores the same response, so the
same contentType, server, location and contentLength, as for `C ++ R`; one round
of the field loop at `E` moves the position by exactly the length of `E` and
stores nothing. -/
theorem parseHeaders_skips_other_fields (w : Nat) (C E R M : List Nat) (r : HTTPResponse)
    (hC : isContentTypeEntry C = true) (hE : isSkippedField E = true) :
    (parseHeaders w (C ++ E ++ R ++ M) (C ++ E ++ R).length r).1 = true
      ∧ (parseHeaders w (C ++ E ++ R ++ M) (C ++ E ++ R).length r).2
        = (parseHeaders w (C ++ R ++ M) (C ++ R).length r).2
      ∧ (∀ (Y : List Nat) (k : Nat) (r1 : HTTPResponse),
          fieldStep w { mem := E ++ Y, left := E.length + k } r1
            = some ({ mem := Y, left := k }, r1))
      ∧ (parseHeaders w (C ++ E ++ R ++ M) (C ++ E ++ R).length r).2.contentType
        = (parseHeaders w (C ++ R ++ M) (C ++ R).length r).2.contentType
      ∧ (parseHeaders w (C ++ E ++ R ++ M) (C ++ E ++ R).length r).2.server
        = (parseHeaders w (C ++ R ++ M) (C ++ R).length r).2.server
      ∧ (parseHeaders w (C ++ E ++ R ++ M) (C ++ E ++ R).length r).2.location
        = (parseHeaders w (C ++ R ++ M) (C ++ R).length r).2.location
      ∧ (parseHeaders w (C ++ E ++ R ++ M) (C ++ E ++ R).length r).2.contentLength
        = (parseHeaders w (C ++ R ++ M) (C ++ R).length r).2.contentLength := by
  have h := parseHeaders_skip w C E R M r hC hE
  refine ⟨parseHeaders_flag _ _ _ _, by rw [h], fun Y k r1 => fieldStep_skip w E Y k r1 hE,
    by rw [h], by rw [h], by rw [h], by rw [h]⟩

/-- Witness of C19: Content-Type `0x94`, a Date field with a 4-byte value, then
Server `Kannel`. -/
theorem parseHeaders_skips_other_fields_witness :
    isContentTypeEntry [0x94] = true ∧ isSkippedField [0x92, 0x04, 1, 2, 3, 4] = true
      ∧ (parseHeaders 32 ([0x94] ++ [0x92, 0x04, 1, 2, 3, 4]
            ++ ([0xA6] ++ asciiBytes "Kannel" ++ [0]) ++ [])
          ([0x94] ++ [0x92, 0x04, 1, 2, 3, 4]
            ++ ([0xA6] ++ asciiBytes "Kannel" ++ [0])).length HTTPResponse.zero).2
        = (parseHeaders 32 ([0x94] ++ ([0xA6] ++ asciiBytes "Kannel" ++ [0]) ++ [])
          ([0x94] ++ ([0xA6] ++ asciiBytes "Kannel" ++ [0])).length HTTPResponse.zero).2 :=
  ⟨by decide, by decide,
    (parseHeaders_skips_other_fields 32 [0x94] [0x92, 0x04, 1, 2, 3, 4]
      ([0xA6] ++ asciiBytes "Kannel" ++ [0]) [] HTTPResponse.zero (by decide) (by decide)).2.1⟩

end WAPResponse

namespace WMLCDecompiler

/-- C20, counterexample: on the 12 bytes `01 04 00 00 67 60 03 'h' 'i' 00 01 01`
with an output buffer of 256 bytes `decompile` returns 139 and the text behind
the XML declaration and the WML 1.1 DOCTYPE line is `<card><p>hi</p></card>`,
not `<wml><p>hi</p></wml>`: the token `0x67` is `0x27` (`card`) with the content
bit, while `wml` is `0x3F`, with the content bit `0x7F`. -/
theorem decompile_example_is_card :
    decompile 32 exampleDocument 12 (List.replicate 256 0) 256 12 0
        = some (139, xmlDeclaration ++ (doctype 0x04).getD []
            ++ asciiBytes "<card><p>hi</p></card>" ++ 0 :: (List.replicate 256 0).drop 140)
      ∧ asciiBytes "<card><p>hi</p></card>" ≠ asciiBytes "<wml><p>hi</p></wml>"
      ∧ getElementName (0x67 &&& 0x3F) = some (asciiBytes "card")
      ∧ getElementName (0x7F &&& 0x3F) = some (asciiBytes "wml") :=
  ⟨decompile_exampleDocument 32 (List.replicate 256 0) 256 12 0 (by decide)
      (by rw [List.length_replicate]) (by decide),
    by decide, by decide, by decide⟩

/-- C20, amended: on the 12 bytes `01 04 00 00 67 60 03 'h' 'i' 00 01 01`, with
any output buffer of at least 140 bytes and fuel for the 5 tokens of the body,
`decompile` returns 139 and stores the XML declaration, the WML 1.1 DOCTYPE
line, then exactly `<card><p>hi</p></card>` and a terminator; the bytes behind
keep their value. -/
theorem decompile_example (w : Nat) (output : List Nat) (outputSize fuel publicId0 : Nat)
    (hsize : 140 ≤ outputSize) (hlen : outputSize ≤ output.length) (hfuel : 5 ≤ fuel) :
    decompile w exampleDocument 12 output outputSize fuel publicId0
        = some (139, xmlDeclaration ++ (doctype 0x04).getD []
            ++ asciiBytes "<card><p>hi</p></card>" ++ 0 :: output.drop 140)
      ∧ exampleDocument = [0x01, 0x04, 0x00, 0x00, 0x67, 0x60, 0x03, 104, 105, 0x00, 0x01, 0x01]
      ∧ xmlDeclaration = asciiBytes "<?xml version=\"1.0\"?>\n"
      ∧ (doctype 0x04).getD [] = asciiBytes
          "<!DOCTYPE wml PUBLIC \"-//WAPFORUM//DTD WML 1.1//EN\" \"http://www.wapforum.org/DTD/wml_1.1.xml\">\n" :=
  ⟨decompile_exampleDocument w output outputSize fuel publicId0 hsize hlen hfuel, rfl, rfl, rfl⟩

/-- Witness of C20 (amended): a buffer of 256 bytes and a 32-bit `unsigned long`. -/
theorem decompile_example_witness :
    140 ≤ 256 ∧ 256 ≤ (List.replicate 256 7).length ∧ 5 ≤ 12
      ∧ decompile 32 exampleDocument 12 (List.replicate 256 7) 256 12 0
        = some (139, xmlDeclaration ++ (doctype 0x04).getD []
            ++ asciiBytes "<card><p>hi</p></card>" ++ 0 :: (List.replicate 256 7).drop 140) :=
  ⟨by decide, by rw [List.length_replicate], by decide,
    (decompile_example 32 (List.replicate 256 7) 256 12 0 (by decide)
      (by rw [List.length_replicate]) (by decide)).1⟩

/-- C21: with `outputSize ≥ 118` and a buffer of at least `outputSize` bytes,
whenever `decompile` returns a length `n ≠ 0` the output begins with the XML
declaration followed by the line for the public identifier: the WML 1.1, 1.2 or
1.3 DOCTYPE line for `0x04`, `0x09` or `0x0A`, and nothing for any other
identifier, the rest of the text being what `decompileBody` writes for the body.
The identifier is the varint behind the version byte, and when that is `0` there
is a second varint behind it, which is consumed and gives the identifier; the
charset and the length of the string table are read behind it. -/
theorem decompile_doctype (w : Nat) (wmlc : List Nat) (wmlcLen : Nat) (output : List Nat)
    (outputSize fuel publicId0 : Nat) (n : Nat) (out : List Nat)
    (hsize : 118 ≤ outputSize) (hlen : outputSize ≤ output.length)
    (h : decompile w wmlc wmlcLen output outputSize fuel publicId0 = some (n, out))
    (hn : n ≠ 0) :
    let raw := decodeMbUint w (wmlc.drop 1) (wmlcLen - 1) publicId0
    let sec := decodeMbUint w (wmlc.drop (1 + raw.1)) (wmlcLen - (1 + raw.1)) 0
    let publicId := if raw.2 = 0 then sec.2 else raw.2
    let p2 := if raw.2 = 0 then 1 + raw.1 + sec.1 else 1 + raw.1
    let cs := decodeMbUint w (wmlc.drop p2) (wmlcLen - p2) 0
    let tl := decodeMbUint w (wmlc.drop (p2 + cs.1)) (wmlcLen - (p2 + cs.1)) 0
    let pos := if tl.2 > 0 then (p2 + cs.1 + tl.1 + tl.2) % 2 ^ w else p2 + cs.1 + tl.1
    let st := if tl.2 > 0 then some (wmlc.drop (p2 + cs.1 + tl.1)) else none
    let line :=
      if publicId = 0x04 then asciiBytes
        "<!DOCTYPE wml PUBLIC \"-//WAPFORUM//DTD WML 1.1//EN\" \"http://www.wapforum.org/DTD/wml_1.1.xml\">\n"
      else if publicId = 0x09 then asciiBytes
        "<!DOCTYPE wml PUBLIC \"-//WAPFORUM//DTD WML 1.2//EN\" \"http://www.wapforum.org/DTD/wml12.dtd\">\n"
      else if publicId = 0x0A then asciiBytes
        "<!DOCTYPE wml PUBLIC \"-//WAPFORUM//DTD WML 1.3//EN\" \"http://www.wapforum.org/DTD/wml13.dtd\">\n"
      else []
    let t := asciiBytes "<?xml version=\"1.0\"?>\n" ++ line
    (raw.2 = 0 → 1 + raw.1 < wmlcLen ∧ 0 < sec.1)
      ∧ t.length ≤ n ∧ out.take t.length = t
      ∧ (pos < wmlcLen →
          ∃ m bout, decompileBody w (wmlc.drop pos) (wmlcLen - pos) st tl.2
              (output.drop t.length) (outputSize - t.length) fuel = some (m, bout)
            ∧ n = t.length + m ∧ out.take n = t ++ bout.take m)
      ∧ (¬ pos < wmlcLen → n = t.length) := by
  intro raw sec publicId p2 cs tl pos st line t
  have hline : (doctype publicId).getD [] = line := by
    unfold doctype
    show _ = (if publicId = 0x04 then _ else if publicId = 0x09 then _
      else if publicId = 0x0A then _ else [])
    split_ifs <;> rfl
  have ht : xmlDeclaration ++ (doctype publicId).getD [] = t := by rw [hline]; rfl
  have hsome : ∀ pid pos1 st1 stLen1,
      readHeader w wmlc wmlcLen publicId0 = some (pid, pos1, st1, stLen1) →
      (raw.2 = 0 → 1 + raw.1 < wmlcLen ∧ 0 < sec.1) ∧ pid = publicId ∧ stLen1 = tl.2
        ∧ pos1 = pos ∧ st1 = st := by
    intro pid pos1 st1 stLen1 hh
    obtain ⟨r1, r2, r3, r4, r5, r6, r7, r8⟩ := readHeader_some w wmlc wmlcLen publicId0 pid
      pos1 st1 stLen1 hh raw sec cs tl p2 rfl rfl rfl rfl rfl
    exact ⟨r2, r3, r6, r7, r8⟩
  clear_value t line st pos tl cs p2 publicId sec raw
  have hl4 : ¬ (wmlcLen < 4 ∨ outputSize < 100) := by
    intro hg
    rw [decompile_eq, if_pos hg] at h
    simp only [Option.some.injEq, Prod.mk.injEq] at h
    exact hn h.1.symm
  cases hh : readHeader w wmlc wmlcLen publicId0 with
  | none =>
    rw [decompile_eq, if_neg hl4, hh] at h
    simp only [Option.some.injEq, Prod.mk.injEq] at h
    exact absurd h.1.symm hn
  | some r =>
    obtain ⟨pid, pos1, st1, stLen1⟩ := r
    obtain ⟨r2, e3, e6, e7, e8⟩ := hsome pid pos1 st1 stLen1 hh
    subst e3 e6 e7 e8
    have hlt : t.length = 22 + ((doctype pid).getD []).length := by
      rw [← ht, List.length_append]; rfl
    have hroom : 22 + ((doctype pid).getD []).length < outputSize := by
      have := (doctype_getD pid).2
      omega
    have hk := kept_prolog outputSize output pid hlen hroom
    obtain ⟨a, ka, e1, e2⟩ := decompile_kept w wmlc wmlcLen output outputSize fuel publicId0
      (by omega) (by omega) hlen pid pos1 st1 tl.2 hh _ hk n out h
    obtain ⟨t1, t2, t3, t4, t5, t6⟩ := kept_terminated outputSize output.length output _ a hlen ka
    rw [ht] at t5 t6
    refine ⟨r2, by rw [e1]; exact t5, by rw [e2]; exact t6, ?_, ?_⟩
    · intro hp
      rw [decompile_eq, if_neg hl4, hh] at h
      dsimp only at h
      rw [header_text outputSize output pid hlen hroom, ht, ← hlt, if_pos hp] at h
      simp only [List.drop_left, List.take_left] at h
      cases hb : decompileBody w (wmlc.drop pos1) (wmlcLen - pos1) st1 tl.2
          (output.drop t.length) (outputSize - t.length) fuel with
      | none => rw [hb] at h; exact absurd h (by simp)
      | some r =>
        rw [hb] at h
        obtain ⟨b, kb, eb⟩ := decompileBody_kept w (outputSize - t.length) (wmlc.drop pos1)
          (wmlcLen - pos1) st1 tl.2 fuel (output.drop t.length) (by omega) (by omega)
          (by rw [List.length_drop]; omega) r hb
        simp only [Option.some.injEq, Prod.mk.injEq] at h
        obtain ⟨h1, h2⟩ := h
        have hb1 := kb.1
        rw [terminate_lt outputSize _ (by simp only; rw [eb]; simp only; omega)] at h2
        refine ⟨r.1, r.2, rfl, h1.symm, ?_⟩
        rw [← h2, ← h1]
        simp only
        rw [take_set_of_le _ _ _ _ (Nat.le_refl _), List.take_append]
    · intro hp
      rw [decompile_eq, if_neg hl4, hh] at h
      dsimp only at h
      rw [header_text outputSize output pid hlen hroom, if_neg hp] at h
      simp only [Option.some.injEq, Prod.mk.injEq] at h
      rw [hlt]
      exact h.1.symm

/-- Witness of C21: the example document, whose public identifier is `0x04`, in
a buffer of 256 bytes. -/
theorem decompile_doctype_witness :
    118 ≤ 256 ∧ 256 ≤ (List.replicate 256 0).length
      ∧ decompile 32 exampleDocument 12 (List.replicate 256 0) 256 12 0
        = some (139, xmlDeclaration ++ (doctype 0x04).getD []
            ++ asciiBytes "<card><p>hi</p></card>" ++ 0 :: (List.replicate 256 0).drop 140)
      ∧ 139 ≠ 0
      ∧ (asciiBytes "<?xml version=\"1.0\"?>\n" ++ asciiBytes
          "<!DOCTYPE wml PUBLIC \"-//WAPFORUM//DTD WML 1.1//EN\" \"http://www.wapforum.org/DTD/wml_1.1.xml\">\n").length
        ≤ 139 :=
  ⟨by decide, by rw [List.length_replicate],
    decompile_exampleDocument 32 (List.replicate 256 0) 256 12 0 (by decide)
      (by rw [List.length_replicate]) (by decide),
    by decide,
    (decompile_doctype 32 exampleDocument 12 (List.replicate 256 0) 256 12 0 139 _ (by decide)
      (by rw [List.length_replicate])
      (decompile_exampleDocument 32 (List.replicate 256 0) 256 12 0 (by decide)
        (by rw [List.length_replicate]) (by decide)) (by decide)).2.1⟩

/-- C22: with `outputSize ≥ 100` and a buffer of at least `outputSize` bytes,
every result `(n, out)` of `decompile` has `n < outputSize` and `out[n] = 0`, the
memory keeps its length and its bytes from `outputSize` on, and `n = 0` exactly
when the input has fewer than 4 bytes or its header is rejected, whatever the
capacity; whether the run returns with the given fuel does not depend on the
buffer and its capacity either, and it does return, with fuel for one round per
input byte, when no length of `OPAQUE` data carries the position past
`2 ^ ulongBits`. -/
theorem decompile_within_capacity (w : Nat) (wmlc : List Nat) (wmlcLen : Nat)
    (output : List Nat) (outputSize fuel publicId0 : Nat)
    (hsize : 100 ≤ outputSize) (hlen : outputSize ≤ output.length) :
    (∀ n out, decompile w wmlc wmlcLen output outputSize fuel publicId0 = some (n, out) →
        n < outputSize ∧ out.getD n 0 = 0 ∧ out.length = output.length
          ∧ out.drop outputSize = output.drop outputSize
          ∧ (n = 0 ↔ wmlcLen < 4 ∨ readHeader w wmlc wmlcLen publicId0 = none))
      ∧ (∀ output2 outputSize2, 100 ≤ outputSize2 → outputSize2 ≤ output2.length →
          (decompile w wmlc wmlcLen output outputSize fuel publicId0).isSome
            = (decompile w wmlc wmlcLen output2 outputSize2 fuel publicId0).isSome)
      ∧ ((∀ i, i < wmlcLen → wmlc.getD i 0 = WBXML_OPAQUE →
            i + 1 + (decodeMbUint w (wmlc.drop (i + 1)) (wmlcLen - (i + 1)) 0).1
              + (decodeMbUint w (wmlc.drop (i + 1)) (wmlcLen - (i + 1)) 0).2 < 2 ^ w) →
          wmlcLen ≤ fuel →
          (decompile w wmlc wmlcLen output outputSize fuel publicId0).isSome = true) := by
  have hrej : ∀ n out, some (0, output.set 0 0) = some (n, out) →
      n < outputSize ∧ out.getD n 0 = 0 ∧ out.length = output.length
        ∧ out.drop outputSize = output.drop outputSize ∧ n = 0 := by
    intro n out h
    simp only [Option.some.injEq, Prod.mk.injEq] at h
    obtain ⟨h1, h2⟩ := h
    subst h1 h2
    refine ⟨by omega, ?_, List.length_set _ _ _, List.drop_set_of_lt _ _ (by omega), rfl⟩
    rw [List.getD_eq_getElem?_getD, List.getElem?_set_self (by omega)]
    rfl
  refine ⟨?_, ?_, ?_⟩
  · intro n out h
    by_cases hl4 : wmlcLen < 4
    · rw [decompile_eq, if_pos (Or.inl hl4), if_pos (by omega)] at h
      obtain ⟨h1, h2, h3, h4, h5⟩ := hrej n out h
      exact ⟨h1, h2, h3, h4, fun _ => Or.inl hl4, fun _ => h5⟩
    · cases hh : readHeader w wmlc wmlcLen publicId0 with
      | none =>
        rw [decompile_eq, if_neg (by omega), hh] at h
        obtain ⟨h1, h2, h3, h4, h5⟩ := hrej n out h
        exact ⟨h1, h2, h3, h4, fun _ => Or.inr rfl, fun _ => h5⟩
      | some r =>
        obtain ⟨pid, pos, st, stLen⟩ := r
        obtain ⟨a, ka, e1, e2⟩ := decompile_kept w wmlc wmlcLen output outputSize fuel
          publicId0 (by omega) hsize hlen pid pos st stLen hh xmlDeclaration
          (kept_header_xml outputSize output pid hsize hlen) n out h
        obtain ⟨t1, t2, t3, t4, t5, _⟩ :=
          kept_terminated outputSize output.length output xmlDeclaration a hlen ka
        rw [e1, e2]
        refine ⟨t1, t2, t3, t4, ?_, ?_⟩
        · intro h0
          have : xmlDeclaration.length = 22 := rfl
          omega
        · rintro (h0 | h0)
          · omega
          · exact absurd h0 (by simp)
  · intro output2 outputSize2 hsize2 hlen2
    rw [decompile_isSome w wmlc wmlcLen output outputSize fuel publicId0 hsize hlen,
      decompile_isSome w wmlc wmlcLen output2 outputSize2 fuel publicId0 hsize2 hlen2]
  · intro hfit hfuel
    rw [decompile_isSome w wmlc wmlcLen output outputSize fuel publicId0 hsize hlen]
    cases readHeader w wmlc wmlcLen publicId0 with
    | none => rfl
    | some r =>
      obtain ⟨pid, pos, st, stLen⟩ := r
      simp only
      split_ifs with hp
      · obtain ⟨s, hs⟩ := tokenLoop_returns w 0 (wmlc.drop pos) (wmlcLen - pos) st stLen
          (by
            intro i hi htok
            rw [WAPRequest.getD_drop] at htok
            rw [List.drop_drop]
            have h := hfit (pos + i) (by omega) htok
            rw [show wmlcLen - pos - (i + 1) = wmlcLen - (pos + i + 1) by omega,
              show pos + (i + 1) = pos + i + 1 by omega]
            omega)
          fuel 0 { outPos := 0, output := [] } [] (by omega)
        rw [hs]
        rfl
      · rfl

/-- Witness of C22: the example document in a buffer of 100 bytes. -/
theorem decompile_within_capacity_witness :
    100 ≤ 100 ∧ 100 ≤ (List.replicate 100 7).length
      ∧ (decompile 32 exampleDocument 12 (List.replicate 100 7) 100 12 0).isSome = true :=
  ⟨by decide, by rw [List.length_replicate],
    (decompile_within_capacity 32 exampleDocument 12 (List.replicate 100 7) 100 12 0 (by decide)
      (by rw [List.length_replicate])).2.2 (by decide) (by decide)⟩

/-- C23, counterexample: for the example document the text produced with
capacity 100 is the XML declaration and `<card><p>hi</p></card>`, the text
produced with capacity 120 ends with the DOCTYPE line and `<>`, and neither is a
prefix of the text produced with capacity 256, which has the DOCTYPE line and
then `<card><p>hi</p></card>`: an append that does not fit is dropped whole and
the shorter appends behind it are still written. -/
theorem decompile_truncation_not_prefix :
    ∃ n1 o1 n2 o2 n3 o3,
      decompile 32 exampleDocument 12 (List.replicate 100 0) 100 12 0 = some (n1, o1)
        ∧ decompile 32 exampleDocument 12 (List.replicate 120 0) 120 12 0 = some (n2, o2)
        ∧ decompile 32 exampleDocument 12 (List.replicate 256 0) 256 12 0 = some (n3, o3)
        ∧ o1.take n1 = xmlDeclaration ++ asciiBytes "<card><p>hi</p></card>"
        ∧ o2.take n2 = xmlDeclaration ++ (doctype 0x04).getD [] ++ asciiBytes "<>"
        ∧ o3.take n3 = xmlDeclaration ++ (doctype 0x04).getD []
            ++ asciiBytes "<card><p>hi</p></card>"
        ∧ ¬ o1.take n1 <+: o3.take n3 ∧ ¬ o2.take n2 <+: o3.take n3 :=
  ⟨_, _, _, _, _, _, decompile_exampleDocument_100, decompile_exampleDocument_120,
    decompile_exampleDocument 32 (List.replicate 256 0) 256 12 0 (by decide)
      (by rw [List.length_replicate]) (by decide),
    by decide, by decide, by decide, exampleDocument_not_prefix.1, exampleDocument_not_prefix.2⟩

/-- C23, amended: for capacities `100 ≤ N ≤ M` and two runs of `decompile` on the
same input that both return, the text produced with capacity `N` is not longer
than the text produced with capacity `M`, and it is the same text when the text
produced with capacity `M` is shorter than `N`. -/
theorem decompile_truncation (w : Nat) (wmlc : List Nat) (wmlcLen : Nat)
    (out1 out2 : List Nat) (N M fuel publicId0 : Nat) (n1 n2 : Nat) (o1 o2 : List Nat)
    (hN : 100 ≤ N) (hNM : N ≤ M) (hl1 : N ≤ out1.length) (hl2 : M ≤ out2.length)
    (h1 : decompile w wmlc wmlcLen out1 N fuel publicId0 = some (n1, o1))
    (h2 : decompile w wmlc wmlcLen out2 M fuel publicId0 = some (n2, o2)) :
    n1 ≤ n2 ∧ (n2 < N → n1 = n2 ∧ o1.take n1 = o2.take n2) := by
  have hrej : some (0, out1.set 0 0) = some (n1, o1) → some (0, out2.set 0 0) = some (n2, o2) →
      n1 ≤ n2 ∧ (n2 < N → n1 = n2 ∧ o1.take n1 = o2.take n2) := by
    intro e1 e2
    simp only [Option.some.injEq, Prod.mk.injEq] at e1 e2
    rw [← e1.1, ← e2.1]
    exact ⟨Nat.le_refl 0, fun _ => ⟨rfl, rfl⟩⟩
  have hfin : ∀ a1 a2 : Out, Trunc N M out1.length out2.length a1 a2 →
      some (a1.outPos, terminate N a1) = some (n1, o1) →
      some (a2.outPos, terminate M a2) = some (n2, o2) →
      n1 ≤ n2 ∧ (n2 < N → n1 = n2 ∧ o1.take n1 = o2.take n2) := by
    intro a1 a2 ht e1 e2
    obtain ⟨t1, t2, t3, t4, t5⟩ := ht
    rw [terminate_lt N a1 t1] at e1
    rw [terminate_lt M a2 t3] at e2
    simp only [Option.some.injEq, Prod.mk.injEq] at e1 e2
    rw [← e1.1, ← e2.1, ← e1.2, ← e2.2, take_set_of_le _ _ _ _ (Nat.le_refl _),
      take_set_of_le _ _ _ _ (Nat.le_refl _)]
    rcases t5 with ⟨t5, t6⟩ | t5
    · exact ⟨by omega, fun _ => ⟨t5, t6⟩⟩
    · exact ⟨by omega, fun h => by omega⟩
  by_cases hl4 : wmlcLen < 4
  · rw [decompile_eq, if_pos (Or.inl hl4), if_pos (by omega)] at h1 h2
    exact hrej h1 h2
  · cases hh : readHeader w wmlc wmlcLen publicId0 with
    | none =>
      rw [decompile_eq, if_neg (by omega), hh] at h1 h2
      exact hrej h1 h2
    | some r =>
      obtain ⟨pid, pos, st, stLen⟩ := r
      rw [decompile_flat w wmlc wmlcLen out1 N fuel publicId0 (by omega) hN hl1 pid pos st stLen
        hh] at h1
      rw [decompile_flat w wmlc wmlcLen out2 M fuel publicId0 (by omega) (by omega) hl2 pid pos
        st stLen hh] at h2
      have ht := trunc_header N M out1 out2 (by omega) hNM hl1 hl2 pid
      have hS := appendStr_trunc N M out1.length out2.length hNM hl1 hl2
      have hC := appendChar_trunc N M out1.length out2.length hNM hl1 hl2
      by_cases hp : pos < wmlcLen
      · rw [if_pos hp] at h1 h2
        rcases tokenLoop_rel w N M (Trunc N M out1.length out2.length) hS hC (wmlc.drop pos)
            (wmlcLen - pos) st stLen fuel 0 _ _ [] ht with ⟨e1, e2⟩ | ⟨q, a1, a2, j, e1, e2, hR⟩
        · rw [e1] at h1
          exact absurd h1 (by simp)
        · rw [e1] at h1
          rw [e2] at h2
          exact hfin _ _ (closeAll_rel N M _ hS hC j a1 a2 hR) h1 h2
      · rw [if_neg hp] at h1 h2
        exact hfin _ _ ht h1 h2

/-- Witness of C23 (amended): the example document with the capacities 140 and
256. -/
theorem decompile_truncation_witness :
    100 ≤ 140 ∧ 140 ≤ 256 ∧ 140 ≤ (List.replicate 140 0).length
      ∧ 256 ≤ (List.replicate 256 0).length
      ∧ decompile 32 exampleDocument 12 (List.replicate 140 0) 140 12 0
        = some (139, xmlDeclaration ++ (doctype 0x04).getD []
            ++ asciiBytes "<card><p>hi</p></card>" ++ 0 :: (List.replicate 140 0).drop 140)
      ∧ decompile 32 exampleDocument 12 (List.replicate 256 0) 256 12 0
        = some (139, xmlDeclaration ++ (doctype 0x04).getD []
            ++ asciiBytes "<card><p>hi</p></card>" ++ 0 :: (List.replicate 256 0).drop 140)
      ∧ 139 ≤ 139 :=
  ⟨by decide, by decide, by rw [List.length_replicate], by rw [List.length_replicate],
    decompile_exampleDocument 32 (List.replicate 140 0) 140 12 0 (by decide)
      (by rw [List.length_replicate]) (by decide),
    decompile_exampleDocument 32 (List.replicate 256 0) 256 12 0 (by decide)
      (by rw [List.length_replicate]) (by decide),
    (decompile_truncation 32 exampleDocument 12 (List.replicate 140 0) (List.replicate 256 0)
      140 256 12 0 139 139 _ _ (by decide) (by decide) (by rw [List.length_replicate])
      (by rw [List.length_replicate])
      (decompile_exampleDocument 32 (List.replicate 140 0) 140 12 0 (by decide)
        (by rw [List.length_replicate]) (by decide))
      (decompile_exampleDocument 32 (List.replicate 256 0) 256 12 0 (by decide)
        (by rw [List.length_replicate]) (by decide))).1⟩

/-- C24: after any number of rounds of the token loop of `decompileBody`, from
its start with the empty stack, the stack has at most 32 entries.  A round
entered at depth 32 leaves the stack as it is or pops it; for a recognized
element token with the content flag the push is dropped at depth 32 and done
below it.  The token `END` at depth 0 moves the position by one and changes
neither the output nor the stack. -/
theorem elementStack_depth (w N : Nat) (data : List Nat) (len : Nat) (st : Option (List Nat))
    (stLen : Nat) :
    (∀ (output : List Nat) (n : Nat),
        ((tokenStep w N data len st stLen)^[n]
          { pos := 0, out := { outPos := 0, output := output }, elementStack := [] }
          ).elementStack.length ≤ 32)
      ∧ (∀ (p : Nat) (o : Out) (k : List (List Nat)), k.length = 32 →
          (tokenStep w N data len st stLen { pos := p, out := o, elementStack := k }).elementStack
              = k
            ∨ (tokenStep w N data len st stLen
                { pos := p, out := o, elementStack := k }).elementStack = k.tail)
      ∧ (∀ (p : Nat) (o : Out) (k : List (List Nat)) (token : Nat) (elemName : List Nat),
          data.getD p 0 = token → 0x05 ≤ token &&& 0x3F →
          getElementName (token &&& 0x3F) = some elemName → token &&& TAG_HAS_CONTENT ≠ 0 →
          (k.length = 32 →
            (tokenStep w N data len st stLen
              { pos := p, out := o, elementStack := k }).elementStack = k)
          ∧ (k.length < 32 →
            (tokenStep w N data len st stLen
              { pos := p, out := o, elementStack := k }).elementStack = elemName :: k))
      ∧ (∀ (p : Nat) (o : Out), data.getD p 0 = WBXML_END →
          tokenStep w N data len st stLen { pos := p, out := o, elementStack := [] }
            = { pos := p + 1, out := o, elementStack := [] }) := by
  refine ⟨fun output n => iterate_depth w N data len st stLen
    { pos := 0, out := { outPos := 0, output := output }, elementStack := [] }
    (Nat.zero_le 32) n, ?_, ?_, ?_⟩
  · intro p o k hk
    rcases (tokenStep_shape w N data len st stLen p o k).1 with e | e | ⟨x, e⟩
    · exact Or.inl e
    · exact Or.inr e
    · left
      rw [e, push, if_neg (by omega)]
  · intro p o k token elemName htok hbase hname hcontent
    have hg := not_global_base token hbase
    rw [tokenStep_application w N data len st stLen p o k token htok hg.1 hg.2, hname]
    simp only [openElement, hcontent, ne_eq, not_false_eq_true, decide_True, if_true, push]
    constructor
    · intro hk; rw [if_neg (by omega)]
    · intro hk; rw [if_pos hk]
  · intro p o htok
    exact tokenStep_end_empty w N data len st stLen p o htok

/-- Witness of C24: the token `0x67` (`card` with the content flag) at depth 32
and the token `END` at depth 0. -/
theorem elementStack_depth_witness :
    (tokenStep 32 100 [0x67, 0x01] 2 none 0
        { pos := 0, out := { outPos := 0, output := List.replicate 100 0 }
          elementStack := List.replicate 32 (asciiBytes "p") }).elementStack
        = List.replicate 32 (asciiBytes "p")
      ∧ tokenStep 32 100 [0x67, 0x01] 2 none 0
          { pos := 1, out := { outPos := 0, output := List.replicate 100 0 }, elementStack := [] }
        = { pos := 2, out := { outPos := 0, output := List.replicate 100 0 }, elementStack := [] } :=
  ⟨((elementStack_depth 32 100 [0x67, 0x01] 2 none 0).2.2.1 0 _ _ 0x67 (asciiBytes "card") rfl
      (by decide) (by decide) (by decide)).1 (by rw [List.length_replicate]),
    (elementStack_depth 32 100 [0x67, 0x01] 2 none 0).2.2.2 1 _ rfl⟩

/-- C25: a token `t ≥ 0x05` that is none of the global tokens and whose base
token is not in the element table moves the position by one and changes neither
the output nor the stack.  Still the body `t ++ r` need not give the output of
`r`: with 32-bit positions and `r = C3 8F FF FF FF 79`, `OPAQUE` data of
`2 ^ 32 - 7` bytes, `decompileBody` on `r` leaves the loop at position
`2 ^ 32 - 1` and returns the empty text, while on `05 ++ r` the position wraps
to 0 and the loop is not left with any fuel. -/
theorem decompileBody_unknown_token :
    (∀ (w N : Nat) (data : List Nat) (len : Nat) (st : Option (List Nat)) (stLen p : Nat)
        (o : Out) (k : List (List Nat)) (t : Nat),
        data.getD p 0 = t → 0x05 ≤ t →
        t ∉ [0x00, 0x01, 0x02, 0x03, 0x83, 0x40, 0x41, 0x42, 0x80, 0x81, 0x82, 0xC3, 0x43, 0x04,
          0x84, 0x44, 0xC4] →
        getElementName (t &&& 0x3F) = none →
        tokenStep w N data len st stLen { pos := p, out := o, elementStack := k }
          = { pos := p + 1, out := o, elementStack := k })
      ∧ getElementName (0x05 &&& 0x3F) = none
      ∧ (∀ (fuel : Nat) (output : List Nat),
          decompileBody 32 [0xC3, 0x8F, 0xFF, 0xFF, 0xFF, 0x79] 6 none 0 output 100 (fuel + 1)
            = some (0, output.set 0 0))
      ∧ (∀ (fuel : Nat) (output : List Nat),
          decompileBody 32 (0x05 :: [0xC3, 0x8F, 0xFF, 0xFF, 0xFF, 0x79]) 7 none 0 output 100 fuel
            = none) := by
  refine ⟨?_, by decide, ?_, ?_⟩
  · intro w N data len st stLen p o k t htok h5 hg hname
    rw [tokenStep_application w N data len st stLen p o k t htok hg h5, hname]
  · intro fuel output
    rw [decompileBody, if_neg (by decide), tokenLoop_opaque_only]
    rfl
  · intro fuel output
    rw [decompileBody, if_neg (by decide), (tokenLoop_wraps 100 _ fuel).1]

/-- Witness of C25: the token `0x05` in front of an `END`. -/
theorem decompileBody_unknown_token_witness :
    tokenStep 32 100 [0x05, 0x01] 2 none 0
        { pos := 0, out := { outPos := 0, output := List.replicate 100 0 }, elementStack := [] }
      = { pos := 1, out := { outPos := 0, output := List.replicate 100 0 }, elementStack := [] } :=
  decompileBody_unknown_token.1 32 100 [0x05, 0x01] 2 none 0 0 _ [] 0x05 rfl (by decide)
    (by decide) (by decide)

/-- C26: for a recognized element token `tok` with the attribute flag, an
attribute start token `a` with the name `n` and the value prefix `p` (or none),
and a string `s` without `0`, on the body `tok a STR_I s 00 END` with room in the
output the round of the token loop for `tok` uses up the whole body and writes
`<elem n="ps"`, followed by `>` with the element pushed when `tok` has the
content flag and by `/>` with nothing pushed when it has not; `decompileBody`
returns this text, with the closing tag `</elem>` of the pushed element behind
it, and a terminator. -/
theorem decompileBody_attribute (w N : Nat) (st : Option (List Nat)) (stLen : Nat)
    (output : List Nat) (fuel : Nat) (tok a : Nat) (s elem n : List Nat)
    (pre : Option (List Nat))
    (helem : getElementName (tok &&& 0x3F) = some elem) (hattrs : tok &&& TAG_HAS_ATTRS ≠ 0)
    (hattr : getAttributeName a = some (n, pre)) (hs : ∀ c ∈ s, c ≠ 0)
    (hN : N ≤ output.length)
    (hroom : 1 + elem.length + 1 + n.length + 2 + (pre.getD []).length + s.length + 1 + 1
      + 2 + elem.length + 1 < N)
    (hfuel : 1 ≤ fuel) :
    let data := [tok, a, WBXML_STR_I] ++ s ++ [0, WBXML_END]
    let tag := asciiBytes "<" ++ elem ++ asciiBytes " " ++ n ++ asciiBytes "=\"" ++ pre.getD []
      ++ s ++ asciiBytes "\""
    (tok &&& TAG_HAS_CONTENT ≠ 0 →
        tokenStep w N data data.length st stLen
            { pos := 0, out := { outPos := 0, output := output }, elementStack := [] }
          = { pos := data.length
              out := { outPos := (tag ++ asciiBytes ">").length
                       output := tag ++ asciiBytes ">"
                         ++ output.drop (tag ++ asciiBytes ">").length }
              elementStack := [elem] }
        ∧ decompileBody w data data.length st stLen output N fuel
          = some ((tag ++ asciiBytes ">" ++ asciiBytes "</" ++ elem ++ asciiBytes ">").length,
              tag ++ asciiBytes ">" ++ asciiBytes "</" ++ elem ++ asciiBytes ">"
                ++ 0 :: output.drop
                  ((tag ++ asciiBytes ">" ++ asciiBytes "</" ++ elem ++ asciiBytes ">").length + 1)))
      ∧ (tok &&& TAG_HAS_CONTENT = 0 →
        tokenStep w N data data.length st stLen
            { pos := 0, out := { outPos := 0, output := output }, elementStack := [] }
          = { pos := data.length
              out := { outPos := (tag ++ asciiBytes "/>").length
                       output := tag ++ asciiBytes "/>"
                         ++ output.drop (tag ++ asciiBytes "/>").length }
              elementStack := [] }
        ∧ decompileBody w data data.length st stLen output N fuel
          = some ((tag ++ asciiBytes "/>").length,
              tag ++ asciiBytes "/>" ++ 0 :: output.drop ((tag ++ asciiBytes "/>").length + 1))) := by
  intro data tag
  exact attribute_run w N st stLen output fuel tok a s elem n pre helem hattrs hattr hs hN hroom
    hfuel data tag rfl rfl

/-- Witness of C26: the body `E7 36 03 'x' 00 01`, the element `card` with both
flags and the attribute `title`. -/
theorem decompileBody_attribute_witness :
    getElementName (0xE7 &&& 0x3F) = some (asciiBytes "card") ∧ 0xE7 &&& TAG_HAS_ATTRS ≠ 0
      ∧ getAttributeName 0x36 = some (asciiBytes "title", none) ∧ 0xE7 &&& TAG_HAS_CONTENT ≠ 0
      ∧ decompileBody 32 [0xE7, 0x36, 0x03, 120, 0x00, 0x01] 6 none 0 (List.replicate 40 0) 40 1
        = some (23, asciiBytes "<card title=\"x\"></card>" ++ 0 :: List.replicate 16 0) :=
  ⟨by decide, by decide, by decide, by decide,
    ((decompileBody_attribute 32 40 none 0 (List.replicate 40 0) 1 0xE7 0x36 [120]
      (asciiBytes "card") (asciiBytes "title") none (by decide) (by decide) (by decide)
      (by decide) (by rw [List.length_replicate]) (by decide) (by decide)).1 (by decide)).2⟩

/-- C27: the loop that reads an attribute value is left at every token from
`0x05` to `0x7F`, so at `EXT_I_0`, `EXT_I_1` and `EXT_I_2` (`0x40` to `0x42`),
before its branch for these tokens is reached: the body
`E7 4A 40 'x' 00 01 01` gives `<card href=""></card>`, and the same with `41` or
`42` for `40`, the name `x` is dropped; in element content, `67 40 'x' 00 01`
gives `<card>$(x)</card>`, and `41`, `42` give `$(x:e)`, `$(x:u)`. -/
theorem attribute_variable_not_rendered :
    (∀ (w N : Nat) (data : List Nat) (len : Nat) (st : Option (List Nat))
        (stLen fuel pos : Nat) (o : Out),
        data.getD pos 0 = WBXML_EXT_I_0 ∨ data.getD pos 0 = WBXML_EXT_I_1
          ∨ data.getD pos 0 = WBXML_EXT_I_2 →
        attrValueLoop w N data len st stLen fuel pos o = (pos, o))
      ∧ (decompileBody 32 [0xE7, 0x4A, 0x40, 120, 0x00, 0x01, 0x01] 7 none 0
            (List.replicate 40 7) 40 7
          = some (21, asciiBytes "<card href=\"\"></card>" ++ 0 :: List.replicate 18 7)
        ∧ decompileBody 32 [0xE7, 0x4A, 0x41, 120, 0x00, 0x01, 0x01] 7 none 0
            (List.replicate 40 7) 40 7
          = some (21, asciiBytes "<card href=\"\"></card>" ++ 0 :: List.replicate 18 7)
        ∧ decompileBody 32 [0xE7, 0x4A, 0x42, 120, 0x00, 0x01, 0x01] 7 none 0
            (List.replicate 40 7) 40 7
          = some (21, asciiBytes "<card href=\"\"></card>" ++ 0 :: List.replicate 18 7))
      ∧ (decompileBody 32 [0x67, 0x40, 120, 0x00, 0x01] 5 none 0 (List.replicate 40 7) 40 5
          = some (17, asciiBytes "<card>$(x)</card>" ++ 0 :: List.replicate 22 7)
        ∧ decompileBody 32 [0x67, 0x41, 120, 0x00, 0x01] 5 none 0 (List.replicate 40 7) 40 5
          = some (19, asciiBytes "<card>$(x:e)</card>" ++ 0 :: List.replicate 20 7)
        ∧ decompileBody 32 [0x67, 0x42, 120, 0x00, 0x01] 5 none 0 (List.replicate 40 7) 40 5
          = some (19, asciiBytes "<card>$(x:u)</card>" ++ 0 :: List.replicate 20 7)) := by
  refine ⟨?_, variable_in_attribute, variable_in_content⟩
  intro w N data len st stLen fuel pos o h
  apply attrValueLoop_break
  rcases h with h | h | h <;> rw [h] <;> decide

/-- Witness of C27: the loop of the attribute value at the bytes `40 'x' 00`. -/
theorem attribute_variable_not_rendered_witness :
    attrValueLoop 32 40 [0xE7, 0x4A, 0x40, 120, 0x00, 0x01, 0x01] 7 none 0 7 2
        { outPos := 0, output := List.replicate 40 7 }
      = (2, { outPos := 0, output := List.replicate 40 7 }) :=
  attribute_variable_not_rendered.1 32 40 [0xE7, 0x4A, 0x40, 120, 0x00, 0x01, 0x01] 7 none 0 7 2
    _ (Or.inl rfl)

end WMLCDecompiler

namespace WDPGateway

/-- C28, counterexample: a payload of 27541 bytes is sent in
`ceil(27541 / 108) = 256` datagrams, and the byte `totalParts` of the first one is
`0`, the low byte of 256, not 256. -/
theorem sendWDPViaMesh_totalParts_byte :
    (27541 + 107) / 108 = 256
      ∧ (sendWDPViaMesh true 0 "" 0 0 (List.replicate 27541 0) 27541).length = 256
      ∧ (sendWDPViaMesh true 0 "" 0 0 (List.replicate 27541 0) 27541)[0]?
        = some ("", [0x0B, 0x00, 0x03, 0, 0, 1, 0x05, 0x04, 0, 0, 0, 0] ++ List.replicate 108 0)
      ∧ (ModeAP.ap_sendWDPViaMesh true 0 "" 0 0 (List.replicate 27541 0) 27541)[0]?
        = some ("", [0x0B, 0x00, 0x03, 0, 0, 1, 0x05, 0x04, 0, 0, 0, 0] ++ List.replicate 108 0) := by
  have h := sendWDPViaMesh_concat 0 "" 0 0 (List.replicate 27541 0) 27541 (by decide) (by decide)
  have hd : concatDatagram (0 &&& 0xFF) ((27541 + 107) / 108) (0 + 1) 0 0 (List.replicate 27541 0)
      27541 = [0x0B, 0x00, 0x03, 0, 0, 1, 0x05, 0x04, 0, 0, 0, 0] ++ List.replicate 108 0 := by
    have e := concatDatagram_eq (0 &&& 0xFF) ((27541 + 107) / 108) (0 + 1) 0 0
      (List.replicate 27541 0) (by rw [List.length_replicate]; decide)
    rw [List.length_replicate] at e
    rw [e]
    simp only [Nat.add_sub_cancel, Nat.zero_mul, List.drop_zero, List.take_replicate]
    rfl
  have h0 : (sendWDPViaMesh true 0 "" 0 0 (List.replicate 27541 0) 27541)[0]?
      = some ("", [0x0B, 0x00, 0x03, 0, 0, 1, 0x05, 0x04, 0, 0, 0, 0] ++ List.replicate 108 0) := by
    rw [h, List.getElem?_map, List.getElem?_range (by decide), Option.map_some', hd]
  refine ⟨by decide, ?_, h0, ?_⟩
  · rw [h, List.length_map, List.length_range]
  · rw [ap_sendWDPViaMesh_eq]
    exact h0

/-- C28, amended: for a payload of `L` bytes with `L + 107 < 2 ^ 32`,
`sendWDPViaMesh` with a callback (and `ap_sendWDPViaMesh` alike) makes one call
with the 7 bytes `06 05 04 dstHi dstLo srcHi srcLo` and the payload when
`L ≤ 113`, and otherwise `n = ceil(L / 108)` calls in order, the `k`-th with the
12 bytes `0B 00 03 ref total current 05 04 dstHi dstLo srcHi srcLo`, where
`total` and `current` are the low bytes of `n` and `k` (`n` and `k` themselves
when `L ≤ 27540`), and the payload bytes from `(k - 1) * 108` up to `k * 108` or
the end; no datagram has more than 120 bytes and the slices behind the 12 bytes,
one behind the other, are the payload. -/
theorem sendWDPViaMesh_datagrams (now : Nat) (recipient : String) (srcPort dstPort : Nat)
    (data : List Nat) (h32 : data.length + 107 < 2 ^ 32) :
    ModeAP.ap_sendWDPViaMesh true now recipient srcPort dstPort data data.length
      = sendWDPViaMesh true now recipient srcPort dstPort data data.length ∧
    let L := data.length
    let n := (L + 107) / 108
    let out := sendWDPViaMesh true now recipient srcPort dstPort data L
    (L ≤ 113 →
          out = [(recipient, [0x06, 0x05, 0x04, (dstPort >>> 8) &&& 0xFF, dstPort &&& 0xFF,
            (srcPort >>> 8) &&& 0xFF, srcPort &&& 0xFF] ++ data)])
      ∧ (113 < L →
          out.length = n ∧ (n - 1) * 108 < L ∧ L ≤ n * 108
            ∧ (∀ k, 1 ≤ k → k ≤ n →
                out[k - 1]? = some (recipient,
                  [0x0B, 0x00, 0x03, now &&& 0xFF, n % 256, k % 256, 0x05, 0x04,
                    (dstPort >>> 8) &&& 0xFF, dstPort &&& 0xFF, (srcPort >>> 8) &&& 0xFF,
                    srcPort &&& 0xFF] ++ (data.drop ((k - 1) * 108)).take 108)
                  ∧ (L ≤ 27540 → n % 256 = n ∧ k % 256 = k))
            ∧ (out.map (fun d => d.2.drop 12)).flatten = data)
      ∧ (∀ d ∈ out, d.2.length ≤ 120) := by
  refine ⟨ap_sendWDPViaMesh_eq now recipient srcPort dstPort data data.length, ?_⟩
  intro L n out
  refine ⟨?_, ?_, ?_⟩
  · intro hL
    show sendWDPViaMesh true now recipient srcPort dstPort data data.length = _
    rw [sendWDPViaMesh_simple now recipient srcPort dstPort data _ hL, simpleDatagram,
      bytesAt_eq data 0 data.length (by omega), List.drop_zero, List.take_length]
  · intro hL
    have hout : out = (List.range n).map (fun i =>
        (recipient, concatDatagram (now &&& 0xFF) n (i + 1) srcPort dstPort data L)) :=
      sendWDPViaMesh_concat now recipient srcPort dstPort data L hL h32
    have hn1 : (n - 1) * 108 < L := by
      show ((data.length + 107) / 108 - 1) * 108 < data.length
      have : 113 < data.length := hL
      omega
    have hn2 : L ≤ n * 108 := by
      show data.length ≤ (data.length + 107) / 108 * 108
      omega
    refine ⟨by rw [hout, List.length_map, List.length_range], hn1, hn2, ?_, ?_⟩
    · intro k hk1 hkn
      constructor
      · rw [hout, List.getElem?_map, List.getElem?_range (by omega), Option.map_some',
          show k - 1 + 1 = k by omega]
        have e := concatDatagram_eq (now &&& 0xFF) n k srcPort dstPort data (by
          have : (k - 1) * 108 ≤ (n - 1) * 108 := Nat.mul_le_mul_right _ (by omega)
          omega)
        rw [e]
      · intro h27
        have hn : n ≤ 255 := by
          show (data.length + 107) / 108 ≤ 255
          have : data.length ≤ 27540 := h27
          omega
        exact ⟨Nat.mod_eq_of_lt (by omega), Nat.mod_eq_of_lt (by omega)⟩
    · rw [hout, List.map_map]
      have hf : ∀ i ∈ List.range n,
          ((fun d : String × List Nat => d.2.drop 12) ∘ fun i =>
            (recipient, concatDatagram (now &&& 0xFF) n (i + 1) srcPort dstPort data L)) i
          = (fun i => (data.drop (i * 108)).take 108) i := by
        intro i hi
        rw [List.mem_range] at hi
        simp only [Function.comp_apply]
        have e := concatDatagram_eq (now &&& 0xFF) n (i + 1) srcPort dstPort data (by
          have : (i + 1 - 1) * 108 ≤ (n - 1) * 108 := Nat.mul_le_mul_right _ (by omega)
          omega)
        rw [show concatDatagram (now &&& 0xFF) n (i + 1) srcPort dstPort data L
            = concatDatagram (now &&& 0xFF) n (i + 1) srcPort dstPort data data.length from rfl,
          e, Nat.add_sub_cancel]
        rfl
      rw [List.map_congr_left hf, join_slices data 108 n, List.take_of_length_le hn2]
  · intro d hd
    by_cases hL : L ≤ 113
    · have e : out = [(recipient, simpleDatagram srcPort dstPort data L)] :=
        sendWDPViaMesh_simple now recipient srcPort dstPort data L hL
      rw [e, List.mem_singleton] at hd
      rw [hd, simpleDatagram]
      simp only [List.length_append, List.length_cons, List.length_nil, bytesAt_length]
      omega
    · have hout : out = (List.range n).map (fun i =>
          (recipient, concatDatagram (now &&& 0xFF) n (i + 1) srcPort dstPort data L)) :=
        sendWDPViaMesh_concat now recipient srcPort dstPort data L (by omega) h32
      rw [hout, List.mem_map] at hd
      obtain ⟨i, _, rfl⟩ := hd
      simp only
      rw [concatDatagram_length, show maxPayloadConcat = 108 from rfl]
      split_ifs <;> omega

/-- Witness of C28 (amended): a payload of 250 bytes, sent in 3 datagrams. -/
theorem sendWDPViaMesh_datagrams_witness :
    (List.replicate 250 7).length + 107 < 2 ^ 32
      ∧ (sendWDPViaMesh true 0 "" 9200 49152 (List.replicate 250 7)
          (List.replicate 250 7).length).length = ((List.replicate 250 7).length + 107) / 108
      ∧ ((List.replicate 250 7).length + 107) / 108 = 3 :=
  ⟨by rw [List.length_replicate]; decide,
    ((sendWDPViaMesh_datagrams 0 "" 9200 49152 (List.replicate 250 7)
      (by rw [List.length_replicate]; decide)).2.2.1 (by rw [List.length_replicate]; decide)).1,
    by rw [List.length_replicate]⟩

/-- C29: for 16-bit ports, the datagram of `sendWDPViaMesh` for a payload of at
most 113 bytes starts with `06 05 04 dstHi dstLo srcHi srcLo` and `parseUDH`
reads the two ports back from it; the datagrams for a longer payload, in `n`
parts, start with `0B 00 03 ref total current 05 04 dstHi dstLo srcHi srcLo`,
where `ref` is the low byte of `millis()`, the same in all parts, and `total`
and `current` are the low bytes of `n` and of the number of the part, and
`parseConcatUDH` reads `ref`, `total`, `current` and the two ports back from
each of them. -/
theorem datagram_layout (now : Nat) (recipient : String) (srcPort dstPort : Nat)
    (data : List Nat) (len : Nat) (hs : srcPort < 65536) (hd : dstPort < 65536)
    (h32 : len + 107 < 2 ^ 32) :
    (len ≤ 113 →
        (sendWDPViaMesh true now recipient srcPort dstPort data len).map
            (fun d => (d.2.take 7, parseUDH d.2 d.2.length))
          = [([0x06, 0x05, 0x04, (dstPort >>> 8) &&& 0xFF, dstPort &&& 0xFF,
                (srcPort >>> 8) &&& 0xFF, srcPort &&& 0xFF],
              some { headerLen := 0x06, ei := 0x05, eiLength := 0x04, source := srcPort,
                     dest := dstPort })])
      ∧ (113 < len →
        (sendWDPViaMesh true now recipient srcPort dstPort data len).map
            (fun d => (d.2.take 12, parseConcatUDH d.2 d.2.length))
          = (List.range ((len + 107) / 108)).map (fun i =>
              ([0x0B, 0x00, 0x03, now &&& 0xFF, (len + 107) / 108 % 256, (i + 1) % 256,
                  0x05, 0x04, (dstPort >>> 8) &&& 0xFF, dstPort &&& 0xFF,
                  (srcPort >>> 8) &&& 0xFF, srcPort &&& 0xFF],
                some (now &&& 0xFF, (len + 107) / 108 % 256, (i + 1) % 256,
                  { headerLen := 0x0B, ei := 0x05, eiLength := 0x04, source := srcPort,
                    dest := dstPort })))) := by
  constructor
  · intro hL
    rw [sendWDPViaMesh_simple now recipient srcPort dstPort data len hL]
    simp only [List.map_cons, List.map_nil]
    rw [parseUDH_simple srcPort dstPort data len _ hs hd (by
      rw [simpleDatagram]
      simp only [List.length_append, List.length_cons, List.length_nil]
      omega)]
    rfl
  · intro hL
    rw [sendWDPViaMesh_concat now recipient srcPort dstPort data len hL h32, List.map_map]
    apply List.map_congr_left
    intro i _
    simp only [Function.comp_apply]
    rw [parseConcatUDH_concat _ _ _ _ _ _ _ _ hs hd (by rw [concatDatagram_length]; omega)]
    rfl

/-- Witness of C29: the ports 9200 and 49152 and a payload of 250 bytes. -/
theorem datagram_layout_witness :
    (9200 : Nat) < 65536 ∧ (49152 : Nat) < 65536 ∧ 250 + 107 < 2 ^ 32 ∧ 113 < 250
      ∧ (sendWDPViaMesh true 0x1234 "p" 9200 49152 (List.replicate 250 7) 250).map
            (fun d => (d.2.take 12, parseConcatUDH d.2 d.2.length))
          = (List.range ((250 + 107) / 108)).map (fun i =>
              ([0x0B, 0x00, 0x03, 0x1234 &&& 0xFF, (250 + 107) / 108 % 256, (i + 1) % 256,
                  0x05, 0x04, (49152 >>> 8) &&& 0xFF, 49152 &&& 0xFF,
                  (9200 >>> 8) &&& 0xFF, 9200 &&& 0xFF],
                some (0x1234 &&& 0xFF, (250 + 107) / 108 % 256, (i + 1) % 256,
                  { headerLen := 0x0B, ei := 0x05, eiLength := 0x04, source := 9200,
                    dest := 49152 }))) :=
  ⟨by decide, by decide, by decide, by decide,
    (datagram_layout 0x1234 "p" 9200 49152 (List.replicate 250 7) 250 (by decide) (by decide)
      (by decide)).2 (by decide)⟩

/-- C30, counterexample: `ap_handleIncomingMesh` is given the 3 datagrams of a
payload of 250 bytes for the port 49152, in reverse order, while a request with
the source port 49153 is outstanding and all slots are free.  After the last
datagram the response buffer is not ready and holds nothing of the payload: the
message is dropped at the check of the port, and the slot is free again. -/
theorem ap_handleIncomingMesh_port_mismatch :
    ((sendWDPViaMesh true 7 "gw" 9200 49152 (List.replicate 250 7) 250).map Prod.snd).length = 3
      ∧ findFree (ModeAP.requestState true 49153).concatMessages = some 0
      ∧ findConcat (ModeAP.requestState true 49153).concatMessages (7 &&& 0xFF) "node" = none
      ∧ (ModeAP.ap_handleAll 0 (ModeAP.requestState true 49153) "node"
          ((sendWDPViaMesh true 7 "gw" 9200 49152 (List.replicate 250 7) 250).map
            Prod.snd).reverse).meshResponseReady = false
      ∧ (ModeAP.ap_handleAll 0 (ModeAP.requestState true 49153) "node"
          ((sendWDPViaMesh true 7 "gw" 9200 49152 (List.replicate 250 7) 250).map
            Prod.snd).reverse).meshResponseBuffer = List.replicate 4096 0
      ∧ ((ModeAP.ap_handleAll 0 (ModeAP.requestState true 49153) "node"
          ((sendWDPViaMesh true 7 "gw" 9200 49152 (List.replicate 250 7) 250).map
            Prod.snd).reverse).concatMessages.map (fun m => m.active))
          = [false, false, false, false] := by
  have hlen : (List.replicate 250 7).length = 250 := List.length_replicate _ _
  have hout : (sendWDPViaMesh true 7 "gw" 9200 49152 (List.replicate 250 7) 250).map Prod.snd
      = [0, 1, 2].map (fun i => concatDatagram (7 &&& 0xFF) 3 (i + 1) 9200 49152
          (List.replicate 250 7) (List.replicate 250 7).length) := by
    rw [sendWDPViaMesh_concat 7 "gw" 9200 49152 (List.replicate 250 7) 250 (by decide)
      (by decide), List.map_map, hlen]
    rfl
  have hrev : ((sendWDPViaMesh true 7 "gw" 9200 49152 (List.replicate 250 7) 250).map
      Prod.snd).reverse
      = [2, 1, 0].map (fun i => concatDatagram (7 &&& 0xFF) 3 (i + 1) 9200 49152
          (List.replicate 250 7) (List.replicate 250 7).length) := by
    rw [hout]
    rfl
  have h := (ModeAP.ap_handleAll_parts (7 &&& 0xFF) 3 9200 49152 "node" (List.replicate 250 7)
    (List.replicate 4 (clearConcatMessage 4096 default)) 0 (by decide) (by decide) (by decide)
    (by rw [hlen]; decide) (by rw [hlen]; decide) rfl rfl [2, 1, 0] []
    (ModeAP.requestState true 49153) 0 (Or.inl ⟨rfl, rfl⟩)
    (by rw [hlen]; show 250 ≤ (List.replicate 4096 0).length; rw [List.length_replicate]; decide)
    (by decide) (by decide) _ rfl).2 (by decide) rfl
  obtain ⟨h1, _, _, h4, _⟩ := h
  obtain ⟨e1, _, e3, _⟩ := h4 ⟨by decide, by decide⟩
  rw [hrev]
  refine ⟨?_, rfl, rfl, e3, e1, ?_⟩
  · rw [hout]
    rfl
  · rw [h1]
    rfl

/-- C30, amended: a payload of `L` bytes with `113 < L` that `sendWDPViaMesh`
sends in `n = ceil(L / 108) ≤ 16` datagrams, for 16-bit ports, is handled
datagram by datagram, in any order `ps`, from slots with a first free slot `i0`
(whose array `partSizes` has its 16 entries) and no active slot for the
reference number and the sender.  `handleIncomingMesh` makes no call of
`forwardToWAPBox` for the first `n - 1` datagrams and for the last one the call
with the sender, the two ports and the `L` bytes of the payload, and then the
slot `i0` is cleared.  `ap_handleIncomingMesh`, with its response buffer of 4096
bytes, leaves the response buffer, its length and its flag as they are for the
first `n - 1` datagrams and writes nothing to a client if none is waiting; after
the last one the slot is cleared and, when `ap_currentRequestPort` is `0` or the
destination port, the response buffer starts with the payload, its length is
`L`, it is ready and `ap_currentRequestPort` is `0`, and otherwise the response
buffer is left as it is. -/
theorem handleIncomingMesh_reassembly (now0 now : Nat) (recipient sender : String)
    (srcPort dstPort : Nat) (data : List Nat) (ps : List (List Nat))
    (hs : srcPort < 65536) (hd : dstPort < 65536) (hL : 113 < data.length)
    (hn : (data.length + 107) / 108 ≤ 16)
    (hp : ps.Perm ((sendWDPViaMesh true now0 recipient srcPort dstPort data data.length).map
      Prod.snd)) :
    2 ≤ (data.length + 107) / 108 ∧ ps.length = (data.length + 107) / 108
      ∧ (∀ (msgs : List ConcatMessage) (i0 : Nat), findFree msgs = some i0 →
          findConcat msgs (now0 &&& 0xFF) sender = none →
          (msgs.getD i0 default).partSizes.length = 16 →
          handleAll now msgs sender ps
            = (msgs.set i0 (clearConcatMessage 2048 default),
                List.replicate ((data.length + 107) / 108 - 1) none
                  ++ [some { sender := sender, srcPort := srcPort, dstPort := dstPort,
                             data := data }]))
      ∧ (∀ (s : ModeAP.APState) (i0 : Nat), findFree s.concatMessages = some i0 →
          findConcat s.concatMessages (now0 &&& 0xFF) sender = none →
          s.meshResponseBuffer.length = 4096 →
          (∀ k, k < (data.length + 107) / 108 →
              ModeAP.SameResponse (ModeAP.ap_handleAll now s sender (ps.take k)) s)
            ∧ (ModeAP.ap_handleAll now s sender ps).concatMessages
                = s.concatMessages.set i0 (clearConcatMessage 4096 default)
            ∧ (s.currentRequestPort = 0 ∨ dstPort = s.currentRequestPort →
                (ModeAP.ap_handleAll now s sender ps).meshResponseBuffer
                    = data ++ s.meshResponseBuffer.drop data.length
                  ∧ (ModeAP.ap_handleAll now s sender ps).meshResponseLen = data.length
                  ∧ (ModeAP.ap_handleAll now s sender ps).meshResponseReady = true
                  ∧ (ModeAP.ap_handleAll now s sender ps).currentRequestPort = 0)
            ∧ (s.currentRequestPort ≠ 0 ∧ dstPort ≠ s.currentRequestPort →
                ModeAP.SameResponse (ModeAP.ap_handleAll now s sender ps) s)) := by
  have hL1 : ((data.length + 107) / 108 - 1) * 108 ≤ data.length := by omega
  have hL2 : data.length ≤ (data.length + 107) / 108 * 108 := by omega
  have hn2 : 2 ≤ (data.length + 107) / 108 := by omega
  generalize hnn : (data.length + 107) / 108 = n at hn hL1 hL2 hn2 ⊢
  have hout : (sendWDPViaMesh true now0 recipient srcPort dstPort data data.length).map Prod.snd
      = (List.range n).map (fun i => concatDatagram (now0 &&& 0xFF) n (i + 1) srcPort dstPort
          data data.length) := by
    rw [sendWDPViaMesh_concat now0 recipient srcPort dstPort data data.length hL
      (by rw [show (2 : Nat) ^ 32 = 4294967296 by decide]; omega), List.map_map, hnn]
    rfl
  obtain ⟨is, hperm, hps⟩ := perm_map_exists _ hp (List.range n) hout
  have hnd : is.Nodup := hperm.nodup_iff.mpr (List.nodup_range n)
  have hb : ∀ i ∈ is, i < n := fun i hi => List.mem_range.mp (hperm.mem_iff.mp hi)
  have hlen : is.length = n := by rw [hperm.length_eq, List.length_range]
  have hne : is ≠ [] := by
    intro e
    rw [e, List.length_nil] at hlen
    omega
  refine ⟨hn2, by rw [hps, List.length_map, hlen], ?_, ?_⟩
  · intro msgs i0 hfree hfind hsz
    obtain ⟨h1, h2⟩ := (handleAll_parts (now0 &&& 0xFF) n srcPort dstPort sender data msgs i0 hs hd
      hn hL1 hL2 hfind hfree hsz is [] msgs now (Or.inl ⟨rfl, rfl⟩)
      (by rw [List.append_nil]; exact hnd) (by rw [List.append_nil]; exact hb) _ rfl).2 hne
      (by rw [List.length_nil, Nat.add_zero]; exact hlen)
    rw [hlen, ← hps] at h2
    rw [← hps] at h1
    exact Prod.ext h1 h2
  · intro s i0 hfree hfind hbuf
    have hbuf2 : data.length ≤ s.meshResponseBuffer.length := by omega
    refine ⟨fun k hk => ?_, ?_⟩
    · have ht : ps.take k = (is.take k).map (fun i => concatDatagram (now0 &&& 0xFF) n (i + 1)
          srcPort dstPort data data.length) := by
        rw [hps, List.map_take]
      rw [ht]
      exact ((ModeAP.ap_handleAll_parts (now0 &&& 0xFF) n srcPort dstPort sender data
        s.concatMessages i0 hs hd hn hL1 hL2 hfind hfree (is.take k) [] s now (Or.inl ⟨rfl, rfl⟩)
        hbuf2 (by rw [List.append_nil]; exact hnd.sublist (List.take_sublist k is))
        (by rw [List.append_nil]; exact fun i hi => hb i (List.mem_of_mem_take hi)) _ rfl).1
        (by rw [List.length_nil, Nat.add_zero, List.length_take]; omega)).2
    · obtain ⟨h1, _, _, h4, h5⟩ := (ModeAP.ap_handleAll_parts (now0 &&& 0xFF) n srcPort dstPort
        sender data s.concatMessages i0 hs hd hn hL1 hL2 hfind hfree is [] s now
        (Or.inl ⟨rfl, rfl⟩) hbuf2 (by rw [List.append_nil]; exact hnd)
        (by rw [List.append_nil]; exact hb) _ rfl).2 hne
        (by rw [List.length_nil, Nat.add_zero]; exact hlen)
      rw [← hps] at h1 h4 h5
      refine ⟨h1, fun hm => h5 ?_, h4⟩
      rintro ⟨a, b⟩
      rcases hm with e | e
      · exact a e
      · exact b e

/-- Witness of C30 (amended): a payload of 250 bytes, whose 3 datagrams arrive in
reverse order. -/
theorem handleIncomingMesh_reassembly_witness :
    113 < (List.replicate 250 7).length
      ∧ ((List.replicate 250 7).length + 107) / 108 ≤ 16
      ∧ handleAll 0 (List.replicate 4 (clearConcatMessage 2048 default)) "node"
          ((sendWDPViaMesh true 7 "gw" 9200 49152 (List.replicate 250 7)
            (List.replicate 250 7).length).map Prod.snd).reverse
        = ((List.replicate 4 (clearConcatMessage 2048 default)).set 0
              (clearConcatMessage 2048 default),
            List.replicate (((List.replicate 250 7).length + 107) / 108 - 1) none
              ++ [some { sender := "node", srcPort := 9200, dstPort := 49152,
                         data := List.replicate 250 7 }]) :=
  ⟨by rw [List.length_replicate]; decide, by rw [List.length_replicate]; decide,
    (handleIncomingMesh_reassembly 7 0 "gw" "node" 9200 49152 (List.replicate 250 7)
      ((sendWDPViaMesh true 7 "gw" 9200 49152 (List.replicate 250 7)
        (List.replicate 250 7).length).map Prod.snd).reverse
      (by decide) (by decide) (by rw [List.length_replicate]; decide)
      (by rw [List.length_replicate]; decide) (List.reverse_perm _)).2.2.1
      (List.replicate 4 (clearConcatMessage 2048 default)) 0 rfl rfl rfl⟩

/-- C31: in a pool in which no active slot holds all its parts, a concatenated
part for the slot `j` of its reference number and sender whose index is marked as
received in that slot changes nothing: `handleIncomingMesh` returns the pool as
it is, with the received count, the marks, the sizes and the data of every slot,
and makes no call of `forwardToWAPBox`, and `ap_handleIncomingMesh` returns the
whole state as it is.  A pool without active slots has no active slot that holds
all its parts, and every call of the two handlers leaves the pool so. -/
theorem duplicate_part_ignored (now : Nat) (msgs : List ConcatMessage) (sender : String)
    (data : List Nat) (len refNum totalParts currentPart : Nat) (udh : UDH) (j : Nat)
    (hparse : parseConcatUDH data len = some (refNum, totalParts, currentPart, udh))
    (hfind : findConcat msgs refNum sender = some j)
    (hrecv : (msgs.getD j default).partReceived.getD (currentPart - 1) 0 ≠ 0)
    (hinc : Incomplete msgs) :
    handleIncomingMesh now msgs sender data len = (msgs, none)
      ∧ (∀ s : ModeAP.APState, s.concatMessages = msgs →
          ModeAP.ap_handleIncomingMesh now s sender data len = s)
      ∧ (∀ msgs0 : List ConcatMessage, (∀ m ∈ msgs0, m.active = false) → Incomplete msgs0)
      ∧ (∀ (now1 : Nat) (sender1 : String) (data1 : List Nat) (len1 : Nat),
          Incomplete (handleIncomingMesh now1 msgs sender1 data1 len1).1)
      ∧ (∀ (now1 : Nat) (s : ModeAP.APState) (sender1 : String) (data1 : List Nat) (len1 : Nat),
          s.concatMessages = msgs →
          Incomplete (ModeAP.ap_handleIncomingMesh now1 s sender1 data1 len1).concatMessages) := by
  obtain ⟨hmem, hact, _, _⟩ := findConcat_some msgs refNum sender j hfind
  have hne := hinc _ hmem hact
  refine ⟨?_, ?_, ?_, ?_, ?_⟩
  · exact handleIncomingMesh_not_stored now msgs sender data len refNum totalParts currentPart udh
      j hparse hfind (storePart_received 2048 _ _ _ _ _ hrecv) hne
  · intro s hs
    subst hs
    exact ModeAP.ap_handleIncomingMesh_not_stored now s sender data len refNum totalParts
      currentPart udh j hparse hfind (storePart_received 4096 _ _ _ _ _ hrecv) hne
  · intro msgs0 h0 m hm ha
    rw [h0 m hm] at ha
    exact absurd ha Bool.false_ne_true
  · intro now1 sender1 data1 len1
    exact handleIncomingMesh_incomplete now1 msgs sender1 data1 len1 hinc
  · intro now1 s sender1 data1 len1 hs
    subst hs
    exact ModeAP.ap_handleIncomingMesh_incomplete now1 s sender1 data1 len1 hinc

/-- Witness of C31: the part 1 of 3 with the reference number 7 arrives again
from the sender whose slot has it. -/
theorem duplicate_part_ignored_witness :
    parseConcatUDH [0x0B, 0x00, 0x03, 7, 3, 1, 0x05, 0x04, 0xC0, 0x00, 0x23, 0xF0, 65] 13
        = some (7, 3, 1, { headerLen := 0x0B, ei := 0x05, eiLength := 0x04, source := 9200,
                           dest := 49152 })
      ∧ handleIncomingMesh 5
          ({ active := true, refNum := 7, totalParts := 3, receivedParts := 1,
             partReceived := 1 :: List.replicate 15 0, data := 65 :: List.replicate 2047 0,
             partSizes := 1 :: List.replicate 15 0, sourcePort := 9200, destPort := 49152,
             senderMeshId := "node", lastUpdate := 0 }
            :: List.replicate 3 (clearConcatMessage 2048 default))
          "node" [0x0B, 0x00, 0x03, 7, 3, 1, 0x05, 0x04, 0xC0, 0x00, 0x23, 0xF0, 65] 13
        = ({ active := true, refNum := 7, totalParts := 3, receivedParts := 1,
             partReceived := 1 :: List.replicate 15 0, data := 65 :: List.replicate 2047 0,
             partSizes := 1 :: List.replicate 15 0, sourcePort := 9200, destPort := 49152,
             senderMeshId := "node", lastUpdate := 0 }
            :: List.replicate 3 (clearConcatMessage 2048 default), none) :=
  ⟨by decide,
    (duplicate_part_ignored 5
      ({ active := true, refNum := 7, totalParts := 3, receivedParts := 1,
         partReceived := 1 :: List.replicate 15 0, data := 65 :: List.replicate 2047 0,
         partSizes := 1 :: List.replicate 15 0, sourcePort := 9200, destPort := 49152,
         senderMeshId := "node", lastUpdate := 0 }
        :: List.replicate 3 (clearConcatMessage 2048 default))
      "node" [0x0B, 0x00, 0x03, 7, 3, 1, 0x05, 0x04, 0xC0, 0x00, 0x23, 0xF0, 65] 13 7 3 1
      { headerLen := 0x0B, ei := 0x05, eiLength := 0x04, source := 9200, dest := 49152 } 0
      (by decide) (by decide) (by decide) (by
        intro m hm
        rcases List.mem_cons.mp hm with e | e
        · rw [e]
          decide
        · rw [List.eq_of_mem_replicate e]
          exact fun h => absurd h Bool.false_ne_true)).1⟩

/-- C34: when every slot is active and none has the reference number and the
sender of a concatenated part, `handleIncomingMesh` returns the pool as it is and
makes no call of `forwardToWAPBox`, and `ap_handleIncomingMesh` returns the whole
state as it is. -/
theorem full_pool_drops_part (now : Nat) (msgs : List ConcatMessage) (sender : String)
    (data : List Nat) (len refNum totalParts currentPart : Nat) (udh : UDH)
    (hparse : parseConcatUDH data len = some (refNum, totalParts, currentPart, udh))
    (hactive : ∀ m ∈ msgs, m.active = true)
    (hnone : ∀ m ∈ msgs, ¬ (m.refNum = refNum ∧ m.senderMeshId = sender)) :
    handleIncomingMesh now msgs sender data len = (msgs, none)
      ∧ (∀ s : ModeAP.APState, s.concatMessages = msgs →
          ModeAP.ap_handleIncomingMesh now s sender data len = s) := by
  have h1 := findConcat_none_of msgs refNum sender hnone
  have h2 := findFree_none_of msgs hactive
  refine ⟨handleIncomingMesh_no_slot now msgs sender data len refNum totalParts currentPart udh
    hparse (findOrCreate_none msgs refNum totalParts udh sender h1 h2), ?_⟩
  intro s hs
  subst hs
  exact ModeAP.ap_handleIncomingMesh_no_slot now s sender data len refNum totalParts currentPart
    udh hparse (ModeAP.ap_findOrCreate_none now s refNum totalParts udh sender h1 h2)

/-- Witness of C34: four active slots of the sender `node` with the reference
number 1, and a part with the reference number 7. -/
theorem full_pool_drops_part_witness :
    parseConcatUDH [0x0B, 0x00, 0x03, 7, 3, 1, 0x05, 0x04, 0xC0, 0x00, 0x23, 0xF0, 65] 13
        = some (7, 3, 1, { headerLen := 0x0B, ei := 0x05, eiLength := 0x04, source := 9200,
                           dest := 49152 })
      ∧ handleIncomingMesh 5
          (List.replicate 4
            { active := true, refNum := 1, totalParts := 3, receivedParts := 1,
              partReceived := 1 :: List.replicate 15 0, data := 65 :: List.replicate 2047 0,
              partSizes := 1 :: List.replicate 15 0, sourcePort := 9200, destPort := 49152,
              senderMeshId := "node", lastUpdate := 0 })
          "node" [0x0B, 0x00, 0x03, 7, 3, 1, 0x05, 0x04, 0xC0, 0x00, 0x23, 0xF0, 65] 13
        = (List.replicate 4
            { active := true, refNum := 1, totalParts := 3, receivedParts := 1,
              partReceived := 1 :: List.replicate 15 0, data := 65 :: List.replicate 2047 0,
              partSizes := 1 :: List.replicate 15 0, sourcePort := 9200, destPort := 49152,
              senderMeshId := "node", lastUpdate := 0 }, none) :=
  ⟨by decide,
    (full_pool_drops_part 5
      (List.replicate 4
        { active := true, refNum := 1, totalParts := 3, receivedParts := 1,
          partReceived := 1 :: List.replicate 15 0, data := 65 :: List.replicate 2047 0,
          partSizes := 1 :: List.replicate 15 0, sourcePort := 9200, destPort := 49152,
          senderMeshId := "node", lastUpdate := 0 })
      "node" [0x0B, 0x00, 0x03, 7, 3, 1, 0x05, 0x04, 0xC0, 0x00, 0x23, 0xF0, 65] 13 7 3 1
      { headerLen := 0x0B, ei := 0x05, eiLength := 0x04, source := 9200, dest := 49152 }
      (by decide)
      (by
        intro m hm
        rw [List.eq_of_mem_replicate hm])
      (by
        intro m hm
        rw [List.eq_of_mem_replicate hm]
        decide)).1⟩

/-- C32: the block that stores a part leaves the slot as it is, with its received
count and its data, for the index 0 and for every index above 16, and in a pool
in which no active slot holds all its parts such a part for an existing slot
changes nothing and delivers nothing in both handlers.  The index is not compared
with `totalParts` of the slot: the part 5 of 5 with the reference number 7, which
`isValidWDPMessage` accepts, goes to the slot of a message of 2 parts that holds
the part 1, is stored there and counted, and `handleIncomingMesh` delivers the
one byte of the part 1 as the complete message and clears the slot;
`ap_handleIncomingMesh` puts it in the response buffer and sets the flag. -/
theorem part_index_range :
    (∀ (D : Nat) (c : ConcatMessage) (currentPart : Nat) (data : List Nat) (len now : Nat),
        currentPart = 0 ∨ 16 < currentPart → storePart D c currentPart data len now = (c, false))
      ∧ (∀ (now : Nat) (msgs : List ConcatMessage) (sender : String) (data : List Nat)
          (len refNum totalParts currentPart : Nat) (udh : UDH) (j : Nat),
          parseConcatUDH data len = some (refNum, totalParts, currentPart, udh) →
          findConcat msgs refNum sender = some j → currentPart = 0 ∨ 16 < currentPart →
          Incomplete msgs →
          handleIncomingMesh now msgs sender data len = (msgs, none)
            ∧ ∀ s : ModeAP.APState, s.concatMessages = msgs →
                ModeAP.ap_handleIncomingMesh now s sender data len = s)
      ∧ (MyMesh.isValidWDPMessage
            [0x0B, 0x00, 0x03, 7, 5, 5, 0x05, 0x04, 0xC0, 0x00, 0x23, 0xF0, 66] 13 = true
          ∧ findConcat (examplePool 2048) 7 "node" = some 0
          ∧ (exampleSlot 2048).totalParts = 2
          ∧ (storePart 2048 (exampleSlot 2048) 5
              [0x0B, 0x00, 0x03, 7, 5, 5, 0x05, 0x04, 0xC0, 0x00, 0x23, 0xF0, 66] 13 5).2 = true
          ∧ (storePart 2048 (exampleSlot 2048) 5
              [0x0B, 0x00, 0x03, 7, 5, 5, 0x05, 0x04, 0xC0, 0x00, 0x23, 0xF0, 66] 13
                5).1.receivedParts = 2
          ∧ (handleIncomingMesh 5 (examplePool 2048) "node"
              [0x0B, 0x00, 0x03, 7, 5, 5, 0x05, 0x04, 0xC0, 0x00, 0x23, 0xF0, 66] 13).2
            = some { sender := "node", srcPort := 9200, dstPort := 49152, data := [65] }
          ∧ (handleIncomingMesh 5 (examplePool 2048) "node"
              [0x0B, 0x00, 0x03, 7, 5, 5, 0x05, 0x04, 0xC0, 0x00, 0x23, 0xF0, 66] 13).1.map
                (fun m => m.active)
            = [false, false, false, false]
          ∧ (ModeAP.ap_handleIncomingMesh 5
              { ModeAP.requestState false 0 with concatMessages := examplePool 4096 } "node"
              [0x0B, 0x00, 0x03, 7, 5, 5, 0x05, 0x04, 0xC0, 0x00, 0x23, 0xF0, 66]
                13).meshResponseReady = true
          ∧ (ModeAP.ap_handleIncomingMesh 5
              { ModeAP.requestState false 0 with concatMessages := examplePool 4096 } "node"
              [0x0B, 0x00, 0x03, 7, 5, 5, 0x05, 0x04, 0xC0, 0x00, 0x23, 0xF0, 66]
                13).meshResponseBuffer.take 1 = [65]) := by
  refine ⟨storePart_range, ?_, ?_⟩
  · intro now msgs sender data len refNum totalParts currentPart udh j hparse hfind hcp hinc
    obtain ⟨hmem, hact, _, _⟩ := findConcat_some msgs refNum sender j hfind
    have hne := hinc _ hmem hact
    refine ⟨handleIncomingMesh_not_stored now msgs sender data len refNum totalParts currentPart
      udh j hparse hfind (storePart_range 2048 _ _ _ _ _ hcp) hne, ?_⟩
    intro s hs
    subst hs
    exact ModeAP.ap_handleIncomingMesh_not_stored now s sender data len refNum totalParts
      currentPart udh j hparse hfind (storePart_range 4096 _ _ _ _ _ hcp) hne
  · obtain ⟨h1, _, h3, h4, h5, h6, h7⟩ := part_above_total_completes
    obtain ⟨a1, _, a3⟩ := ap_part_above_total_completes
    exact ⟨h1, h3, rfl, h4, h5, h6, h7, a1, a3⟩

/-- Witness of C32: the part 0 of 3 arrives for a slot that is not complete. -/
theorem part_index_range_witness :
    handleIncomingMesh 5 (examplePool 2048) "node"
        [0x0B, 0x00, 0x03, 7, 3, 0, 0x05, 0x04, 0xC0, 0x00, 0x23, 0xF0, 66] 13
      = (examplePool 2048, none) :=
  (part_index_range.2.1 5 (examplePool 2048) "node"
    [0x0B, 0x00, 0x03, 7, 3, 0, 0x05, 0x04, 0xC0, 0x00, 0x23, 0xF0, 66] 13 7 3 0
    { headerLen := 0x0B, ei := 0x05, eiLength := 0x04, source := 9200, dest := 49152 } 0
    (by decide) (by decide) (Or.inl rfl) (by
      intro m hm
      rcases List.mem_cons.mp hm with e | e
      · rw [e]
        decide
      · rw [List.eq_of_mem_replicate e]
        exact fun h => absurd h Bool.false_ne_true)).1

end WDPGateway

namespace ModeAP

open WDPGateway

/-- C35: while `ap_currentRequestPort` is not `0`, a simple datagram for another
port leaves the whole state as it is, and a concatenated part for another port,
whose slot, if there is one already, was opened for that port, leaves the
response buffer, its length, its flag and the expected port as they are; the
part 1 writes nothing to the client.  A later part is written to the client all
the same: with the port 49153 expected and the headers of the response sent, the
part 2 of 2 of a message for the port 49152 is written to the waiting client
as body of the response. -/
theorem stale_datagram :
    (∀ (now : Nat) (s : APState) (sender : String) (data : List Nat) (len : Nat) (udh : UDH),
        parseConcatUDH data len = none → parseUDH data len = some udh →
        s.currentRequestPort ≠ 0 → udh.dest ≠ s.currentRequestPort →
        ap_handleIncomingMesh now s sender data len = s)
      ∧ (∀ (now : Nat) (s : APState) (sender : String) (data : List Nat)
          (len refNum totalParts currentPart : Nat) (udh : UDH),
          parseConcatUDH data len = some (refNum, totalParts, currentPart, udh) →
          s.currentRequestPort ≠ 0 → udh.dest ≠ s.currentRequestPort →
          (∀ j, findConcat s.concatMessages refNum sender = some j →
            (s.concatMessages.getD j default).destPort = udh.dest) →
          (ap_handleIncomingMesh now s sender data len).meshResponseBuffer = s.meshResponseBuffer
            ∧ (ap_handleIncomingMesh now s sender data len).meshResponseLen = s.meshResponseLen
            ∧ (ap_handleIncomingMesh now s sender data len).meshResponseReady
              = s.meshResponseReady
            ∧ (ap_handleIncomingMesh now s sender data len).currentRequestPort
              = s.currentRequestPort
            ∧ (currentPart ≤ 1 →
                (ap_handleIncomingMesh now s sender data len).written = s.written))
      ∧ (parseConcatUDH [0x0B, 0x00, 0x03, 9, 2, 2, 0x05, 0x04, 0xC0, 0x00, 0x23, 0xF0, 66] 13
            = some (9, 2, 2, { headerLen := 0x0B, ei := 0x05, eiLength := 0x04, source := 9200,
                               dest := 49152 })
          ∧ ({ requestState true 49153 with headersSent := true } : APState).written = []
          ∧ (ap_handleIncomingMesh 5 { requestState true 49153 with headersSent := true } "node"
              [0x0B, 0x00, 0x03, 9, 2, 2, 0x05, 0x04, 0xC0, 0x00, 0x23, 0xF0, 66] 13).written
            = [ClientWrite.body [66]]) :=
  ⟨ap_handleIncomingMesh_simple_mismatch, ap_handleIncomingMesh_mismatch,
    stale_part_streamed.1, rfl, stale_part_streamed.2.1⟩

/-- Witness of C35: a simple datagram for the port 49152 while the port 49153 is
expected. -/
theorem stale_datagram_witness :
    ap_handleIncomingMesh 5 (requestState true 49153) "node"
        [0x06, 0x05, 0x04, 0xC0, 0x00, 0x23, 0xF0, 66] 8
      = requestState true 49153 :=
  stale_datagram.1 5 (requestState true 49153) "node" [0x06, 0x05, 0x04, 0xC0, 0x00, 0x23, 0xF0, 66]
    8 { headerLen := 0x06, ei := 0x05, eiLength := 0x04, source := 9200, dest := 49152 }
    (by decide) (by decide) (by decide) (by decide)

end ModeAP

namespace WDPGateway

/-- C33, counterexample: a message of two parts of one byte each, `65` and `66`,
whose datagrams arrive in order at a pool of free slots.  With the part 2 the
received count reaches `totalParts` and `handleIncomingMesh` delivers the two
bytes `65 0`, not `65 66`: the part 2 was stored at the offset 108 of the slot,
and the message is the first `1 + 1` bytes of the slot. -/
theorem short_parts_not_concatenated :
    (handleAll 0 (List.replicate 4 (clearConcatMessage 2048 default)) "node"
        (partDatagrams 7 9200 49152 [[65], [66]])).2
      = [none, some { sender := "node", srcPort := 9200, dstPort := 49152, data := [65, 0] }]
      ∧ [[65], [66]].flatten = [65, 66]
      ∧ (handleAll 0 (List.replicate 4 (clearConcatMessage 2048 default)) "node"
          (partDatagrams 7 9200 49152 [[65], [66]])).1.map (fun m => m.active)
        = [false, false, false, false] :=
  ⟨short_parts_delivery.2.1, rfl, short_parts_delivery.2.2⟩

/-- C33, amended: the datagrams of a message of at most 16 parts, of which every
part before the last has exactly 108 bytes and the last has at most 108, for
16-bit ports, are handled in any order `ps`, from slots with a first free slot
`i0` (whose array `partSizes` has its 16 entries) and no active slot for the
reference number and the sender.  With the last datagram `handleIncomingMesh`
makes the one call of `forwardToWAPBox`, with the payloads of the parts one
behind the other in the order of the parts, and the slot is cleared;
`ap_handleIncomingMesh` clears the slot as well and, when `ap_currentRequestPort`
is `0` or the destination port, the response buffer of 4096 bytes starts with
these bytes, has their number as length and is ready. -/
theorem reassembly_of_full_parts (now : Nat) (sender : String) (refNum srcPort dstPort : Nat)
    (full : List (List Nat)) (last : List Nat) (ps : List (List Nat))
    (hs : srcPort < 65536) (hd : dstPort < 65536) (hfull : ∀ p ∈ full, p.length = 108)
    (hlast : last.length ≤ 108) (hn : full.length + 1 ≤ 16)
    (hp : ps.Perm (partDatagrams refNum srcPort dstPort (full ++ [last]))) :
    (∀ (msgs : List ConcatMessage) (i0 : Nat), findFree msgs = some i0 →
        findConcat msgs refNum sender = none →
        (msgs.getD i0 default).partSizes.length = 16 →
        handleAll now msgs sender ps
          = (msgs.set i0 (clearConcatMessage 2048 default),
              List.replicate full.length none
                ++ [some { sender := sender, srcPort := srcPort, dstPort := dstPort,
                           data := (full ++ [last]).flatten }]))
      ∧ (∀ (s : ModeAP.APState) (i0 : Nat), findFree s.concatMessages = some i0 →
          findConcat s.concatMessages refNum sender = none →
          s.meshResponseBuffer.length = 4096 →
          (ModeAP.ap_handleAll now s sender ps).concatMessages
              = s.concatMessages.set i0 (clearConcatMessage 4096 default)
            ∧ (s.currentRequestPort = 0 ∨ dstPort = s.currentRequestPort →
                (ModeAP.ap_handleAll now s sender ps).meshResponseBuffer
                    = (full ++ [last]).flatten
                      ++ s.meshResponseBuffer.drop (full ++ [last]).flatten.length
                  ∧ (ModeAP.ap_handleAll now s sender ps).meshResponseLen
                    = (full ++ [last]).flatten.length
                  ∧ (ModeAP.ap_handleAll now s sender ps).meshResponseReady = true)) := by
  have hflat : (full ++ [last]).flatten = full.flatten ++ last := by
    rw [List.flatten_append, List.flatten_cons, List.flatten_nil, List.append_nil]
  have hlen : (full.flatten ++ last).length = full.length * 108 + last.length := by
    rw [List.length_append, flatten_full_length full hfull]
  have hL1 : (full.length + 1 - 1) * 108 ≤ (full.flatten ++ last).length := by
    rw [hlen, Nat.add_sub_cancel]
    omega
  have hL2 : (full.flatten ++ last).length ≤ (full.length + 1) * 108 := by
    rw [hlen]
    omega
  rw [partDatagrams_eq refNum srcPort dstPort full last hfull hlast hn] at hp
  obtain ⟨is, hperm, hps⟩ := perm_map_exists _ hp (List.range (full.length + 1)) rfl
  have hnd : is.Nodup := hperm.nodup_iff.mpr (List.nodup_range _)
  have hb : ∀ i ∈ is, i < full.length + 1 := fun i hi => List.mem_range.mp (hperm.mem_iff.mp hi)
  have hil : is.length = full.length + 1 := by rw [hperm.length_eq, List.length_range]
  have hne : is ≠ [] := by
    intro e
    rw [e, List.length_nil] at hil
    omega
  rw [hflat]
  refine ⟨?_, ?_⟩
  · intro msgs i0 hfree hfind hsz
    obtain ⟨h1, h2⟩ := (handleAll_parts refNum (full.length + 1) srcPort dstPort sender
      (full.flatten ++ last) msgs i0 hs hd hn hL1 hL2 hfind hfree hsz is [] msgs now
      (Or.inl ⟨rfl, rfl⟩) (by rw [List.append_nil]; exact hnd)
      (by rw [List.append_nil]; exact hb) _ rfl).2 hne
      (by rw [List.length_nil, Nat.add_zero]; exact hil)
    rw [hil, Nat.add_sub_cancel, ← hps] at h2
    rw [← hps] at h1
    exact Prod.ext h1 h2
  · intro s i0 hfree hfind hbuf
    obtain ⟨h1, _, _, _, h5⟩ := (ModeAP.ap_handleAll_parts refNum (full.length + 1) srcPort dstPort
      sender (full.flatten ++ last) s.concatMessages i0 hs hd hn hL1 hL2 hfind hfree is [] s now
      (Or.inl ⟨rfl, rfl⟩) (by rw [hbuf, hlen]; omega) (by rw [List.append_nil]; exact hnd)
      (by rw [List.append_nil]; exact hb) _ rfl).2 hne
      (by rw [List.length_nil, Nat.add_zero]; exact hil)
    rw [← hps] at h1 h5
    refine ⟨h1, fun hm => ?_⟩
    obtain ⟨a, b, c, _⟩ := h5 (by
      rintro ⟨x, y⟩
      rcases hm with e | e
      · exact x e
      · exact y e)
    exact ⟨a, b, c⟩

/-- Witness of C33 (amended): a part of 108 bytes and a part of one byte, whose
datagrams arrive in reverse order. -/
theorem reassembly_of_full_parts_witness :
    (List.replicate 108 65).length = 108
      ∧ handleAll 0 (List.replicate 4 (clearConcatMessage 2048 default)) "node"
          (partDatagrams 7 9200 49152 ([List.replicate 108 65] ++ [[66]])).reverse
        = ((List.replicate 4 (clearConcatMessage 2048 default)).set 0
              (clearConcatMessage 2048 default),
            List.replicate [List.replicate 108 65].length none
              ++ [some { sender := "node", srcPort := 9200, dstPort := 49152,
                         data := ([List.replicate 108 65] ++ [[66]]).flatten }]) :=
  ⟨List.length_replicate _ _,
    (reassembly_of_full_parts 0 "node" 7 9200 49152 [List.replicate 108 65] [66]
      (partDatagrams 7 9200 49152 ([List.replicate 108 65] ++ [[66]])).reverse
      (by decide) (by decide)
      (by
        intro p hp
        rw [List.mem_singleton.mp hp, List.length_replicate])
      (by decide) (by decide) (List.reverse_perm _)).1
      (List.replicate 4 (clearConcatMessage 2048 default)) 0 rfl rfl rfl⟩

end WDPGateway

namespace WMLCDecompiler

/-- C37: every round of the token loop of `decompileBody` moves the position
forward, except the skip of `OPAQUE` data, which adds the length read from the
input to the position modulo `2 ^ ulongBits`; when no such sum reaches
`2 ^ ulongBits` the loop is left within one round per input byte and
`decompileBody` returns.  The skip can bring the position back: with 32-bit
positions the round on the body `C3 8F FF FF FF 7A` (a length of `2 ^ 32 - 6`)
starts and ends at the position 0, and with 64-bit positions so does the round
on `C3 81 FF FF FF FF FF FF FF FF 75` (a length of `2 ^ 64 - 11`); on these
bodies the loop is not left with any fuel. -/
theorem decompileBody_opaque_loops :
    (∀ (w N : Nat) (data : List Nat) (len : Nat) (st : Option (List Nat)) (stLen p : Nat)
        (o : Out) (k : List (List Nat)),
        p < (tokenStep w N data len st stLen { pos := p, out := o, elementStack := k }).pos
          ∨ (data.getD p 0 = WBXML_OPAQUE ∧ p + 1 < len
            ∧ (tokenStep w N data len st stLen { pos := p, out := o, elementStack := k }).pos
              = (p + 1 + (decodeMbUint w (data.drop (p + 1)) (len - (p + 1)) 0).1
                  + (decodeMbUint w (data.drop (p + 1)) (len - (p + 1)) 0).2) % 2 ^ w))
      ∧ (∀ (w : Nat) (data : List Nat) (len : Nat) (st : Option (List Nat)) (stLen : Nat)
          (output : List Nat) (N fuel : Nat),
          (∀ i, i + 1 < len → data.getD i 0 = WBXML_OPAQUE →
            i + 1 + (decodeMbUint w (data.drop (i + 1)) (len - (i + 1)) 0).1
              + (decodeMbUint w (data.drop (i + 1)) (len - (i + 1)) 0).2 < 2 ^ w) →
          len ≤ fuel → (decompileBody w data len st stLen output N fuel).isSome = true)
      ∧ (∀ (N : Nat) (o : Out) (k : List (List Nat)),
          tokenStep 32 N [0xC3, 0x8F, 0xFF, 0xFF, 0xFF, 0x7A] 6 none 0
              { pos := 0, out := o, elementStack := k }
            = { pos := 0, out := o, elementStack := k })
      ∧ (∀ (output : List Nat) (N fuel : Nat),
          decompileBody 32 [0xC3, 0x8F, 0xFF, 0xFF, 0xFF, 0x7A] 6 none 0 output N fuel = none)
      ∧ (∀ (N : Nat) (o : Out) (k : List (List Nat)),
          tokenStep 64 N [0xC3, 0x81, 0xFF, 0xFF, 0xFF, 0xFF, 0xFF, 0xFF, 0xFF, 0xFF, 0x75] 11
              none 0 { pos := 0, out := o, elementStack := k }
            = { pos := 0, out := o, elementStack := k })
      ∧ (∀ (output : List Nat) (N fuel : Nat),
          decompileBody 64 [0xC3, 0x81, 0xFF, 0xFF, 0xFF, 0xFF, 0xFF, 0xFF, 0xFF, 0xFF, 0x75] 11
            none 0 output N fuel = none) := by
  refine ⟨fun w N data len st stLen p o k => (tokenStep_shape w N data len st stLen p o k).2,
    decompileBody_returns, tokenStep_opaque_32, ?_, tokenStep_opaque_64, ?_⟩
  · intro output N fuel
    rw [decompileBody, if_neg (by decide),
      tokenLoop_fixed 32 N _ 6 none 0 _ (show (0 : Nat) < 6 by decide)
        (tokenStep_opaque_32 N _ _) fuel]
  · intro output N fuel
    rw [decompileBody, if_neg (by decide),
      tokenLoop_fixed 64 N _ 11 none 0 _ (show (0 : Nat) < 11 by decide)
        (tokenStep_opaque_64 N _ _) fuel]

/-- Witness of C37: the body `03 'h' 'i' 00`, without `OPAQUE` data, with fuel for
its 4 bytes. -/
theorem decompileBody_opaque_loops_witness :
    (decompileBody 32 [0x03, 104, 105, 0x00] 4 none 0 (List.replicate 100 0) 100 4).isSome
      = true :=
  decompileBody_opaque_loops.2.1 32 [0x03, 104, 105, 0x00] 4 none 0 (List.replicate 100 0) 100 4
    (by
      intro i hi h
      have hi3 : i < 3 := by omega
      interval_cases i <;> exact absurd h (by decide))
    (by decide)

/-- C40: where `decodeUintvar` returns a count other than 0, `decodeMbUint`
returns the same count and stores the same value; when no byte among the `len`
bytes has the bit `0x80` clear, both return 0; and the two counts are different
exactly when the first byte with the bit `0x80` clear lies behind the fifth byte,
inside the `len` bytes, where `decodeUintvar` returns 0 and `decodeMbUint` the
position behind that byte. -/
theorem decodeMbUint_decodeUintvar (w : Nat) (data : List Nat) (len v o : Nat) :
    ((WAPRequest.decodeUintvar w data len o).1 ≠ 0 →
        decodeMbUint w data len v = WAPRequest.decodeUintvar w data len o)
      ∧ ((∀ j, j < len → data.getD j 0 &&& 0x80 ≠ 0) →
          (decodeMbUint w data len v).1 = 0 ∧ (WAPRequest.decodeUintvar w data len o).1 = 0)
      ∧ ((decodeMbUint w data len v).1 ≠ (WAPRequest.decodeUintvar w data len o).1 ↔
          ∃ t, 5 ≤ t ∧ t < len ∧ data.getD t 0 &&& 0x80 = 0
            ∧ ∀ j, j < t → data.getD j 0 &&& 0x80 ≠ 0)
      ∧ ((∃ t, 5 ≤ t ∧ t < len ∧ data.getD t 0 &&& 0x80 = 0
            ∧ ∀ j, j < t → data.getD j 0 &&& 0x80 ≠ 0) →
          (WAPRequest.decodeUintvar w data len o).1 = 0
            ∧ ∃ t, (decodeMbUint w data len v).1 = t + 1 ∧ 5 ≤ t ∧ t < len
              ∧ data.getD t 0 &&& 0x80 = 0 ∧ ∀ j, j < t → data.getD j 0 &&& 0x80 ≠ 0) := by
  by_cases h0 : len = 0
  · subst h0
    rw [decodeMbUint, WAPRequest.decodeUintvar, if_pos rfl, if_pos rfl]
    refine ⟨fun h => absurd rfl h, fun _ => ⟨rfl, rfl⟩, ?_, ?_⟩
    · constructor
      · intro h
        exact absurd rfl h
      · rintro ⟨t, _, h, _⟩
        omega
    · rintro ⟨t, _, h, _⟩
      omega
  · rw [decodeMbUint, WAPRequest.decodeUintvar, if_neg h0, if_neg h0]
    have hM := decodeMbUintLoop_count w data len (len + 1) 0 0 (by omega)
    have hU := decodeUintvarLoop_count w data len o 5 0 0 (by omega)
    have hE := decodeMbUintLoop_eq w data len o 5 (len + 1) 0 0
    generalize decodeMbUintLoop w data len (len + 1) 0 0 = m at hM hE ⊢
    generalize WAPRequest.decodeUintvarLoop w data len o 5 0 0 = u at hU hE ⊢
    have key : (∃ t, 5 ≤ t ∧ t < len ∧ data.getD t 0 &&& 0x80 = 0
          ∧ ∀ j, j < t → data.getD j 0 &&& 0x80 ≠ 0) →
        u.1 = 0 ∧ ∃ t, m.1 = t + 1 ∧ 5 ≤ t ∧ t < len ∧ data.getD t 0 &&& 0x80 = 0
          ∧ ∀ j, j < t → data.getD j 0 &&& 0x80 ≠ 0 := by
      rintro ⟨t, ht5, htl, htt, htc⟩
      have hu0 : u.1 = 0 := by
        rcases hU with ⟨hu, _⟩ | ⟨h1, h2, h3, h4, h5⟩
        · exact hu
        · exact absurd h4 (htc (u.1 - 1) (by omega))
      refine ⟨hu0, ?_⟩
      rcases hM with ⟨_, hall⟩ | ⟨h1, h2, h3, h4⟩
      · exact absurd htt (hall t (Nat.zero_le _) htl)
      · have e : m.1 - 1 = t := by
          by_contra hne
          rcases Nat.lt_or_gt_of_ne hne with hlt | hgt
          · exact absurd h3 (htc _ hlt)
          · exact absurd htt (h4 t (Nat.zero_le _) hgt)
        exact ⟨t, by omega, ht5, htl, htt, htc⟩
    refine ⟨fun h => hE h (by omega), ?_, ?_, key⟩
    · intro hall
      constructor
      · rcases hM with ⟨hm, _⟩ | ⟨h1, h2, h3, h4⟩
        · exact hm
        · exact absurd h3 (hall _ (by omega))
      · rcases hU with ⟨hu, _⟩ | ⟨h1, h2, h3, h4, h5⟩
        · exact hu
        · exact absurd h4 (hall _ (by omega))
    · constructor
      · intro hne
        have hu0 : u.1 = 0 := by
          by_contra hu
          exact hne (congrArg Prod.fst (hE hu (by omega)))
        rcases hU with ⟨_, hallU⟩ | ⟨h1, _, _, _, _⟩
        · rcases hM with ⟨hm, _⟩ | ⟨h1, h2, h3, h4⟩
          · exact absurd (hm.trans hu0.symm) hne
          · refine ⟨m.1 - 1, ?_, by omega, h3, fun j hj => h4 j (Nat.zero_le _) hj⟩
            by_contra hlt
            exact absurd h3 (hallU (m.1 - 1) (Nat.zero_le _) (by omega) (by omega))
        · omega
      · intro ht
        obtain ⟨hu0, t, hm, _⟩ := key ht
        omega

/-- Witness of C40: the varint `81 00` is read by both as the value 128 in 2
bytes. -/
theorem decodeMbUint_decodeUintvar_witness :
    WAPRequest.decodeUintvar 32 [0x81, 0x00, 0x07] 3 0 = (2, 128)
      ∧ decodeMbUint 32 [0x81, 0x00, 0x07] 3 0 = WAPRequest.decodeUintvar 32 [0x81, 0x00, 0x07] 3 0 :=
  ⟨by decide, (decodeMbUint_decodeUintvar 32 [0x81, 0x00, 0x07] 3 0 0).1 (by decide)⟩

end WMLCDecompiler

namespace WAPResponse

/-- C36: `parseHeaders` reads no byte of `headers` at an index `≥ headersLen` and
its field loop ends: two memories that agree on the first `headersLen` bytes give
the same flag and the same response; every round of the field loop entered with
bytes left moves the position forward; the position after the Content-Type entry
leaves at most `headersLen` bytes, so that the `headersLen` rounds of the loop are
never used up, more rounds giving the same response. -/
theorem parseHeaders_in_bounds (w : Nat) (headers headers' : List Nat) (headersLen : Nat)
    (response : HTTPResponse) (h : headers.take headersLen = headers'.take headersLen) :
    parseHeaders w headers headersLen response = parseHeaders w headers' headersLen response
      ∧ (∀ (c c1 : Cursor) (r r1 : HTTPResponse), 0 < c.left →
          fieldStep w c r = some (c1, r1) → c1.left < c.left)
      ∧ (parseContentType { mem := headers, left := headersLen } response).1.left ≤ headersLen
      ∧ (∀ (fuel : Nat) (c : Cursor) (r : HTTPResponse), c.left ≤ fuel →
          parseFields w fuel c r = parseFields w c.left c r)
      ∧ (∀ (c c' : Cursor) (r : HTTPResponse), 0 < c.left → c.Agree c' →
          StepAgree (fieldStep w c r) (fieldStep w c' r)) := by
  refine ⟨parseHeaders_take w headers headers' headersLen response h,
    fun c c1 r r1 hpos hs => fieldStep_left w c r c1 r1 hs hpos, ?_,
    fun fuel c r hf => parseFields_fuel w fuel c.left c r hf (le_refl _),
    fun c c' r hpos ha => fieldStep_agree w c c' r ha hpos⟩
  unfold parseContentType
  dsimp only
  split_ifs <;> simp only [Cursor.advance] <;> omega

/-- Witness of C36: a Server field whose text runs to the end of a header block
of 4 bytes, with and without other bytes behind the block. -/
theorem parseHeaders_in_bounds_witness :
    [0x94, 0xA6, 0x61, 0x62, 0x63, 0x00].take 4 = [0x94, 0xA6, 0x61, 0x62].take 4
      ∧ parseHeaders 32 [0x94, 0xA6, 0x61, 0x62, 0x63, 0x00] 4 HTTPResponse.zero
        = parseHeaders 32 [0x94, 0xA6, 0x61, 0x62] 4 HTTPResponse.zero :=
  ⟨by decide, (parseHeaders_in_bounds 32 [0x94, 0xA6, 0x61, 0x62, 0x63, 0x00]
    [0x94, 0xA6, 0x61, 0x62] 4 HTTPResponse.zero (by decide)).1⟩

end WAPResponse

namespace WMLCDecompiler

/-- C38: a reference into the string table with an offset `≥ stringTableLen`
names no string and appends nothing, and a reference with an offset below it
appends the string at `&stringTable[offset]`, which lies inside the table when
the table has a `0` at an index from the offset on: the string is made of the
bytes from the offset up to that `0`.  Without such a `0` the string runs on
behind the table: the document `01 01 6A 01 61 83 00` is accepted with the table
`a` of 1 byte, and the reference `83 00` of its body puts the two bytes `a`,
`0x83` behind the XML declaration, the second one being the first byte of the
body. -/
theorem string_table_reference :
    (∀ (N : Nat) (t : List Nat) (stLen off : Nat) (o : Out), stLen ≤ off →
        stringRef (some t) stLen off = none ∧ appendRef N (some t) stLen off o = o)
      ∧ (∀ (N : Nat) (t : List Nat) (stLen off k : Nat) (o : Out),
          off ≤ k → k < stLen → k < t.length → t.getD k 0 = 0 →
          appendRef N (some t) stLen off o = appendStr N (t.drop off) o
            ∧ off + WAPRequest.strlen (t.drop off) ≤ k
            ∧ (t.drop off).take (WAPRequest.strlen (t.drop off))
                = slice t off (off + WAPRequest.strlen (t.drop off)))
      ∧ readHeader 32 unterminatedDocument 7 0 = some (1, 5, some [0x61, 0x83, 0x00], 1)
      ∧ stringRef (some [0x61, 0x83, 0x00]) 1 0 = some [0x61, 0x83, 0x00]
      ∧ WAPRequest.strlen [0x61, 0x83, 0x00] = 2
      ∧ decompile 32 unterminatedDocument 7 (List.replicate 100 0) 100 7 0
          = some (24, xmlDeclaration ++ [0x61, 0x83] ++ List.replicate 76 0) := by
  refine ⟨?_, ?_, readHeader_unterminatedDocument, by decide, by decide,
    decompile_unterminatedDocument⟩
  · intro N t stLen off o h
    have e : stringRef (some t) stLen off = none := by
      rw [stringRef, if_neg (by omega)]
    refine ⟨e, ?_⟩
    rw [appendRef, e]
  · intro N t stLen off k o h1 h2 h3 h4
    have e : stringRef (some t) stLen off = some (t.drop off) := by
      rw [stringRef, if_pos (by omega)]
    refine ⟨?_, strlen_drop_le t off k h1 h3 h4, string_of_table t off⟩
    rw [appendRef, e]

/-- Witness of C38: in the table `a 00 b 00` the reference with the offset 2 names
the string `b`, which ends at the index 3. -/
theorem string_table_reference_witness :
    appendRef 100 (some [0x61, 0x00, 0x62, 0x00]) 4 2 { outPos := 0, output := List.replicate 100 0 }
        = appendStr 100 [0x62, 0x00] { outPos := 0, output := List.replicate 100 0 }
      ∧ 2 + WAPRequest.strlen [0x62, 0x00] ≤ 3 :=
  ⟨(string_table_reference.2.1 100 [0x61, 0x00, 0x62, 0x00] 4 2 3
      { outPos := 0, output := List.replicate 100 0 }
      (by decide) (by decide) (by decide) (by decide)).1,
    (string_table_reference.2.1 100 [0x61, 0x00, 0x62, 0x00] 4 2 3
      { outPos := 0, output := List.replicate 100 0 }
      (by decide) (by decide) (by decide) (by decide)).2.1⟩

/-- C39: for a body that starts an element with content only while fewer than 32
elements are open, the tags of elements with content that `decompileBody` writes
are well nested: they are there exactly when `decompileBody` returns, every end
tag names the most recently opened element that is still open, no element is left
open, the last tags are the end tags of the elements open when the token loop is
left, and there are as many end tags as start tags.  Round by round: the token
`END` pops the element on top of the stack and writes its end tag (nothing on an
empty stack), a round that starts an element with content writes the `>` of the
start tag and pushes the element, every other round leaves the stack alone; with
room in the output the end tag stands in the text as `</name>`, and the loop
behind the token loop writes the end tags of the stack from the top down.  The
tags are there, with fuel for one round per input byte, when no length of
`OPAQUE` data carries the position past `2 ^ ulongBits`. -/
theorem decompileBody_tags_nested (w : Nat) (data : List Nat) (len : Nat)
    (st : Option (List Nat)) (stLen : Nat) (output : List Nat) (N fuel : Nat)
    (hdepth : nestingWithin w N data len st stLen fuel
      { pos := 0, out := { outPos := 0, output := output }, elementStack := [] } = true) :
    (bodyTags w data len st stLen output N fuel).isSome
        = (decompileBody w data len st stLen output N fuel).isSome
      ∧ (∀ tags, bodyTags w data len st stLen output N fuel = some tags →
          wellNested tags [] = true ∧ tags.countP Tag.isClosed = tags.countP Tag.isOpened)
      ∧ (∀ sEnd, tokenLoop w N data len st stLen fuel
            { pos := 0, out := { outPos := 0, output := output }, elementStack := [] } = some sEnd →
          0 < len → ∃ pre, bodyTags w data len st stLen output N fuel
            = some (pre ++ sEnd.elementStack.map Tag.closed))
      ∧ (∀ (p : Nat) (o : Out) (e : List Nat) (rest : List (List Nat)),
          data.getD p 0 = WBXML_END →
          tokenStep w N data len st stLen { pos := p, out := o, elementStack := e :: rest }
            = { pos := p + 1, out := closeElement N e o, elementStack := rest })
      ∧ (∀ (p : Nat) (o : Out), data.getD p 0 = WBXML_END →
          tokenStep w N data len st stLen { pos := p, out := o, elementStack := [] }
            = { pos := p + 1, out := o, elementStack := [] })
      ∧ (∀ (p : Nat) (o : Out) (k : List (List Nat)), data.getD p 0 ≠ WBXML_END →
          match contentElement w data len st stLen p with
          | some e => ∃ q o1,
              tokenStep w N data len st stLen { pos := p, out := o, elementStack := k }
                = { pos := q, out := appendChar N 62 o1, elementStack := push e k }
          | none => (tokenStep w N data len st stLen
              { pos := p, out := o, elementStack := k }).elementStack = k)
      ∧ (∀ (e : List Nat) (o : Out), N ≤ o.output.length → o.outPos + (endTag e).length < N →
          (closeElement N e o).outPos = o.outPos + (endTag e).length
            ∧ (closeElement N e o).output.take (closeElement N e o).outPos
                = o.output.take o.outPos ++ endTag e)
      ∧ (∀ (k : List (List Nat)) (o : Out), N ≤ o.output.length →
          o.outPos + ((k.map endTag).flatten).length < N →
          (closeAll N k o).outPos = o.outPos + ((k.map endTag).flatten).length
            ∧ (closeAll N k o).output.take (closeAll N k o).outPos
                = o.output.take o.outPos ++ (k.map endTag).flatten)
      ∧ ((∀ i, i + 1 < len → data.getD i 0 = WBXML_OPAQUE →
            i + 1 + (decodeMbUint w (data.drop (i + 1)) (len - (i + 1)) 0).1
              + (decodeMbUint w (data.drop (i + 1)) (len - (i + 1)) 0).2 < 2 ^ w) →
          len ≤ fuel → (bodyTags w data len st stLen output N fuel).isSome = true) := by
  refine ⟨bodyTags_isSome w data len st stLen output N fuel, ?_, ?_,
    fun p o e rest h => tokenStep_end w N data len st stLen p o e rest h,
    fun p o h => tokenStep_end_empty w N data len st stLen p o h,
    fun p o k h => tokenStep_tag w N data len st stLen p o k h,
    fun e o hN hroom => ⟨(closeElement_fit N e o hN hroom).1, (closeElement_fit N e o hN hroom).2.2⟩,
    fun k o hN hroom => ⟨(closeAll_fit N k o hN hroom).1, (closeAll_fit N k o hN hroom).2.2⟩,
    fun hfit hfuel => (bodyTags_isSome w data len st stLen output N fuel).trans
      (decompileBody_returns w data len st stLen output N fuel hfit hfuel)⟩
  · intro tags ht
    rw [bodyTags] at ht
    by_cases h0 : len = 0
    · rw [if_pos h0, Option.some.injEq] at ht
      rw [← ht]
      exact ⟨rfl, rfl⟩
    · rw [if_neg h0] at ht
      have hw := tagsLoop_nested w N data len st stLen fuel _ hdepth tags ht
      exact ⟨hw, wellNested_count tags [] hw⟩
  · intro sEnd hs hlen
    rw [bodyTags, if_neg (by omega)]
    exact tagsLoop_closing w N data len st stLen fuel _ sEnd hs

/-- Witness of C39: the body `67 60 03 'h' 'i' 00 01 01` of the example, whose
text is `<card><p>hi</p></card>`. -/
theorem decompileBody_tags_nested_witness :
    bodyTags 32 exampleBody 8 none 0 (List.replicate 100 0) 100 8
        = some [Tag.opened (asciiBytes "card"), Tag.opened (asciiBytes "p"),
            Tag.closed (asciiBytes "p"), Tag.closed (asciiBytes "card")]
      ∧ wellNested [Tag.opened (asciiBytes "card"), Tag.opened (asciiBytes "p"),
            Tag.closed (asciiBytes "p"), Tag.closed (asciiBytes "card")] [] = true :=
  ⟨exampleBody_tags,
    ((decompileBody_tags_nested 32 exampleBody 8 none 0 (List.replicate 100 0) 100 8
      exampleBody_nesting).2.1 _ exampleBody_tags).1⟩

end WMLCDecompiler
